import Mathlib

/-!
The rational-ratio resampler of `src/audio/rs4.h`

A shallow embedding of the Speex-derived resampling engine
(`nv2::audio::speex`), of the class `RS4` that wraps it, and of the sample
containers of `src/audio/audio_u.h` with `nv2::audio::interleave`, and the
properties proved about them.

Conventions of the embedding

* `unsigned int` / `int` values are natural numbers.  Where the value of a
  product or of a difference feeds a later computation (`filt_len * num_rate`,
  `samp_frac_num * den_rate`, `2 * den_rate`, `filt_len - 1 + buffer_size`,
  the phase sum `samp_frac_num + frac_advance`, the loop counter `fact`) the
  32-bit wrap-around is written out with `% U32`.  The casts `(int)*in_len`
  and `(int)*out_len` in the tests of the kernels and of
  `speex_resampler_process_native` are written out with `to_int`.  Loop
  counters, cursors and array indices are plain naturals: the theorems speak
  of the calls in which they stay within the range of `int`.
* `float` and `double` values are elements of two abstract carriers `F` and
  `D`; the floating-point primitives are the fields of `FloatOps`.  Nothing is
  assumed about them, so every theorem holds for IEEE arithmetic as well as
  for exact arithmetic.
* A C array is a `List`; a null pointer is `none`; a read is `List.getD`, a
  write is `List.set`.  `calloc` gives zeros; the cells `realloc` adds are
  indeterminate in C and are zero in the model.
* Behaviour that C leaves undefined (division by zero, a call through a null
  function pointer, a null `mem`, a read outside a `SampleBlock`) and a loop
  that does not terminate are `none`.
-/

namespace Speex

/-- The modulus of `unsigned int` arithmetic. -/
abbrev U32 : Nat := 4294967296

/-- The error codes of the `enum` at rs4.h:103-111. -/
abbrev RESAMPLER_ERR_SUCCESS : Nat := 0

/-- See `RESAMPLER_ERR_SUCCESS`. -/
abbrev RESAMPLER_ERR_ALLOC_FAILED : Nat := 1

/-- See `RESAMPLER_ERR_SUCCESS`. -/
abbrev RESAMPLER_ERR_BAD_STATE : Nat := 2

/-- See `RESAMPLER_ERR_SUCCESS`. -/
abbrev RESAMPLER_ERR_INVALID_ARG : Nat := 3

/-- See `RESAMPLER_ERR_SUCCESS`. -/
abbrev RESAMPLER_ERR_PTR_OVERLAP : Nat := 4

/-- The four window tables `_KAISER6 .. _KAISER12` of `update_filter`. -/
inductive FuncDef where
  | KAISER6
  | KAISER8
  | KAISER10
  | KAISER12
deriving DecidableEq

/-- The floating-point primitives used by the resampler.  `F` is `float`,
`D` is `double`. -/
structure FloatOps (F D : Type) where
  /-- `(float) n` for an integer `n`. -/
  ofInt : Int → F
  /-- The `float` literal with the given number of thousandths (`0.830f` is `milli 830`). -/
  milli : Nat → F
  /-- `float` addition. -/
  fadd : F → F → F
  /-- `float` subtraction. -/
  fsub : F → F → F
  /-- `float` multiplication. -/
  fmul : F → F → F
  /-- `float` division. -/
  fdiv : F → F → F
  /-- `double` addition. -/
  dadd : D → D → D
  /-- `double` multiplication. -/
  dmul : D → D → D
  /-- Conversion `float → double`. -/
  toD : F → D
  /-- Conversion `double → float`. -/
  toF : D → F
  /-- The windowed sinc `sinc(cutoff, x, N, window_func)` of rs4.h:219-235. -/
  sinc : F → F → Nat → FuncDef → F
  /-- The four coefficients `interp[0..3]` of `cubic_coef(frac, interp)`, rs4.h:238-248. -/
  cubic_coef : F → F × F × F × F

/-- The `float` zero. -/
def FloatOps.zero {F D : Type} (ops : FloatOps F D) : F := ops.ofInt 0

/-- The four convolution kernels a `resampler_basic_func` may point to. -/
inductive resampler_basic_func where
  | resampler_basic_direct_single
  | resampler_basic_direct_double
  | resampler_basic_interpolate_single
  | resampler_basic_interpolate_double
deriving DecidableEq

/-- The engine, `struct SpeexResamplerState` (rs4.h:117-148).  The last field
is instrumentation, not a member of the C struct: it counts the entries into
`update_filter`. -/
structure SpeexResamplerState (F : Type) where
  in_rate : Nat
  out_rate : Nat
  num_rate : Nat
  den_rate : Nat
  quality : Int
  nb_channels : Nat
  filt_len : Nat
  mem_alloc_size : Nat
  buffer_size : Nat
  int_advance : Nat
  frac_advance : Nat
  cutoff : F
  oversample : Nat
  initialised : Nat
  started : Nat
  last_sample : List Nat
  samp_frac_num : List Nat
  magic_samples : List Nat
  mem : Option (List F)
  sinc_table : Option (List F)
  sinc_table_length : Nat
  resampler_ptr : Option resampler_basic_func
  in_stride : Nat
  out_stride : Nat
  update_filter_calls : Nat
deriving DecidableEq

/-- One row of `quality_map`; the bandwidths are in thousandths. -/
structure QualityMapping where
  base_length : Nat
  oversample : Nat
  downsample_bandwidth : Nat
  upsample_bandwidth : Nat
  window_func : FuncDef
deriving DecidableEq

/-- The table `quality_map[11]` of rs4.h:503-516. -/
def quality_map : List QualityMapping :=
  [ ⟨8, 4, 830, 860, FuncDef.KAISER6⟩,
    ⟨16, 4, 850, 880, FuncDef.KAISER6⟩,
    ⟨32, 4, 882, 910, FuncDef.KAISER6⟩,
    ⟨48, 8, 895, 917, FuncDef.KAISER8⟩,
    ⟨64, 8, 921, 940, FuncDef.KAISER8⟩,
    ⟨80, 16, 922, 940, FuncDef.KAISER10⟩,
    ⟨96, 16, 940, 945, FuncDef.KAISER10⟩,
    ⟨128, 16, 950, 950, FuncDef.KAISER10⟩,
    ⟨160, 16, 960, 960, FuncDef.KAISER10⟩,
    ⟨192, 32, 968, 968, FuncDef.KAISER12⟩,
    ⟨256, 32, 975, 975, FuncDef.KAISER12⟩ ]

/-- The access `quality_map[quality]`; an index outside the table is undefined. -/
def quality_entry (quality : Int) : Option QualityMapping :=
  if quality < 0 then none else quality_map.get? quality.toNat

/-- One conditional halving `if (t * den_rate < num_rate) oversample >>= 1`
(rs4.h:530-545). -/
def halve_if (t den_rate num_rate oversample : Nat) : Nat :=
  if (t * den_rate) % U32 < num_rate then oversample / 2 else oversample

/-- The scalar part of `update_filter`, rs4.h:518-555: the new `filt_len`,
`oversample` and `cutoff`.  Undefined when the down-sampling branch divides by
a zero `den_rate`. -/
def filter_params {F D : Type} (ops : FloatOps F D) (qm : QualityMapping)
    (num_rate den_rate : Nat) : Option (Nat × Nat × F) :=
  let oversample := qm.oversample
  let filt_len := qm.base_length
  if num_rate > den_rate then
    if den_rate = 0 then none
    else
      let cutoff := ops.fdiv (ops.fmul (ops.milli qm.downsample_bandwidth)
        (ops.ofInt den_rate)) (ops.ofInt num_rate)
      let filt_len := (filt_len * num_rate) % U32 / den_rate
      let filt_len := filt_len - filt_len % 4
      let oversample := halve_if 2 den_rate num_rate oversample
      let oversample := halve_if 4 den_rate num_rate oversample
      let oversample := halve_if 8 den_rate num_rate oversample
      let oversample := halve_if 16 den_rate num_rate oversample
      let oversample := if oversample < 1 then 1 else oversample
      some (filt_len, oversample, cutoff)
  else
    some (filt_len, oversample, ops.milli qm.upsample_bandwidth)

/-- The allocation of the tap table (rs4.h:560-568 and 589-597): `calloc` when
the pointer is null, `realloc` when `sinc_table_length` is smaller than the
`needed` size (the only place where `sinc_table_length` is assigned), nothing
otherwise. -/
def alloc_sinc_table {F D : Type} (ops : FloatOps F D) (tbl : Option (List F))
    (sinc_table_length needed : Nat) : List F × Nat :=
  match tbl with
  | none => (List.replicate needed ops.zero, sinc_table_length)
  | some t =>
    if sinc_table_length < needed then
      (t.take needed ++ List.replicate (needed - t.length) ops.zero, needed)
    else (t, sinc_table_length)

/-- The fill loop of the direct table, rs4.h:569-576. -/
def fill_direct {F D : Type} (ops : FloatOps F D) (cutoff : F) (filt_len den_rate : Nat)
    (w : FuncDef) (tbl : List F) : List F :=
  (List.range den_rate).foldl (fun t i =>
    (List.range filt_len).foldl (fun t j =>
      t.set (i * filt_len + j)
        (ops.sinc cutoff
          (ops.fsub (ops.ofInt ((j : Int) - ((filt_len : Int) / 2) + 1))
            (ops.fdiv (ops.ofInt i) (ops.ofInt den_rate)))
          filt_len w)) t) tbl

/-- The fill loop of the interpolated table, rs4.h:598-601; the loop variable
`i` of the source is `k - 4`. -/
def fill_interp {F D : Type} (ops : FloatOps F D) (cutoff : F) (filt_len oversample : Nat)
    (w : FuncDef) (tbl : List F) : List F :=
  (List.range (oversample * filt_len + 8)).foldl (fun t k =>
    t.set k
      (ops.sinc cutoff
        (ops.fsub (ops.fdiv (ops.ofInt ((k : Int) - 4)) (ops.ofInt oversample))
          (ops.ofInt (filt_len / 2)))
        filt_len w)) tbl

/-- The `filt_len - 1 + buffer_size` of rs4.h:619, 630, 644 in `unsigned` arithmetic. -/
def mem_size_for (filt_len buffer_size : Nat) : Nat :=
  (filt_len + (U32 - 1) + buffer_size) % U32

/-- Growth of the filter for channel `i`, the body of the loop at rs4.h:649-693.
The triple is `(mem, last_sample, magic_samples)`. -/
def grow_channel {F D : Type} (ops : FloatOps F D)
    (filt_len old_length mem_alloc_size old_alloc_size : Nat)
    (s : List F × List Nat × List Nat) (i : Nat) : List F × List Nat × List Nat :=
  let mem := s.1
  let last_sample := s.2.1
  let magic_samples := s.2.2
  let magic := magic_samples.getD i 0
  let olen := old_length + 2 * magic
  let mem := ((List.range (old_length + magic - 1)).reverse).foldl (fun m j =>
    m.set (i * mem_alloc_size + j + magic) (m.getD (i * old_alloc_size + j) ops.zero)) mem
  let mem := (List.range magic).foldl (fun m j => m.set (i * mem_alloc_size + j) ops.zero) mem
  let magic_samples := magic_samples.set i 0
  if filt_len > olen then
    let mem := (List.range (olen - 1)).foldl (fun m j =>
      m.set (i * mem_alloc_size + (filt_len - 2 - j))
        (m.getD (i * mem_alloc_size + (olen - 2 - j)) ops.zero)) mem
    let mem := ((List.range (filt_len - 1)).drop (olen - 1)).foldl (fun m j =>
      m.set (i * mem_alloc_size + (filt_len - 2 - j)) ops.zero) mem
    let last_sample := last_sample.set i (last_sample.getD i 0 + (filt_len - olen) / 2)
    (mem, last_sample, magic_samples)
  else
    let magic := (olen - filt_len) / 2
    let magic_samples := magic_samples.set i magic
    let mem := (List.range (filt_len - 1 + magic)).foldl (fun m j =>
      m.set (i * mem_alloc_size + j) (m.getD (i * mem_alloc_size + j + magic) ops.zero)) mem
    (mem, last_sample, magic_samples)

/-- Shrinking of the filter for channel `i`, the body of the loop at
rs4.h:700-712.  The pair is `(mem, magic_samples)`. -/
def shrink_channel {F D : Type} (ops : FloatOps F D)
    (filt_len old_length mem_alloc_size : Nat)
    (s : List F × List Nat) (i : Nat) : List F × List Nat :=
  let mem := s.1
  let magic_samples := s.2
  let old_magic := magic_samples.getD i 0
  let magic := (old_length - filt_len) / 2
  let mem := (List.range (filt_len - 1 + magic + old_magic)).foldl (fun m j =>
    m.set (i * mem_alloc_size + j) (m.getD (i * mem_alloc_size + j + magic) ops.zero)) mem
  (mem, magic_samples.set i (magic + old_magic))

/-- The table part of `update_filter`, rs4.h:556-612, run on the state that
already holds the new `filt_len`, `oversample` and `cutoff`: the choice of the
kernel, the tap table and the two advances.  `den_rate` is not zero here. -/
def update_filter_table {F D : Type} (ops : FloatOps F D) (w : FuncDef)
    (st : SpeexResamplerState F) : SpeexResamplerState F :=
  let st :=
    if st.den_rate ≤ st.oversample then
      let a := alloc_sinc_table ops st.sinc_table st.sinc_table_length
        (st.filt_len * st.den_rate)
      { st with
        sinc_table := some (fill_direct ops st.cutoff st.filt_len st.den_rate w a.1),
        sinc_table_length := a.2,
        resampler_ptr :=
          if st.quality > 8 then some resampler_basic_func.resampler_basic_direct_double
          else some resampler_basic_func.resampler_basic_direct_single }
    else
      let a := alloc_sinc_table ops st.sinc_table st.sinc_table_length
        (st.filt_len * st.oversample + 8)
      { st with
        sinc_table := some (fill_interp ops st.cutoff st.filt_len st.oversample w a.1),
        sinc_table_length := a.2,
        resampler_ptr :=
          if st.quality > 8 then some resampler_basic_func.resampler_basic_interpolate_double
          else some resampler_basic_func.resampler_basic_interpolate_single }
  { st with int_advance := st.num_rate / st.den_rate,
            frac_advance := st.num_rate % st.den_rate }

/-- The memory part of `update_filter`, rs4.h:616-713; `old_length` is the
`filt_len` the function found on entry. -/
def update_filter_mem {F D : Type} (ops : FloatOps F D) (old_length : Nat)
    (st : SpeexResamplerState F) : SpeexResamplerState F :=
  match st.mem with
  | none =>
    let sz := mem_size_for st.filt_len st.buffer_size
    { st with mem_alloc_size := sz,
              mem := some (List.replicate (st.nb_channels * sz) ops.zero) }
  | some mem =>
    if st.started = 0 then
      let sz := mem_size_for st.filt_len st.buffer_size
      { st with mem_alloc_size := sz,
                mem := some (List.replicate (st.nb_channels * sz) ops.zero) }
    else if st.filt_len > old_length then
      let old_alloc_size := st.mem_alloc_size
      let grown := mem_size_for st.filt_len st.buffer_size > st.mem_alloc_size
      let sz := if grown then mem_size_for st.filt_len st.buffer_size else st.mem_alloc_size
      let mem := if grown then
          mem.take (st.nb_channels * sz) ++
            List.replicate (st.nb_channels * sz - mem.length) ops.zero
        else mem
      let r := ((List.range st.nb_channels).reverse).foldl
        (grow_channel ops st.filt_len old_length sz old_alloc_size)
        (mem, st.last_sample, st.magic_samples)
      { st with mem_alloc_size := sz, mem := some r.1,
                last_sample := r.2.1, magic_samples := r.2.2 }
    else if st.filt_len < old_length then
      let r := (List.range st.nb_channels).foldl
        (shrink_channel ops st.filt_len old_length st.mem_alloc_size)
        (mem, st.magic_samples)
      { st with mem := some r.1, magic_samples := r.2 }
    else st

/-- The function `update_filter`, rs4.h:431-714.  Undefined when
`quality_map[st->quality]` is out of range or `den_rate` is zero (the divisions
of rs4.h:527 and 611-612). -/
def update_filter {F D : Type} (ops : FloatOps F D) (st : SpeexResamplerState F) :
    Option (SpeexResamplerState F) :=
  match quality_entry st.quality with
  | none => none
  | some qm =>
    match filter_params ops qm st.num_rate st.den_rate with
    | none => none
    | some p =>
      if st.den_rate = 0 then none
      else
        some (update_filter_mem ops st.filt_len
          (update_filter_table ops qm.window_func
            { st with update_filter_calls := st.update_filter_calls + 1,
                      oversample := p.2.1, filt_len := p.1, cutoff := p.2.2 }))

/-- The inner `while` of rs4.h:948-952: divide both terms by `fact` as long as
it divides both.  `fuel` bounds the number of tests. -/
def strip_factor (fact : Nat) : Nat → Nat → Nat → Option (Nat × Nat)
  | 0, _, _ => none
  | fuel + 1, num, den =>
    if fact = 0 then none
    else if num % fact = 0 ∧ den % fact = 0 then
      strip_factor fact fuel (num / fact) (den / fact)
    else some (num, den)

/-- The `for` loop of rs4.h:946-953 from the value `fact` of its counter on;
`fact++` wraps at `U32`.  `fuel` bounds the number of tests of the loop
condition. -/
def reduce_loop : Nat → Nat → Nat → Nat → Option (Nat × Nat)
  | 0, _, _, _ => none
  | fuel + 1, fact, num, den =>
    if fact ≤ min num den then
      match strip_factor fact (num + 1) num den with
      | none => none
      | some r => reduce_loop fuel ((fact + 1) % U32) r.1 r.2
    else some (num, den)

/-- The reduction of `num_rate / den_rate` by the loop of rs4.h:946-953. -/
def reduce_ratio (num den : Nat) : Option (Nat × Nat) :=
  reduce_loop (min num den + 1) 2 num den

/-- The rescaling of one channel's phase, rs4.h:958-963. -/
def rescale_frac (den_rate old_den : Nat) (frac : List Nat) (i : Nat) : List Nat :=
  let v := (frac.getD i 0 * den_rate) % U32 / old_den
  frac.set i (if v ≥ den_rate then (den_rate + (U32 - 1)) % U32 else v)

/-- The function `speex_resampler_set_rate_frac`, rs4.h:930-971, returning the
new state and the status code. -/
def speex_resampler_set_rate_frac {F D : Type} (ops : FloatOps F D)
    (st : SpeexResamplerState F) (ratio_num ratio_den in_rate out_rate : Nat) :
    Option (SpeexResamplerState F × Nat) :=
  if st.in_rate = in_rate ∧ st.out_rate = out_rate ∧ st.num_rate = ratio_num
      ∧ st.den_rate = ratio_den then
    some (st, RESAMPLER_ERR_SUCCESS)
  else
    let old_den := st.den_rate
    let st := { st with in_rate := in_rate, out_rate := out_rate,
                        num_rate := ratio_num, den_rate := ratio_den }
    match reduce_ratio st.num_rate st.den_rate with
    | none => none
    | some r =>
      let st := { st with num_rate := r.1, den_rate := r.2 }
      let st := { st with
        samp_frac_num :=
          if old_den > 0 then
            (List.range st.nb_channels).foldl (rescale_frac st.den_rate old_den)
              st.samp_frac_num
          else st.samp_frac_num }
      if st.initialised ≠ 0 then
        match update_filter ops st with
        | none => none
        | some st => some (st, RESAMPLER_ERR_SUCCESS)
      else some (st, RESAMPLER_ERR_SUCCESS)

/-- The function `speex_resampler_set_rate`, rs4.h:917-921. -/
def speex_resampler_set_rate {F D : Type} (ops : FloatOps F D)
    (st : SpeexResamplerState F) (in_rate out_rate : Nat) :
    Option (SpeexResamplerState F × Nat) :=
  speex_resampler_set_rate_frac ops st in_rate out_rate in_rate out_rate

/-- The function `speex_resampler_set_quality`, rs4.h:980-997. -/
def speex_resampler_set_quality {F D : Type} (ops : FloatOps F D)
    (st : SpeexResamplerState F) (quality : Int) :
    Option (SpeexResamplerState F × Nat) :=
  if quality > 10 ∨ quality < 0 then some (st, RESAMPLER_ERR_INVALID_ARG)
  else if st.quality = quality then some (st, RESAMPLER_ERR_SUCCESS)
  else
    let st := { st with quality := quality }
    if st.initialised ≠ 0 then
      match update_filter ops st with
      | none => none
      | some st => some (st, RESAMPLER_ERR_SUCCESS)
    else some (st, RESAMPLER_ERR_SUCCESS)

/-- The state `speex_resampler_init_frac` builds before its three calls,
rs4.h:733-760.  `speex_alloc` zeroes the struct, so the fields that are not
assigned (`sinc_table`, `oversample`, the advances) are zero. -/
def fresh_state {F D : Type} (ops : FloatOps F D) (nb_channels : Nat) :
    SpeexResamplerState F :=
  { in_rate := 0, out_rate := 0, num_rate := 0, den_rate := 0,
    quality := -1, nb_channels := nb_channels, filt_len := 0,
    mem_alloc_size := 0, buffer_size := 160, int_advance := 0, frac_advance := 0,
    cutoff := ops.ofInt 1, oversample := 0, initialised := 0, started := 0,
    last_sample := List.replicate nb_channels 0,
    samp_frac_num := List.replicate nb_channels 0,
    magic_samples := List.replicate nb_channels 0,
    mem := none, sinc_table := none, sinc_table_length := 0,
    resampler_ptr := none, in_stride := 1, out_stride := 1,
    update_filter_calls := 0 }

/-- The function `speex_resampler_init_frac`, rs4.h:721-770.  The result is the
returned pointer (`none` is the null pointer) and the value stored in `*err`;
the outer `none` is undefined behaviour. -/
def speex_resampler_init_frac {F D : Type} (ops : FloatOps F D)
    (nb_channels ratio_num ratio_den in_rate out_rate : Nat) (quality : Int) :
    Option (Option (SpeexResamplerState F) × Nat) :=
  if quality > 10 ∨ quality < 0 then some (none, RESAMPLER_ERR_INVALID_ARG)
  else
    let st := fresh_state ops nb_channels
    match speex_resampler_set_quality ops st quality with
    | none => none
    | some r1 =>
      match speex_resampler_set_rate_frac ops r1.1 ratio_num ratio_den in_rate out_rate with
      | none => none
      | some r2 =>
        match update_filter ops r2.1 with
        | none => none
        | some st => some (some { st with initialised := 1 }, RESAMPLER_ERR_SUCCESS)

/-- The function `speex_resampler_init`, rs4.h:716-719. -/
def speex_resampler_init {F D : Type} (ops : FloatOps F D)
    (nb_channels in_rate out_rate : Nat) (quality : Int) :
    Option (Option (SpeexResamplerState F) × Nat) :=
  speex_resampler_init_frac ops nb_channels in_rate out_rate in_rate out_rate quality

/-- The phase step at the end of every kernel iteration (rs4.h:286-292):
`last_sample += int_advance; samp_frac_num += frac_advance;` and the carry.
`samp_frac_num` is an `unsigned int`, so the sum wraps at `U32`; the cursor
`last_sample` is an `int`, whose overflow is undefined, and is a natural
number here. -/
def advance (int_advance frac_advance den_rate last_sample samp_frac_num : Nat) : Nat × Nat :=
  let last_sample := last_sample + int_advance
  let samp_frac_num := (samp_frac_num + frac_advance) % U32
  if samp_frac_num ≥ den_rate then (last_sample + 1, samp_frac_num - den_rate)
  else (last_sample, samp_frac_num)

/-- The sample `resampler_basic_direct_single` computes (rs4.h:266-272);
`iptr j` is `iptr[j]`. -/
def direct_single_sample {F D : Type} (ops : FloatOps F D) (N : Nat) (sinc_table : List F)
    (samp_frac_num : Nat) (iptr : Nat → F) : F :=
  (List.range N).foldl (fun sum j =>
    ops.fadd sum (ops.fmul (sinc_table.getD (samp_frac_num * N + j) ops.zero) (iptr j)))
    ops.zero

/-- The accumulation loop of `resampler_basic_direct_double` (rs4.h:317-324):
four `double` accumulators over the taps taken four at a time. -/
def direct_double_accum {F D : Type} (ops : FloatOps F D) (N : Nat) (sinc_table : List F)
    (samp_frac_num : Nat) (iptr : Nat → F) : D × D × D × D :=
  (List.range ((N + 3) / 4)).foldl (fun (a : D × D × D × D) k =>
    (ops.dadd a.1 (ops.toD (ops.fmul
        (sinc_table.getD (samp_frac_num * N + 4 * k) ops.zero) (iptr (4 * k)))),
     ops.dadd a.2.1 (ops.toD (ops.fmul
        (sinc_table.getD (samp_frac_num * N + (4 * k + 1)) ops.zero) (iptr (4 * k + 1)))),
     ops.dadd a.2.2.1 (ops.toD (ops.fmul
        (sinc_table.getD (samp_frac_num * N + (4 * k + 2)) ops.zero) (iptr (4 * k + 2)))),
     ops.dadd a.2.2.2 (ops.toD (ops.fmul
        (sinc_table.getD (samp_frac_num * N + (4 * k + 3)) ops.zero) (iptr (4 * k + 3))))))
    (ops.toD ops.zero, ops.toD ops.zero, ops.toD ops.zero, ops.toD ops.zero)

/-- The sample `resampler_basic_direct_double` computes (rs4.h:315-326). -/
def direct_double_sample {F D : Type} (ops : FloatOps F D) (N : Nat) (sinc_table : List F)
    (samp_frac_num : Nat) (iptr : Nat → F) : F :=
  let accum := direct_double_accum ops N sinc_table samp_frac_num iptr
  ops.toF (ops.dadd (ops.dadd (ops.dadd accum.1 accum.2.1) accum.2.2.1) accum.2.2.2)

/-- The `offset` of the interpolating kernels (rs4.h:356, 402). -/
def interpolate_offset (oversample den_rate samp_frac_num : Nat) : Nat :=
  (samp_frac_num * oversample) % U32 / den_rate

/-- The `frac` of the interpolating kernels (rs4.h:357, 403). -/
def interpolate_frac {F D : Type} (ops : FloatOps F D) (oversample den_rate samp_frac_num : Nat) :
    F :=
  ops.fdiv (ops.ofInt (((samp_frac_num * oversample) % U32 % den_rate : Nat) : Int))
    (ops.ofInt den_rate)

/-- The accumulation loop of `resampler_basic_interpolate_single` (rs4.h:360-367). -/
def interpolate_single_accum {F D : Type} (ops : FloatOps F D) (N oversample offset : Nat)
    (sinc_table : List F) (iptr : Nat → F) : F × F × F × F :=
  (List.range N).foldl (fun (a : F × F × F × F) j =>
    (ops.fadd a.1 (ops.fmul (iptr j)
        (sinc_table.getD (4 + (j + 1) * oversample - offset - 2) ops.zero)),
     ops.fadd a.2.1 (ops.fmul (iptr j)
        (sinc_table.getD (4 + (j + 1) * oversample - offset - 1) ops.zero)),
     ops.fadd a.2.2.1 (ops.fmul (iptr j)
        (sinc_table.getD (4 + (j + 1) * oversample - offset) ops.zero)),
     ops.fadd a.2.2.2 (ops.fmul (iptr j)
        (sinc_table.getD (4 + (j + 1) * oversample - offset + 1) ops.zero))))
    (ops.zero, ops.zero, ops.zero, ops.zero)

/-- The sample `resampler_basic_interpolate_single` computes (rs4.h:355-369). -/
def interpolate_single_sample {F D : Type} (ops : FloatOps F D) (N oversample den_rate : Nat)
    (sinc_table : List F) (samp_frac_num : Nat) (iptr : Nat → F) : F :=
  let offset := interpolate_offset oversample den_rate samp_frac_num
  let frac := interpolate_frac ops oversample den_rate samp_frac_num
  let accum := interpolate_single_accum ops N oversample offset sinc_table iptr
  let interp := ops.cubic_coef frac
  ops.fadd (ops.fadd (ops.fadd (ops.fmul interp.1 accum.1) (ops.fmul interp.2.1 accum.2.1))
    (ops.fmul interp.2.2.1 accum.2.2.1)) (ops.fmul interp.2.2.2 accum.2.2.2)

/-- The accumulation loop of `resampler_basic_interpolate_double` (rs4.h:406-413). -/
def interpolate_double_accum {F D : Type} (ops : FloatOps F D) (N oversample offset : Nat)
    (sinc_table : List F) (iptr : Nat → F) : D × D × D × D :=
  (List.range N).foldl (fun (a : D × D × D × D) j =>
    (ops.dadd a.1 (ops.toD (ops.fmul (iptr j)
        (sinc_table.getD (4 + (j + 1) * oversample - offset - 2) ops.zero))),
     ops.dadd a.2.1 (ops.toD (ops.fmul (iptr j)
        (sinc_table.getD (4 + (j + 1) * oversample - offset - 1) ops.zero))),
     ops.dadd a.2.2.1 (ops.toD (ops.fmul (iptr j)
        (sinc_table.getD (4 + (j + 1) * oversample - offset) ops.zero))),
     ops.dadd a.2.2.2 (ops.toD (ops.fmul (iptr j)
        (sinc_table.getD (4 + (j + 1) * oversample - offset + 1) ops.zero)))))
    (ops.toD ops.zero, ops.toD ops.zero, ops.toD ops.zero, ops.toD ops.zero)

/-- The sample `resampler_basic_interpolate_double` computes (rs4.h:401-415). -/
def interpolate_double_sample {F D : Type} (ops : FloatOps F D) (N oversample den_rate : Nat)
    (sinc_table : List F) (samp_frac_num : Nat) (iptr : Nat → F) : F :=
  let offset := interpolate_offset oversample den_rate samp_frac_num
  let frac := interpolate_frac ops oversample den_rate samp_frac_num
  let accum := interpolate_double_accum ops N oversample offset sinc_table iptr
  let interp := ops.cubic_coef frac
  ops.toF (ops.dadd (ops.dadd (ops.dadd (ops.dmul (ops.toD interp.1) accum.1)
    (ops.dmul (ops.toD interp.2.1) accum.2.1)) (ops.dmul (ops.toD interp.2.2.1) accum.2.2.1))
    (ops.dmul (ops.toD interp.2.2.2) accum.2.2.2))

/-- The sample the kernel `f` computes at phase `samp_frac_num` from the
engine's `filt_len`, `oversample`, `den_rate` and `sinc_table`, reading its
input through `iptr`. -/
def kernel_sample {F D : Type} (ops : FloatOps F D) (f : resampler_basic_func)
    (filt_len oversample den_rate : Nat) (sinc_table : List F)
    (samp_frac_num : Nat) (iptr : Nat → F) : F :=
  match f with
  | resampler_basic_func.resampler_basic_direct_single =>
    direct_single_sample ops filt_len sinc_table samp_frac_num iptr
  | resampler_basic_func.resampler_basic_direct_double =>
    direct_double_sample ops filt_len sinc_table samp_frac_num iptr
  | resampler_basic_func.resampler_basic_interpolate_single =>
    interpolate_single_sample ops filt_len oversample den_rate sinc_table samp_frac_num iptr
  | resampler_basic_func.resampler_basic_interpolate_double =>
    interpolate_double_sample ops filt_len oversample den_rate sinc_table samp_frac_num iptr

/-- The conversion of an `unsigned int` value to `int` (two's complement). -/
def to_int (v : Nat) : Int :=
  if v % U32 < 2147483648 then ((v % U32 : Nat) : Int) else ((v % U32 : Nat) : Int) - 4294967296

/-- The `while` loop the four kernels share (rs4.h:264-293, 313-334, 353-378,
399-424), with its test
`last_sample >= (int)*in_len || out_sample >= (int)*out_len`.
`sample last_sample samp_frac_num` is the value the body computes; `out` is the
caller's buffer and `opos` the offset of the pointer `out` in it.  The loop runs
at most `out_len` times, which is the `fuel` it is called with.  The result is
`(out_sample, last_sample, samp_frac_num, out)`. -/
def kernel_loop {F : Type} (sample : Nat → Nat → F)
    (int_advance frac_advance den_rate out_stride in_len out_len opos : Nat) :
    Nat → Nat → Nat → Nat → List F → Nat × Nat × Nat × List F
  | 0, out_sample, last_sample, samp_frac_num, out =>
    (out_sample, last_sample, samp_frac_num, out)
  | fuel + 1, out_sample, last_sample, samp_frac_num, out =>
    if (last_sample : Int) ≥ to_int in_len ∨ (out_sample : Int) ≥ to_int out_len then
      (out_sample, last_sample, samp_frac_num, out)
    else
      let out := out.set (opos + out_stride * out_sample) (sample last_sample samp_frac_num)
      let p := advance int_advance frac_advance den_rate last_sample samp_frac_num
      kernel_loop sample int_advance frac_advance den_rate out_stride in_len out_len opos
        fuel (out_sample + 1) p.1 p.2 out

/-- The call `st->resampler_ptr(st, channel_index, mem, in_len, out, out_len)`
for the kernel `f`: the functions `resampler_basic_direct_single`,
`resampler_basic_direct_double`, `resampler_basic_interpolate_single` and
`resampler_basic_interpolate_double` (rs4.h:251-428).  The input pointer is
`mem + base`.  The interpolating kernels divide by `den_rate`; the call is
undefined when it is zero.  The result is the new state, the buffer and the
returned `out_sample`. -/
def resampler_basic {F D : Type} (ops : FloatOps F D) (f : resampler_basic_func)
    (st : SpeexResamplerState F) (channel_index : Nat) (mem : List F) (base in_len : Nat)
    (out : List F) (opos out_len : Nat) : Option (SpeexResamplerState F × List F × Nat) :=
  if (f = resampler_basic_func.resampler_basic_interpolate_single
      ∨ f = resampler_basic_func.resampler_basic_interpolate_double) ∧ st.den_rate = 0 then
    none
  else
    let r := kernel_loop
      (fun last_sample samp_frac_num =>
        kernel_sample ops f st.filt_len st.oversample st.den_rate (st.sinc_table.getD [])
          samp_frac_num (fun j => mem.getD (base + (last_sample + j)) ops.zero))
      st.int_advance st.frac_advance st.den_rate st.out_stride in_len out_len opos
      out_len 0 (st.last_sample.getD channel_index 0) (st.samp_frac_num.getD channel_index 0)
      out
    some ({ st with last_sample := st.last_sample.set channel_index r.2.1,
                    samp_frac_num := st.samp_frac_num.set channel_index r.2.2.1 },
          r.2.2.2, r.1)

/-- The loop `for (j = 0; j < N - 1; ++j) mem[j] = mem[j + ilen];` of
rs4.h:799-802 on the channel whose memory starts at `base`. -/
def shift_history {F D : Type} (ops : FloatOps F D) (base N ilen : Nat) (mem : List F) :
    List F :=
  (List.range (N - 1)).foldl (fun m j =>
    m.set (base + j) (m.getD (base + (j + ilen)) ops.zero)) mem

/-- The value stored for input index `k` by the two copy loops of
rs4.h:849-862: `in[k]`, or `0` when `in` is null (`inp = none`). -/
def input_sample {F D : Type} (ops : FloatOps F D) (inp : Option (List F)) (k : Nat) : F :=
  match inp with
  | some i => i.getD k ops.zero
  | none => ops.zero

/-- The loops `for (j = 0; j < ichunk; ++j) x[j + filt_offs] = in[j*istride];`
and `x[j + filt_offs] = 0` of rs4.h:849-862. -/
def copy_input {F D : Type} (ops : FloatOps F D) (base filt_offs istride ichunk : Nat)
    (inp : Option (List F)) (mem : List F) : List F :=
  (List.range ichunk).foldl (fun m j =>
    m.set (base + (j + filt_offs)) (input_sample ops inp (j * istride))) mem

/-- The loop of rs4.h:817-820 that moves the magic samples still pending down
by the `tmp_in_len` samples consumed. -/
def shift_magic {F D : Type} (ops : FloatOps F D) (base N magic tmp_in_len : Nat)
    (mem : List F) : List F :=
  (List.range magic).foldl (fun m i =>
    m.set (base + (N - 1 + i)) (m.getD (base + (N - 1 + i + tmp_in_len)) ops.zero)) mem

/-- What a processing call hands back: the engine, the values left in
`*in_len` and `*out_len`, the output buffer and the returned status. -/
structure Processed (F : Type) where
  st : SpeexResamplerState F
  in_len : Nat
  out : List F
  out_len : Nat
  status : Nat
deriving DecidableEq

/-- The function `speex_resampler_process_native`, rs4.h:782-804.  The test of
rs4.h:792 compares the cursor with `(int)*in_len`.  Where it leaves `*in_len`
above the cursor, which takes an `*in_len` of `2^31` or more (a negative
`(int)*in_len`), the subtraction of rs4.h:797 leaves a cursor below 0 and the
loop of rs4.h:799-802 reads `mem[j + ilen]` `2^31` cells or more past `mem[j]`:
the model, whose cursors are naturals, leaves such a call undefined. -/
def speex_resampler_process_native {F D : Type} (ops : FloatOps F D)
    (st : SpeexResamplerState F) (channel_index in_len : Nat) (out : List F)
    (opos out_len : Nat) : Option (Processed F) :=
  match st.mem, st.resampler_ptr with
  | some mem, some f =>
    let N := st.filt_len
    let base := channel_index * st.mem_alloc_size
    let st := { st with started := 1 }
    match resampler_basic ops f st channel_index mem base in_len out opos out_len with
    | none => none
    | some r =>
      let st := r.1
      let out_sample := r.2.2
      let in_len :=
        if (st.last_sample.getD channel_index 0 : Int) < to_int in_len then
          st.last_sample.getD channel_index 0
        else in_len
      if st.last_sample.getD channel_index 0 < in_len then none
      else
        let st := { st with
          last_sample := st.last_sample.set channel_index
            (st.last_sample.getD channel_index 0 - in_len) }
        let ilen := in_len
        let mem := shift_history ops base N ilen mem
        some { st := { st with mem := some mem }, in_len := in_len, out := r.2.1,
               out_len := out_sample, status := RESAMPLER_ERR_SUCCESS }
  | _, _ => none

/-- The function `speex_resampler_magic`, rs4.h:806-824.  The result is the
engine, the buffer, the advanced offset of `*out` and the returned count. -/
def speex_resampler_magic {F D : Type} (ops : FloatOps F D) (st : SpeexResamplerState F)
    (channel_index : Nat) (out : List F) (opos out_len : Nat) :
    Option (SpeexResamplerState F × List F × Nat × Nat) :=
  let tmp_in_len := st.magic_samples.getD channel_index 0
  let base := channel_index * st.mem_alloc_size
  let N := st.filt_len
  match speex_resampler_process_native ops st channel_index tmp_in_len out opos out_len with
  | none => none
  | some r =>
    let st := r.st
    let tmp_in_len := r.in_len
    let out_len := r.out_len
    let magic := st.magic_samples.getD channel_index 0 - tmp_in_len
    let st := { st with magic_samples := st.magic_samples.set channel_index magic }
    let st := { st with
      mem :=
        if magic ≠ 0 then st.mem.map (shift_magic ops base N magic tmp_in_len)
        else st.mem }
    some (st, r.out, opos + out_len * st.out_stride, out_len)

/-- The `while (ilen && olen)` loop of `speex_resampler_process_float`,
rs4.h:845-871.  `base` is the offset of `x` in `mem`; `inp` is the pointer
`in` (the samples from it on, `none` when null); the result is the engine,
`ilen`, the buffer and `olen`.  `fuel` bounds the number of tests of the loop
condition. -/
def process_float_loop {F D : Type} (ops : FloatOps F D)
    (channel_index base filt_offs xlen istride : Nat) :
    Nat → SpeexResamplerState F → Option (List F) → Nat → List F → Nat → Nat →
      Option (SpeexResamplerState F × Nat × List F × Nat)
  | 0, _, _, _, _, _, _ => none
  | fuel + 1, st, inp, ilen, out, opos, olen =>
    if ilen ≠ 0 ∧ olen ≠ 0 then
      let ichunk := if ilen > xlen then xlen else ilen
      let ochunk := olen
      match st.mem with
      | none => none
      | some mem =>
        let mem := copy_input ops base filt_offs istride ichunk inp mem
        match speex_resampler_process_native ops { st with mem := some mem } channel_index
            ichunk out opos ochunk with
        | none => none
        | some r =>
          process_float_loop ops channel_index base filt_offs xlen istride fuel r.st
            (inp.map (List.drop (r.in_len * istride))) (ilen - r.in_len) r.out
            (opos + r.out_len * r.st.out_stride) (olen - r.out_len)
    else some (st, ilen, out, olen)

/-- The function `speex_resampler_process_float`, rs4.h:828-876.  `inp` is the
pointer `in`, `out` the caller's buffer and `opos` the offset of the pointer
`out` in it. -/
def speex_resampler_process_float {F D : Type} (ops : FloatOps F D)
    (st : SpeexResamplerState F) (channel_index : Nat) (inp : Option (List F)) (in_len : Nat)
    (out : List F) (opos out_len : Nat) : Option (Processed F) :=
  let ilen := in_len
  let olen := out_len
  let base := channel_index * st.mem_alloc_size
  let filt_offs := st.filt_len - 1
  let xlen := st.mem_alloc_size - filt_offs
  let istride := st.in_stride
  let drained : Option (SpeexResamplerState F × List F × Nat × Nat) :=
    if st.magic_samples.getD channel_index 0 ≠ 0 then
      match speex_resampler_magic ops st channel_index out opos olen with
      | none => none
      | some r => some (r.1, r.2.1, r.2.2.1, olen - r.2.2.2)
    else some (st, out, opos, olen)
  match drained with
  | none => none
  | some d =>
    let looped : Option (SpeexResamplerState F × Nat × List F × Nat) :=
      if d.1.magic_samples.getD channel_index 0 = 0 then
        process_float_loop ops channel_index base filt_offs xlen istride (ilen + d.2.2.2 + 1)
          d.1 inp ilen d.2.1 d.2.2.1 d.2.2.2
      else some (d.1, ilen, d.2.1, d.2.2.2)
    match looped with
    | none => none
    | some l =>
      some { st := l.1, in_len := in_len - l.2.1, out := l.2.2.1, out_len := out_len - l.2.2.2,
             status := RESAMPLER_ERR_SUCCESS }

/-- What the parallel entry point hands back: as `Processed`, with one output
buffer for each channel. -/
structure ProcessedParallel (F : Type) where
  st : SpeexResamplerState F
  in_len : Nat
  out : List (List F)
  out_len : Nat
  status : Nat
deriving DecidableEq

/-- The function `speex_resampler_process_parallel_float`, rs4.h:878-888: one
call of `speex_resampler_process_float` for each channel, all through the same
`in_len` and `out_len`. -/
def speex_resampler_process_parallel_float {F D : Type} (ops : FloatOps F D)
    (st : SpeexResamplerState F) (inp : List (Option (List F))) (in_len : Nat)
    (out : List (List F)) (out_len : Nat) : Option (ProcessedParallel F) :=
  (List.range st.nb_channels).foldl
    (fun (acc : Option (ProcessedParallel F)) channel =>
      match acc with
      | none => none
      | some a =>
        match speex_resampler_process_float ops a.st channel (inp.getD channel none) a.in_len
            (a.out.getD channel []) 0 a.out_len with
        | none => none
        | some r =>
          some { st := r.st, in_len := r.in_len, out := a.out.set channel r.out,
                 out_len := r.out_len, status := r.status })
    (some { st := st, in_len := in_len, out := out, out_len := out_len, status := 0 })

/-- The function `speex_resampler_process_interleaved_float`, rs4.h:890-915:
one call of `speex_resampler_process_float` for each channel with both strides
set to `nb_channels`; `*out_len` is reset to `bak_len` before each call,
`*in_len` is not. -/
def speex_resampler_process_interleaved_float {F D : Type} (ops : FloatOps F D)
    (st : SpeexResamplerState F) (inp : Option (List F)) (in_len : Nat)
    (out : List F) (out_len : Nat) : Option (Processed F) :=
  let bak_len := out_len
  let istride_save := st.in_stride
  let ostride_save := st.out_stride
  let st := { st with in_stride := st.nb_channels, out_stride := st.nb_channels }
  let r := (List.range st.nb_channels).foldl
    (fun (acc : Option (Processed F)) i =>
      match acc with
      | none => none
      | some a =>
        speex_resampler_process_float ops a.st i (inp.map (List.drop i)) a.in_len
          a.out i bak_len)
    (some { st := st, in_len := in_len, out := out, out_len := out_len,
            status := RESAMPLER_ERR_SUCCESS })
  match r with
  | none => none
  | some a =>
    some { a with st := { a.st with in_stride := istride_save, out_stride := ostride_save },
                  status := RESAMPLER_ERR_SUCCESS }

/-- Exact integer arithmetic as an instance of the floating-point primitives,
used to run the model on concrete inputs. -/
def intOps : FloatOps Int Int where
  ofInt n := n
  milli n := n
  fadd a b := a + b
  fsub a b := a - b
  fmul a b := a * b
  fdiv a b := a / b
  dadd a b := a + b
  dmul a b := a * b
  toD a := a
  toF a := a
  sinc c x _ _ := c + x
  cubic_coef x := (x, x + 1, x + 2, x + 3)

/-- The fields `update_filter` does not assign, and its effect on the call counter. -/
structure config_kept {F : Type} (st st' : SpeexResamplerState F) : Prop where
  in_rate : st'.in_rate = st.in_rate
  out_rate : st'.out_rate = st.out_rate
  num_rate : st'.num_rate = st.num_rate
  den_rate : st'.den_rate = st.den_rate
  quality : st'.quality = st.quality
  nb_channels : st'.nb_channels = st.nb_channels
  buffer_size : st'.buffer_size = st.buffer_size
  initialised : st'.initialised = st.initialised
  started : st'.started = st.started
  samp_frac_num : st'.samp_frac_num = st.samp_frac_num
  in_stride : st'.in_stride = st.in_stride
  out_stride : st'.out_stride = st.out_stride

/-- The stored ratio is in lowest terms as soon as both of its terms are
positive: what `speex_resampler_set_rate_frac`, the only writer of `num_rate`
and `den_rate`, establishes. -/
def ratio_reduced {F : Type} (st : SpeexResamplerState F) : Prop :=
  1 ≤ st.num_rate → 1 ≤ st.den_rate → Nat.gcd st.num_rate st.den_rate = 1

/-- An initialised engine holds a quality of the table: the precondition of
the `quality_map[st->quality]` access of `update_filter`. -/
def quality_valid {F : Type} (st : SpeexResamplerState F) : Prop :=
  st.initialised ≠ 0 → 0 ≤ st.quality ∧ st.quality ≤ 10

/-! ### Notions used to state the properties of the processing path -/

/-- The number of samples a length `v` of type `unsigned int` stands for in the
tests of the kernels, which read it as `(int)v`: `v` itself below `2^31`, and 0
when `(int)v` is negative. -/
def int_len (v : Nat) : Nat := (to_int v).toNat

/-- The outputs a kernel loop yields, as a list: the loop of `kernel_loop`
without the buffer.  `c` is the capacity left, `n` the input length, and the
result is the list of samples with the final cursor and phase. -/
def orbit {F : Type} (smp : Nat → Nat → F) (int_advance frac_advance den_rate n : Nat) :
    Nat → Nat → Nat → List F × Nat × Nat
  | 0, last_sample, samp_frac_num => ([], last_sample, samp_frac_num)
  | c + 1, last_sample, samp_frac_num =>
    if last_sample ≥ n then ([], last_sample, samp_frac_num)
    else
      let p := advance int_advance frac_advance den_rate last_sample samp_frac_num
      let r := orbit smp int_advance frac_advance den_rate n c p.1 p.2
      (smp last_sample samp_frac_num :: r.1, r.2)

/-- The buffer `out` after the samples `ys` are stored at `opos`,
`opos + stride`, `opos + 2 * stride`, ... -/
def scatter {F : Type} (out : List F) (opos stride : Nat) : List F → List F
  | [] => out
  | y :: ys => scatter (out.set opos y) (opos + stride) stride ys

/-- The `n` samples a call reads from the pointer `inp` at stride `istride`
(zeros for a null pointer). -/
def gather {F D : Type} (ops : FloatOps F D) (inp : Option (List F)) (istride n : Nat) :
    List F :=
  (List.range n).map (fun j => input_sample ops inp (j * istride))

/-- The first `filt_len - 1` samples of the memory of channel `ch`: the history
the next call convolves with. -/
def history {F D : Type} (ops : FloatOps F D) (st : SpeexResamplerState F) (ch : Nat) :
    List F :=
  (List.range (st.filt_len - 1)).map (fun j =>
    (st.mem.getD []).getD (ch * st.mem_alloc_size + j) ops.zero)

/-- The orbit of channel `ch` of the engine `st` over the stream `S` (history
followed by input) with the kernel `f`: `n` is the input length, `c` the
output capacity. -/
def chan_orbit {F D : Type} (ops : FloatOps F D) (f : resampler_basic_func)
    (st : SpeexResamplerState F) (ch : Nat) (S : List F) (n c : Nat) : List F × Nat × Nat :=
  orbit (fun L ph => kernel_sample ops f st.filt_len st.oversample st.den_rate
      (st.sinc_table.getD []) ph (fun j => S.getD (L + j) ops.zero))
    st.int_advance st.frac_advance st.den_rate n c
    (st.last_sample.getD ch 0) (st.samp_frac_num.getD ch 0)

/-- Channel `ch` of the engine is ready for a processing call: the memory and
the kernel are there, the channel's block lies inside the memory and has room
for the history and at least one input sample, the filter length is a
positive multiple of 4 and no magic samples are pending.  Every engine
`speex_resampler_init_frac` returns is in this state for each of its
channels, and processing keeps it so. -/
structure channel_ready {F : Type} (st : SpeexResamplerState F) (ch : Nat) : Prop where
  mem_some : ∃ m, st.mem = some m ∧ ch * st.mem_alloc_size + st.mem_alloc_size ≤ m.length
  ptr_some : ∃ f, st.resampler_ptr = some f
  den_pos : 1 ≤ st.den_rate
  filt_pos : 1 ≤ st.filt_len
  filt_four : st.filt_len % 4 = 0
  room : st.filt_len ≤ st.mem_alloc_size
  cursor : ch < st.last_sample.length
  phase : ch < st.samp_frac_num.length
  magic : st.magic_samples.getD ch 0 = 0

/-- The advances of the engine are those of its ratio, the ratio is not zero,
and `den_rate` is at most `2^31`, so that the 32-bit sum
`samp_frac_num + frac_advance` of the kernels does not wrap. -/
def advances_valid {F : Type} (st : SpeexResamplerState F) : Prop :=
  st.int_advance = st.num_rate / st.den_rate ∧ st.frac_advance = st.num_rate % st.den_rate ∧
    1 ≤ st.num_rate ∧ st.den_rate ≤ 2147483648

/-- The function `speex_resampler_get_input_latency`, rs4.h:1029-1033. -/
def speex_resampler_get_input_latency {F : Type} (st : SpeexResamplerState F) : Int :=
  to_int (st.filt_len / 2)

/-- The function `speex_resampler_get_output_latency`, rs4.h:1035-1039: the
`unsigned` expression `((filt_len / 2) * den_rate + (num_rate >> 1)) / num_rate`
returned as an `int`.  Undefined when `num_rate` is zero. -/
def speex_resampler_get_output_latency {F : Type} (st : SpeexResamplerState F) : Option Int :=
  if st.num_rate = 0 then none
  else some (to_int (((st.filt_len / 2) * st.den_rate + st.num_rate / 2) % U32 / st.num_rate))

/-- The class `RS4` of rs4.h:1067-1140: its only member is the engine pointer
`m_resampler`. -/
structure RS4 (F : Type) where
  m_resampler : Option (SpeexResamplerState F)

/-- The member function `RS4::latency`, rs4.h:1122-1125: the `int` of
`speex_resampler_get_output_latency` converted to `size_t` (64 bits).
Undefined on a null `m_resampler`. -/
def RS4.latency {F : Type} (self : RS4 F) : Option Nat :=
  match self.m_resampler with
  | none => none
  | some st =>
    match speex_resampler_get_output_latency st with
    | none => none
    | some v => some (v % 18446744073709551616).toNat

/-- The presets `(base_length, oversample)` of the qualities 0 to 10, as the
specification lists them. -/
def preset_table : List (Nat × Nat) :=
  [(8, 4), (16, 4), (32, 4), (48, 8), (64, 8), (80, 16), (96, 16), (128, 16), (160, 16),
   (192, 32), (256, 32)]

/-- The number of thresholds `t` among 2, 4, 8, 16 with `t * den < num`, in exact
arithmetic. -/
def thresholds_passed (num den : Nat) : Nat :=
  ([2, 4, 8, 16].filter (fun t => decide (t * den < num))).length

/-- The orbit of channel `ch` over the memory `m` of the engine, as the kernels
read it: `n` is the input length and `c` the capacity. -/
def mem_orbit {F D : Type} (ops : FloatOps F D) (f : resampler_basic_func)
    (st : SpeexResamplerState F) (ch : Nat) (m : List F) (n c : Nat) : List F × Nat × Nat :=
  orbit (fun L ph => kernel_sample ops f st.filt_len st.oversample st.den_rate
      (st.sinc_table.getD []) ph
      (fun j => m.getD (ch * st.mem_alloc_size + (L + j)) ops.zero))
    st.int_advance st.frac_advance st.den_rate n c
    (st.last_sample.getD ch 0) (st.samp_frac_num.getD ch 0)

/-- Channel `ch` of the engine can be processed, magic samples pending or not:
its memory and kernel exist, the channel's region lies inside the memory, the
filter length is a positive multiple of 4 that fits the region, the
per-channel arrays have an entry for `ch`, and the count of magic samples is
within the range of `int` (the drain step passes it as an input length). -/
structure channel_sound {F : Type} (st : SpeexResamplerState F) (ch : Nat) : Prop where
  mem_some : ∃ m, st.mem = some m ∧ ch * st.mem_alloc_size + st.mem_alloc_size ≤ m.length
  ptr_some : ∃ f, st.resampler_ptr = some f
  den_pos : 1 ≤ st.den_rate
  filt_pos : 1 ≤ st.filt_len
  filt_four : st.filt_len % 4 = 0
  room : st.filt_len ≤ st.mem_alloc_size
  cursor : ch < st.last_sample.length
  phase : ch < st.samp_frac_num.length
  magic_len : ch < st.magic_samples.length
  magic_int : st.magic_samples.getD ch 0 < 2147483648

/-- A small engine record with three magic samples pending on its only channel,
used to run the processing path on a concrete input: ratio 1/1, a filter of 4
taps and a channel buffer of 12 cells. -/
def pending_magic_state : SpeexResamplerState Int :=
  { fresh_state intOps 1 with
    num_rate := 1, den_rate := 1, int_advance := 1, frac_advance := 0, quality := 0,
    initialised := 1, started := 1, filt_len := 4, mem_alloc_size := 12,
    mem := some [1, 2, 3, 4, 5, 6, 0, 0, 0, 0, 0, 0],
    sinc_table := some [1, 1, 1, 1],
    resampler_ptr := some resampler_basic_func.resampler_basic_direct_single,
    magic_samples := [3] }

/-- The phase invariant: there is one phase for each channel, every phase is
below `den_rate`, and so is the step `frac_advance` the kernels add to it. -/
def phase_valid {F : Type} (st : SpeexResamplerState F) : Prop :=
  st.samp_frac_num.length = st.nb_channels ∧ st.frac_advance < st.den_rate ∧
    ∀ ch, ch < st.nb_channels → st.samp_frac_num.getD ch 0 < st.den_rate

/-! ### Notions used to state the capacity invariant -/

/-- The tap indices `j` at which the kernel `f` reads `iptr[j]` for one output
sample: `resampler_basic_direct_double` takes them four at a time, the other
kernels one by one. -/
def kernel_taps (f : resampler_basic_func) (N : Nat) : List Nat :=
  match f with
  | resampler_basic_func.resampler_basic_direct_double =>
    (List.range ((N + 3) / 4)).flatMap (fun k => [4 * k, 4 * k + 1, 4 * k + 2, 4 * k + 3])
  | _ => List.range N

/-- The bound `st->nb_channels*(st->filt_len - 1)` of the loop of
`speex_resampler_reset_mem`, rs4.h:1056, in `unsigned` arithmetic. -/
def reset_mem_count {F : Type} (st : SpeexResamplerState F) : Nat :=
  (st.nb_channels * ((st.filt_len + (U32 - 1)) % U32)) % U32

/-- The function `speex_resampler_reset_mem`, rs4.h:1052-1061: the first
`nb_channels * (filt_len - 1)` cells of `mem` are zeroed.  Undefined when the
loop runs on a null `mem`. -/
def speex_resampler_reset_mem {F D : Type} (ops : FloatOps F D) (st : SpeexResamplerState F) :
    Option (SpeexResamplerState F × Nat) :=
  match st.mem with
  | some mem =>
    some ({ st with
        mem := some ((List.range (reset_mem_count st)).foldl (fun m i => m.set i ops.zero) mem) },
      RESAMPLER_ERR_SUCCESS)
  | none => if reset_mem_count st = 0 then some (st, RESAMPLER_ERR_SUCCESS) else none

/-- The float model `ops` computes exactly in the commutative semiring `R`:
`float` and `double` are both `R`, the conversions are the identity, and sums
and products are those of `R`. -/
structure exact_arithmetic {R : Type} [CommSemiring R] (ops : FloatOps R R) : Prop where
  zero_eq : ops.ofInt 0 = 0
  fadd_eq : ∀ a b, ops.fadd a b = a + b
  fmul_eq : ∀ a b, ops.fmul a b = a * b
  dadd_eq : ∀ a b, ops.dadd a b = a + b
  toD_eq : ∀ a, ops.toD a = a
  toF_eq : ∀ a, ops.toF a = a

/-- The dot product of the specification: the sum over `j < N` of
`sinc_table[phase * N + j] * iptr[j]`. -/
def direct_dot {R : Type} [CommSemiring R] (N : Nat) (sinc_table : List R) (phase : Nat)
    (iptr : Nat → R) : R :=
  ((List.range N).map (fun j => sinc_table.getD (phase * N + j) 0 * iptr j)).sum

/-- The member function `RS4::process`, rs4.h:1113-1119: the two frame counts
are converted to `unsigned int`, `speex_resampler_process_parallel_float` runs
on them, and the output count it leaves is returned.  The result is the object,
the output buffers and the returned count; undefined on a null `m_resampler`. -/
def RS4.process {F D : Type} (ops : FloatOps F D) (self : RS4 F)
    (ipBuffer : List (Option (List F))) (ipFrames : Nat) (opBuffer : List (List F))
    (opFrames : Nat) : Option (RS4 F × List (List F) × Nat) :=
  let ipCount := ipFrames % U32
  let opCount := opFrames % U32
  match self.m_resampler with
  | none => none
  | some st =>
    match speex_resampler_process_parallel_float ops st ipBuffer ipCount opBuffer opCount with
    | none => none
    | some r => some ({ m_resampler := some r.st }, r.out, r.out_len)

/-! ### The sample containers of `src/audio/audio_u.h` -/

/-- The interleaved sample data `struct SampleData`, audio_u.h:104-123; the four
counters are `uint32_t`. -/
structure SampleData (F : Type) where
  blockSize : Nat
  samples : Nat
  channels : Nat
  sampleRate : Nat
  buffer : List F
deriving DecidableEq

/-- The de-interleaved block `struct SampleBlock`, audio_u.h:189-231.  `m_ptr`
is the contiguous block of floats; `m_buffer` holds, for each channel, the
offset in `m_ptr` of the channel's pointer. -/
structure SampleBlock (F : Type) where
  m_available : Nat
  m_blockSize : Nat
  m_ptr : List F
  m_buffer : List Nat
deriving DecidableEq

/-- The constructor `SampleBlock(int blockSize, int channels)`, audio_u.h:206-216.
`new float[]` leaves the block indeterminate, and callers fill it through the
pointers of `data()`: `contents` is what the block holds.  `m_available` keeps
its initialiser 0; no member function assigns it. -/
def SampleBlock.create {F : Type} (blockSize channels : Nat) (contents : List F) :
    SampleBlock F :=
  { m_available := 0, m_blockSize := blockSize, m_ptr := contents,
    m_buffer := (List.range channels).map (fun s => s * blockSize) }

/-- The member `channels()`, audio_u.h:230. -/
def SampleBlock.channels {F : Type} (sb : SampleBlock F) : Nat := sb.m_buffer.length

/-- The member `available()`, audio_u.h:228. -/
def SampleBlock.available {F : Type} (sb : SampleBlock F) : Nat := sb.m_available

/-- The member `blocksize()`, audio_u.h:226. -/
def SampleBlock.blocksize {F : Type} (sb : SampleBlock F) : Nat := sb.m_blockSize

/-- The read `p[c][s]` (or `*(begin_data(c) + s)`) of sample `s` of channel `c`;
undefined outside the vector of pointers or outside the block. -/
def SampleBlock.sample {F : Type} (sb : SampleBlock F) (c s : Nat) : Option F :=
  match sb.m_buffer.get? c with
  | none => none
  | some off => sb.m_ptr.get? (off + s)

/-- The two statements `opData.buffer.push_back(v); opData.samples++;` of
audio_u.h:250-253 and 264-265. -/
def SampleData.push {F : Type} (d : SampleData F) (v : F) : SampleData F :=
  { d with buffer := d.buffer ++ [v], samples := (d.samples + 1) % U32 }

/-- The function `nv2::audio::interleave`, audio_u.h:233-270.  With exactly two
channels the `while` loop runs over `samples` frames; otherwise the nested
loops run over `sb.available()` frames.  The result is `opData` as the call
leaves (and returns) it. -/
def interleave {F : Type} (sb : SampleBlock F) (opData : SampleData F) (samples : Nat) :
    Option (SampleData F) :=
  if sb.channels = 2 then
    (List.range samples).foldl (fun (acc : Option (SampleData F)) k =>
      match acc with
      | none => none
      | some d =>
        match sb.sample 0 k, sb.sample 1 k with
        | some l, some r => some ((d.push l).push r)
        | _, _ => none) (some opData)
  else
    (List.range sb.available).foldl (fun (acc : Option (SampleData F)) s =>
      (List.range sb.channels).foldl (fun (acc : Option (SampleData F)) c =>
        match acc with
        | none => none
        | some d =>
          match sb.sample c s with
          | some v => some (d.push v)
          | none => none) acc) (some opData)

/-- A small started engine record used to run the bridging code of
`update_filter` on a concrete input: one channel, quality 0 at the ratio 1/1
(for which the filter has 8 taps), a filter of 16 taps in a region of 20 cells
holding `1 .. 20`, and one magic sample pending. -/
def long_filter_state : SpeexResamplerState Int :=
  { fresh_state intOps 1 with
    num_rate := 1, den_rate := 1, quality := 0, initialised := 1, started := 1,
    filt_len := 16, mem_alloc_size := 20,
    mem := some [1, 2, 3, 4, 5, 6, 7, 8, 9, 10, 11, 12, 13, 14, 15, 16, 17, 18, 19, 20],
    magic_samples := [1] }

/-- A small started engine record used to run the growth branch of
`update_filter` on a concrete input: two channels at the stride 6, quality 0 at
the ratio 1/1 (for which the filter has 8 taps), a filter of 4 taps, the
histories `1, 2, 3` and `4, 5, 6`, the cursors 2 and 5, no magic samples. -/
def short_filter_state : SpeexResamplerState Int :=
  { fresh_state intOps 2 with
    num_rate := 1, den_rate := 1, quality := 0, initialised := 1, started := 1,
    filt_len := 4, mem_alloc_size := 6,
    mem := some [1, 2, 3, 0, 0, 0, 4, 5, 6, 0, 0, 0],
    last_sample := [2, 5] }

/-! ## Ratio reduction -/


theorem strip_factor_spec (fact : Nat) (hf : 2 ≤ fact) :
    ∀ (fuel num den : Nat), 1 ≤ num → 1 ≤ den → num < fuel →
      ∃ n d c, strip_factor fact fuel num den = some (n, d) ∧ 1 ≤ n ∧ 1 ≤ d ∧ 1 ≤ c ∧
        num = n * c ∧ den = d * c ∧ ¬ (fact ∣ n ∧ fact ∣ d) := by
  intro fuel
  induction fuel with
  | zero => intro num den _ _ h; omega
  | succ fuel ih =>
    intro num den hn hd hfuel
    have hf0 : fact ≠ 0 := by omega
    by_cases hdiv : num % fact = 0 ∧ den % fact = 0
    · have hnd : fact ∣ num := Nat.dvd_of_mod_eq_zero hdiv.1
      have hdd : fact ∣ den := Nat.dvd_of_mod_eq_zero hdiv.2
      have hn1 : 1 ≤ num / fact := Nat.div_pos (Nat.le_of_dvd (by omega) hnd) (by omega)
      have hd1 : 1 ≤ den / fact := Nat.div_pos (Nat.le_of_dvd (by omega) hdd) (by omega)
      have hlt : num / fact < num := Nat.div_lt_self (by omega) (by omega)
      obtain ⟨n, d, c, he, h1, h2, h3, h4, h5, h6⟩ :=
        ih (num / fact) (den / fact) hn1 hd1 (by omega)
      refine ⟨n, d, c * fact, ?_, h1, h2, ?_, ?_, ?_, h6⟩
      · simp only [strip_factor, hf0, hdiv, if_false, and_self, if_true]
        exact he
      · exact Nat.le_trans h3 (Nat.le_mul_of_pos_right c (by omega))
      · rw [← Nat.mul_assoc, ← h4]; exact (Nat.div_mul_cancel hnd).symm
      · rw [← Nat.mul_assoc, ← h5]; exact (Nat.div_mul_cancel hdd).symm
    · refine ⟨num, den, 1, ?_, hn, hd, le_refl 1, by simp, by simp, ?_⟩
      · simp only [strip_factor, hf0, hdiv, if_false]
      · intro h
        exact hdiv ⟨Nat.mod_eq_zero_of_dvd h.1, Nat.mod_eq_zero_of_dvd h.2⟩

theorem reduce_loop_spec :
    ∀ (fuel fact num den : Nat), 2 ≤ fact → 1 ≤ num → 1 ≤ den → num < U32 → den < U32 →
      1 ≤ fuel → min num den + 1 < fuel + fact →
      (∀ p, 2 ≤ p → p < fact → ¬ (p ∣ num ∧ p ∣ den)) →
      ∃ n d c, reduce_loop fuel fact num den = some (n, d) ∧ Nat.gcd n d = 1 ∧
        1 ≤ n ∧ 1 ≤ d ∧ num = n * c ∧ den = d * c := by
  intro fuel
  induction fuel with
  | zero => intro fact num den _ _ _ _ _ h; omega
  | succ fuel ih =>
    intro fact num den hf hn hd hnb hdb _ hfuel hinv
    by_cases hc : fact ≤ min num den
    · have hfn : fact ≤ num := le_trans hc (Nat.min_le_left _ _)
      have hfd : fact ≤ den := le_trans hc (Nat.min_le_right _ _)
      obtain ⟨n, d, c, he, h1, h2, h3, h4, h5, h6⟩ :=
        strip_factor_spec fact hf (num + 1) num den hn hd (by omega)
      have hnle : n ≤ num := by rw [h4]; exact Nat.le_mul_of_pos_right n h3
      have hdle : d ≤ den := by rw [h5]; exact Nat.le_mul_of_pos_right d h3
      have hwrap : fact + 1 < U32 := by
        by_contra hge
        have h3n : (3 : Nat) ∣ num := by
          have : num = 4294967295 := by simp only [U32] at hge hnb; omega
          rw [this]; decide
        have h3d : (3 : Nat) ∣ den := by
          have : den = 4294967295 := by simp only [U32] at hge hdb; omega
          rw [this]; decide
        exact hinv 3 (by omega) (by simp only [U32] at hge; omega) ⟨h3n, h3d⟩
      have hmin : min n d ≤ min num den := by
        simp only [Nat.min_def]; split <;> split <;> omega
      obtain ⟨n', d', c', he', hg, hn', hd', hc1, hc2⟩ :=
        ih (fact + 1) n d (by omega) h1 h2 (by omega) (by omega) (by omega) (by omega)
          (by
            intro p hp2 hplt hpd
            by_cases hpe : p = fact
            · subst hpe; exact h6 hpd
            · exact hinv p hp2 (by omega)
                ⟨by rw [h4]; exact Dvd.dvd.mul_right hpd.1 c,
                 by rw [h5]; exact Dvd.dvd.mul_right hpd.2 c⟩)
      refine ⟨n', d', c' * c, ?_, hg, hn', hd', ?_, ?_⟩
      · simp only [reduce_loop, hc, if_true, he, Nat.mod_eq_of_lt hwrap]
        exact he'
      · rw [← Nat.mul_assoc, ← hc1]; exact h4
      · rw [← Nat.mul_assoc, ← hc2]; exact h5
    · refine ⟨num, den, 1, ?_, ?_, hn, hd, by simp, by simp⟩
      · simp only [reduce_loop, hc, if_false]
      · by_contra hg
        have hgpos : 0 < Nat.gcd num den := Nat.gcd_pos_of_pos_left den hn
        have hgn : Nat.gcd num den ≤ num := Nat.le_of_dvd hn (Nat.gcd_dvd_left num den)
        have hgd : Nat.gcd num den ≤ den := Nat.le_of_dvd hd (Nat.gcd_dvd_right num den)
        have hlt : Nat.gcd num den < fact := by
          have : min num den < fact := by omega
          simp only [Nat.min_def] at this; split at this <;> omega
        exact hinv (Nat.gcd num den) (by omega) hlt
          ⟨Nat.gcd_dvd_left num den, Nat.gcd_dvd_right num den⟩

/-- The reduction loop terminates on every pair of positive 32-bit terms and
returns the requested ratio in lowest terms. -/
theorem reduce_ratio_spec (num den : Nat) (hn : 1 ≤ num) (hd : 1 ≤ den)
    (hnb : num < U32) (hdb : den < U32) :
    ∃ n d, reduce_ratio num den = some (n, d) ∧ Nat.gcd n d = 1 ∧ 1 ≤ n ∧ 1 ≤ d ∧
      n * den = d * num := by
  obtain ⟨n, d, c, he, hg, h1, h2, h3, h4⟩ :=
    reduce_loop_spec (min num den + 1) 2 num den (le_refl 2) hn hd hnb hdb (by omega)
      (by omega) (by intro p h2 hlt; omega)
  refine ⟨n, d, he, hg, h1, h2, ?_⟩
  calc n * den = n * (d * c) := by rw [← h4]
    _ = d * (n * c) := by ring
    _ = d * num := by rw [← h3]

/-- The loop is not entered when one of the terms is below 2. -/
theorem reduce_ratio_small (num den : Nat) (h : min num den < 2) :
    reduce_ratio num den = some (num, den) := by
  have hc : ¬ (2 ≤ min num den) := by omega
  simp only [reduce_ratio, reduce_loop, hc, if_false]

/-! ## What `update_filter` keeps -/

theorem quality_entry_some (q : Int) (h0 : 0 ≤ q) (h1 : q ≤ 10) :
    ∃ qm, quality_entry q = some qm := by
  obtain ⟨n, rfl⟩ := Int.eq_ofNat_of_zero_le h0
  have hn : n ≤ 10 := by omega
  interval_cases n <;> exact ⟨_, rfl⟩

theorem filter_params_some {F D : Type} (ops : FloatOps F D) (qm : QualityMapping)
    (num den : Nat) (hden : 1 ≤ den) : ∃ r, filter_params ops qm num den = some r := by
  have hd0 : den ≠ 0 := by omega
  unfold filter_params
  by_cases h : num > den
  · simp only [h, if_true, hd0, if_false]; exact ⟨_, rfl⟩
  · simp only [h, if_false]; exact ⟨_, rfl⟩

theorem update_filter_table_kept {F D : Type} (ops : FloatOps F D) (w : FuncDef)
    (st : SpeexResamplerState F) :
    config_kept st (update_filter_table ops w st) ∧
    (update_filter_table ops w st).filt_len = st.filt_len ∧
    (update_filter_table ops w st).oversample = st.oversample ∧
    (update_filter_table ops w st).cutoff = st.cutoff ∧
    (update_filter_table ops w st).mem = st.mem ∧
    (update_filter_table ops w st).mem_alloc_size = st.mem_alloc_size ∧
    (update_filter_table ops w st).last_sample = st.last_sample ∧
    (update_filter_table ops w st).magic_samples = st.magic_samples ∧
    (update_filter_table ops w st).update_filter_calls = st.update_filter_calls := by
  unfold update_filter_table
  split <;> exact ⟨⟨rfl, rfl, rfl, rfl, rfl, rfl, rfl, rfl, rfl, rfl, rfl, rfl⟩,
    rfl, rfl, rfl, rfl, rfl, rfl, rfl, rfl⟩

theorem update_filter_mem_kept {F D : Type} (ops : FloatOps F D) (old_length : Nat)
    (st : SpeexResamplerState F) :
    config_kept st (update_filter_mem ops old_length st) ∧
    (update_filter_mem ops old_length st).filt_len = st.filt_len ∧
    (update_filter_mem ops old_length st).oversample = st.oversample ∧
    (update_filter_mem ops old_length st).cutoff = st.cutoff ∧
    (update_filter_mem ops old_length st).sinc_table = st.sinc_table ∧
    (update_filter_mem ops old_length st).resampler_ptr = st.resampler_ptr ∧
    (update_filter_mem ops old_length st).int_advance = st.int_advance ∧
    (update_filter_mem ops old_length st).frac_advance = st.frac_advance ∧
    (update_filter_mem ops old_length st).update_filter_calls = st.update_filter_calls ∧
    (st.started = 0 →
      (update_filter_mem ops old_length st).last_sample = st.last_sample ∧
      (update_filter_mem ops old_length st).magic_samples = st.magic_samples) := by
  unfold update_filter_mem
  split
  · exact ⟨⟨rfl, rfl, rfl, rfl, rfl, rfl, rfl, rfl, rfl, rfl, rfl, rfl⟩,
      rfl, rfl, rfl, rfl, rfl, rfl, rfl, rfl, fun _ => ⟨rfl, rfl⟩⟩
  · split_ifs with h1 h2 h3
    · exact ⟨⟨rfl, rfl, rfl, rfl, rfl, rfl, rfl, rfl, rfl, rfl, rfl, rfl⟩,
        rfl, rfl, rfl, rfl, rfl, rfl, rfl, rfl, fun _ => ⟨rfl, rfl⟩⟩
    · exact ⟨⟨rfl, rfl, rfl, rfl, rfl, rfl, rfl, rfl, rfl, rfl, rfl, rfl⟩,
        rfl, rfl, rfl, rfl, rfl, rfl, rfl, rfl, fun h => absurd h h1⟩
    · exact ⟨⟨rfl, rfl, rfl, rfl, rfl, rfl, rfl, rfl, rfl, rfl, rfl, rfl⟩,
        rfl, rfl, rfl, rfl, rfl, rfl, rfl, rfl, fun h => absurd h h1⟩
    · exact ⟨⟨rfl, rfl, rfl, rfl, rfl, rfl, rfl, rfl, rfl, rfl, rfl, rfl⟩,
        rfl, rfl, rfl, rfl, rfl, rfl, rfl, rfl, fun _ => ⟨rfl, rfl⟩⟩

/-- On a state with a quality in `[0, 10]` and a non-zero `den_rate`,
`update_filter` returns; it keeps the configuration, counts one more call, and
on an engine that has not processed yet it keeps the cursors and the magic
counts. -/
theorem update_filter_some {F D : Type} (ops : FloatOps F D) (st : SpeexResamplerState F)
    (h0 : 0 ≤ st.quality) (h1 : st.quality ≤ 10) (hden : 1 ≤ st.den_rate) :
    ∃ st', update_filter ops st = some st' ∧ config_kept st st' ∧
      st'.update_filter_calls = st.update_filter_calls + 1 ∧
      (st.started = 0 →
        st'.last_sample = st.last_sample ∧ st'.magic_samples = st.magic_samples) := by
  obtain ⟨qm, hqm⟩ := quality_entry_some st.quality h0 h1
  obtain ⟨r, hr⟩ := filter_params_some ops qm st.num_rate st.den_rate hden
  have hd0 : st.den_rate ≠ 0 := by omega
  unfold update_filter
  simp only [hqm, hr, hd0, if_false]
  refine ⟨_, rfl, ?_⟩
  obtain ⟨hk, _, _, _, _, _, _, _, hcalls, hfresh⟩ :=
    update_filter_mem_kept ops st.filt_len
      (update_filter_table ops qm.window_func
        { st with update_filter_calls := st.update_filter_calls + 1,
                  oversample := r.2.1, filt_len := r.1, cutoff := r.2.2 })
  obtain ⟨hk2, _, _, _, _, _, hls, hms, hcalls2⟩ :=
    update_filter_table_kept ops qm.window_func
      { st with update_filter_calls := st.update_filter_calls + 1,
                oversample := r.2.1, filt_len := r.1, cutoff := r.2.2 }
  refine ⟨⟨?_, ?_, ?_, ?_, ?_, ?_, ?_, ?_, ?_, ?_, ?_, ?_⟩, ?_, ?_⟩
  · rw [hk.in_rate, hk2.in_rate]
  · rw [hk.out_rate, hk2.out_rate]
  · rw [hk.num_rate, hk2.num_rate]
  · rw [hk.den_rate, hk2.den_rate]
  · rw [hk.quality, hk2.quality]
  · rw [hk.nb_channels, hk2.nb_channels]
  · rw [hk.buffer_size, hk2.buffer_size]
  · rw [hk.initialised, hk2.initialised]
  · rw [hk.started, hk2.started]
  · rw [hk.samp_frac_num, hk2.samp_frac_num]
  · rw [hk.in_stride, hk2.in_stride]
  · rw [hk.out_stride, hk2.out_stride]
  · rw [hcalls, hcalls2]
  · intro hs
    have hs2 : (update_filter_table ops qm.window_func
        { st with update_filter_calls := st.update_filter_calls + 1,
                  oversample := r.2.1, filt_len := r.1, cutoff := r.2.2 }).started = 0 := by
      rw [hk2.started]; exact hs
    obtain ⟨ha, hb⟩ := hfresh hs2
    exact ⟨by rw [ha, hls], by rw [hb, hms]⟩

/-- The reduction loop returns on every pair of 32-bit terms, and a non-zero
denominator stays non-zero. -/
theorem reduce_ratio_total (num den : Nat) (hnb : num < U32) (hdb : den < U32) :
    ∃ n d, reduce_ratio num den = some (n, d) ∧ (1 ≤ den → 1 ≤ d) ∧
      (1 ≤ num → 1 ≤ den → Nat.gcd n d = 1 ∧ n * den = d * num) := by
  by_cases h : min num den < 2
  · refine ⟨num, den, reduce_ratio_small num den h, fun hd => hd, ?_⟩
    intro hn hd
    refine ⟨?_, Nat.mul_comm _ _⟩
    have hmin : num = 1 ∨ den = 1 := by
      simp only [Nat.min_def] at h; split at h <;> omega
    rcases hmin with h1 | h1 <;> simp [h1]
  · have hn : 1 ≤ num := by
      simp only [Nat.min_def] at h; split at h <;> omega
    have hd : 1 ≤ den := by
      simp only [Nat.min_def] at h; split at h <;> omega
    obtain ⟨n, d, he, hg, _, h2, hr⟩ := reduce_ratio_spec num den hn hd hnb hdb
    exact ⟨n, d, he, fun _ => h2, fun _ _ => ⟨hg, hr⟩⟩

/-- The constructor on a quality of the table and a non-zero denominator: it
returns an engine, with the fields listed. -/
theorem init_frac_some {F D : Type} (ops : FloatOps F D)
    (nb_channels ratio_num ratio_den in_rate out_rate : Nat) (quality : Int)
    (hq0 : 0 ≤ quality) (hq1 : quality ≤ 10) (hd : 1 ≤ ratio_den)
    (hnb : ratio_num < U32) (hdb : ratio_den < U32) :
    ∃ st : SpeexResamplerState F,
      speex_resampler_init_frac ops nb_channels ratio_num ratio_den in_rate out_rate quality
        = some (some st, RESAMPLER_ERR_SUCCESS) ∧
      st.quality = quality ∧ st.initialised = 1 ∧ st.started = 0 ∧
      st.nb_channels = nb_channels ∧
      st.last_sample = List.replicate nb_channels 0 ∧
      st.samp_frac_num = List.replicate nb_channels 0 ∧
      st.magic_samples = List.replicate nb_channels 0 ∧
      st.in_rate = in_rate ∧ st.out_rate = out_rate ∧
      reduce_ratio ratio_num ratio_den = some (st.num_rate, st.den_rate) ∧
      st.update_filter_calls = 1 := by
  obtain ⟨n, d, hred, hd1, _⟩ := reduce_ratio_total ratio_num ratio_den hnb hdb
  have hq : ¬ (quality > 10 ∨ quality < 0) := by omega
  have hqne : ¬ ((-1 : Int) = quality) := by omega
  have hrd : ¬ (0 = ratio_den) := by omega
  obtain ⟨st', he, hk, hcalls, hfresh⟩ := update_filter_some ops
    ({ fresh_state ops nb_channels with
        quality := quality, in_rate := in_rate, out_rate := out_rate,
        num_rate := n, den_rate := d } : SpeexResamplerState F)
    hq0 hq1 (hd1 hd)
  obtain ⟨hl, hm⟩ := hfresh rfl
  refine ⟨{ st' with initialised := 1 }, ?_, hk.quality, rfl, hk.started, hk.nb_channels,
    hl, hk.samp_frac_num, hm, hk.in_rate, hk.out_rate, ?_, hcalls⟩
  · simp only [speex_resampler_init_frac, hq, if_false, speex_resampler_set_quality,
      fresh_state, hqne, speex_resampler_set_rate_frac, hrd, and_false, hred, ne_eq,
      not_true_eq_false, gt_iff_lt, lt_self_iff_false]
    simp only [fresh_state] at he
    rw [he]
  · show reduce_ratio ratio_num ratio_den = some (st'.num_rate, st'.den_rate)
    rw [hk.num_rate, hk.den_rate]; exact hred

/-- C1.  For 32-bit terms `ratio_num ≥ 1` and `ratio_den ≥ 1`:
`speex_resampler_set_rate_frac`, called on an engine whose stored ratio is
reduced, returns (its reduction loop terminates), and the `num_rate` and
`den_rate` it leaves are in lowest terms and denote the requested ratio; the
same holds for the engine `speex_resampler_init_frac` constructs. -/
theorem set_rate_frac_lowest_terms {F D : Type} (ops : FloatOps F D)
    (st : SpeexResamplerState F) (nb_channels : Nat) (quality : Int)
    (ratio_num ratio_den in_rate out_rate : Nat)
    (hn : 1 ≤ ratio_num) (hd : 1 ≤ ratio_den)
    (hnb : ratio_num < U32) (hdb : ratio_den < U32)
    (hst : ratio_reduced st) (hqv : quality_valid st)
    (hq0 : 0 ≤ quality) (hq1 : quality ≤ 10) :
    (∃ st', speex_resampler_set_rate_frac ops st ratio_num ratio_den in_rate out_rate
        = some (st', RESAMPLER_ERR_SUCCESS) ∧
      Nat.gcd st'.num_rate st'.den_rate = 1 ∧
      st'.num_rate * ratio_den = st'.den_rate * ratio_num ∧
      ratio_reduced st' ∧ quality_valid st') ∧
    (∃ st' : SpeexResamplerState F,
      speex_resampler_init_frac ops nb_channels ratio_num ratio_den in_rate out_rate quality
        = some (some st', RESAMPLER_ERR_SUCCESS) ∧
      Nat.gcd st'.num_rate st'.den_rate = 1 ∧
      st'.num_rate * ratio_den = st'.den_rate * ratio_num ∧
      ratio_reduced st' ∧ quality_valid st') := by
  obtain ⟨n, d, hred, hg, _, hd1, hr⟩ := reduce_ratio_spec ratio_num ratio_den hn hd hnb hdb
  constructor
  · by_cases hsame : st.in_rate = in_rate ∧ st.out_rate = out_rate ∧ st.num_rate = ratio_num
        ∧ st.den_rate = ratio_den
    · have hg' : Nat.gcd st.num_rate st.den_rate = 1 :=
        hst (by rw [hsame.2.2.1]; exact hn) (by rw [hsame.2.2.2]; exact hd)
      refine ⟨st, ?_, hg', ?_, hst, hqv⟩
      · simp only [speex_resampler_set_rate_frac, hsame, and_self, if_true]
      · rw [hsame.2.2.1, hsame.2.2.2]; exact Nat.mul_comm _ _
    · by_cases hini : st.initialised ≠ 0
      · obtain ⟨hqa, hqb⟩ := hqv hini
        obtain ⟨st', he, hk, _, _⟩ := update_filter_some ops
          { st with in_rate := in_rate, out_rate := out_rate, num_rate := n, den_rate := d,
                    samp_frac_num :=
                      if st.den_rate > 0 then
                        (List.range st.nb_channels).foldl (rescale_frac d st.den_rate)
                          st.samp_frac_num
                      else st.samp_frac_num }
          hqa hqb hd1
        refine ⟨st', ?_, ?_, ?_, ?_, ?_⟩
        · simp only [speex_resampler_set_rate_frac, hsame, if_false, hred, hini, if_true, ne_eq,
            not_false_eq_true, he]
        · rw [hk.num_rate, hk.den_rate]; exact hg
        · rw [hk.num_rate, hk.den_rate]; exact hr
        · intro _ _; rw [hk.num_rate, hk.den_rate]; exact hg
        · intro _; rw [hk.quality]; exact ⟨hqa, hqb⟩
      · obtain ⟨s, hs⟩ : ∃ s : SpeexResamplerState F, s =
            { st with in_rate := in_rate, out_rate := out_rate, num_rate := n, den_rate := d,
                      samp_frac_num :=
                        if st.den_rate > 0 then
                          (List.range st.nb_channels).foldl (rescale_frac d st.den_rate)
                            st.samp_frac_num
                        else st.samp_frac_num } := ⟨_, rfl⟩
        refine ⟨s, ?_, by rw [hs]; exact hg, by rw [hs]; exact hr,
          fun _ _ => by rw [hs]; exact hg, ?_⟩
        · simp only [speex_resampler_set_rate_frac, hsame, if_false, hred, hini, hs]
        · intro h; rw [hs] at h; exact absurd h hini
  · obtain ⟨st', he, hq, _, _, _, _, _, _, _, _, hrr, _⟩ := init_frac_some ops nb_channels
      ratio_num ratio_den in_rate out_rate quality hq0 hq1 hd hnb hdb
    rw [hred] at hrr
    have hnum : st'.num_rate = n := by injection hrr with h; injection h with h1 h2; exact h1.symm
    have hden : st'.den_rate = d := by injection hrr with h; injection h with h1 h2; exact h2.symm
    refine ⟨st', he, ?_, ?_, ?_, ?_⟩
    · rw [hnum, hden]; exact hg
    · rw [hnum, hden]; exact hr
    · intro _ _; rw [hnum, hden]; exact hg
    · intro _; rw [hq]; exact ⟨hq0, hq1⟩

/-- C1, witness: an initialised mono engine at ratio 3/2 and quality 5, asked
for 48000/44100; and the constructor on the same request. -/
theorem set_rate_frac_lowest_terms_witness :
    (1 ≤ 48000 ∧ 1 ≤ 44100 ∧ 48000 < U32 ∧ 44100 < U32) ∧
    ratio_reduced { fresh_state intOps 1 with
      num_rate := 3, den_rate := 2, quality := 5, initialised := 1 } ∧
    quality_valid { fresh_state intOps 1 with
      num_rate := 3, den_rate := 2, quality := 5, initialised := 1 } ∧
    (∃ st', speex_resampler_set_rate_frac intOps
        { fresh_state intOps 1 with
          num_rate := 3, den_rate := 2, quality := 5, initialised := 1 }
        48000 44100 48000 44100 = some (st', RESAMPLER_ERR_SUCCESS) ∧
      Nat.gcd st'.num_rate st'.den_rate = 1 ∧
      st'.num_rate * 44100 = st'.den_rate * 48000 ∧
      ratio_reduced st' ∧ quality_valid st') ∧
    (∃ st' : SpeexResamplerState Int,
      speex_resampler_init_frac intOps 1 48000 44100 48000 44100 5
        = some (some st', RESAMPLER_ERR_SUCCESS) ∧
      Nat.gcd st'.num_rate st'.den_rate = 1 ∧
      st'.num_rate * 44100 = st'.den_rate * 48000 ∧
      ratio_reduced st' ∧ quality_valid st') :=
  have h1 : ratio_reduced { fresh_state intOps 1 with
      num_rate := 3, den_rate := 2, quality := 5, initialised := 1 } := fun _ _ => by decide
  have h2 : quality_valid { fresh_state intOps 1 with
      num_rate := 3, den_rate := 2, quality := 5, initialised := 1 } := fun _ => by decide
  have h := set_rate_frac_lowest_terms intOps
    { fresh_state intOps 1 with num_rate := 3, den_rate := 2, quality := 5, initialised := 1 }
    1 5 48000 44100 48000 44100 (by decide) (by decide) (by decide) (by decide) h1 h2
    (by decide) (by decide)
  ⟨by decide, h1, h2, h.1, h.2⟩

/-! ## Construction and configuration -/

/-- The constructor returns the null pointer exactly for a quality outside
`[0, 10]`, whatever the other arguments are, and then stores
`RESAMPLER_ERR_INVALID_ARG`. -/
theorem init_frac_null_iff {F D : Type} (ops : FloatOps F D)
    (nb_channels ratio_num ratio_den in_rate out_rate : Nat) (quality : Int) :
    ((∃ e, speex_resampler_init_frac ops nb_channels ratio_num ratio_den in_rate out_rate
        quality = some ((none : Option (SpeexResamplerState F)), e)) ↔
      (quality < 0 ∨ quality > 10)) ∧
    ((quality < 0 ∨ quality > 10) →
      speex_resampler_init_frac ops nb_channels ratio_num ratio_den in_rate out_rate quality
        = some ((none : Option (SpeexResamplerState F)), RESAMPLER_ERR_INVALID_ARG)) := by
  have hbad : (quality < 0 ∨ quality > 10) →
      speex_resampler_init_frac ops nb_channels ratio_num ratio_den in_rate out_rate quality
        = some ((none : Option (SpeexResamplerState F)), RESAMPLER_ERR_INVALID_ARG) := by
    intro h
    have h' : quality > 10 ∨ quality < 0 := by omega
    simp only [speex_resampler_init_frac, h', if_true]
  refine ⟨⟨?_, fun h => ⟨_, hbad h⟩⟩, hbad⟩
  rintro ⟨e, he⟩
  by_contra hq
  have h' : ¬ (quality > 10 ∨ quality < 0) := by omega
  simp only [speex_resampler_init_frac, h', if_false] at he
  split at he
  · exact absurd he (by simp)
  · split at he
    · exact absurd he (by simp)
    · split at he
      · exact absurd he (by simp)
      · simp at he

/-- The ratio the claims use as their example: 48000/44100 reduces to 160/147. -/
theorem reduce_ratio_48000_44100 : reduce_ratio 48000 44100 = some (160, 147) := by
  decide

/-- C6.  `speex_resampler_init_frac` returns the null engine with
`RESAMPLER_ERR_INVALID_ARG` if and only if `quality < 0` or `quality > 10`; for
every quality in `[0, 10]` (and a ratio with a non-zero 32-bit denominator) it
returns an engine with `RESAMPLER_ERR_SUCCESS`, the quality stored,
`initialised = 1`, and cursor, phase and magic count `0` in every channel.
`speex_resampler_init` is the same call with the rates as ratio. -/
theorem init_frac_quality_gate {F D : Type} (ops : FloatOps F D)
    (nb_channels ratio_num ratio_den in_rate out_rate : Nat) (quality : Int)
    (hd : 1 ≤ ratio_den) (hnb : ratio_num < U32) (hdb : ratio_den < U32) :
    (speex_resampler_init_frac ops nb_channels ratio_num ratio_den in_rate out_rate quality
        = some ((none : Option (SpeexResamplerState F)), RESAMPLER_ERR_INVALID_ARG) ↔
      (quality < 0 ∨ quality > 10)) ∧
    ((∃ e, speex_resampler_init_frac ops nb_channels ratio_num ratio_den in_rate out_rate
        quality = some ((none : Option (SpeexResamplerState F)), e)) ↔
      (quality < 0 ∨ quality > 10)) ∧
    (0 ≤ quality → quality ≤ 10 →
      ∃ st : SpeexResamplerState F,
        speex_resampler_init_frac ops nb_channels ratio_num ratio_den in_rate out_rate quality
          = some (some st, RESAMPLER_ERR_SUCCESS) ∧
        st.quality = quality ∧ st.initialised = 1 ∧
        (∀ ch, ch < nb_channels →
          st.last_sample.get? ch = some 0 ∧ st.samp_frac_num.get? ch = some 0 ∧
          st.magic_samples.get? ch = some 0)) ∧
    (speex_resampler_init ops nb_channels ratio_num ratio_den quality
      = speex_resampler_init_frac ops nb_channels ratio_num ratio_den ratio_num ratio_den
          quality) := by
  obtain ⟨hiff, hbad⟩ := init_frac_null_iff ops nb_channels ratio_num ratio_den in_rate
    out_rate quality
  refine ⟨⟨fun h => hiff.1 ⟨_, h⟩, hbad⟩, hiff, ?_, rfl⟩
  intro hq0 hq1
  obtain ⟨st, he, hq, hi, _, _, hl, hf, hm, _⟩ := init_frac_some ops nb_channels ratio_num
    ratio_den in_rate out_rate quality hq0 hq1 hd hnb hdb
  refine ⟨st, he, hq, hi, ?_⟩
  intro ch hch
  rw [hl, hf, hm]
  simp [List.getElem?_replicate, hch]

/-- C6, witness: two channels, 44100 to 48000. -/
theorem init_frac_quality_gate_witness :
    (1 ≤ 48000 ∧ 44100 < U32 ∧ 48000 < U32) ∧
    (∀ quality : Int,
      (speex_resampler_init_frac intOps 2 44100 48000 44100 48000 quality
          = some ((none : Option (SpeexResamplerState Int)), RESAMPLER_ERR_INVALID_ARG) ↔
        (quality < 0 ∨ quality > 10))) ∧
    (∃ st : SpeexResamplerState Int,
      speex_resampler_init_frac intOps 2 44100 48000 44100 48000 7
        = some (some st, RESAMPLER_ERR_SUCCESS) ∧
      st.quality = 7 ∧ st.initialised = 1 ∧
      (∀ ch, ch < 2 →
        st.last_sample.get? ch = some 0 ∧ st.samp_frac_num.get? ch = some 0 ∧
        st.magic_samples.get? ch = some 0)) :=
  ⟨by decide,
   fun quality => (init_frac_quality_gate intOps 2 44100 48000 44100 48000 quality
      (by decide) (by decide) (by decide)).1,
   (init_frac_quality_gate intOps 2 44100 48000 44100 48000 7
      (by decide) (by decide) (by decide)).2.2.1 (by decide) (by decide)⟩

/-- C7, counterexample.  Quality 5 with no channel, and with a zero numerator:
the constructor returns an engine and `RESAMPLER_ERR_SUCCESS`.  With a zero
denominator: it does not return `(null, RESAMPLER_ERR_INVALID_ARG)` either
(`update_filter` divides by `den_rate`). -/
theorem init_frac_zero_not_rejected :
    (speex_resampler_init_frac intOps 0 48000 44100 48000 44100 5).map
        (fun r => (r.1.isSome, r.2)) = some (true, RESAMPLER_ERR_SUCCESS) ∧
    (speex_resampler_init_frac intOps 1 0 44100 0 44100 5).map
        (fun r => (r.1.isSome, r.2)) = some (true, RESAMPLER_ERR_SUCCESS) ∧
    speex_resampler_init_frac intOps 1 48000 0 48000 0 5 = none := by
  refine ⟨by rfl, by rfl, by rfl⟩

/-- C7, amended.  A zero channel count or a zero ratio numerator is not an
invalid argument: for every quality in `[0, 10]` and every non-zero 32-bit
denominator the constructor returns an engine with `RESAMPLER_ERR_SUCCESS`,
which holds that channel count and that numerator. -/
theorem init_frac_accepts_zero {F D : Type} (ops : FloatOps F D)
    (nb_channels ratio_num ratio_den in_rate out_rate : Nat) (quality : Int)
    (hz : nb_channels = 0 ∨ ratio_num = 0)
    (hq0 : 0 ≤ quality) (hq1 : quality ≤ 10) (hd : 1 ≤ ratio_den) (hdb : ratio_den < U32)
    (hnb : ratio_num < U32) :
    ∃ st : SpeexResamplerState F,
      speex_resampler_init_frac ops nb_channels ratio_num ratio_den in_rate out_rate quality
        = some (some st, RESAMPLER_ERR_SUCCESS) ∧
      st.nb_channels = nb_channels ∧ (ratio_num = 0 → st.num_rate = 0) := by
  obtain ⟨st, he, _, _, _, hnbc, _, _, _, _, _, hr, _⟩ := init_frac_some ops nb_channels
    ratio_num ratio_den in_rate out_rate quality hq0 hq1 hd hnb hdb
  refine ⟨st, he, hnbc, ?_⟩
  intro h0
  subst h0
  rw [reduce_ratio_small 0 ratio_den (by simp)] at hr
  injection hr with h
  injection h with h1 h2
  exact h1.symm

/-- C7, witness of the amended claim: no channel and a zero numerator. -/
theorem init_frac_accepts_zero_witness :
    (0 = 0 ∨ 0 = 0) ∧
    ∃ st : SpeexResamplerState Int,
      speex_resampler_init_frac intOps 0 0 44100 0 44100 3
        = some (some st, RESAMPLER_ERR_SUCCESS) ∧
      st.nb_channels = 0 ∧ ((0 : Nat) = 0 → st.num_rate = 0) :=
  ⟨Or.inl rfl, init_frac_accepts_zero intOps 0 0 44100 0 44100 3 (Or.inl rfl)
    (by decide) (by decide) (by decide) (by decide) (by decide)⟩

/-- C8.  `speex_resampler_set_quality` returns `RESAMPLER_ERR_INVALID_ARG`
exactly when the quality is outside `[0, 10]`, and the engine it returns then
is the engine it was given, field for field. -/
theorem set_quality_invalid_arg {F D : Type} (ops : FloatOps F D)
    (st : SpeexResamplerState F) (quality : Int) :
    ((∃ st', speex_resampler_set_quality ops st quality
        = some (st', RESAMPLER_ERR_INVALID_ARG)) ↔ (quality < 0 ∨ quality > 10)) ∧
    ((quality < 0 ∨ quality > 10) →
      speex_resampler_set_quality ops st quality = some (st, RESAMPLER_ERR_INVALID_ARG)) := by
  have hbad : (quality < 0 ∨ quality > 10) →
      speex_resampler_set_quality ops st quality = some (st, RESAMPLER_ERR_INVALID_ARG) := by
    intro h
    have h' : quality > 10 ∨ quality < 0 := by omega
    simp only [speex_resampler_set_quality, h', if_true]
  refine ⟨⟨?_, fun h => ⟨st, hbad h⟩⟩, hbad⟩
  rintro ⟨st', he⟩
  by_contra hq
  have h' : ¬ (quality > 10 ∨ quality < 0) := by omega
  simp only [speex_resampler_set_quality, h', if_false] at he
  split at he
  · simp at he
  · split at he
    · split at he
      · simp at he
      · simp at he
    · simp at he

/-- C9.  For a quality in `[0, 10]` the first `speex_resampler_set_quality`
returns `RESAMPLER_ERR_SUCCESS` with the quality stored, and a second call with
the same quality returns `RESAMPLER_ERR_SUCCESS` and the very same engine: its
count of `update_filter` calls has not moved.  (An initialised engine has a
non-zero `den_rate`.) -/
theorem set_quality_idempotent {F D : Type} (ops : FloatOps F D)
    (st : SpeexResamplerState F) (quality : Int)
    (hq0 : 0 ≤ quality) (hq1 : quality ≤ 10)
    (hden : st.initialised ≠ 0 → 1 ≤ st.den_rate) :
    ∃ st1, speex_resampler_set_quality ops st quality = some (st1, RESAMPLER_ERR_SUCCESS) ∧
      st1.quality = quality ∧
      speex_resampler_set_quality ops st1 quality = some (st1, RESAMPLER_ERR_SUCCESS) ∧
      ∀ st2 e, speex_resampler_set_quality ops st1 quality = some (st2, e) →
        st2 = st1 ∧ st2.update_filter_calls = st1.update_filter_calls := by
  have h' : ¬ (quality > 10 ∨ quality < 0) := by omega
  have hsecond : ∀ st1 : SpeexResamplerState F, st1.quality = quality →
      speex_resampler_set_quality ops st1 quality = some (st1, RESAMPLER_ERR_SUCCESS) := by
    intro st1 h
    simp only [speex_resampler_set_quality, h', if_false, h, if_true]
  have hfin : ∀ st1 : SpeexResamplerState F, st1.quality = quality →
      ∀ st2 e, speex_resampler_set_quality ops st1 quality = some (st2, e) →
        st2 = st1 ∧ st2.update_filter_calls = st1.update_filter_calls := by
    intro st1 h st2 e he
    rw [hsecond st1 h] at he
    injection he with he
    injection he with h1 h2
    subst h1
    exact ⟨rfl, rfl⟩
  by_cases hsame : st.quality = quality
  · exact ⟨st, hsecond st hsame, hsame, hsecond st hsame, hfin st hsame⟩
  · by_cases hini : st.initialised ≠ 0
    · obtain ⟨st1, he, hk, _, _⟩ := update_filter_some ops { st with quality := quality }
        hq0 hq1 (hden hini)
      have hq : st1.quality = quality := hk.quality
      refine ⟨st1, ?_, hq, hsecond st1 hq, hfin st1 hq⟩
      simp only [speex_resampler_set_quality, h', if_false, hsame, hini, ne_eq,
        not_false_eq_true, if_true, he]
    · refine ⟨{ st with quality := quality }, ?_, rfl, hsecond _ rfl, hfin _ rfl⟩
      simp only [speex_resampler_set_quality, h', if_false, hsame, hini]

/-- C9, witness: the engine for 48000 to 44100 at quality 5, set to quality 8. -/
theorem set_quality_idempotent_witness :
    ∃ st : SpeexResamplerState Int,
      speex_resampler_init intOps 1 48000 44100 5 = some (some st, RESAMPLER_ERR_SUCCESS) ∧
      (st.initialised ≠ 0 → 1 ≤ st.den_rate) ∧
      ∃ st1, speex_resampler_set_quality intOps st 8 = some (st1, RESAMPLER_ERR_SUCCESS) ∧
        st1.quality = 8 ∧
        speex_resampler_set_quality intOps st1 8 = some (st1, RESAMPLER_ERR_SUCCESS) ∧
        ∀ st2 e, speex_resampler_set_quality intOps st1 8 = some (st2, e) →
          st2 = st1 ∧ st2.update_filter_calls = st1.update_filter_calls := by
  obtain ⟨st, he, _, _, _, _, _, _, _, _, _, hr, _⟩ := init_frac_some intOps 1 48000 44100
    48000 44100 5 (by decide) (by decide) (by decide) (by decide) (by decide)
  have hred := reduce_ratio_48000_44100
  rw [hred] at hr
  have hden : st.den_rate = 147 := by
    injection hr with h; injection h with h1 h2; exact h2.symm
  have hd : st.initialised ≠ 0 → 1 ≤ st.den_rate := fun _ => by rw [hden]; decide
  exact ⟨st, he, hd, set_quality_idempotent intOps st 8 (by decide) (by decide) hd⟩

/-- Past the early return, `speex_resampler_set_rate_frac` on an initialised
engine enters `update_filter`. -/
theorem set_rate_frac_rebuild {F D : Type} (ops : FloatOps F D) (st : SpeexResamplerState F)
    (ratio_num ratio_den in_rate out_rate n d : Nat)
    (hsame : ¬ (st.in_rate = in_rate ∧ st.out_rate = out_rate ∧ st.num_rate = ratio_num
      ∧ st.den_rate = ratio_den))
    (hred : reduce_ratio ratio_num ratio_den = some (n, d))
    (hini : st.initialised ≠ 0) (hq0 : 0 ≤ st.quality) (hq1 : st.quality ≤ 10)
    (hd : 1 ≤ d) :
    ∃ st', speex_resampler_set_rate_frac ops st ratio_num ratio_den in_rate out_rate
        = some (st', RESAMPLER_ERR_SUCCESS) ∧
      st'.num_rate = n ∧ st'.den_rate = d ∧
      st'.update_filter_calls = st.update_filter_calls + 1 := by
  obtain ⟨st', he', hk, hcalls, _⟩ := update_filter_some ops
    { st with in_rate := in_rate, out_rate := out_rate, num_rate := n, den_rate := d,
              samp_frac_num :=
                if st.den_rate > 0 then
                  (List.range st.nb_channels).foldl (rescale_frac d st.den_rate)
                    st.samp_frac_num
                else st.samp_frac_num }
    hq0 hq1 hd
  refine ⟨st', ?_, hk.num_rate, hk.den_rate, hcalls⟩
  simp only [speex_resampler_set_rate_frac, hsame, if_false, hred, hini, ne_eq,
    not_false_eq_true, if_true, he']

/-- C10, the code at the failing input.  On the engine built for 48000 to 44100
at quality 5 (any channel count, any floating-point model) the stored ratio is
160/147, so the test of rs4.h:936 compares 160 with 48000: a second
`speex_resampler_set_rate_frac` with the arguments of the construction does not
take the early return and enters `update_filter` once more. -/
theorem set_rate_frac_rebuilds_on_same_request {F D : Type} (ops : FloatOps F D)
    (nb_channels : Nat) :
    ∃ st st' : SpeexResamplerState F,
      speex_resampler_init_frac ops nb_channels 48000 44100 48000 44100 5
        = some (some st, RESAMPLER_ERR_SUCCESS) ∧
      st.num_rate = 160 ∧ st.den_rate = 147 ∧
      speex_resampler_set_rate_frac ops st 48000 44100 48000 44100
        = some (st', RESAMPLER_ERR_SUCCESS) ∧
      st'.num_rate = 160 ∧ st'.den_rate = 147 ∧
      st'.update_filter_calls = st.update_filter_calls + 1 := by
  obtain ⟨st, he, hq, hi, _, _, _, _, _, hir, hor, hr, _⟩ := init_frac_some ops nb_channels
    48000 44100 48000 44100 5 (by decide) (by decide) (by decide) (by decide) (by decide)
  have hred := reduce_ratio_48000_44100
  rw [hred] at hr
  have hnum : st.num_rate = 160 := by
    injection hr with h; injection h with h1 h2; exact h1.symm
  have hden : st.den_rate = 147 := by
    injection hr with h; injection h with h1 h2; exact h2.symm
  have hsame : ¬ (st.in_rate = 48000 ∧ st.out_rate = 44100 ∧ st.num_rate = 48000
      ∧ st.den_rate = 44100) := by
    rw [hnum]; simp
  have hini : st.initialised ≠ 0 := by rw [hi]; decide
  obtain ⟨st', he', hn', hd', hc'⟩ := set_rate_frac_rebuild ops st 48000 44100 48000 44100
    160 147 hsame hred hini (by rw [hq]; decide) (by rw [hq]; decide) (by decide)
  exact ⟨st, st', he, hnum, hden, he', hn', hd', hc'⟩

/-! ## The orbit of the cursor -/

theorem scatter_append {F : Type} (ys zs : List F) :
    ∀ (out : List F) (opos stride : Nat),
      scatter out opos stride (ys ++ zs)
        = scatter (scatter out opos stride ys) (opos + ys.length * stride) stride zs := by
  induction ys with
  | nil => intro out opos stride; simp [scatter]
  | cons y ys ih =>
    intro out opos stride
    show scatter (out.set opos y) (opos + stride) stride (ys ++ zs) = _
    rw [ih]
    simp only [scatter, List.length_cons]
    congr 1
    ring

theorem scatter_length {F : Type} (ys : List F) :
    ∀ (out : List F) (opos stride : Nat), (scatter out opos stride ys).length = out.length := by
  induction ys with
  | nil => intro out opos stride; rfl
  | cons y ys ih => intro out opos stride; simp only [scatter]; rw [ih]; simp

/-- The kernel loop is the orbit, its samples stored at stride `out_stride`. -/
theorem to_int_small (v : Nat) (h : v < 2147483648) : to_int v = (v : Int) := by
  unfold to_int
  have e : v % U32 = v := Nat.mod_eq_of_lt (by simp only [U32]; omega)
  rw [e, if_pos h]

theorem int_len_small (v : Nat) (h : v < 2147483648) : int_len v = v := by
  unfold int_len
  rw [to_int_small v h]
  rfl

/-- A 32-bit length of `2^31` or more is negative as an `int`: it stands for no
sample at all. -/
theorem int_len_negative (v : Nat) (h1 : 2147483648 ≤ v) (h2 : v < U32) : int_len v = 0 := by
  unfold int_len to_int
  have e : v % U32 = v := Nat.mod_eq_of_lt h2
  rw [e, if_neg (by omega)]
  simp only [U32] at h2
  omega

theorem int_len_le (v : Nat) : int_len v ≤ v := by
  unfold int_len to_int
  have h := Nat.mod_le v U32
  split_ifs <;> omega

theorem int_ge_iff (k v : Nat) : ((k : Int) ≥ to_int v) ↔ k ≥ int_len v := by
  unfold int_len
  omega

theorem int_lt_iff (k v : Nat) : ((k : Int) < to_int v) ↔ k < int_len v := by
  unfold int_len
  omega

/-- The loop of the kernels yields the orbit over the lengths its test reads:
`(int)*in_len` and `(int)*out_len`, no sample where they are negative. -/
theorem kernel_loop_eq_orbit {F : Type} (sample : Nat → Nat → F)
    (ia fa den stride n out_len opos : Nat) :
    ∀ (fuel os L f : Nat) (out : List F), int_len out_len ≤ os + fuel →
      kernel_loop sample ia fa den stride n out_len opos fuel os L f out
        = (os + (orbit sample ia fa den (int_len n) (int_len out_len - os) L f).1.length,
           (orbit sample ia fa den (int_len n) (int_len out_len - os) L f).2.1,
           (orbit sample ia fa den (int_len n) (int_len out_len - os) L f).2.2,
           scatter out (opos + stride * os) stride
             (orbit sample ia fa den (int_len n) (int_len out_len - os) L f).1) := by
  intro fuel
  induction fuel with
  | zero =>
    intro os L f out h
    have e : int_len out_len - os = 0 := by omega
    rw [e]
    simp [kernel_loop, orbit, scatter]
  | succ fuel ih =>
    intro os L f out h
    by_cases hL : L ≥ int_len n
    · have c1 : (L : Int) ≥ to_int n := (int_ge_iff L n).mpr hL
      have e : ∀ c, orbit sample ia fa den (int_len n) c L f = ([], L, f) := by
        intro c
        cases c <;> simp [orbit, hL]
      rw [e]
      simp [kernel_loop, c1, scatter]
    · by_cases hos : os ≥ int_len out_len
      · have c2 : (os : Int) ≥ to_int out_len := (int_ge_iff os out_len).mpr hos
        have e : int_len out_len - os = 0 := by omega
        rw [e]
        simp [kernel_loop, c2, orbit, scatter]
      · have c1 : ¬ (L : Int) ≥ to_int n := fun hh => hL ((int_ge_iff L n).mp hh)
        have c2 : ¬ (os : Int) ≥ to_int out_len := fun hh => hos ((int_ge_iff os out_len).mp hh)
        have e : int_len out_len - os = (int_len out_len - (os + 1)) + 1 := by omega
        rw [e]
        simp only [kernel_loop, c1, c2, or_self, if_false, orbit, hL]
        rw [ih (os + 1) _ _ _ (by omega)]
        simp only [List.length_cons, scatter]
        refine Prod.ext (by simp only []; omega) (Prod.ext rfl (Prod.ext rfl ?_))
        simp only []
        congr 1
        ring

theorem orbit_congr {F : Type} (smp smp' : Nat → Nat → F) (ia fa den n : Nat)
    (h : ∀ L f, L < n → smp L f = smp' L f) :
    ∀ (c L f : Nat), orbit smp ia fa den n c L f = orbit smp' ia fa den n c L f := by
  intro c
  induction c with
  | zero => intro L f; rfl
  | succ c ih =>
    intro L f
    by_cases hL : L ≥ n
    · simp [orbit, hL]
    · simp only [orbit, hL, if_false]
      rw [ih, h L f (by omega)]

theorem advance_fst_ge (ia fa den L f : Nat) : L ≤ (advance ia fa den L f).1 := by
  unfold advance
  simp only []
  split <;> simp only [] <;> omega

theorem orbit_length_le {F : Type} (smp : Nat → Nat → F) (ia fa den n : Nat) :
    ∀ (c L f : Nat), (orbit smp ia fa den n c L f).1.length ≤ c := by
  intro c
  induction c with
  | zero => intro L f; simp [orbit]
  | succ c ih =>
    intro L f
    by_cases hL : L ≥ n
    · simp [orbit, hL]
    · simp only [orbit, hL, if_false, List.length_cons]
      have := ih (advance ia fa den L f).1 (advance ia fa den L f).2
      omega

theorem orbit_cursor_ge {F : Type} (smp : Nat → Nat → F) (ia fa den n : Nat) :
    ∀ (c L f : Nat), L ≤ (orbit smp ia fa den n c L f).2.1 := by
  intro c
  induction c with
  | zero => intro L f; simp [orbit]
  | succ c ih =>
    intro L f
    by_cases hL : L ≥ n
    · simp [orbit, hL]
    · simp only [orbit, hL, if_false]
      have h1 := ih (advance ia fa den L f).1 (advance ia fa den L f).2
      have h2 := advance_fst_ge ia fa den L f
      omega

/-- An orbit that stops short of its capacity has run out of input. -/
theorem orbit_stops {F : Type} (smp : Nat → Nat → F) (ia fa den n : Nat) :
    ∀ (c L f : Nat), (orbit smp ia fa den n c L f).1.length < c →
      n ≤ (orbit smp ia fa den n c L f).2.1 := by
  intro c
  induction c with
  | zero => intro L f h; simp [orbit] at h
  | succ c ih =>
    intro L f h
    by_cases hL : L ≥ n
    · simp [orbit, hL]
    · simp only [orbit, hL, if_false, List.length_cons] at h ⊢
      exact ih _ _ (by omega)

/-- An orbit that produced something started inside the input. -/
theorem orbit_nil_of_ge {F : Type} (smp : Nat → Nat → F) (ia fa den n c L f : Nat)
    (h : n ≤ L) : orbit smp ia fa den n c L f = ([], L, f) := by
  cases c with
  | zero => rfl
  | succ c => simp [orbit, h]

theorem orbit_pos_of_lt {F : Type} (smp : Nat → Nat → F) (ia fa den n c L f : Nat)
    (h : L < n) (hc : 1 ≤ c) : 1 ≤ (orbit smp ia fa den n c L f).1.length := by
  cases c with
  | zero => omega
  | succ c =>
    have hL : ¬ (L ≥ n) := by omega
    simp [orbit, hL]

/-- Running to the limit `m ≤ n` first and then on to `n` is running to `n`. -/
theorem orbit_limit_split {F : Type} (smp : Nat → Nat → F) (ia fa den m n : Nat)
    (hmn : m ≤ n) :
    ∀ (c L f : Nat),
      orbit smp ia fa den n c L f
        = ((orbit smp ia fa den m c L f).1 ++
            (orbit smp ia fa den n (c - (orbit smp ia fa den m c L f).1.length)
              (orbit smp ia fa den m c L f).2.1 (orbit smp ia fa den m c L f).2.2).1,
           (orbit smp ia fa den n (c - (orbit smp ia fa den m c L f).1.length)
              (orbit smp ia fa den m c L f).2.1 (orbit smp ia fa den m c L f).2.2).2) := by
  intro c
  induction c with
  | zero => intro L f; simp [orbit]
  | succ c ih =>
    intro L f
    by_cases hm : L ≥ m
    · simp [orbit, hm]
    · have hn : ¬ (L ≥ n) := by omega
      simp only [orbit, hm, hn, if_false, List.length_cons, List.cons_append,
        Nat.add_sub_add_right]
      rw [ih]

/-- Capacity splits: `c1` outputs and then `c2` more are `c1 + c2` outputs. -/
theorem orbit_cap_split {F : Type} (smp : Nat → Nat → F) (ia fa den n c2 : Nat) :
    ∀ (c1 L f : Nat),
      orbit smp ia fa den n (c1 + c2) L f
        = ((orbit smp ia fa den n c1 L f).1 ++
            (orbit smp ia fa den n c2
              (orbit smp ia fa den n c1 L f).2.1 (orbit smp ia fa den n c1 L f).2.2).1,
           (orbit smp ia fa den n c2
              (orbit smp ia fa den n c1 L f).2.1 (orbit smp ia fa den n c1 L f).2.2).2) := by
  intro c1
  induction c1 with
  | zero => intro L f; simp [orbit]
  | succ c1 ih =>
    intro L f
    by_cases hn : L ≥ n
    · rw [orbit_nil_of_ge smp ia fa den n _ L f hn, orbit_nil_of_ge smp ia fa den n _ L f hn]
      simp only [List.nil_append]
      rw [orbit_nil_of_ge smp ia fa den n _ L f hn]
    · have e : c1 + 1 + c2 = (c1 + c2) + 1 := by omega
      rw [e]
      simp only [orbit, hn, if_false, List.cons_append]
      rw [ih]

/-- An orbit that stops short of its capacity is the orbit of any larger capacity. -/
theorem orbit_cap_irrelevant {F : Type} (smp : Nat → Nat → F) (ia fa den n : Nat)
    (c c' L f : Nat) (h : (orbit smp ia fa den n c L f).1.length < c) (hc : c ≤ c') :
    orbit smp ia fa den n c' L f = orbit smp ia fa den n c L f := by
  obtain ⟨d, rfl⟩ : ∃ d, c' = c + d := ⟨c' - c, by omega⟩
  rw [orbit_cap_split]
  have hs := orbit_stops smp ia fa den n c L f h
  rw [orbit_nil_of_ge smp ia fa den n d _ _ hs]
  simp

/-- The orbit seen from `k` samples further on in the stream. -/
theorem orbit_shift {F : Type} (smp : Nat → Nat → F) (ia fa den n k : Nat) (hk : k ≤ n) :
    ∀ (c L f : Nat), k ≤ L →
      orbit (fun L f => smp (L + k) f) ia fa den (n - k) c (L - k) f
        = ((orbit smp ia fa den n c L f).1, (orbit smp ia fa den n c L f).2.1 - k,
           (orbit smp ia fa den n c L f).2.2) := by
  intro c
  induction c with
  | zero => intro L f _; simp [orbit]
  | succ c ih =>
    intro L f hL
    by_cases hn : L ≥ n
    · have : L - k ≥ n - k := by omega
      simp [orbit, hn, this]
    · have hn' : ¬ (L - k ≥ n - k) := by omega
      simp only [orbit, hn, hn', if_false]
      have hadv : advance ia fa den (L - k) f
          = ((advance ia fa den L f).1 - k, (advance ia fa den L f).2) := by
        unfold advance
        simp only []
        split <;> simp only [Prod.mk.injEq, and_true] <;> omega
      have hge := advance_fst_ge ia fa den L f
      rw [hadv]
      simp only []
      rw [ih _ _ (by omega)]
      simp only [Prod.mk.injEq, List.cons.injEq, and_true, true_and]
      congr 1
      omega

/-- Where the orbit stands after its outputs: the position `cursor * den + phase`
has moved by `num` for each output, and the phase stays below `den`. -/
theorem advance_position (num den L f : Nat) (hden : 1 ≤ den) (hw : den ≤ 2147483648)
    (hf : f < den) :
    (advance (num / den) (num % den) den L f).1 * den
        + (advance (num / den) (num % den) den L f).2 = L * den + f + num ∧
    (advance (num / den) (num % den) den L f).2 < den := by
  have hmod : num % den < den := Nat.mod_lt _ (by omega)
  have hdm : den * (num / den) + num % den = num := Nat.div_add_mod num den
  have hm : (f + num % den) % U32 = f + num % den :=
    Nat.mod_eq_of_lt (by simp only [U32]; omega)
  unfold advance
  simp only []
  rw [hm]
  split
  · rename_i hge
    refine ⟨?_, by omega⟩
    have e : (L + num / den + 1) * den = L * den + den * (num / den) + den := by ring
    rw [e]
    omega
  · rename_i hlt
    refine ⟨?_, by omega⟩
    have e : (L + num / den) * den = L * den + den * (num / den) := by ring
    rw [e]
    omega

theorem orbit_position {F : Type} (smp : Nat → Nat → F) (num den n : Nat) (hden : 1 ≤ den)
    (hw : den ≤ 2147483648) :
    ∀ (c L f : Nat), f < den →
      (orbit smp (num / den) (num % den) den n c L f).2.1 * den
          + (orbit smp (num / den) (num % den) den n c L f).2.2
        = L * den + f + (orbit smp (num / den) (num % den) den n c L f).1.length * num ∧
      (orbit smp (num / den) (num % den) den n c L f).2.2 < den := by
  intro c
  induction c with
  | zero => intro L f hf; simp [orbit, hf]
  | succ c ih =>
    intro L f hf
    by_cases hL : L ≥ n
    · simp [orbit, hL, hf]
    · simp only [orbit, hL, if_false, List.length_cons]
      obtain ⟨h1, h2⟩ := advance_position num den L f hden hw hf
      obtain ⟨h3, h4⟩ := ih _ _ h2
      refine ⟨?_, h4⟩
      rw [h3, h1]
      ring

/-- Every output of the orbit is taken at a position inside the input: the
last one at a position below `n * den`. -/
theorem orbit_last_inside {F : Type} (smp : Nat → Nat → F) (num den n : Nat)
    (hden : 1 ≤ den) (hw : den ≤ 2147483648) :
    ∀ (c L f : Nat), f < den →
      1 ≤ (orbit smp (num / den) (num % den) den n c L f).1.length →
      L * den + f + ((orbit smp (num / den) (num % den) den n c L f).1.length - 1) * num
        < n * den := by
  intro c
  induction c with
  | zero => intro L f _ h; simp [orbit] at h
  | succ c ih =>
    intro L f hf hk
    by_cases hL : L ≥ n
    · simp [orbit, hL] at hk
    · simp only [orbit, hL, if_false, List.length_cons, Nat.add_sub_cancel] at hk ⊢
      obtain ⟨h1, h2⟩ := advance_position num den L f hden hw hf
      by_cases hk' : 1 ≤ (orbit smp (num / den) (num % den) den n c
          (advance (num / den) (num % den) den L f).1
          (advance (num / den) (num % den) den L f).2).1.length
      · have h3 := ih _ _ h2 hk'
        rw [h1] at h3
        obtain ⟨k, hk2⟩ := Nat.exists_eq_add_of_le' hk'
        rw [hk2] at h3 ⊢
        simp only [Nat.add_sub_cancel] at h3
        have e : (k + 1) * num = num + k * num := by ring
        rw [e]
        omega
      · have h0 : (orbit smp (num / den) (num % den) den n c
          (advance (num / den) (num % den) den L f).1
          (advance (num / den) (num % den) den L f).2).1.length = 0 := by omega
        rw [h0]
        have hlt : L + 1 ≤ n := by omega
        have : (L + 1) * den ≤ n * den := Nat.mul_le_mul_right den hlt
        have e : (L + 1) * den = L * den + den := by ring
        simp only [Nat.zero_mul, Nat.add_zero]
        omega

/-- The number of outputs never exceeds `ceil (n * den / num)`. -/
theorem orbit_length_bound {F : Type} (smp : Nat → Nat → F) (num den n : Nat)
    (hden : 1 ≤ den) (hw : den ≤ 2147483648) (hnum : 1 ≤ num) (c L f : Nat) (hf : f < den) :
    (orbit smp (num / den) (num % den) den n c L f).1.length
      ≤ (n * den + num - 1) / num := by
  rw [Nat.le_div_iff_mul_le (by omega)]
  by_cases hk : 1 ≤ (orbit smp (num / den) (num % den) den n c L f).1.length
  · have h := orbit_last_inside smp num den n hden hw c L f hf hk
    obtain ⟨k, hk2⟩ := Nat.exists_eq_add_of_le' hk
    rw [hk2] at h ⊢
    simp only [Nat.add_sub_cancel] at h
    have e : (k + 1) * num = k * num + num := by ring
    rw [e]
    omega
  · have h0 : (orbit smp (num / den) (num % den) den n c L f).1.length = 0 := by omega
    rw [h0]
    simp

theorem getD_set_eq {F : Type} (l : List F) (i j : Nat) (a z : F) :
    (l.set i a).getD j z = if i = j ∧ i < l.length then a else l.getD j z := by
  rw [List.getD_eq_getElem?_getD, List.getD_eq_getElem?_getD, List.getElem?_set]
  by_cases h : i = j
  · subst h
    by_cases hl : i < l.length
    · rw [if_pos rfl, if_pos hl, if_pos ⟨rfl, hl⟩]; rfl
    · rw [if_pos rfl, if_neg hl, if_neg (fun h => hl h.2),
        List.getElem?_eq_none (by omega)]
  · rw [if_neg h, if_neg (fun h' => h h'.1)]

theorem foldl_range_congr {α : Type} (g g' : α → Nat → α) (n : Nat)
    (h : ∀ a j, j < n → g a j = g' a j) (a : α) :
    (List.range n).foldl g a = (List.range n).foldl g' a := by
  induction n generalizing a with
  | zero => rfl
  | succ n ih =>
    simp only [List.range_succ, List.foldl_append, List.foldl_cons, List.foldl_nil]
    rw [ih (fun a j hj => h a j (by omega)), h _ n (by omega)]

/-- The loop of `shift_history`: it moves the `N - 1` samples from offset `ilen`
to offset `0` of the channel and touches nothing else. -/
theorem shift_history_spec {F D : Type} (ops : FloatOps F D) (base N ilen : Nat)
    (mem : List F) :
    (shift_history ops base N ilen mem).length = mem.length ∧
    (∀ i, (i < base ∨ base + (N - 1) ≤ i) →
      (shift_history ops base N ilen mem).getD i ops.zero = mem.getD i ops.zero) ∧
    (∀ j, j < N - 1 →
      (shift_history ops base N ilen mem).getD (base + j) ops.zero
        = mem.getD (base + (j + ilen)) ops.zero) := by
  unfold shift_history
  generalize N - 1 = n
  induction n with
  | zero =>
    refine ⟨rfl, fun i _ => rfl, fun j hj => absurd hj (by omega)⟩
  | succ n ih =>
    obtain ⟨h1, h2, h3⟩ := ih
    rw [List.range_succ, List.foldl_append]
    simp only [List.foldl_cons, List.foldl_nil]
    refine ⟨by rw [List.length_set]; exact h1, ?_, ?_⟩
    · intro i hi
      rw [getD_set_eq, if_neg (by omega)]
      exact h2 i (by omega)
    · intro j hj
      rw [getD_set_eq]
      by_cases hjn : j = n
      · subst hjn
        rw [h2 (base + (j + ilen)) (by omega)]
        by_cases hl : base + j < mem.length
        · rw [if_pos ⟨rfl, by rw [h1]; exact hl⟩]
        · rw [if_neg (by rw [h1]; omega), h2 (base + j) (by omega),
            List.getD_eq_default _ _ (by omega), List.getD_eq_default _ _ (by omega)]
      · rw [if_neg (by omega)]
        exact h3 j (by omega)

theorem gather_length {F D : Type} (ops : FloatOps F D) (inp : Option (List F))
    (istride n : Nat) : (gather ops inp istride n).length = n := by
  unfold gather
  rw [List.length_map, List.length_range]

theorem gather_getD {F D : Type} (ops : FloatOps F D) (inp : Option (List F))
    (istride n j : Nat) (hj : j < n) :
    (gather ops inp istride n).getD j ops.zero = input_sample ops inp (j * istride) := by
  unfold gather
  rw [List.getD_eq_getElem?_getD, List.getElem?_map, List.getElem?_range hj]
  rfl

/-- The loop of `copy_input`: it stores the gathered input behind the history
and touches nothing else. -/
theorem copy_input_spec {F D : Type} (ops : FloatOps F D) (base filt_offs istride n : Nat)
    (inp : Option (List F)) (mem : List F) (hlen : base + (n + filt_offs) ≤ mem.length) :
    (copy_input ops base filt_offs istride n inp mem).length = mem.length ∧
    (∀ i, (i < base + filt_offs ∨ base + (n + filt_offs) ≤ i) →
      (copy_input ops base filt_offs istride n inp mem).getD i ops.zero
        = mem.getD i ops.zero) ∧
    (∀ j, j < n →
      (copy_input ops base filt_offs istride n inp mem).getD (base + (j + filt_offs)) ops.zero
        = (gather ops inp istride n).getD j ops.zero) := by
  unfold copy_input
  induction n with
  | zero =>
    refine ⟨rfl, fun i _ => rfl, fun j hj => absurd hj (by omega)⟩
  | succ n ih =>
    obtain ⟨h1, h2, h3⟩ := ih (by omega)
    rw [List.range_succ, List.foldl_append]
    simp only [List.foldl_cons, List.foldl_nil]
    refine ⟨by rw [List.length_set]; exact h1, ?_, ?_⟩
    · intro i hi
      rw [getD_set_eq, if_neg (by omega)]
      exact h2 i (by omega)
    · intro j hj
      rw [getD_set_eq, gather_getD ops inp istride (n + 1) j hj]
      by_cases hjn : j = n
      · subst hjn
        rw [if_pos ⟨rfl, by rw [h1]; omega⟩]
      · rw [if_neg (by omega), h3 j (by omega), gather_getD ops inp istride n j (by omega)]

/-! ## One call of a kernel -/

/-- A kernel reads its input only at the `filt_len` offsets `0 .. filt_len - 1`
of `iptr` (for the unrolled kernel: when `filt_len` is a multiple of 4). -/
theorem kernel_sample_congr {F D : Type} (ops : FloatOps F D) (f : resampler_basic_func)
    (N os den : Nat) (tbl : List F) (ph : Nat) (iptr iptr' : Nat → F)
    (h4 : N % 4 = 0) (h : ∀ j, j < N → iptr j = iptr' j) :
    kernel_sample ops f N os den tbl ph iptr = kernel_sample ops f N os den tbl ph iptr' := by
  cases f with
  | resampler_basic_direct_single =>
    simp only [kernel_sample, direct_single_sample]
    apply foldl_range_congr
    intro a j hj
    rw [h j hj]
  | resampler_basic_direct_double =>
    have e : direct_double_accum ops N tbl ph iptr = direct_double_accum ops N tbl ph iptr' := by
      unfold direct_double_accum
      apply foldl_range_congr
      intro a k hk
      have hk' : 4 * k + 3 < N := by omega
      rw [h (4 * k) (by omega), h (4 * k + 1) (by omega), h (4 * k + 2) (by omega),
        h (4 * k + 3) hk']
    simp only [kernel_sample, direct_double_sample, e]
  | resampler_basic_interpolate_single =>
    have e : ∀ off, interpolate_single_accum ops N os off tbl iptr
        = interpolate_single_accum ops N os off tbl iptr' := by
      intro off
      unfold interpolate_single_accum
      apply foldl_range_congr
      intro a j hj
      rw [h j hj]
    simp only [kernel_sample, interpolate_single_sample, e]
  | resampler_basic_interpolate_double =>
    have e : ∀ off, interpolate_double_accum ops N os off tbl iptr
        = interpolate_double_accum ops N os off tbl iptr' := by
      intro off
      unfold interpolate_double_accum
      apply foldl_range_congr
      intro a j hj
      rw [h j hj]
    simp only [kernel_sample, interpolate_double_sample, e]

theorem getD_set_self {α : Type} (l : List α) (i : Nat) (a d : α) (h : i < l.length) :
    (l.set i a).getD i d = a := by
  rw [getD_set_eq, if_pos ⟨rfl, h⟩]

/-- One call of `speex_resampler_process_native` on a channel whose memory
holds the stream `S` in its first `n + filt_len - 1` cells: the outputs are the
orbit over `S`, the call consumes `min n cursor` samples and shifts the memory
by as many. -/
theorem process_native_spec {F D : Type} (ops : FloatOps F D) (st : SpeexResamplerState F)
    (ch n : Nat) (out : List F) (opos c : Nat) (m : List F) (f : resampler_basic_func)
    (S : List F)
    (hmem : st.mem = some m) (hptr : st.resampler_ptr = some f)
    (hden : 1 ≤ st.den_rate) (hN4 : st.filt_len % 4 = 0)
    (hch1 : ch < st.last_sample.length)
    (hS : ∀ i, i < n + (st.filt_len - 1) →
      m.getD (ch * st.mem_alloc_size + i) ops.zero = S.getD i ops.zero)
    (hn : n < 2147483648) (hc : c < 2147483648) :
    speex_resampler_process_native ops st ch n out opos c
      = some
        { st :=
            { st with
              started := 1,
              last_sample := st.last_sample.set ch
                ((orbit (fun L ph => kernel_sample ops f st.filt_len st.oversample st.den_rate
                    (st.sinc_table.getD []) ph (fun j => S.getD (L + j) ops.zero))
                  st.int_advance st.frac_advance st.den_rate n c
                  (st.last_sample.getD ch 0) (st.samp_frac_num.getD ch 0)).2.1
                 - min n (orbit (fun L ph => kernel_sample ops f st.filt_len st.oversample
                    st.den_rate (st.sinc_table.getD []) ph (fun j => S.getD (L + j) ops.zero))
                  st.int_advance st.frac_advance st.den_rate n c
                  (st.last_sample.getD ch 0) (st.samp_frac_num.getD ch 0)).2.1),
              samp_frac_num := st.samp_frac_num.set ch
                (orbit (fun L ph => kernel_sample ops f st.filt_len st.oversample st.den_rate
                    (st.sinc_table.getD []) ph (fun j => S.getD (L + j) ops.zero))
                  st.int_advance st.frac_advance st.den_rate n c
                  (st.last_sample.getD ch 0) (st.samp_frac_num.getD ch 0)).2.2,
              mem := some (shift_history ops (ch * st.mem_alloc_size) st.filt_len
                (min n (orbit (fun L ph => kernel_sample ops f st.filt_len st.oversample
                    st.den_rate (st.sinc_table.getD []) ph (fun j => S.getD (L + j) ops.zero))
                  st.int_advance st.frac_advance st.den_rate n c
                  (st.last_sample.getD ch 0) (st.samp_frac_num.getD ch 0)).2.1) m) },
          in_len := min n (orbit (fun L ph => kernel_sample ops f st.filt_len st.oversample
                    st.den_rate (st.sinc_table.getD []) ph (fun j => S.getD (L + j) ops.zero))
                  st.int_advance st.frac_advance st.den_rate n c
                  (st.last_sample.getD ch 0) (st.samp_frac_num.getD ch 0)).2.1,
          out := scatter out opos st.out_stride
            (orbit (fun L ph => kernel_sample ops f st.filt_len st.oversample st.den_rate
                (st.sinc_table.getD []) ph (fun j => S.getD (L + j) ops.zero))
              st.int_advance st.frac_advance st.den_rate n c
              (st.last_sample.getD ch 0) (st.samp_frac_num.getD ch 0)).1,
          out_len :=
            (orbit (fun L ph => kernel_sample ops f st.filt_len st.oversample st.den_rate
                (st.sinc_table.getD []) ph (fun j => S.getD (L + j) ops.zero))
              st.int_advance st.frac_advance st.den_rate n c
              (st.last_sample.getD ch 0) (st.samp_frac_num.getD ch 0)).1.length,
          status := RESAMPLER_ERR_SUCCESS } := by
  have hd0 : ¬ ((f = resampler_basic_func.resampler_basic_interpolate_single
      ∨ f = resampler_basic_func.resampler_basic_interpolate_double) ∧ st.den_rate = 0) := by
    omega
  have hcongr : orbit (fun L ph => kernel_sample ops f st.filt_len st.oversample st.den_rate
        (st.sinc_table.getD []) ph
        (fun j => m.getD (ch * st.mem_alloc_size + (L + j)) ops.zero))
      st.int_advance st.frac_advance st.den_rate n c
      (st.last_sample.getD ch 0) (st.samp_frac_num.getD ch 0)
      = orbit (fun L ph => kernel_sample ops f st.filt_len st.oversample st.den_rate
        (st.sinc_table.getD []) ph (fun j => S.getD (L + j) ops.zero))
      st.int_advance st.frac_advance st.den_rate n c
      (st.last_sample.getD ch 0) (st.samp_frac_num.getD ch 0) := by
    apply orbit_congr
    intro L ph hL
    apply kernel_sample_congr ops f _ _ _ _ _ _ _ hN4
    intro j hj
    exact hS (L + j) (by omega)
  have hguard : ∀ a b : Nat, ¬ (a < if a < b then a else b) := by
    intro a b; split <;> omega
  unfold speex_resampler_process_native
  rw [hmem, hptr]
  simp only [resampler_basic, hd0, if_false]
  rw [kernel_loop_eq_orbit _ _ _ _ _ _ _ _ _ _ _ _ _ (by have := int_len_le c; omega),
    int_len_small n hn, int_len_small c hc, Nat.sub_zero, hcongr]
  simp only [Nat.mul_zero, Nat.add_zero, Nat.zero_add, getD_set_self _ _ _ _ hch1,
    List.set_set, to_int_small n hn, Nat.cast_lt, hguard, if_false]
  congr 1
  have hmin : ∀ a b : Nat, (if a < b then a else b) = min b a := by
    intro a b; simp only [Nat.min_def]; split <;> split <;> omega
  simp only [hmin]

/-! ## The chunk loop -/

theorem set_getD_same {α : Type} (l : List α) (i : Nat) (d : α) (h : i < l.length) :
    l.set i (l.getD i d) = l := by
  apply List.ext_getElem?
  intro j
  rw [List.getElem?_set]
  by_cases hj : i = j
  · subst hj
    rw [if_pos rfl, if_pos h, List.getD_eq_getElem _ _ h, List.getElem?_eq_getElem h]
  · rw [if_neg hj]

theorem history_length {F D : Type} (ops : FloatOps F D) (st : SpeexResamplerState F)
    (ch : Nat) : (history ops st ch).length = st.filt_len - 1 := by
  unfold history
  rw [List.length_map, List.length_range]

theorem history_getD {F D : Type} (ops : FloatOps F D) (st : SpeexResamplerState F)
    (ch : Nat) (m : List F) (hm : st.mem = some m) (i : Nat) (hi : i < st.filt_len - 1) :
    (history ops st ch).getD i ops.zero = m.getD (ch * st.mem_alloc_size + i) ops.zero := by
  unfold history
  rw [List.getD_eq_getElem?_getD, List.getElem?_map, List.getElem?_range hi, hm]
  rfl

theorem getD_append_left {α : Type} (l1 l2 : List α) (i : Nat) (d : α) (h : i < l1.length) :
    (l1 ++ l2).getD i d = l1.getD i d := by
  rw [List.getD_eq_getElem?_getD, List.getD_eq_getElem?_getD, List.getElem?_append_left h]

theorem getD_append_right {α : Type} (l1 l2 : List α) (i : Nat) (d : α)
    (h : l1.length ≤ i) : (l1 ++ l2).getD i d = l2.getD (i - l1.length) d := by
  rw [List.getD_eq_getElem?_getD, List.getD_eq_getElem?_getD, List.getElem?_append_right h]

theorem input_sample_drop {F D : Type} (ops : FloatOps F D) (inp : Option (List F))
    (k i : Nat) :
    input_sample ops (inp.map (List.drop k)) i = input_sample ops inp (k + i) := by
  cases inp with
  | none => rfl
  | some l =>
    simp only [input_sample, Option.map_some', List.getD_eq_getElem?_getD, List.getElem?_drop]

/-- The stream a channel sees: what a cell of it holds. -/
theorem stream_getD {F D : Type} (ops : FloatOps F D) (st : SpeexResamplerState F)
    (ch : Nat) (m : List F) (hm : st.mem = some m) (inp : Option (List F))
    (istride n i : Nat) :
    (history ops st ch ++ gather ops inp istride n).getD i ops.zero
      = if i < st.filt_len - 1 then m.getD (ch * st.mem_alloc_size + i) ops.zero
        else if i < st.filt_len - 1 + n then
          input_sample ops inp ((i - (st.filt_len - 1)) * istride)
        else ops.zero := by
  by_cases h1 : i < st.filt_len - 1
  · rw [if_pos h1, getD_append_left _ _ _ _ (by rw [history_length]; exact h1),
      history_getD ops st ch m hm i h1]
  · rw [if_neg h1, getD_append_right _ _ _ _ (by rw [history_length]; omega), history_length]
    by_cases h2 : i < st.filt_len - 1 + n
    · rw [if_pos h2, gather_getD ops inp istride n _ (by omega)]
    · rw [if_neg h2, List.getD_eq_default _ _ (by rw [gather_length]; omega)]

theorem process_float_loop_stop {F D : Type} (ops : FloatOps F D)
    (ch base filt_offs xlen istride fuel : Nat) (st : SpeexResamplerState F)
    (inp : Option (List F)) (ilen : Nat) (out : List F) (opos olen : Nat)
    (h : ilen = 0 ∨ olen = 0) :
    process_float_loop ops ch base filt_offs xlen istride (fuel + 1) st inp ilen out opos olen
      = some (st, ilen, out, olen) := by
  have hc : ¬ (ilen ≠ 0 ∧ olen ≠ 0) := by omega
  simp only [process_float_loop, hc, if_false]

theorem process_float_loop_step {F D : Type} (ops : FloatOps F D)
    (ch base filt_offs xlen istride fuel : Nat) (st : SpeexResamplerState F)
    (inp : Option (List F)) (ilen : Nat) (out : List F) (opos olen : Nat)
    (m : List F) (r : Processed F)
    (h1 : ilen ≠ 0) (h2 : olen ≠ 0) (hm : st.mem = some m)
    (hr : speex_resampler_process_native ops
        { st with mem := some (copy_input ops base filt_offs istride
            (if ilen > xlen then xlen else ilen) inp m) }
        ch (if ilen > xlen then xlen else ilen) out opos olen = some r) :
    process_float_loop ops ch base filt_offs xlen istride (fuel + 1) st inp ilen out opos olen
      = process_float_loop ops ch base filt_offs xlen istride fuel r.st
          (inp.map (List.drop (r.in_len * istride))) (ilen - r.in_len) r.out
          (opos + r.out_len * r.st.out_stride) (olen - r.out_len) := by
  have hc : ilen ≠ 0 ∧ olen ≠ 0 := ⟨h1, h2⟩
  rw [process_float_loop, if_pos hc]
  simp only [hm, hr]

/-- The chunk loop of `speex_resampler_process_float` on a ready channel.  With
`S` the history followed by the `ilen` input samples, the samples written are
the orbit over `S` with input length `ilen` and capacity `olen`; `n1` samples
are consumed, all of them unless the capacity was reached; the history left is
`S` from `n1` on, and the cursor is the orbit's cursor seen from `n1`. -/
theorem process_float_loop_spec {F D : Type} (ops : FloatOps F D) (ch : Nat)
    (f : resampler_basic_func) (istride xlen : Nat) :
    ∀ (fuel : Nat) (st : SpeexResamplerState F) (m : List F) (inp : Option (List F))
      (ilen olen : Nat),
      st.mem = some m → st.resampler_ptr = some f → 1 ≤ st.den_rate →
      st.filt_len % 4 = 0 → 1 ≤ st.filt_len →
      ch < st.last_sample.length → ch < st.samp_frac_num.length →
      ch * st.mem_alloc_size + st.mem_alloc_size ≤ m.length →
      1 ≤ xlen → xlen + (st.filt_len - 1) ≤ st.mem_alloc_size →
      (ilen < 2147483648 ∨ xlen < 2147483648) → olen < 2147483648 →
      ilen + olen < fuel →
      ∃ n1 m' s',
        (∀ (out : List F) (opos : Nat),
          process_float_loop ops ch (ch * st.mem_alloc_size) (st.filt_len - 1) xlen istride
            fuel st inp ilen out opos olen
          = some
            ({ st with
                started := s',
                last_sample := st.last_sample.set ch
                  ((chan_orbit ops f st ch (history ops st ch ++ gather ops inp istride ilen)
                    ilen olen).2.1 - n1),
                samp_frac_num := st.samp_frac_num.set ch
                  (chan_orbit ops f st ch (history ops st ch ++ gather ops inp istride ilen)
                    ilen olen).2.2,
                mem := some m' },
             ilen - n1,
             scatter out opos st.out_stride
               (chan_orbit ops f st ch (history ops st ch ++ gather ops inp istride ilen)
                 ilen olen).1,
             olen - (chan_orbit ops f st ch (history ops st ch ++ gather ops inp istride ilen)
                 ilen olen).1.length)) ∧
        n1 ≤ ilen ∧
        n1 ≤ (chan_orbit ops f st ch (history ops st ch ++ gather ops inp istride ilen)
                 ilen olen).2.1 ∧
        ((chan_orbit ops f st ch (history ops st ch ++ gather ops inp istride ilen)
                 ilen olen).1.length < olen → n1 = ilen) ∧
        m'.length = m.length ∧
        (∀ i, i < st.filt_len - 1 →
          m'.getD (ch * st.mem_alloc_size + i) ops.zero
            = (history ops st ch ++ gather ops inp istride ilen).getD (n1 + i) ops.zero) ∧
        (∀ i, (i < ch * st.mem_alloc_size ∨ ch * st.mem_alloc_size + st.mem_alloc_size ≤ i) →
          m'.getD i ops.zero = m.getD i ops.zero) ∧
        (s' = st.started ∨ s' = 1) := by
  intro fuel
  induction fuel with
  | zero => intro st m inp ilen olen _ _ _ _ _ _ _ _ _ _ _ _ h; omega
  | succ fuel ih =>
    intro st m inp ilen olen hm hptr hden h4 hN hc1 hc2 hlen hx1 hx2 hn31 hc31 hfuel
    by_cases hstop : ilen = 0 ∨ olen = 0
    · -- the loop is not entered
      have ho : chan_orbit ops f st ch (history ops st ch ++ gather ops inp istride ilen)
          ilen olen = ([], st.last_sample.getD ch 0, st.samp_frac_num.getD ch 0) := by
        unfold chan_orbit
        rcases hstop with h | h
        · exact orbit_nil_of_ge _ _ _ _ _ _ _ _ (by omega)
        · rw [h]; rfl
      refine ⟨0, m, st.started, ?_, by omega, by omega, ?_, rfl, ?_, fun i _ => rfl,
        Or.inl rfl⟩
      · intro out opos
        rw [process_float_loop_stop ops _ _ _ _ _ _ _ _ _ _ _ _ hstop, ho]
        simp only [Nat.sub_zero, scatter, List.length_nil, set_getD_same _ _ _ hc1,
          set_getD_same _ _ _ hc2, ← hm]
      · intro hlt
        rw [ho] at hlt
        simp only [List.length_nil] at hlt
        omega
      · intro i hi
        rw [Nat.zero_add, stream_getD ops st ch m hm, if_pos hi]
    · -- one chunk, then the rest
      have hi0 : ilen ≠ 0 := by omega
      have ho0 : olen ≠ 0 := by omega
      obtain ⟨k, hk⟩ : ∃ k, k = if ilen > xlen then xlen else ilen := ⟨_, rfl⟩
      have hk1 : 1 ≤ k := by rw [hk]; split <;> omega
      have hk2 : k ≤ ilen := by rw [hk]; split <;> omega
      have hk3 : k ≤ xlen := by rw [hk]; split <;> omega
      obtain ⟨S, hSdef⟩ : ∃ S, S = history ops st ch ++ gather ops inp istride ilen := ⟨_, rfl⟩
      obtain ⟨hcl, hcf, hcv⟩ := copy_input_spec ops (ch * st.mem_alloc_size)
        (st.filt_len - 1) istride k inp m (by omega)
      obtain ⟨mem1, hmem1⟩ : ∃ mem1, mem1 = copy_input ops (ch * st.mem_alloc_size)
        (st.filt_len - 1) istride k inp m := ⟨_, rfl⟩
      rw [← hmem1] at hcl hcf hcv
      have hS1 : ∀ i, i < k + (st.filt_len - 1) →
          mem1.getD (ch * st.mem_alloc_size + i) ops.zero = S.getD i ops.zero := by
        intro i hi
        rw [hSdef, stream_getD ops st ch m hm]
        by_cases h1 : i < st.filt_len - 1
        · rw [if_pos h1]
          exact hcf _ (by omega)
        · rw [if_neg h1, if_pos (by omega)]
          have e : ch * st.mem_alloc_size + i
              = ch * st.mem_alloc_size + ((i - (st.filt_len - 1)) + (st.filt_len - 1)) := by
            omega
          rw [e, hcv _ (by omega), gather_getD ops inp istride k _ (by omega)]
      -- the kernel call on the chunk
      obtain ⟨o1, ho1⟩ : ∃ o1, o1 = chan_orbit ops f st ch S k olen := ⟨_, rfl⟩
      obtain ⟨n', hn'⟩ : ∃ n', n' = min k o1.2.1 := ⟨_, rfl⟩
      have hn'k : n' ≤ k := by omega
      have hn'o : n' ≤ o1.2.1 := by omega
      obtain ⟨hsl, hsf, hsv⟩ := shift_history_spec ops (ch * st.mem_alloc_size) st.filt_len
        n' mem1
      obtain ⟨m2, hm2⟩ : ∃ m2, m2 = shift_history ops (ch * st.mem_alloc_size) st.filt_len
        n' mem1 := ⟨_, rfl⟩
      rw [← hm2] at hsl hsf hsv
      obtain ⟨st2, hst2⟩ : ∃ st2 : SpeexResamplerState F, st2 =
            { st with started := 1,
                      last_sample := st.last_sample.set ch (o1.2.1 - n'),
                      samp_frac_num := st.samp_frac_num.set ch o1.2.2,
                      mem := some m2 } := ⟨_, rfl⟩
      have hnat : ∀ (out : List F) (opos : Nat),
          speex_resampler_process_native ops
            { st with mem := some (copy_input ops (ch * st.mem_alloc_size) (st.filt_len - 1)
                istride (if ilen > xlen then xlen else ilen) inp m) }
            ch (if ilen > xlen then xlen else ilen) out opos olen
          = some { st := st2, in_len := n',
                   out := scatter out opos st.out_stride o1.1,
                   out_len := o1.1.length, status := RESAMPLER_ERR_SUCCESS } := by
        intro out opos
        rw [← hk, ← hmem1, process_native_spec ops { st with mem := some mem1 } ch k out opos
          olen mem1 f S rfl hptr hden h4 hc1 hS1 (by omega) hc31, hst2, hm2, hn', ho1]
        rfl
      -- progress
      have hprog : 1 ≤ n' ∨ 1 ≤ o1.1.length := by
        by_cases hL : st.last_sample.getD ch 0 < k
        · right
          rw [ho1]
          exact orbit_pos_of_lt _ _ _ _ _ _ _ _ hL (by omega)
        · left
          have : o1 = ([], st.last_sample.getD ch 0, st.samp_frac_num.getD ch 0) := by
            rw [ho1]
            exact orbit_nil_of_ge _ _ _ _ _ _ _ _ (by omega)
          rw [hn', this]
          simp only []
          omega
      have ho1len : o1.1.length ≤ olen := by rw [ho1]; exact orbit_length_le _ _ _ _ _ _ _ _
      -- the rest of the loop
      obtain ⟨n1', m', s', hrest, hb1, hb2, hb3, hb4, hb5, hb6, hb7⟩ :=
        ih st2 m2 (inp.map (List.drop (n' * istride))) (ilen - n')
          (olen - o1.1.length) (by rw [hst2]) (by rw [hst2]; exact hptr)
          (by rw [hst2]; exact hden) (by rw [hst2]; exact h4) (by rw [hst2]; exact hN)
          (by rw [hst2]; simp only [List.length_set]; exact hc1)
          (by rw [hst2]; simp only [List.length_set]; exact hc2)
          (by rw [hst2, hsl, hcl]; exact hlen) hx1 (by rw [hst2]; exact hx2) (by omega)
          (by omega) (by omega)
      -- the stream seen from the new state
      obtain ⟨S2, hS2def⟩ : ∃ S2, S2 = history ops st2 ch
          ++ gather ops (inp.map (List.drop (n' * istride))) istride (ilen - n') := ⟨_, rfl⟩
      rw [← hS2def] at hrest hb2 hb3 hb5
      have hst2m : st2.mem = some m2 := by rw [hst2]
      have hst2N : st2.filt_len = st.filt_len := by rw [hst2]
      have hst2a : st2.mem_alloc_size = st.mem_alloc_size := by rw [hst2]
      have hS2 : ∀ i, S2.getD i ops.zero = S.getD (i + n') ops.zero := by
        intro i
        rw [hS2def, hSdef, stream_getD ops st2 ch m2 hst2m, stream_getD ops st ch m hm,
          hst2N, hst2a]
        by_cases h1 : i < st.filt_len - 1
        · rw [if_pos h1, hsv i h1, hS1 (i + n') (by omega), hSdef,
            stream_getD ops st ch m hm]
        · rw [if_neg h1, if_neg (show ¬ (i + n' < st.filt_len - 1) by omega)]
          by_cases h2 : i < st.filt_len - 1 + (ilen - n')
          · rw [if_pos h2, if_pos (show i + n' < st.filt_len - 1 + ilen by omega),
              input_sample_drop]
            congr 1
            have e : i + n' - (st.filt_len - 1) = n' + (i - (st.filt_len - 1)) := by omega
            rw [e, Nat.add_mul]
          · rw [if_neg h2, if_neg (show ¬ (i + n' < st.filt_len - 1 + ilen) by omega)]
      -- the orbit seen from the new state
      obtain ⟨o', ho'⟩ : ∃ o', o' = orbit (fun L ph => kernel_sample ops f st.filt_len
          st.oversample st.den_rate (st.sinc_table.getD []) ph
          (fun j => S.getD (L + j) ops.zero))
          st.int_advance st.frac_advance st.den_rate ilen (olen - o1.1.length)
          o1.2.1 o1.2.2 := ⟨_, rfl⟩
      have horb2 : chan_orbit ops f st2 ch S2 (ilen - n') (olen - o1.1.length)
          = (o'.1, o'.2.1 - n', o'.2.2) := by
        rw [hst2]
        unfold chan_orbit
        simp only [getD_set_self _ _ _ _ hc1, getD_set_self _ _ _ _ hc2]
        have hfun : (fun L ph => kernel_sample ops f st.filt_len st.oversample st.den_rate
            (st.sinc_table.getD []) ph (fun j => S2.getD (L + j) ops.zero))
            = (fun L ph => (fun L ph => kernel_sample ops f st.filt_len st.oversample
                st.den_rate (st.sinc_table.getD []) ph
                (fun j => S.getD (L + j) ops.zero)) (L + n') ph) := by
          funext L ph
          simp only []
          congr 1
          funext j
          rw [hS2]
          congr 1
          omega
        have hsh := orbit_shift (fun L ph => kernel_sample ops f st.filt_len st.oversample
            st.den_rate (st.sinc_table.getD []) ph (fun j => S.getD (L + j) ops.zero))
          st.int_advance st.frac_advance st.den_rate ilen n' (by omega)
          (olen - o1.1.length) o1.2.1 o1.2.2 hn'o
        rw [hfun, ho']
        exact hsh
      have hsplit : chan_orbit ops f st ch S ilen olen
          = (o1.1 ++ o'.1, o'.2) := by
        rw [ho', ho1]
        unfold chan_orbit
        exact orbit_limit_split _ _ _ _ k ilen hk2 _ _ _
      have ho'ge : o1.2.1 ≤ o'.2.1 := by rw [ho']; exact orbit_cursor_ge _ _ _ _ _ _ _ _
      rw [horb2] at hrest hb2 hb3
      simp only [] at hrest hb2 hb3
      refine ⟨n' + n1', m', s', ?_, by omega, ?_, ?_, ?_, ?_, ?_, ?_⟩
      · intro out opos
        rw [process_float_loop_step ops _ _ _ _ _ _ _ _ _ _ _ _ m _ hi0 ho0 hm (hnat out opos)]
        simp only []
        have e1 : st2.out_stride = st.out_stride := by rw [hst2]
        have e2 : ch * st.mem_alloc_size = ch * st2.mem_alloc_size := by rw [hst2]
        have e3 : st.filt_len - 1 = st2.filt_len - 1 := by rw [hst2]
        rw [e1, e2, e3, hrest, ← hSdef, hsplit, hst2]
        simp only [List.set_set, List.length_append, scatter_append, Nat.sub_sub]
      · rw [← hSdef, hsplit]; simp only []; omega
      · rw [← hSdef, hsplit]
        simp only [List.length_append]
        intro hlt
        have := hb3 (by omega)
        omega
      · rw [hb4, hsl, hcl]
      · intro i hi
        rw [← hst2a, hb5 i (by rw [hst2N]; exact hi), hS2, ← hSdef]
        congr 1
        omega
      · intro i hi
        rw [hb6 i (by rw [hst2a]; exact hi), hsf i (by omega), hcf i (by omega)]
      · rcases hb7 with h | h
        · right; rw [h, hst2]
        · right; exact h

/-! ## One processing call on a channel -/

/-- The function `speex_resampler_process_float` on a ready channel: the
statement of `process_float_loop_spec` for the whole call. -/
theorem process_float_spec {F D : Type} (ops : FloatOps F D) (st : SpeexResamplerState F)
    (ch : Nat) (f : resampler_basic_func) (m : List F) (inp : Option (List F))
    (in_len out_len : Nat)
    (hr : channel_ready st ch) (hm : st.mem = some m) (hptr : st.resampler_ptr = some f)
    (hn31 : in_len < 2147483648 ∨ st.mem_alloc_size - (st.filt_len - 1) < 2147483648)
    (hc31 : out_len < 2147483648) :
    ∃ n1 m' s',
      (∀ (out : List F) (opos : Nat),
        speex_resampler_process_float ops st ch inp in_len out opos out_len
        = some
          { st :=
              { st with
                started := s',
                last_sample := st.last_sample.set ch
                  ((chan_orbit ops f st ch
                    (history ops st ch ++ gather ops inp st.in_stride in_len)
                    in_len out_len).2.1 - n1),
                samp_frac_num := st.samp_frac_num.set ch
                  (chan_orbit ops f st ch
                    (history ops st ch ++ gather ops inp st.in_stride in_len)
                    in_len out_len).2.2,
                mem := some m' },
            in_len := n1,
            out := scatter out opos st.out_stride
              (chan_orbit ops f st ch
                (history ops st ch ++ gather ops inp st.in_stride in_len) in_len out_len).1,
            out_len :=
              (chan_orbit ops f st ch
                (history ops st ch ++ gather ops inp st.in_stride in_len)
                in_len out_len).1.length,
            status := RESAMPLER_ERR_SUCCESS }) ∧
      n1 ≤ in_len ∧
      n1 ≤ (chan_orbit ops f st ch
            (history ops st ch ++ gather ops inp st.in_stride in_len) in_len out_len).2.1 ∧
      ((chan_orbit ops f st ch
            (history ops st ch ++ gather ops inp st.in_stride in_len)
            in_len out_len).1.length < out_len → n1 = in_len) ∧
      m'.length = m.length ∧
      (∀ i, i < st.filt_len - 1 →
        m'.getD (ch * st.mem_alloc_size + i) ops.zero
          = (history ops st ch ++ gather ops inp st.in_stride in_len).getD (n1 + i)
              ops.zero) ∧
      (∀ i, (i < ch * st.mem_alloc_size ∨ ch * st.mem_alloc_size + st.mem_alloc_size ≤ i) →
        m'.getD i ops.zero = m.getD i ops.zero) ∧
      (s' = st.started ∨ s' = 1) := by
  obtain ⟨m0, hm0, hlen⟩ := hr.mem_some
  rw [hm] at hm0
  injection hm0 with hm0
  subst hm0
  have hroom := hr.room
  have hfp := hr.filt_pos
  obtain ⟨n1, m', s', he, h1, h2, h3, h4, h5, h6, h7⟩ :=
    process_float_loop_spec ops ch f st.in_stride (st.mem_alloc_size - (st.filt_len - 1))
      (in_len + out_len + 1) st m inp in_len out_len hm hptr hr.den_pos hr.filt_four
      hr.filt_pos hr.cursor hr.phase hlen (by omega) (by omega) hn31 hc31 (by omega)
  refine ⟨n1, m', s', ?_, h1, h2, h3, h4, h5, h6, h7⟩
  intro out opos
  have hlen2 : (chan_orbit ops f st ch
      (history ops st ch ++ gather ops inp st.in_stride in_len) in_len out_len).1.length
      ≤ out_len := by
    unfold chan_orbit
    exact orbit_length_le _ _ _ _ _ _ _ _
  unfold speex_resampler_process_float
  simp only [hr.magic, ne_eq, not_true_eq_false, if_false, if_true, he]
  have e1 : in_len - (in_len - n1) = n1 := by omega
  have e2 : out_len - (out_len - (chan_orbit ops f st ch
      (history ops st ch ++ gather ops inp st.in_stride in_len) in_len out_len).1.length)
      = (chan_orbit ops f st ch
      (history ops st ch ++ gather ops inp st.in_stride in_len) in_len out_len).1.length := by
    omega
  rw [e1, e2]

theorem quality_entry_bounds (q : Int) (qm : QualityMapping) (h : quality_entry q = some qm) :
    0 ≤ q ∧ q ≤ 10 ∧ 8 ≤ qm.base_length ∧ qm.base_length ≤ 256 ∧ qm.base_length % 4 = 0 ∧
      1 ≤ qm.oversample ∧ qm.oversample ≤ 32 := by
  unfold quality_entry at h
  by_cases hq : q < 0
  · rw [if_pos hq] at h; exact absurd h (by simp)
  · rw [if_neg hq] at h
    obtain ⟨n, rfl⟩ := Int.eq_ofNat_of_zero_le (by omega : 0 ≤ q)
    simp only [Int.toNat_ofNat] at h
    by_cases hn : n ≤ 10
    · interval_cases n <;> simp [quality_map] at h <;> subst h <;> simp
    · have : quality_map.get? n = none := by
        rw [List.get?_eq_none]
        simp [quality_map]
        omega
      rw [this] at h
      exact absurd h (by simp)

/-- The filter length `update_filter` computes is a multiple of 4, at least the
base length of the quality and at most `base_length * num_rate`, when that
product fits 32 bits. -/
theorem filter_params_len {F D : Type} (ops : FloatOps F D) (qm : QualityMapping)
    (num den : Nat) (p : Nat × Nat × F)
    (hb4 : qm.base_length % 4 = 0) (hnum : 1 ≤ num)
    (hov : qm.base_length * num < U32)
    (hp : filter_params ops qm num den = some p) :
    p.1 % 4 = 0 ∧ qm.base_length ≤ p.1 ∧ p.1 ≤ qm.base_length * num := by
  unfold filter_params at hp
  by_cases h : num > den
  · rw [if_pos h] at hp
    by_cases hd : den = 0
    · rw [if_pos hd] at hp; exact absurd hp (by simp)
    · rw [if_neg hd] at hp
      simp only [Option.some.injEq] at hp
      rw [← hp]
      simp only []
      rw [Nat.mod_eq_of_lt hov]
      have h1 : qm.base_length ≤ qm.base_length * num / den := by
        rw [Nat.le_div_iff_mul_le (by omega)]
        exact Nat.mul_le_mul_left _ (by omega)
      have h2 : qm.base_length * num / den ≤ qm.base_length * num := Nat.div_le_self _ _
      omega
  · rw [if_neg h] at hp
    simp only [Option.some.injEq] at hp
    rw [← hp]
    simp only []
    refine ⟨hb4, le_refl _, ?_⟩
    exact Nat.le_mul_of_pos_right _ (by omega)

theorem update_filter_table_fields {F D : Type} (ops : FloatOps F D) (w : FuncDef)
    (st : SpeexResamplerState F) :
    (∃ f, (update_filter_table ops w st).resampler_ptr = some f) ∧
    (update_filter_table ops w st).int_advance = st.num_rate / st.den_rate ∧
    (update_filter_table ops w st).frac_advance = st.num_rate % st.den_rate := by
  unfold update_filter_table
  split
  · refine ⟨?_, rfl, rfl⟩
    simp only []
    split <;> exact ⟨_, rfl⟩
  · refine ⟨?_, rfl, rfl⟩
    simp only []
    split <;> exact ⟨_, rfl⟩

theorem update_filter_mem_unstarted {F D : Type} (ops : FloatOps F D) (old_length : Nat)
    (st : SpeexResamplerState F) (hs : st.started = 0) :
    update_filter_mem ops old_length st
      = { st with mem_alloc_size := mem_size_for st.filt_len st.buffer_size,
                  mem := some (List.replicate
                    (st.nb_channels * mem_size_for st.filt_len st.buffer_size) ops.zero) } := by
  unfold update_filter_mem
  cases hm : st.mem with
  | none => rfl
  | some m => simp only [hs, if_true]

/-- What `update_filter` leaves on an engine that has not processed yet. -/
theorem update_filter_unstarted {F D : Type} (ops : FloatOps F D)
    (st : SpeexResamplerState F) (qm : QualityMapping) (p : Nat × Nat × F)
    (hqe : quality_entry st.quality = some qm)
    (hp : filter_params ops qm st.num_rate st.den_rate = some p)
    (hden : st.den_rate ≠ 0) (hs : st.started = 0) :
    ∃ st', update_filter ops st = some st' ∧ config_kept st st' ∧
      st'.filt_len = p.1 ∧ st'.oversample = p.2.1 ∧
      st'.mem_alloc_size = mem_size_for p.1 st.buffer_size ∧
      st'.mem = some (List.replicate (st.nb_channels * mem_size_for p.1 st.buffer_size)
        ops.zero) ∧
      (∃ f, st'.resampler_ptr = some f) ∧
      st'.int_advance = st.num_rate / st.den_rate ∧
      st'.frac_advance = st.num_rate % st.den_rate ∧
      st'.last_sample = st.last_sample ∧ st'.magic_samples = st.magic_samples := by
  obtain ⟨hk, hfl, hos, _, _, _, hls, hms, _⟩ := update_filter_table_kept ops qm.window_func
    { st with update_filter_calls := st.update_filter_calls + 1,
              oversample := p.2.1, filt_len := p.1, cutoff := p.2.2 }
  obtain ⟨hptr, hia, hfa⟩ := update_filter_table_fields ops qm.window_func
    { st with update_filter_calls := st.update_filter_calls + 1,
              oversample := p.2.1, filt_len := p.1, cutoff := p.2.2 }
  have hs' : (update_filter_table ops qm.window_func
      { st with update_filter_calls := st.update_filter_calls + 1,
                oversample := p.2.1, filt_len := p.1, cutoff := p.2.2 }).started = 0 := by
    rw [hk.started]; exact hs
  have hu : update_filter ops st = some (update_filter_mem ops st.filt_len
      (update_filter_table ops qm.window_func
        { st with update_filter_calls := st.update_filter_calls + 1,
                  oversample := p.2.1, filt_len := p.1, cutoff := p.2.2 })) := by
    unfold update_filter
    simp only [hqe, hp, hden, if_false]
  rw [update_filter_mem_unstarted ops _ _ hs'] at hu
  refine ⟨_, hu, ?_, ?_, ?_, ?_, ?_, ?_, ?_, ?_, ?_, ?_⟩
  · exact ⟨hk.in_rate, hk.out_rate, hk.num_rate, hk.den_rate, hk.quality, hk.nb_channels,
      hk.buffer_size, hk.initialised, hk.started, hk.samp_frac_num, hk.in_stride,
      hk.out_stride⟩
  · exact hfl
  · exact hos
  · show mem_size_for _ _ = _
    rw [hfl, hk.buffer_size]
  · show some (List.replicate (_ * mem_size_for _ _) ops.zero) = _
    rw [hfl, hk.buffer_size, hk.nb_channels]
  · exact hptr
  · exact hia
  · exact hfa
  · exact hls
  · exact hms

/-- The engine `speex_resampler_init_frac` returns, for a ratio of positive
32-bit terms whose numerator leaves `256 * ratio_num + 160` below `2^32`: the
ratio is stored reduced, the advances are those of the ratio, the strides are
1, cursors, phases and magic counts are 0, every channel is ready, the filter
length is the one `filter_params` gives, and each channel buffer has room for
`filt_len - 1` history samples and 160 new ones. -/
theorem init_frac_ready_sized {F D : Type} (ops : FloatOps F D)
    (nb_channels ratio_num ratio_den in_rate out_rate : Nat) (quality : Int)
    (hq0 : 0 ≤ quality) (hq1 : quality ≤ 10) (hn : 1 ≤ ratio_num) (hd : 1 ≤ ratio_den)
    (hnb : 256 * ratio_num + 160 < U32) (hdb : ratio_den ≤ 2147483648) :
    ∃ (st : SpeexResamplerState F) (n d : Nat),
      speex_resampler_init_frac ops nb_channels ratio_num ratio_den in_rate out_rate quality
        = some (some st, RESAMPLER_ERR_SUCCESS) ∧
      reduce_ratio ratio_num ratio_den = some (n, d) ∧
      st.num_rate = n ∧ st.den_rate = d ∧ advances_valid st ∧
      st.in_stride = 1 ∧ st.out_stride = 1 ∧ st.nb_channels = nb_channels ∧
      st.last_sample = List.replicate nb_channels 0 ∧
      st.samp_frac_num = List.replicate nb_channels 0 ∧
      st.magic_samples = List.replicate nb_channels 0 ∧
      (∀ ch, ch < nb_channels → channel_ready st ch) ∧
      st.mem_alloc_size = st.filt_len + 159 ∧
      (∃ qm p, quality_entry quality = some qm ∧ filter_params ops qm n d = some p ∧
        st.filt_len = p.1) := by
  have hnb' : ratio_num < U32 := by simp only [U32] at hnb ⊢; omega
  obtain ⟨n, d, hred, hgcd, hn1, hd1, hratio⟩ := reduce_ratio_spec ratio_num ratio_den hn hd
    hnb' (by simp only [U32]; omega)
  have hdle : d ≤ ratio_den := by
    have hdvd : d ∣ n * ratio_den := ⟨ratio_num, hratio⟩
    have hco : Nat.Coprime d n := Nat.Coprime.symm hgcd
    exact Nat.le_of_dvd (by omega) (hco.dvd_of_dvd_mul_left hdvd)
  have hnle : n ≤ ratio_num := by
    have h1 : n * ratio_den ≤ ratio_num * ratio_den := by
      rw [hratio, Nat.mul_comm ratio_num]
      exact Nat.mul_le_mul_right _ (by
        by_contra hlt
        have : ratio_den < d := by omega
        have h2 : d * ratio_num < n * ratio_den := by
          have h3 : n * ratio_den ≥ 1 * ratio_den := Nat.mul_le_mul_right _ hn1
          have h4 : Nat.gcd n d = 1 := by assumption
          exact absurd hratio (by
            intro he
            have hdvd : d ∣ n * ratio_den := ⟨ratio_num, he⟩
            have hco : Nat.Coprime d n := Nat.Coprime.symm h4
            have hdr : d ∣ ratio_den := hco.dvd_of_dvd_mul_left hdvd
            have := Nat.le_of_dvd (by omega) hdr
            omega)
        omega)
    exact Nat.le_of_mul_le_mul_right h1 (by omega)
  obtain ⟨qm, hqm⟩ := quality_entry_some quality hq0 hq1
  obtain ⟨_, _, hb8, hb256, hb4, _, _⟩ := quality_entry_bounds quality qm hqm
  obtain ⟨p, hp⟩ := filter_params_some ops qm n d hd1
  have hov : qm.base_length * n < U32 := by
    have : qm.base_length * n ≤ 256 * ratio_num := Nat.mul_le_mul hb256 hnle
    simp only [U32] at hnb ⊢; omega
  obtain ⟨hp4, hpb, hpu⟩ := filter_params_len ops qm n d p hb4 hn1 hov hp
  obtain ⟨st', he, hk, hfl, _, hmas, hmem, hptr, hia, hfa, hls, hms⟩ :=
    update_filter_unstarted ops
      ({ fresh_state ops nb_channels with
          quality := quality, in_rate := in_rate, out_rate := out_rate,
          num_rate := n, den_rate := d } : SpeexResamplerState F)
      qm p hqm hp (by show d ≠ 0; omega) rfl
  have hsz : mem_size_for p.1 160 = p.1 + 159 := by
    have : p.1 ≤ 256 * ratio_num := le_trans hpu (Nat.mul_le_mul hb256 hnle)
    unfold mem_size_for
    simp only [U32] at hnb ⊢
    omega
  have hq : ¬ (quality > 10 ∨ quality < 0) := by omega
  have hqne : ¬ ((-1 : Int) = quality) := by omega
  have hrd : ¬ (0 = ratio_den) := by omega
  have hnum' : st'.num_rate = n := hk.num_rate
  have hden' : st'.den_rate = d := hk.den_rate
  have hia' : st'.int_advance = st'.num_rate / st'.den_rate := by
    rw [hnum', hden']; exact hia
  have hfa' : st'.frac_advance = st'.num_rate % st'.den_rate := by
    rw [hnum', hden']; exact hfa
  refine ⟨{ st' with initialised := 1 }, n, d, ?_, hred, hk.num_rate, hk.den_rate,
    ⟨hia', hfa', by show 1 ≤ st'.num_rate; rw [hk.num_rate]; exact hn1,
      by rw [hden']; omega⟩,
    hk.in_stride, hk.out_stride, hk.nb_channels, hls, hk.samp_frac_num, hms, ?_,
    by show st'.mem_alloc_size = st'.filt_len + 159; rw [hmas, hfl]; exact hsz,
    ⟨qm, p, hqm, hp, hfl⟩⟩
  · simp only [speex_resampler_init_frac, hq, if_false, speex_resampler_set_quality,
      fresh_state, hqne, speex_resampler_set_rate_frac, hrd, and_false, hred, ne_eq,
      not_true_eq_false, gt_iff_lt, lt_self_iff_false]
    simp only [fresh_state] at he
    rw [he]
  · intro ch hch
    have hmas' : st'.mem_alloc_size = p.1 + 159 := by rw [hmas]; exact hsz
    refine ⟨⟨_, hmem, ?_⟩, hptr, by show 1 ≤ st'.den_rate; rw [hk.den_rate]; exact hd1,
      by show 1 ≤ st'.filt_len; rw [hfl]; omega, by show st'.filt_len % 4 = 0; rw [hfl]; exact hp4,
      by show st'.filt_len ≤ st'.mem_alloc_size; rw [hfl, hmas']; omega,
      by show ch < st'.last_sample.length; rw [hls]; simp [fresh_state]; exact hch,
      by show ch < st'.samp_frac_num.length; rw [hk.samp_frac_num]; simp [fresh_state]; exact hch,
      by show st'.magic_samples.getD ch 0 = 0; rw [hms]; simp [fresh_state, List.getD_eq_getElem?_getD, List.getElem?_replicate]; split <;> rfl⟩
    show ch * st'.mem_alloc_size + st'.mem_alloc_size ≤ _
    rw [List.length_replicate]
    show _ ≤ nb_channels * mem_size_for p.1 160
    rw [hmas', hsz]
    have : (ch + 1) * (p.1 + 159) ≤ nb_channels * (p.1 + 159) :=
      Nat.mul_le_mul_right _ (by omega)
    have e : (ch + 1) * (p.1 + 159) = ch * (p.1 + 159) + (p.1 + 159) := by ring
    omega

/-- The engine `speex_resampler_init_frac` returns: reduced ratio, advances of
the ratio, unit strides, every channel ready at cursor 0 and phase 0. -/
theorem init_frac_ready {F D : Type} (ops : FloatOps F D)
    (nb_channels ratio_num ratio_den in_rate out_rate : Nat) (quality : Int)
    (hq0 : 0 ≤ quality) (hq1 : quality ≤ 10) (hn : 1 ≤ ratio_num) (hd : 1 ≤ ratio_den)
    (hnb : 256 * ratio_num + 160 < U32) (hdb : ratio_den ≤ 2147483648) :
    ∃ (st : SpeexResamplerState F) (n d : Nat),
      speex_resampler_init_frac ops nb_channels ratio_num ratio_den in_rate out_rate quality
        = some (some st, RESAMPLER_ERR_SUCCESS) ∧
      reduce_ratio ratio_num ratio_den = some (n, d) ∧
      st.num_rate = n ∧ st.den_rate = d ∧ advances_valid st ∧
      st.in_stride = 1 ∧ st.out_stride = 1 ∧ st.nb_channels = nb_channels ∧
      st.last_sample = List.replicate nb_channels 0 ∧
      st.samp_frac_num = List.replicate nb_channels 0 ∧
      st.magic_samples = List.replicate nb_channels 0 ∧
      (∀ ch, ch < nb_channels → channel_ready st ch) := by
  obtain ⟨st, n, d, h1, h2, h3, h4, h5, h6, h7, h8, h9, h10, h11, h12, _⟩ :=
    init_frac_ready_sized ops nb_channels ratio_num ratio_den in_rate out_rate quality
      hq0 hq1 hn hd hnb hdb
  exact ⟨st, n, d, h1, h2, h3, h4, h5, h6, h7, h8, h9, h10, h11, h12⟩

/-! ## Chaining processing calls -/

/-- What a processing call leaves alone, read off the equation that says so. -/
theorem frame_fields {F : Type} (st st' : SpeexResamplerState F)
    (h : { st' with started := st.started, last_sample := st.last_sample,
                    samp_frac_num := st.samp_frac_num, mem := st.mem } = st) :
    st'.filt_len = st.filt_len ∧ st'.den_rate = st.den_rate ∧ st'.num_rate = st.num_rate ∧
    st'.mem_alloc_size = st.mem_alloc_size ∧ st'.resampler_ptr = st.resampler_ptr ∧
    st'.magic_samples = st.magic_samples ∧ st'.int_advance = st.int_advance ∧
    st'.frac_advance = st.frac_advance ∧ st'.in_stride = st.in_stride ∧
    st'.out_stride = st.out_stride ∧ st'.nb_channels = st.nb_channels ∧
    st'.oversample = st.oversample ∧ st'.sinc_table = st.sinc_table := by
  refine ⟨?_, ?_, ?_, ?_, ?_, ?_, ?_, ?_, ?_, ?_, ?_, ?_, ?_⟩
  · have e := congrArg SpeexResamplerState.filt_len h; exact e
  · have e := congrArg SpeexResamplerState.den_rate h; exact e
  · have e := congrArg SpeexResamplerState.num_rate h; exact e
  · have e := congrArg SpeexResamplerState.mem_alloc_size h; exact e
  · have e := congrArg SpeexResamplerState.resampler_ptr h; exact e
  · have e := congrArg SpeexResamplerState.magic_samples h; exact e
  · have e := congrArg SpeexResamplerState.int_advance h; exact e
  · have e := congrArg SpeexResamplerState.frac_advance h; exact e
  · have e := congrArg SpeexResamplerState.in_stride h; exact e
  · have e := congrArg SpeexResamplerState.out_stride h; exact e
  · have e := congrArg SpeexResamplerState.nb_channels h; exact e
  · have e := congrArg SpeexResamplerState.oversample h; exact e
  · have e := congrArg SpeexResamplerState.sinc_table h; exact e

/-- One call of `speex_resampler_process_float` on a ready channel, in the form
used to chain calls: the result does not depend on the output buffer, the
channel stays ready, and the history left is the stream from the consumed
count on. -/
theorem process_float_ready {F D : Type} (ops : FloatOps F D) (st : SpeexResamplerState F)
    (ch : Nat) (f : resampler_basic_func) (m : List F) (inp : Option (List F)) (n c : Nat)
    (hr : channel_ready st ch) (hm : st.mem = some m) (hptr : st.resampler_ptr = some f)
    (hn31 : n < 2147483648 ∨ st.mem_alloc_size - (st.filt_len - 1) < 2147483648)
    (hc31 : c < 2147483648) :
    ∃ (n1 : Nat) (st' : SpeexResamplerState F) (m' : List F),
      (∀ (out : List F) (opos : Nat),
        speex_resampler_process_float ops st ch inp n out opos c
          = some
            { st := st', in_len := n1,
              out := scatter out opos st.out_stride
                (chan_orbit ops f st ch (history ops st ch ++ gather ops inp st.in_stride n)
                  n c).1,
              out_len :=
                (chan_orbit ops f st ch (history ops st ch ++ gather ops inp st.in_stride n)
                  n c).1.length,
              status := RESAMPLER_ERR_SUCCESS }) ∧
      n1 ≤ n ∧
      n1 ≤ (chan_orbit ops f st ch (history ops st ch ++ gather ops inp st.in_stride n)
              n c).2.1 ∧
      ((chan_orbit ops f st ch (history ops st ch ++ gather ops inp st.in_stride n)
              n c).1.length < c → n1 = n) ∧
      channel_ready st' ch ∧
      { st' with started := st.started, last_sample := st.last_sample,
                 samp_frac_num := st.samp_frac_num, mem := st.mem } = st ∧
      st'.last_sample = st.last_sample.set ch
        ((chan_orbit ops f st ch (history ops st ch ++ gather ops inp st.in_stride n)
              n c).2.1 - n1) ∧
      st'.samp_frac_num = st.samp_frac_num.set ch
        (chan_orbit ops f st ch (history ops st ch ++ gather ops inp st.in_stride n)
              n c).2.2 ∧
      st'.mem = some m' ∧ m'.length = m.length ∧
      (∀ i, (i < ch * st.mem_alloc_size ∨ ch * st.mem_alloc_size + st.mem_alloc_size ≤ i) →
        m'.getD i ops.zero = m.getD i ops.zero) ∧
      (∀ i, i < st.filt_len - 1 →
        (history ops st' ch).getD i ops.zero
          = (history ops st ch ++ gather ops inp st.in_stride n).getD (n1 + i) ops.zero) := by
  obtain ⟨n1, m', s', he, h1, h2, h3, h4, h5, h6, _⟩ :=
    process_float_spec ops st ch f m inp n c hr hm hptr hn31 hc31
  obtain ⟨m0, hm0, hlen⟩ := hr.mem_some
  rw [hm] at hm0
  injection hm0 with hm0
  subst hm0
  refine ⟨n1, _, m', he, h1, h2, h3, ?_, rfl, rfl, rfl, rfl, h4, h6, ?_⟩
  · exact ⟨⟨m', rfl, by rw [h4]; exact hlen⟩, ⟨f, hptr⟩, hr.den_pos, hr.filt_pos, hr.filt_four,
      hr.room, by show ch < (st.last_sample.set ch _).length; rw [List.length_set];
                  exact hr.cursor,
      by show ch < (st.samp_frac_num.set ch _).length; rw [List.length_set]; exact hr.phase,
      hr.magic⟩
  · intro i hi
    have key : ∀ (s2 : SpeexResamplerState F), s2.mem = some m' →
        s2.filt_len = st.filt_len → s2.mem_alloc_size = st.mem_alloc_size →
        (history ops s2 ch).getD i ops.zero
          = m'.getD (ch * st.mem_alloc_size + i) ops.zero := by
      intro s2 a b c
      rw [history_getD ops s2 ch m' a i (by rw [b]; exact hi), c]
    refine (key _ ?_ ?_ ?_).trans (h5 i hi) <;> rfl

/-- The orbit of the channel after a call, over a stream `S2` that is the
stream `S` seen from `k` samples on, is the orbit over `S` seen from `k`. -/
theorem chan_orbit_shift {F D : Type} (ops : FloatOps F D) (f : resampler_basic_func)
    (st st' : SpeexResamplerState F) (ch : Nat) (S S2 : List F) (n2 c2 k A ph : Nat)
    (hfr : { st' with started := st.started, last_sample := st.last_sample,
                      samp_frac_num := st.samp_frac_num, mem := st.mem } = st)
    (hL : st'.last_sample.getD ch 0 = A - k) (hph : st'.samp_frac_num.getD ch 0 = ph)
    (hk : k ≤ A)
    (hS : ∀ i, S2.getD i ops.zero = S.getD (i + k) ops.zero) :
    chan_orbit ops f st' ch S2 n2 c2
      = ((orbit (fun L p => kernel_sample ops f st.filt_len st.oversample st.den_rate
            (st.sinc_table.getD []) p (fun j => S.getD (L + j) ops.zero))
          st.int_advance st.frac_advance st.den_rate (n2 + k) c2 A ph).1,
         (orbit (fun L p => kernel_sample ops f st.filt_len st.oversample st.den_rate
            (st.sinc_table.getD []) p (fun j => S.getD (L + j) ops.zero))
          st.int_advance st.frac_advance st.den_rate (n2 + k) c2 A ph).2.1 - k,
         (orbit (fun L p => kernel_sample ops f st.filt_len st.oversample st.den_rate
            (st.sinc_table.getD []) p (fun j => S.getD (L + j) ops.zero))
          st.int_advance st.frac_advance st.den_rate (n2 + k) c2 A ph).2.2) := by
  obtain ⟨e1, e2, _, _, _, _, e7, e8, _, _, _, e12, e13⟩ := frame_fields st st' hfr
  unfold chan_orbit
  rw [hL, hph, e1, e2, e7, e8, e12, e13]
  have hfun : (fun L p => kernel_sample ops f st.filt_len st.oversample st.den_rate
      (st.sinc_table.getD []) p (fun j => S2.getD (L + j) ops.zero))
      = (fun L p => (fun L p => kernel_sample ops f st.filt_len st.oversample
          st.den_rate (st.sinc_table.getD []) p
          (fun j => S.getD (L + j) ops.zero)) (L + k) p) := by
    funext L p
    simp only []
    congr 1
    funext j
    rw [hS]
    congr 1
    omega
  have hsh := orbit_shift (fun L p => kernel_sample ops f st.filt_len st.oversample
      st.den_rate (st.sinc_table.getD []) p (fun j => S.getD (L + j) ops.zero))
    st.int_advance st.frac_advance st.den_rate (n2 + k) k (by omega) c2 A ph hk
  rw [Nat.add_sub_cancel] at hsh
  rw [hfun]
  exact hsh

/-- Two capacities that both leave the orbit short give the same orbit. -/
theorem orbit_ample_eq {F : Type} (smp : Nat → Nat → F) (ia fa den n a b L f : Nat)
    (ha : (orbit smp ia fa den n a L f).1.length < a)
    (hb : (orbit smp ia fa den n b L f).1.length < b) :
    orbit smp ia fa den n a L f = orbit smp ia fa den n b L f := by
  rw [← orbit_cap_irrelevant smp ia fa den n a (max a b) L f ha (by omega),
    ← orbit_cap_irrelevant smp ia fa den n b (max a b) L f hb (by omega)]

/-! ## Output count of a fresh engine -/

/-- A processing call keeps every channel ready. -/
theorem channel_ready_after {F : Type} (st st' : SpeexResamplerState F) (c : Nat)
    (hfr : { st' with started := st.started, last_sample := st.last_sample,
                      samp_frac_num := st.samp_frac_num, mem := st.mem } = st)
    (hm : ∃ m m', st.mem = some m ∧ st'.mem = some m' ∧ m'.length = m.length)
    (hl1 : st'.last_sample.length = st.last_sample.length)
    (hl2 : st'.samp_frac_num.length = st.samp_frac_num.length)
    (hr : channel_ready st c) : channel_ready st' c := by
  obtain ⟨e1, e2, _, e4, e5, e6, _, _, _, _, _, _, _⟩ := frame_fields st st' hfr
  obtain ⟨m, m', hm1, hm2, hm3⟩ := hm
  obtain ⟨m0, hm0, hlen⟩ := hr.mem_some
  rw [hm1] at hm0
  injection hm0 with hm0
  subst hm0
  obtain ⟨f, hf⟩ := hr.ptr_some
  exact ⟨⟨m', hm2, by rw [hm3, e4]; exact hlen⟩, ⟨f, by rw [e5]; exact hf⟩,
    by rw [e2]; exact hr.den_pos, by rw [e1]; exact hr.filt_pos,
    by rw [e1]; exact hr.filt_four, by rw [e1, e4]; exact hr.room,
    by rw [hl1]; exact hr.cursor, by rw [hl2]; exact hr.phase, by rw [e6]; exact hr.magic⟩

theorem list_eq_of_getD {α : Type} (l1 l2 : List α) (d : α) (hlen : l1.length = l2.length)
    (h : ∀ i, i < l1.length → l1.getD i d = l2.getD i d) : l1 = l2 := by
  apply List.ext_getElem hlen
  intro i h1 h2
  have := h i h1
  rwa [List.getD_eq_getElem _ _ h1, List.getD_eq_getElem _ _ h2] at this

/-- The number of outputs of a call never exceeds `ceil (n * den_rate / num_rate)`,
and the phase it leaves is below `den_rate`. -/
theorem chan_orbit_bound {F D : Type} (ops : FloatOps F D) (f : resampler_basic_func)
    (st : SpeexResamplerState F) (ch : Nat) (S : List F) (n c : Nat)
    (ha : advances_valid st) (hden : 1 ≤ st.den_rate)
    (hph : st.samp_frac_num.getD ch 0 < st.den_rate) :
    (chan_orbit ops f st ch S n c).1.length ≤ (n * st.den_rate + st.num_rate - 1) / st.num_rate ∧
    (chan_orbit ops f st ch S n c).2.2 < st.den_rate := by
  obtain ⟨hia, hfa, hnum, hw⟩ := ha
  unfold chan_orbit
  rw [hia, hfa]
  exact ⟨orbit_length_bound _ _ _ _ hden hw hnum _ _ _ hph,
    (orbit_position _ _ _ _ hden hw _ _ _ hph).2⟩

/-- The stream of the channel after `k` samples were consumed, followed by
the rest of the input, is the stream before the call seen from `k` on. -/
theorem stream_drop {F D : Type} (ops : FloatOps F D) (st st1 : SpeexResamplerState F)
    (ch : Nat) (inp : Option (List F)) (s n k : Nat) (hk : k ≤ n)
    (hN : st1.filt_len = st.filt_len)
    (hh : ∀ i, i < st.filt_len - 1 →
      (history ops st1 ch).getD i ops.zero
        = (history ops st ch ++ gather ops inp s n).getD (k + i) ops.zero) (i : Nat) :
    (history ops st1 ch ++ gather ops (inp.map (List.drop (k * s))) s (n - k)).getD i ops.zero
      = (history ops st ch ++ gather ops inp s n).getD (i + k) ops.zero := by
  by_cases h1 : i < st.filt_len - 1
  · rw [getD_append_left _ _ _ _ (by rw [history_length, hN]; exact h1), hh i h1,
      Nat.add_comm]
  · rw [getD_append_right _ _ _ _ (by rw [history_length, hN]; omega), history_length, hN,
      getD_append_right _ _ _ _ (by rw [history_length]; omega), history_length]
    by_cases h2 : i < st.filt_len - 1 + (n - k)
    · rw [gather_getD ops _ s (n - k) _ (by omega), gather_getD ops inp s n _ (by omega),
        input_sample_drop]
      congr 1
      have e : i + k - (st.filt_len - 1) = k + (i - (st.filt_len - 1)) := by omega
      rw [e, Nat.add_mul]
    · rw [List.getD_eq_default _ _ (by rw [gather_length]; omega),
        List.getD_eq_default _ _ (by rw [gather_length]; omega)]

/-- The stream of the channel after a first input was consumed whole, followed
by a second input, is the stream of both inputs seen from the end of the
first. -/
theorem stream_append {F D : Type} (ops : FloatOps F D) (st st1 : SpeexResamplerState F)
    (ch : Nat) (g1 g2 : List F)
    (hN : st1.filt_len = st.filt_len)
    (hh : ∀ i, i < st.filt_len - 1 →
      (history ops st1 ch).getD i ops.zero
        = (history ops st ch ++ g1).getD (g1.length + i) ops.zero) (i : Nat) :
    (history ops st1 ch ++ g2).getD i ops.zero
      = (history ops st ch ++ (g1 ++ g2)).getD (i + g1.length) ops.zero := by
  by_cases h1 : i < st.filt_len - 1
  · rw [getD_append_left _ _ _ _ (by rw [history_length, hN]; exact h1), hh i h1,
      ← List.append_assoc,
      getD_append_left (history ops st ch ++ g1) g2 _ _
        (by rw [List.length_append, history_length]; omega), Nat.add_comm]
  · rw [getD_append_right _ _ _ _ (by rw [history_length, hN]; omega), history_length, hN,
      getD_append_right _ _ _ _ (by rw [history_length]; omega), history_length,
      getD_append_right _ _ _ _ (by omega)]
    congr 1
    omega

/-- The first of two inputs is convolved the same whether the second is
already there or not. -/
theorem chan_orbit_prefix {F D : Type} (ops : FloatOps F D) (f : resampler_basic_func)
    (st : SpeexResamplerState F) (ch : Nat) (g1 g2 : List F) (c : Nat)
    (h4 : st.filt_len % 4 = 0) (hN : 1 ≤ st.filt_len) :
    chan_orbit ops f st ch (history ops st ch ++ g1) g1.length c
      = chan_orbit ops f st ch (history ops st ch ++ (g1 ++ g2)) g1.length c := by
  unfold chan_orbit
  apply orbit_congr
  intro L ph hL
  apply kernel_sample_congr ops f _ _ _ _ _ _ _ h4
  intro j hj
  rw [← List.append_assoc,
    getD_append_left (history ops st ch ++ g1) g2 _ _
      (by rw [List.length_append, history_length]; omega)]

/-- Short write and resubmission with a capacity below `2^31`, for a ready
channel (no magic samples pending) of an engine whose advances are those of its
ratio and whose phase is below `den_rate`, with a chunk size
`mem_alloc_size - (filt_len - 1)` or an input length `n` below `2^31`.  A call
on `n` input samples with a capacity `c` below `2^31` consumes `k1 ≤ n` samples
and writes `ys1`; a second call on the unconsumed remainder (the input pointer
advanced by `k1` strides, length `n - k1`) with a capacity above
`ceil ((n - k1) * den_rate / num_rate)` consumes the whole remainder and writes
`ys2`; a single call on the `n` samples with a capacity above
`ceil (n * den_rate / num_rate)` consumes them all and writes `ys1 ++ ys2`, and
ends with the same cursor, phase and history. -/
theorem resubmit_in_range {F D : Type} (ops : FloatOps F D) (st : SpeexResamplerState F)
    (ch : Nat) (inp : Option (List F)) (n c : Nat)
    (hr : channel_ready st ch) (ha : advances_valid st)
    (hph : st.samp_frac_num.getD ch 0 < st.den_rate)
    (hn31 : n < 2147483648 ∨ st.mem_alloc_size - (st.filt_len - 1) < 2147483648)
    (hc31 : c < 2147483648) :
    ∃ (k1 : Nat) (ys1 : List F) (st1 : SpeexResamplerState F),
      (∀ (out : List F) (opos : Nat),
        speex_resampler_process_float ops st ch inp n out opos c
          = some { st := st1, in_len := k1, out := scatter out opos st.out_stride ys1,
                   out_len := ys1.length, status := RESAMPLER_ERR_SUCCESS }) ∧
      k1 ≤ n ∧ ys1.length ≤ c ∧
      ∀ (c2 c' : Nat),
        ((n - k1) * st.den_rate + st.num_rate - 1) / st.num_rate < c2 →
        (n * st.den_rate + st.num_rate - 1) / st.num_rate < c' →
        c2 < 2147483648 → c' < 2147483648 →
        ∃ (ys2 : List F) (st2 st' : SpeexResamplerState F),
          (∀ (out : List F) (opos : Nat),
            speex_resampler_process_float ops st1 ch
                (inp.map (List.drop (k1 * st.in_stride))) (n - k1) out opos c2
              = some { st := st2, in_len := n - k1,
                       out := scatter out opos st.out_stride ys2,
                       out_len := ys2.length, status := RESAMPLER_ERR_SUCCESS }) ∧
          (∀ (out : List F) (opos : Nat),
            speex_resampler_process_float ops st ch inp n out opos c'
              = some { st := st', in_len := n,
                       out := scatter out opos st.out_stride (ys1 ++ ys2),
                       out_len := (ys1 ++ ys2).length, status := RESAMPLER_ERR_SUCCESS }) ∧
          st2.last_sample.getD ch 0 = st'.last_sample.getD ch 0 ∧
          st2.samp_frac_num.getD ch 0 = st'.samp_frac_num.getD ch 0 ∧
          history ops st2 ch = history ops st' ch := by
  obtain ⟨m, hm, _⟩ := hr.mem_some
  obtain ⟨f, hptr⟩ := hr.ptr_some
  obtain ⟨S, hS⟩ : ∃ S, S = history ops st ch ++ gather ops inp st.in_stride n := ⟨_, rfl⟩
  -- the first call
  obtain ⟨k1, st1, m1, he1, hk1n, hk1o, _, hr1, hfr1, hls1, hsf1, hm1, _, _, hh1⟩ :=
    process_float_ready ops st ch f m inp n c hr hm hptr hn31 hc31
  rw [← hS] at he1 hk1o hls1 hsf1 hh1
  obtain ⟨O1, hO1⟩ : ∃ O1, O1 = chan_orbit ops f st ch S n c := ⟨_, rfl⟩
  rw [← hO1] at he1 hk1o hls1 hsf1
  have hO1len : O1.1.length ≤ c := by
    rw [hO1]; unfold chan_orbit; exact orbit_length_le _ _ _ _ _ _ _ _
  have hO1ph : O1.2.2 < st.den_rate := by
    rw [hO1]; exact (chan_orbit_bound ops f st ch S n c ha hr.den_pos hph).2
  refine ⟨k1, O1.1, st1, he1, hk1n, hO1len, ?_⟩
  intro c2 c' hc2 hc' hb2 hb'
  obtain ⟨e1, e2, e3, e4, e5, e6, e7, e8, e9, e10, _, _, _⟩ := frame_fields st st1 hfr1
  have ha1 : advances_valid st1 := by
    unfold advances_valid
    rw [e7, e8, e3, e2]
    exact ha
  have hL1 : st1.last_sample.getD ch 0 = O1.2.1 - k1 := by
    rw [hls1, getD_set_self _ _ _ _ hr.cursor]
  have hP1 : st1.samp_frac_num.getD ch 0 = O1.2.2 := by
    rw [hsf1, getD_set_self _ _ _ _ hr.phase]
  -- the second call, on the remainder
  obtain ⟨k2, st2, m2, he2, hk2n, _, hk2a, _, hfr2, hls2, hsf2, _, _, _, hh2⟩ :=
    process_float_ready ops st1 ch f m1 (inp.map (List.drop (k1 * st.in_stride))) (n - k1) c2
      hr1 hm1 (by rw [e5]; exact hptr) (by omega) hb2
  rw [e9] at he2 hk2a hls2 hsf2 hh2
  obtain ⟨S2, hS2⟩ : ∃ S2, S2 = history ops st1 ch
      ++ gather ops (inp.map (List.drop (k1 * st.in_stride))) st.in_stride (n - k1) := ⟨_, rfl⟩
  rw [← hS2] at he2 hk2a hls2 hsf2 hh2
  have hSrel : ∀ i, S2.getD i ops.zero = S.getD (i + k1) ops.zero := by
    intro i
    rw [hS2, hS]
    exact stream_drop ops st st1 ch inp st.in_stride n k1 hk1n e1
      (by rw [← hS]; exact hh1) i
  obtain ⟨o', ho'⟩ : ∃ o', o' = orbit (fun L p => kernel_sample ops f st.filt_len
      st.oversample st.den_rate (st.sinc_table.getD []) p (fun j => S.getD (L + j) ops.zero))
      st.int_advance st.frac_advance st.den_rate n c2 O1.2.1 O1.2.2 := ⟨_, rfl⟩
  have hO2 : chan_orbit ops f st1 ch S2 (n - k1) c2 = (o'.1, o'.2.1 - k1, o'.2.2) := by
    rw [chan_orbit_shift ops f st st1 ch S S2 (n - k1) c2 k1 O1.2.1 O1.2.2 hfr1 hL1 hP1 hk1o
      hSrel, Nat.sub_add_cancel hk1n, ho']
  have hO2b := (chan_orbit_bound ops f st1 ch S2 (n - k1) c2 ha1 hr1.den_pos
    (by rw [hP1, e2]; exact hO1ph)).1
  rw [hO2, e2, e3] at hO2b
  simp only [] at hO2b
  rw [hO2] at he2 hk2a hls2 hsf2
  simp only [] at he2 hk2a hls2 hsf2
  have hk2 : k2 = n - k1 := hk2a (by omega)
  rw [e10, hk2] at he2
  -- the single call
  obtain ⟨k, st', m', he, _, _, hka, _, hfr, hls, hsf, _, _, _, hh⟩ :=
    process_float_ready ops st ch f m inp n c' hr hm hptr hn31 hb'
  rw [← hS] at he hka hls hsf hh
  have hOb := (chan_orbit_bound ops f st ch S n c' ha hr.den_pos hph).1
  have hk : k = n := hka (by omega)
  have hsplit : chan_orbit ops f st ch S n c' = (O1.1 ++ o'.1, o'.2) := by
    have h1 : chan_orbit ops f st ch S n (c + c2) = (O1.1 ++ o'.1, o'.2) := by
      rw [ho', hO1]
      unfold chan_orbit
      exact orbit_cap_split _ _ _ _ _ _ _ _ _
    rw [← h1]
    unfold chan_orbit
    apply orbit_ample_eq
    · exact lt_of_le_of_lt hOb hc'
    · have h2 : (chan_orbit ops f st ch S n (c + c2)).1.length = O1.1.length + o'.1.length := by
        rw [h1]; simp only [List.length_append]
      unfold chan_orbit at h2
      rw [h2]
      omega
  rw [hsplit] at he hls hsf
  simp only [] at he hls hsf
  rw [hk] at he hh hls
  refine ⟨o'.1, st2, st', he2, he, ?_, ?_, ?_⟩
  · rw [hls2, hls, getD_set_self _ _ _ _ hr1.cursor, getD_set_self _ _ _ _ hr.cursor, hk2]
    omega
  · rw [hsf2, hsf, getD_set_self _ _ _ _ hr1.phase, getD_set_self _ _ _ _ hr.phase]
  · obtain ⟨f1, _, _, _, _, _, _, _, _, _, _, _, _⟩ := frame_fields st1 st2 hfr2
    have g1 := (frame_fields st st' hfr).1
    apply list_eq_of_getD _ _ ops.zero
    · rw [history_length, history_length, f1, e1, g1]
    · intro i hi
      rw [history_length, f1, e1] at hi
      rw [hh2 i (by rw [e1]; exact hi), hk2, hSrel, hh i hi]
      congr 1
      omega

/-- C3.  Chunk-boundary independence, for a ready channel (no magic samples
pending) of an engine whose advances are those of its ratio and whose phase is
below `den_rate`, for every input length when the chunk size
`mem_alloc_size - (filt_len - 1)` is below `2^31`, and for an input length
below `2^31` otherwise (the lengths the kernels are passed are then within the
range of `int`).  When the samples a call reads from `inp` (length `n1 + n2`)
are those read from `inp1` (length `n1`) followed by those read from `inp2`
(length `n2`), and every capacity exceeds `ceil (len * den_rate / num_rate)`
for its input length and is below `2^31` (from `2^31` on `(int)*out_len` is
negative and the capacity is the limit at once), then the call on `inp1`
consumes `n1` samples and writes
`ys1`, the following call on `inp2` consumes `n2` samples and writes `ys2`, the
single call on `inp` consumes `n1 + n2` samples and writes `ys1 ++ ys2`, and
both ways end with the same cursor, phase and history. -/
theorem chunk_boundary_independent {F D : Type} (ops : FloatOps F D)
    (st : SpeexResamplerState F) (ch : Nat) (inp inp1 inp2 : Option (List F))
    (n1 n2 c1 c2 c : Nat)
    (hr : channel_ready st ch) (ha : advances_valid st)
    (hph : st.samp_frac_num.getD ch 0 < st.den_rate)
    (hin : gather ops inp st.in_stride (n1 + n2)
      = gather ops inp1 st.in_stride n1 ++ gather ops inp2 st.in_stride n2)
    (hc1 : (n1 * st.den_rate + st.num_rate - 1) / st.num_rate < c1)
    (hc2 : (n2 * st.den_rate + st.num_rate - 1) / st.num_rate < c2)
    (hc : ((n1 + n2) * st.den_rate + st.num_rate - 1) / st.num_rate < c)
    (hn31 : n1 + n2 < 2147483648 ∨ st.mem_alloc_size - (st.filt_len - 1) < 2147483648)
    (hb1 : c1 < 2147483648) (hb2 : c2 < 2147483648) (hb : c < 2147483648) :
    ∃ (ys1 ys2 : List F) (st1 st2 st12 : SpeexResamplerState F),
      (∀ (out : List F) (opos : Nat),
        speex_resampler_process_float ops st ch inp1 n1 out opos c1
          = some { st := st1, in_len := n1, out := scatter out opos st.out_stride ys1,
                   out_len := ys1.length, status := RESAMPLER_ERR_SUCCESS }) ∧
      (∀ (out : List F) (opos : Nat),
        speex_resampler_process_float ops st1 ch inp2 n2 out opos c2
          = some { st := st2, in_len := n2, out := scatter out opos st.out_stride ys2,
                   out_len := ys2.length, status := RESAMPLER_ERR_SUCCESS }) ∧
      (∀ (out : List F) (opos : Nat),
        speex_resampler_process_float ops st ch inp (n1 + n2) out opos c
          = some { st := st12, in_len := n1 + n2,
                   out := scatter out opos st.out_stride (ys1 ++ ys2),
                   out_len := (ys1 ++ ys2).length, status := RESAMPLER_ERR_SUCCESS }) ∧
      st2.last_sample.getD ch 0 = st12.last_sample.getD ch 0 ∧
      st2.samp_frac_num.getD ch 0 = st12.samp_frac_num.getD ch 0 ∧
      history ops st2 ch = history ops st12 ch := by
  obtain ⟨m, hm, _⟩ := hr.mem_some
  obtain ⟨f, hptr⟩ := hr.ptr_some
  obtain ⟨g1, hg1⟩ : ∃ g1, g1 = gather ops inp1 st.in_stride n1 := ⟨_, rfl⟩
  obtain ⟨g2, hg2⟩ : ∃ g2, g2 = gather ops inp2 st.in_stride n2 := ⟨_, rfl⟩
  have hl1 : g1.length = n1 := by rw [hg1, gather_length]
  rw [← hg1, ← hg2] at hin
  obtain ⟨S, hS⟩ : ∃ S, S = history ops st ch ++ (g1 ++ g2) := ⟨_, rfl⟩
  have hmul : n1 * st.den_rate ≤ (n1 + n2) * st.den_rate :=
    Nat.mul_le_mul_right _ (Nat.le_add_right _ _)
  have hmono : (n1 * st.den_rate + st.num_rate - 1) / st.num_rate
      ≤ ((n1 + n2) * st.den_rate + st.num_rate - 1) / st.num_rate :=
    Nat.div_le_div_right (by omega)
  -- the call on the first part
  obtain ⟨k1, st1, m1, he1, _, hk1o, hk1a, hr1, hfr1, hls1, hsf1, hm1, _, _, hh1⟩ :=
    process_float_ready ops st ch f m inp1 n1 c1 hr hm hptr (by omega) hb1
  rw [← hg1] at he1 hk1o hk1a hls1 hsf1 hh1
  have hpre : chan_orbit ops f st ch (history ops st ch ++ g1) n1 c1
      = chan_orbit ops f st ch S n1 c1 := by
    have h := chan_orbit_prefix ops f st ch g1 g2 c1 hr.filt_four hr.filt_pos
    rw [hl1, ← hS] at h
    exact h
  rw [hpre] at he1 hk1o hk1a hls1 hsf1
  obtain ⟨O1, hO1⟩ : ∃ O1, O1 = chan_orbit ops f st ch S n1 c1 := ⟨_, rfl⟩
  have hO1b := chan_orbit_bound ops f st ch S n1 c1 ha hr.den_pos hph
  rw [← hO1] at he1 hk1o hk1a hls1 hsf1 hO1b
  have hk1 : k1 = n1 := hk1a (by omega)
  rw [hk1] at he1 hk1o hls1 hh1
  obtain ⟨e1, e2, e3, e4, e5, e6, e7, e8, e9, e10, _, _, _⟩ := frame_fields st st1 hfr1
  have ha1 : advances_valid st1 := by
    unfold advances_valid
    rw [e7, e8, e3, e2]
    exact ha
  have hL1 : st1.last_sample.getD ch 0 = O1.2.1 - n1 := by
    rw [hls1, getD_set_self _ _ _ _ hr.cursor]
  have hP1 : st1.samp_frac_num.getD ch 0 = O1.2.2 := by
    rw [hsf1, getD_set_self _ _ _ _ hr.phase]
  -- the call on the second part
  obtain ⟨k2, st2, m2, he2, _, _, hk2a, _, hfr2, hls2, hsf2, _, _, _, hh2⟩ :=
    process_float_ready ops st1 ch f m1 inp2 n2 c2 hr1 hm1 (by rw [e5]; exact hptr)
      (by omega) hb2
  rw [e9, ← hg2] at he2 hk2a hls2 hsf2 hh2
  obtain ⟨S2, hS2⟩ : ∃ S2, S2 = history ops st1 ch ++ g2 := ⟨_, rfl⟩
  rw [← hS2] at he2 hk2a hls2 hsf2 hh2
  have hSrel : ∀ i, S2.getD i ops.zero = S.getD (i + n1) ops.zero := by
    intro i
    rw [hS2, hS]
    have h := stream_append ops st st1 ch g1 g2 e1 (by rw [hl1]; exact hh1) i
    rw [hl1] at h
    exact h
  obtain ⟨o', ho'⟩ : ∃ o', o' = orbit (fun L p => kernel_sample ops f st.filt_len
      st.oversample st.den_rate (st.sinc_table.getD []) p (fun j => S.getD (L + j) ops.zero))
      st.int_advance st.frac_advance st.den_rate (n2 + n1) c2 O1.2.1 O1.2.2 := ⟨_, rfl⟩
  have hO2 : chan_orbit ops f st1 ch S2 n2 c2 = (o'.1, o'.2.1 - n1, o'.2.2) := by
    rw [chan_orbit_shift ops f st st1 ch S S2 n2 c2 n1 O1.2.1 O1.2.2 hfr1 hL1 hP1 hk1o
      hSrel, ho']
  have hO2b := (chan_orbit_bound ops f st1 ch S2 n2 c2 ha1 hr1.den_pos
    (by rw [hP1, e2]; exact hO1b.2)).1
  rw [hO2, e2, e3] at hO2b
  simp only [] at hO2b
  rw [hO2] at he2 hk2a hls2 hsf2
  simp only [] at he2 hk2a hls2 hsf2
  have hk2 : k2 = n2 := hk2a (by omega)
  rw [e10, hk2] at he2
  -- the single call
  obtain ⟨k, st12, m12, he, _, _, hka, _, hfr, hls, hsf, _, _, _, hh⟩ :=
    process_float_ready ops st ch f m inp (n1 + n2) c hr hm hptr hn31 hb
  rw [hin, ← hS] at he hka hls hsf hh
  have hOb := (chan_orbit_bound ops f st ch S (n1 + n2) c ha hr.den_pos hph).1
  have hk : k = n1 + n2 := hka (by omega)
  have hsplit : chan_orbit ops f st ch S (n1 + n2) c = (O1.1 ++ o'.1, o'.2) := by
    have hsame : chan_orbit ops f st ch S n1 c = O1 := by
      rw [hO1]
      unfold chan_orbit
      apply orbit_ample_eq
      · have := (chan_orbit_bound ops f st ch S n1 c ha hr.den_pos hph).1
        unfold chan_orbit at this
        omega
      · have := hO1b.1
        rw [hO1] at this
        unfold chan_orbit at this
        omega
    have h1 := orbit_limit_split (fun L p => kernel_sample ops f st.filt_len
      st.oversample st.den_rate (st.sinc_table.getD []) p (fun j => S.getD (L + j) ops.zero))
      st.int_advance st.frac_advance st.den_rate n1 (n1 + n2) (Nat.le_add_right _ _) c
      (st.last_sample.getD ch 0) (st.samp_frac_num.getD ch 0)
    unfold chan_orbit at hsame hOb
    rw [hsame] at h1
    have h2 : orbit (fun L p => kernel_sample ops f st.filt_len
        st.oversample st.den_rate (st.sinc_table.getD []) p (fun j => S.getD (L + j) ops.zero))
        st.int_advance st.frac_advance st.den_rate (n1 + n2) (c - O1.1.length) O1.2.1 O1.2.2
        = o' := by
      rw [ho', Nat.add_comm n2 n1]
      apply orbit_ample_eq
      · have h3 := congrArg (fun p => p.1.length) h1
        simp only [List.length_append] at h3
        omega
      · rw [ho', Nat.add_comm n2 n1] at hO2b
        omega
    rw [h2] at h1
    unfold chan_orbit
    exact h1
  rw [hsplit] at he hls hsf
  simp only [] at he hls hsf
  rw [hk] at he hh hls
  refine ⟨O1.1, o'.1, st1, st2, st12, he1, he2, he, ?_, ?_, ?_⟩
  · rw [hls2, hls, getD_set_self _ _ _ _ hr1.cursor, getD_set_self _ _ _ _ hr.cursor, hk2]
    omega
  · rw [hsf2, hsf, getD_set_self _ _ _ _ hr1.phase, getD_set_self _ _ _ _ hr.phase]
  · obtain ⟨f1, _, _, _, _, _, _, _, _, _, _, _, _⟩ := frame_fields st1 st2 hfr2
    have g0 := (frame_fields st st12 hfr).1
    apply list_eq_of_getD _ _ ops.zero
    · rw [history_length, history_length, f1, e1, g0]
    · intro i hi
      rw [history_length, f1, e1] at hi
      rw [hh2 i (by rw [e1]; exact hi), hk2, hSrel, hh i hi]
      congr 1
      omega

/-- C3, witness: the mono engine for 48000 to 44100 at quality 5, the samples
`1, ..., 8` fed as `1, 2, 3` then `4, ..., 8`, or all at once. -/
theorem chunk_boundary_independent_witness :
    ∃ st : SpeexResamplerState Int,
      speex_resampler_init intOps 1 48000 44100 5 = some (some st, RESAMPLER_ERR_SUCCESS) ∧
      channel_ready st 0 ∧ advances_valid st ∧ st.samp_frac_num.getD 0 0 < st.den_rate ∧
      gather intOps (some [1, 2, 3, 4, 5, 6, 7, 8]) st.in_stride (3 + 5)
        = gather intOps (some [1, 2, 3, 4, 5, 6, 7, 8]) st.in_stride 3
          ++ gather intOps (some [4, 5, 6, 7, 8]) st.in_stride 5 ∧
      (3 * st.den_rate + st.num_rate - 1) / st.num_rate < 4 ∧
      (5 * st.den_rate + st.num_rate - 1) / st.num_rate < 6 ∧
      ((3 + 5) * st.den_rate + st.num_rate - 1) / st.num_rate < 9 ∧
      3 + 5 < 2147483648 ∧ 4 < 2147483648 ∧ 6 < 2147483648 ∧ 9 < 2147483648 ∧
      ∃ (ys1 ys2 : List Int) (st1 st2 st12 : SpeexResamplerState Int),
        (∀ (out : List Int) (opos : Nat),
          speex_resampler_process_float intOps st 0 (some [1, 2, 3, 4, 5, 6, 7, 8]) 3 out opos 4
            = some { st := st1, in_len := 3, out := scatter out opos st.out_stride ys1,
                     out_len := ys1.length, status := RESAMPLER_ERR_SUCCESS }) ∧
        (∀ (out : List Int) (opos : Nat),
          speex_resampler_process_float intOps st1 0 (some [4, 5, 6, 7, 8]) 5 out opos 6
            = some { st := st2, in_len := 5, out := scatter out opos st.out_stride ys2,
                     out_len := ys2.length, status := RESAMPLER_ERR_SUCCESS }) ∧
        (∀ (out : List Int) (opos : Nat),
          speex_resampler_process_float intOps st 0 (some [1, 2, 3, 4, 5, 6, 7, 8]) (3 + 5)
              out opos 9
            = some { st := st12, in_len := 3 + 5,
                     out := scatter out opos st.out_stride (ys1 ++ ys2),
                     out_len := (ys1 ++ ys2).length, status := RESAMPLER_ERR_SUCCESS }) ∧
        st2.last_sample.getD 0 0 = st12.last_sample.getD 0 0 ∧
        st2.samp_frac_num.getD 0 0 = st12.samp_frac_num.getD 0 0 ∧
        history intOps st2 0 = history intOps st12 0 := by
  obtain ⟨st, n, d, he, hred, hnum, hden, hadv, his, _, _, _, hsf, _, hrdy⟩ :=
    init_frac_ready intOps 1 48000 44100 48000 44100 5 (by decide) (by decide) (by decide)
      (by decide) (by decide) (by decide)
  rw [reduce_ratio_48000_44100] at hred
  injection hred with hred
  injection hred with h1 h2
  subst h1 h2
  have hr : channel_ready st 0 := hrdy 0 (by decide)
  have hph : st.samp_frac_num.getD 0 0 < st.den_rate := by
    rw [hsf]
    exact hr.den_pos
  have hin : gather intOps (some [1, 2, 3, 4, 5, 6, 7, 8]) st.in_stride (3 + 5)
      = gather intOps (some [1, 2, 3, 4, 5, 6, 7, 8]) st.in_stride 3
        ++ gather intOps (some [4, 5, 6, 7, 8]) st.in_stride 5 := by
    rw [his]
    decide
  have hc1 : (3 * st.den_rate + st.num_rate - 1) / st.num_rate < 4 := by
    rw [hnum, hden]; decide
  have hc2 : (5 * st.den_rate + st.num_rate - 1) / st.num_rate < 6 := by
    rw [hnum, hden]; decide
  have hc : ((3 + 5) * st.den_rate + st.num_rate - 1) / st.num_rate < 9 := by
    rw [hnum, hden]; decide
  exact ⟨st, he, hr, hadv, hph, hin, hc1, hc2, hc, by decide, by decide, by decide, by decide,
    chunk_boundary_independent intOps st 0 (some [1, 2, 3, 4, 5, 6, 7, 8])
      (some [1, 2, 3, 4, 5, 6, 7, 8]) (some [4, 5, 6, 7, 8]) 3 5 4 6 9 hr hadv hph hin hc1 hc2 hc
      (Or.inl (by decide)) (by decide) (by decide) (by decide)⟩

/-! ## The two multi-channel entry points -/

/-- The number of outputs, the final cursor and the final phase of an orbit do
not depend on the samples. -/
theorem orbit_shape {F G : Type} (smp : Nat → Nat → F) (smp' : Nat → Nat → G)
    (ia fa den n : Nat) :
    ∀ (c L f : Nat),
      (orbit smp ia fa den n c L f).1.length = (orbit smp' ia fa den n c L f).1.length ∧
      (orbit smp ia fa den n c L f).2 = (orbit smp' ia fa den n c L f).2 := by
  intro c
  induction c with
  | zero => intro L f; exact ⟨rfl, rfl⟩
  | succ c ih =>
    intro L f
    by_cases hL : L ≥ n
    · simp [orbit, hL]
    · simp only [orbit, hL, if_false, List.length_cons]
      obtain ⟨h1, h2⟩ := ih (advance ia fa den L f).1 (advance ia fa den L f).2
      exact ⟨by rw [h1], h2⟩

/-- A call of `speex_resampler_process_float` on a ready channel whose first
chunk (of `k` samples, `k` the smaller of the input length and the room of the
channel buffer) already fills the capacity: the loop stops after that chunk, and
the call consumes the smaller of `k` and the cursor the kernel loop reached. -/
theorem process_float_capped {F D : Type} (ops : FloatOps F D) (st : SpeexResamplerState F)
    (ch : Nat) (f : resampler_basic_func) (m : List F) (inp : Option (List F))
    (n c k : Nat) (out : List F) (opos : Nat)
    (hr : channel_ready st ch) (hm : st.mem = some m) (hptr : st.resampler_ptr = some f)
    (hn : 1 ≤ n) (hc : 1 ≤ c)
    (hk : k = if n > st.mem_alloc_size - (st.filt_len - 1)
      then st.mem_alloc_size - (st.filt_len - 1) else n)
    (hfull : (chan_orbit ops f st ch (history ops st ch ++ gather ops inp st.in_stride n)
      k c).1.length = c)
    (hn31 : n < 2147483648 ∨ st.mem_alloc_size - (st.filt_len - 1) < 2147483648)
    (hc31 : c < 2147483648) :
    ∃ r, speex_resampler_process_float ops st ch inp n out opos c = some r ∧
      r.in_len = min k (chan_orbit ops f st ch
        (history ops st ch ++ gather ops inp st.in_stride n) k c).2.1 := by
  obtain ⟨m0, hm0, hlen⟩ := hr.mem_some
  rw [hm] at hm0
  injection hm0 with hm0
  subst hm0
  have hroom := hr.room
  have hN := hr.filt_pos
  have hc1 := hr.cursor
  have hi0 : n ≠ 0 := by omega
  have ho0 : c ≠ 0 := by omega
  have hk1 : 1 ≤ k := by rw [hk]; split <;> omega
  have hk2 : k ≤ n := by rw [hk]; split <;> omega
  have hk3 : k ≤ st.mem_alloc_size - (st.filt_len - 1) := by rw [hk]; split <;> omega
  obtain ⟨S, hSdef⟩ : ∃ S, S = history ops st ch ++ gather ops inp st.in_stride n := ⟨_, rfl⟩
  rw [← hSdef] at hfull ⊢
  obtain ⟨hcl, hcf, hcv⟩ := copy_input_spec ops (ch * st.mem_alloc_size)
    (st.filt_len - 1) st.in_stride k inp m (by omega)
  obtain ⟨mem1, hmem1⟩ : ∃ mem1, mem1 = copy_input ops (ch * st.mem_alloc_size)
    (st.filt_len - 1) st.in_stride k inp m := ⟨_, rfl⟩
  rw [← hmem1] at hcl hcf hcv
  have hS1 : ∀ i, i < k + (st.filt_len - 1) →
      mem1.getD (ch * st.mem_alloc_size + i) ops.zero = S.getD i ops.zero := by
    intro i hi
    rw [hSdef, stream_getD ops st ch m hm]
    by_cases h1 : i < st.filt_len - 1
    · rw [if_pos h1]
      exact hcf _ (by omega)
    · rw [if_neg h1, if_pos (by omega)]
      have e : ch * st.mem_alloc_size + i
          = ch * st.mem_alloc_size + ((i - (st.filt_len - 1)) + (st.filt_len - 1)) := by
        omega
      rw [e, hcv _ (by omega), gather_getD ops inp st.in_stride k _ (by omega)]
  obtain ⟨o1, ho1⟩ : ∃ o1, o1 = chan_orbit ops f st ch S k c := ⟨_, rfl⟩
  rw [← ho1] at hfull ⊢
  obtain ⟨n', hn'⟩ : ∃ n', n' = min k o1.2.1 := ⟨_, rfl⟩
  obtain ⟨m2, hm2⟩ : ∃ m2, m2 = shift_history ops (ch * st.mem_alloc_size) st.filt_len
    n' mem1 := ⟨_, rfl⟩
  obtain ⟨st2, hst2⟩ : ∃ st2 : SpeexResamplerState F, st2 =
        { st with started := 1,
                  last_sample := st.last_sample.set ch (o1.2.1 - n'),
                  samp_frac_num := st.samp_frac_num.set ch o1.2.2,
                  mem := some m2 } := ⟨_, rfl⟩
  have hnat : speex_resampler_process_native ops
        { st with mem := some (copy_input ops (ch * st.mem_alloc_size) (st.filt_len - 1)
            st.in_stride (if n > st.mem_alloc_size - (st.filt_len - 1)
              then st.mem_alloc_size - (st.filt_len - 1) else n) inp m) }
        ch (if n > st.mem_alloc_size - (st.filt_len - 1)
              then st.mem_alloc_size - (st.filt_len - 1) else n) out opos c
      = some { st := st2, in_len := n',
               out := scatter out opos st.out_stride o1.1,
               out_len := o1.1.length, status := RESAMPLER_ERR_SUCCESS } := by
    rw [← hk, ← hmem1, process_native_spec ops { st with mem := some mem1 } ch k out opos
      c mem1 f S rfl hptr hr.den_pos hr.filt_four hc1 hS1 (by omega) hc31, hst2, hm2, hn', ho1]
    rfl
  have hloop : process_float_loop ops ch (ch * st.mem_alloc_size) (st.filt_len - 1)
      (st.mem_alloc_size - (st.filt_len - 1)) st.in_stride (n + c + 1) st inp n out opos c
      = some (st2, n - n', scatter out opos st.out_stride o1.1, 0) := by
    rw [show n + c + 1 = (n + c - 1 + 1) + 1 by omega,
      process_float_loop_step ops _ _ _ _ _ _ _ _ _ _ _ _ m _ hi0 ho0 hm hnat]
    simp only []
    rw [hfull, Nat.sub_self]
    exact process_float_loop_stop ops _ _ _ _ _ _ _ _ _ _ _ 0 (Or.inr rfl)
  have hu : speex_resampler_process_float ops st ch inp n out opos c
      = some { st := st2, in_len := n - (n - n'), out := scatter out opos st.out_stride o1.1,
               out_len := c - 0, status := RESAMPLER_ERR_SUCCESS } := by
    unfold speex_resampler_process_float
    simp only [hr.magic, ne_eq, not_true_eq_false, if_false, if_true, hloop]
  refine ⟨_, hu, ?_⟩
  show n - (n - n') = min k o1.2.1
  omega

theorem reduce_ratio_48000_16000 : reduce_ratio 48000 16000 = some (3, 1) := by decide

/-- The shape of the orbit of a channel (number of outputs, final cursor and
phase), computed without the samples. -/
theorem chan_orbit_shape {F D : Type} (ops : FloatOps F D) (f : resampler_basic_func)
    (s : SpeexResamplerState F) (ch : Nat) (S : List F) (n c ia fa den L P : Nat)
    (hia : s.int_advance = ia) (hfa : s.frac_advance = fa) (hd : s.den_rate = den)
    (hL : s.last_sample.getD ch 0 = L) (hP : s.samp_frac_num.getD ch 0 = P) :
    (chan_orbit ops f s ch S n c).1.length
      = (orbit (fun _ _ => ()) ia fa den n c L P).1.length ∧
    (chan_orbit ops f s ch S n c).2 = (orbit (fun _ _ => ()) ia fa den n c L P).2 := by
  unfold chan_orbit
  rw [hia, hfa, hd, hL, hP]
  exact orbit_shape _ _ _ _ _ _ _ _ _

/-- At ratio 3/1, from cursor 0: 161 input samples with room for 100 outputs
give 54 outputs, all input is consumed and the cursor is left at 1. -/
theorem third_rate_call {F D : Type} (ops : FloatOps F D) (s : SpeexResamplerState F)
    (ch : Nat) (inp : Option (List F)) (out : List F) (opos : Nat)
    (hr : channel_ready s ch) (hia : s.int_advance = 3) (hfa : s.frac_advance = 0)
    (hd : s.den_rate = 1) (hL : s.last_sample.getD ch 0 = 0)
    (hP : s.samp_frac_num.getD ch 0 = 0) :
    ∃ r, speex_resampler_process_float ops s ch inp 161 out opos 100 = some r ∧
      r.in_len = 161 ∧ r.out_len = 54 ∧
      r.st.last_sample = s.last_sample.set ch 1 ∧
      r.st.samp_frac_num = s.samp_frac_num.set ch 0 ∧
      (∃ m m', s.mem = some m ∧ r.st.mem = some m' ∧ m'.length = m.length) ∧
      { r.st with started := s.started, last_sample := s.last_sample,
                  samp_frac_num := s.samp_frac_num, mem := s.mem } = s := by
  obtain ⟨m, hm, _⟩ := hr.mem_some
  obtain ⟨f, hptr⟩ := hr.ptr_some
  obtain ⟨n1, st', m', he, _, _, hka, _, hfr, hls, hsf, hm', hml, _, _⟩ :=
    process_float_ready ops s ch f m inp 161 100 hr hm hptr (Or.inl (by decide)) (by decide)
  obtain ⟨h1, h2⟩ := chan_orbit_shape ops f s ch
    (history ops s ch ++ gather ops inp s.in_stride 161) 161 100 3 0 1 0 0 hia hfa hd hL hP
  have e1 : (orbit (fun _ _ => ()) 3 0 1 161 100 0 0).1.length = 54 := by decide
  have e2 : (orbit (fun _ _ => ()) 3 0 1 161 100 0 0).2 = (162, 0) := by decide
  rw [e1] at h1
  rw [e2] at h2
  have hn1 : n1 = 161 := hka (by rw [h1]; decide)
  refine ⟨_, he out opos, hn1, h1, ?_, ?_, ⟨m, m', hm, hm', hml⟩, hfr⟩
  · show st'.last_sample = _
    rw [hls, h2, hn1]
    rfl
  · show st'.samp_frac_num = _
    rw [hsf, h2]

/-- At ratio 3/1, from cursor 0, on an engine whose channel buffer has room for
160 new samples: 161 input samples with room for only 54 outputs give the 54
outputs from the first 160 samples; the loop stops there, 160 samples are
consumed and the cursor is left at 2. -/
theorem third_rate_call_capped {F D : Type} (ops : FloatOps F D) (s : SpeexResamplerState F)
    (ch : Nat) (inp : Option (List F)) (out : List F) (opos : Nat)
    (hr : channel_ready s ch) (hia : s.int_advance = 3) (hfa : s.frac_advance = 0)
    (hd : s.den_rate = 1) (hL : s.last_sample.getD ch 0 = 0)
    (hP : s.samp_frac_num.getD ch 0 = 0) (hsz : s.mem_alloc_size = s.filt_len + 159) :
    ∃ r, speex_resampler_process_float ops s ch inp 161 out opos 54 = some r ∧
      r.in_len = 160 ∧ r.out_len = 54 ∧
      r.st.last_sample = s.last_sample.set ch 2 := by
  obtain ⟨m, hm, _⟩ := hr.mem_some
  obtain ⟨f, hptr⟩ := hr.ptr_some
  have hfp := hr.filt_pos
  have hx : s.mem_alloc_size - (s.filt_len - 1) = 160 := by omega
  obtain ⟨n1, st', m', he, _, _, _, _, _, hls, _⟩ :=
    process_float_ready ops s ch f m inp 161 54 hr hm hptr (Or.inl (by decide)) (by decide)
  obtain ⟨h1, h2⟩ := chan_orbit_shape ops f s ch
    (history ops s ch ++ gather ops inp s.in_stride 161) 161 54 3 0 1 0 0 hia hfa hd hL hP
  obtain ⟨g1, g2⟩ := chan_orbit_shape ops f s ch
    (history ops s ch ++ gather ops inp s.in_stride 161) 160 54 3 0 1 0 0 hia hfa hd hL hP
  have e1 : (orbit (fun _ _ => ()) 3 0 1 161 54 0 0).1.length = 54 := by decide
  have e2 : (orbit (fun _ _ => ()) 3 0 1 161 54 0 0).2 = (162, 0) := by decide
  have e3 : (orbit (fun _ _ => ()) 3 0 1 160 54 0 0).1.length = 54 := by decide
  have e4 : (orbit (fun _ _ => ()) 3 0 1 160 54 0 0).2 = (162, 0) := by decide
  rw [e1] at h1
  rw [e2] at h2
  rw [e3] at g1
  rw [e4] at g2
  obtain ⟨r, hr1, hr2⟩ := process_float_capped ops s ch f m inp 161 54 160 out opos hr hm hptr
    (by decide) (by decide) (by rw [hx]; rfl) g1 (Or.inl (by decide)) (by decide)
  have hn1 : n1 = 160 := by
    have h := he out opos
    rw [hr1] at h
    injection h with h
    have e := congrArg Processed.in_len h
    simp only [] at e
    rw [hr2, g2] at e
    exact e.symm
  refine ⟨_, he out opos, hn1, h1, ?_⟩
  show st'.last_sample = _
  rw [hls, h2, hn1]
  rfl

/-- C5.  The two multi-channel entry points differ on the engine
`speex_resampler_init (2, 48000, 16000, 0)` given 161 frames and room for 100
output frames, whatever the samples: `speex_resampler_process_interleaved_float`
consumes 161 frames and leaves both cursors at 1, while
`speex_resampler_process_parallel_float`, which hands the second channel the
54 the first call stored in `*out_len` as its capacity, returns 160 consumed and
leaves the cursors at 1 and 2. -/
theorem parallel_differs_from_interleaved {F D : Type} (ops : FloatOps F D)
    (xi x0 x1 : Option (List F)) (oi o0 o1 : List F) :
    ∃ (st : SpeexResamplerState F) (ri : Processed F) (rp : ProcessedParallel F),
      speex_resampler_init ops 2 48000 16000 0 = some (some st, RESAMPLER_ERR_SUCCESS) ∧
      speex_resampler_process_interleaved_float ops st xi 161 oi 100 = some ri ∧
      speex_resampler_process_parallel_float ops st [x0, x1] 161 [o0, o1] 100 = some rp ∧
      ri.in_len = 161 ∧ rp.in_len = 160 ∧ ri.out_len = 54 ∧ rp.out_len = 54 ∧
      ri.st.last_sample = [1, 1] ∧ rp.st.last_sample = [1, 2] := by
  obtain ⟨st, n, d, he, hred, hn, hd, ha, _, _, hnb, hl, hf, hmg, hready, hsz, _⟩ :=
    init_frac_ready_sized (F := F) ops 2 48000 16000 48000 16000 0 (by decide) (by decide)
      (by decide) (by decide) (by decide) (by decide)
  rw [reduce_ratio_48000_16000] at hred
  injection hred with hred
  injection hred with h1 h2
  subst h1 h2
  obtain ⟨hia0, hfa0, _⟩ := ha
  rw [hn, hd] at hia0 hfa0
  have hia : st.int_advance = 3 := hia0
  have hfa : st.frac_advance = 0 := hfa0
  have hL0 : st.last_sample.getD 0 0 = 0 := by rw [hl]; rfl
  have hL1 : st.last_sample.getD 1 0 = 0 := by rw [hl]; rfl
  have hP0 : st.samp_frac_num.getD 0 0 = 0 := by rw [hf]; rfl
  have hP1 : st.samp_frac_num.getD 1 0 = 0 := by rw [hf]; rfl
  -- the interleaved entry point
  obtain ⟨s2, hs2⟩ : ∃ s2 : SpeexResamplerState F, s2 =
      { st with in_stride := st.nb_channels, out_stride := st.nb_channels } := ⟨_, rfl⟩
  have hrdy : ∀ c, c < 2 → channel_ready s2 c := by
    intro c hc
    have h := hready c hc
    rw [hs2]
    exact ⟨h.mem_some, h.ptr_some, h.den_pos, h.filt_pos, h.filt_four, h.room, h.cursor,
      h.phase, h.magic⟩
  obtain ⟨r0, hr0, hin0, _, hls0, hsf0, hmem0, hfr0⟩ :=
    third_rate_call ops s2 0 (xi.map (List.drop 0)) oi 0 (hrdy 0 (by decide))
      (by rw [hs2]; exact hia) (by rw [hs2]; exact hfa) (by rw [hs2]; exact hd)
      (by rw [hs2]; exact hL0) (by rw [hs2]; exact hP0)
  have hls0' : r0.st.last_sample = [1, 0] := by
    rw [hls0, hs2]
    show st.last_sample.set 0 1 = _
    rw [hl]
    rfl
  have hsf0' : r0.st.samp_frac_num = [0, 0] := by
    rw [hsf0, hs2]
    show st.samp_frac_num.set 0 0 = _
    rw [hf]
    rfl
  have hrdy1 : channel_ready r0.st 1 :=
    channel_ready_after s2 r0.st 1 hfr0 hmem0 (by rw [hls0, List.length_set])
      (by rw [hsf0, List.length_set]) (hrdy 1 (by decide))
  obtain ⟨_, e2, _, _, _, _, e7, e8, _, _, _, _, _⟩ := frame_fields s2 r0.st hfr0
  obtain ⟨r1, hr1, hin1, hout1, hls1, _, _, _⟩ :=
    third_rate_call ops r0.st 1 (xi.map (List.drop 1)) r0.out 1 hrdy1
      (by rw [e7, hs2]; exact hia) (by rw [e8, hs2]; exact hfa) (by rw [e2, hs2]; exact hd)
      (by rw [hls0']; rfl) (by rw [hsf0']; rfl)
  have hresi : speex_resampler_process_interleaved_float ops st xi 161 oi 100
      = some { r1 with
          st := { r1.st with in_stride := st.in_stride, out_stride := st.out_stride },
          status := RESAMPLER_ERR_SUCCESS } := by
    unfold speex_resampler_process_interleaved_float
    simp only [hnb]
    rw [show List.range 2 = [0, 1] from rfl]
    simp only [List.foldl_cons, List.foldl_nil]
    rw [hnb] at hs2
    rw [← hs2, hr0]
    simp only []
    rw [hin0, hr1]
  -- the parallel entry point
  obtain ⟨p0, hp0, hpin0, hpout0, hpls0, hpsf0, hpmem0, hpfr0⟩ :=
    third_rate_call ops st 0 ([x0, x1].getD 0 none) ([o0, o1].getD 0 []) 0
      (hready 0 (by decide)) hia hfa hd hL0 hP0
  have hpls0' : p0.st.last_sample = [1, 0] := by
    rw [hpls0, hl]
    rfl
  have hpsf0' : p0.st.samp_frac_num = [0, 0] := by
    rw [hpsf0, hf]
    rfl
  have hprdy1 : channel_ready p0.st 1 :=
    channel_ready_after st p0.st 1 hpfr0 hpmem0 (by rw [hpls0, List.length_set])
      (by rw [hpsf0, List.length_set]) (hready 1 (by decide))
  obtain ⟨q1, q2, _, q4, _, _, q7, q8, _, _, q11, _, _⟩ := frame_fields st p0.st hpfr0
  obtain ⟨p1, hp1, hpin1, hpout1, hpls1⟩ :=
    third_rate_call_capped ops p0.st 1 ([x0, x1].getD 1 none)
      (([o0, o1].set 0 p0.out).getD 1 []) 0 hprdy1
      (by rw [q7]; exact hia) (by rw [q8]; exact hfa) (by rw [q2]; exact hd)
      (by rw [hpls0']; rfl) (by rw [hpsf0']; rfl) (by rw [q4, q1]; exact hsz)
  have hresp : speex_resampler_process_parallel_float ops st [x0, x1] 161 [o0, o1] 100
      = some { st := p1.st, in_len := p1.in_len,
               out := ([o0, o1].set 0 p0.out).set 1 p1.out,
               out_len := p1.out_len, status := p1.status } := by
    unfold speex_resampler_process_parallel_float
    simp only [hnb]
    rw [show List.range 2 = [0, 1] from rfl]
    simp only [List.foldl_cons, List.foldl_nil]
    rw [hp0]
    simp only []
    rw [hpin0, hpout0, hp1]
  refine ⟨st, _, _, he, hresi, hresp, hin1, hpin1, hout1, hpout1, ?_, ?_⟩
  · show r1.st.last_sample = [1, 1]
    rw [hls1, hls0']
    rfl
  · show p1.st.last_sample = [1, 2]
    rw [hpls1, hpls0']
    rfl

/-! ## Output count of a constructed engine -/

/-- A call of `speex_resampler_process_float` with no magic samples pending and
either no input or no room for output does not enter its loop: it returns the
engine and the buffer as they were, with both counts 0. -/
theorem process_float_idle {F D : Type} (ops : FloatOps F D) (st : SpeexResamplerState F)
    (ch : Nat) (inp : Option (List F)) (n : Nat) (out : List F) (opos c : Nat)
    (hm : st.magic_samples.getD ch 0 = 0) (h0 : n = 0 ∨ c = 0) :
    speex_resampler_process_float ops st ch inp n out opos c
      = some { st := st, in_len := 0, out := out, out_len := 0,
               status := RESAMPLER_ERR_SUCCESS } := by
  unfold speex_resampler_process_float
  simp only [hm, ne_eq, not_true_eq_false, if_false, if_true]
  rw [process_float_loop_stop ops _ _ _ _ _ _ _ _ _ _ _ _ h0]
  simp only [Nat.sub_self]

/-- The channel loop of `speex_resampler_process_interleaved_float` once
`*in_len` is 0: nothing changes any more. -/
theorem interleaved_fold_idle {F D : Type} (ops : FloatOps F D) (s : SpeexResamplerState F)
    (inp : Option (List F)) (out : List F) (bak_len : Nat)
    (hm : ∀ ch, s.magic_samples.getD ch 0 = 0) :
    ∀ chs : List Nat,
      chs.foldl
        (fun (acc : Option (Processed F)) i =>
          match acc with
          | none => none
          | some a =>
            speex_resampler_process_float ops a.st i (inp.map (List.drop i)) a.in_len
              a.out i bak_len)
        (some { st := s, in_len := 0, out := out, out_len := 0,
                status := RESAMPLER_ERR_SUCCESS })
      = some { st := s, in_len := 0, out := out, out_len := 0,
               status := RESAMPLER_ERR_SUCCESS } := by
  intro chs
  induction chs with
  | nil => rfl
  | cons i tl ih =>
    rw [List.foldl_cons]
    simp only []
    rw [process_float_idle ops s i _ 0 out i bak_len (hm i) (Or.inl rfl)]
    exact ih

/-- The interleaved entry point on an engine of at least one channel without
magic samples, with no input or no room for output: the engine and the buffer
come back as they were, with both counts 0. -/
theorem interleaved_idle {F D : Type} (ops : FloatOps F D) (st : SpeexResamplerState F)
    (inp : Option (List F)) (n : Nat) (out : List F) (c : Nat)
    (hnb : 1 ≤ st.nb_channels) (hm : ∀ ch, st.magic_samples.getD ch 0 = 0)
    (h0 : n = 0 ∨ c = 0) :
    speex_resampler_process_interleaved_float ops st inp n out c
      = some { st := st, in_len := 0, out := out, out_len := 0,
               status := RESAMPLER_ERR_SUCCESS } := by
  obtain ⟨k, hk⟩ := Nat.exists_eq_add_of_le' hnb
  obtain ⟨s2, hs2⟩ : ∃ s2 : SpeexResamplerState F, s2 =
      { st with in_stride := st.nb_channels, out_stride := st.nb_channels } := ⟨_, rfl⟩
  have hm2 : ∀ ch, s2.magic_samples.getD ch 0 = 0 := by rw [hs2]; exact hm
  have hback : { s2 with in_stride := st.in_stride, out_stride := st.out_stride } = st := by
    rw [hs2]
  unfold speex_resampler_process_interleaved_float
  simp only []
  rw [← hs2, hk, List.range_succ_eq_map, List.foldl_cons]
  simp only []
  rw [process_float_idle ops s2 0 _ n out 0 c (hm2 0) h0,
    interleaved_fold_idle ops s2 inp out c hm2]
  simp only []
  rw [hback]

/-- C11.  For a quality in 0..10, a 32-bit ratio with a non-zero denominator and
at least one channel, `speex_resampler_init_frac` returns an engine on which a
call of `speex_resampler_process_float` (on any of its channels) or of
`speex_resampler_process_interleaved_float` with input length 0 returns with
both counts 0, the output buffer as it was and the engine as it was (every
cursor, phase, magic count and history cell); and the same for an output
capacity of 0, whatever the input length. -/
theorem zero_length_call {F D : Type} (ops : FloatOps F D)
    (nb_channels ratio_num ratio_den in_rate out_rate : Nat) (quality : Int)
    (hq0 : 0 ≤ quality) (hq1 : quality ≤ 10) (hd : 1 ≤ ratio_den)
    (hnb : ratio_num < U32) (hdb : ratio_den < U32) (hch : 1 ≤ nb_channels) :
    ∃ st : SpeexResamplerState F,
      speex_resampler_init_frac ops nb_channels ratio_num ratio_den in_rate out_rate quality
        = some (some st, RESAMPLER_ERR_SUCCESS) ∧
      (∀ (ch : Nat) (inp : Option (List F)) (out : List F) (opos cap : Nat),
        ch < nb_channels →
        speex_resampler_process_float ops st ch inp 0 out opos cap
          = some { st := st, in_len := 0, out := out, out_len := 0,
                   status := RESAMPLER_ERR_SUCCESS }) ∧
      (∀ (ch : Nat) (inp : Option (List F)) (n : Nat) (out : List F) (opos : Nat),
        ch < nb_channels →
        speex_resampler_process_float ops st ch inp n out opos 0
          = some { st := st, in_len := 0, out := out, out_len := 0,
                   status := RESAMPLER_ERR_SUCCESS }) ∧
      (∀ (inp : Option (List F)) (out : List F) (cap : Nat),
        speex_resampler_process_interleaved_float ops st inp 0 out cap
          = some { st := st, in_len := 0, out := out, out_len := 0,
                   status := RESAMPLER_ERR_SUCCESS }) ∧
      (∀ (inp : Option (List F)) (n : Nat) (out : List F),
        speex_resampler_process_interleaved_float ops st inp n out 0
          = some { st := st, in_len := 0, out := out, out_len := 0,
                   status := RESAMPLER_ERR_SUCCESS }) := by
  obtain ⟨st, he, _, _, _, hnbc, _, _, hmg, _⟩ := init_frac_some ops nb_channels ratio_num
    ratio_den in_rate out_rate quality hq0 hq1 hd hnb hdb
  have hm : ∀ ch, st.magic_samples.getD ch 0 = 0 := by
    intro ch
    rw [hmg, List.getD_eq_getElem?_getD, List.getElem?_replicate]
    split <;> rfl
  have hnbc' : 1 ≤ st.nb_channels := by rw [hnbc]; exact hch
  exact ⟨st, he,
    fun ch inp out opos cap _ => process_float_idle ops st ch inp 0 out opos cap (hm ch)
      (Or.inl rfl),
    fun ch inp n out opos _ => process_float_idle ops st ch inp n out opos 0 (hm ch)
      (Or.inr rfl),
    fun inp out cap => interleaved_idle ops st inp 0 out cap hnbc' hm (Or.inl rfl),
    fun inp n out => interleaved_idle ops st inp n out 0 hnbc' hm (Or.inr rfl)⟩

/-- C11, witness: two channels, 48000 to 44100 at quality 5, with exact integer
arithmetic. -/
theorem zero_length_call_witness :
    ((0 : Int) ≤ 5 ∧ (5 : Int) ≤ 10 ∧ 1 ≤ 44100 ∧ 48000 < U32 ∧ 44100 < U32 ∧ 1 ≤ 2) ∧
    ∃ st : SpeexResamplerState Int,
      speex_resampler_init_frac intOps 2 48000 44100 48000 44100 5
        = some (some st, RESAMPLER_ERR_SUCCESS) ∧
      (∀ (ch : Nat) (inp : Option (List Int)) (out : List Int) (opos cap : Nat),
        ch < 2 →
        speex_resampler_process_float intOps st ch inp 0 out opos cap
          = some { st := st, in_len := 0, out := out, out_len := 0,
                   status := RESAMPLER_ERR_SUCCESS }) ∧
      (∀ (ch : Nat) (inp : Option (List Int)) (n : Nat) (out : List Int) (opos : Nat),
        ch < 2 →
        speex_resampler_process_float intOps st ch inp n out opos 0
          = some { st := st, in_len := 0, out := out, out_len := 0,
                   status := RESAMPLER_ERR_SUCCESS }) ∧
      (∀ (inp : Option (List Int)) (out : List Int) (cap : Nat),
        speex_resampler_process_interleaved_float intOps st inp 0 out cap
          = some { st := st, in_len := 0, out := out, out_len := 0,
                   status := RESAMPLER_ERR_SUCCESS }) ∧
      (∀ (inp : Option (List Int)) (n : Nat) (out : List Int),
        speex_resampler_process_interleaved_float intOps st inp n out 0
          = some { st := st, in_len := 0, out := out, out_len := 0,
                   status := RESAMPLER_ERR_SUCCESS }) :=
  ⟨by decide,
    zero_length_call intOps 2 48000 44100 48000 44100 5 (by decide) (by decide) (by decide)
      (by decide) (by decide) (by decide)⟩

/-- With no channel at all the interleaved entry point runs no call: `*in_len`
and `*out_len` come back as they were given, the capacity included. -/
theorem interleaved_no_channel {F D : Type} (ops : FloatOps F D) (st : SpeexResamplerState F)
    (inp : Option (List F)) (n : Nat) (out : List F) (c : Nat) (hnb : st.nb_channels = 0) :
    speex_resampler_process_interleaved_float ops st inp n out c
      = some { st := st, in_len := n, out := out, out_len := c,
               status := RESAMPLER_ERR_SUCCESS } := by
  unfold speex_resampler_process_interleaved_float
  simp only [hnb, List.range_zero, List.foldl_nil]
  rw [← hnb]

/-! ## Flushing with a null input -/

theorem input_sample_zeros {F D : Type} (ops : FloatOps F D) (L k : Nat) :
    input_sample ops (some (List.replicate L ops.zero)) k = input_sample ops none k := by
  unfold input_sample
  simp only []
  rw [List.getD_eq_getElem?_getD, List.getElem?_replicate]
  split <;> rfl

theorem copy_input_zeros {F D : Type} (ops : FloatOps F D) (base filt_offs istride ichunk L : Nat)
    (mem : List F) :
    copy_input ops base filt_offs istride ichunk (some (List.replicate L ops.zero)) mem
      = copy_input ops base filt_offs istride ichunk none mem := by
  unfold copy_input
  simp only [input_sample_zeros]

/-- The chunk loop reads a buffer of zeros as it reads a null pointer. -/
theorem process_float_loop_zeros {F D : Type} (ops : FloatOps F D)
    (ch base filt_offs xlen istride : Nat) :
    ∀ (fuel : Nat) (st : SpeexResamplerState F) (L ilen : Nat) (out : List F)
      (opos olen : Nat),
      process_float_loop ops ch base filt_offs xlen istride fuel st
          (some (List.replicate L ops.zero)) ilen out opos olen
        = process_float_loop ops ch base filt_offs xlen istride fuel st none ilen out opos
            olen := by
  intro fuel
  induction fuel with
  | zero => intro st L ilen out opos olen; rfl
  | succ fuel ih =>
    intro st L ilen out opos olen
    rw [process_float_loop, process_float_loop]
    by_cases hc : ilen ≠ 0 ∧ olen ≠ 0
    · rw [if_pos hc, if_pos hc]
      cases hm : st.mem with
      | none => rfl
      | some m =>
        simp only [copy_input_zeros]
        cases hr : speex_resampler_process_native ops
            { st with mem := some (copy_input ops base filt_offs istride
                (if ilen > xlen then xlen else ilen) none m) }
            ch (if ilen > xlen then xlen else ilen) out opos olen with
        | none => rfl
        | some r =>
          simp only [Option.map_some', Option.map_none', List.drop_replicate]
          exact ih _ _ _ _ _ _
    · rw [if_neg hc, if_neg hc]

/-- C14.  Flush mode: `speex_resampler_process_float` called with a null input
pointer gives the same result (engine, consumed count, output buffer, output
count, status) as the same call on a buffer of zeros, of `n` cells or of any
other length `L`, for every engine, channel, input length, stride, output
buffer and capacity (a call that does not return included: then neither does
the other); on a ready channel, for a capacity below `2^31` and a chunk size
`mem_alloc_size - (filt_len - 1)` or an input length below `2^31`, both calls
return. -/
theorem flush_equals_zero_input {F D : Type} (ops : FloatOps F D) :
    (∀ (st : SpeexResamplerState F) (ch n L : Nat) (out : List F) (opos c : Nat),
      speex_resampler_process_float ops st ch none n out opos c
        = speex_resampler_process_float ops st ch (some (List.replicate L ops.zero)) n
            out opos c) ∧
    (∀ (st : SpeexResamplerState F) (ch n : Nat) (out : List F) (opos c : Nat),
      channel_ready st ch →
      (n < 2147483648 ∨ st.mem_alloc_size - (st.filt_len - 1) < 2147483648) →
      c < 2147483648 →
      ∃ r, speex_resampler_process_float ops st ch none n out opos c = some r ∧
        speex_resampler_process_float ops st ch (some (List.replicate n ops.zero)) n
          out opos c = some r) := by
  have key : ∀ (st : SpeexResamplerState F) (ch n L : Nat) (out : List F) (opos c : Nat),
      speex_resampler_process_float ops st ch none n out opos c
        = speex_resampler_process_float ops st ch (some (List.replicate L ops.zero)) n
            out opos c := by
    intro st ch n L out opos c
    unfold speex_resampler_process_float
    simp only [process_float_loop_zeros]
  refine ⟨key, ?_⟩
  intro st ch n out opos c hr hn31 hc31
  obtain ⟨m, hm, _⟩ := hr.mem_some
  obtain ⟨f, hptr⟩ := hr.ptr_some
  obtain ⟨n1, st', m', he, _⟩ :=
    process_float_ready ops st ch f m none n c hr hm hptr hn31 hc31
  exact ⟨_, he out opos, by rw [← key]; exact he out opos⟩

/-- C14, witness: the mono engine for 48000 to 44100 at quality 5, flushed with
three samples and room for four outputs: the call on a null input and the call
on three zeros return the same result. -/
theorem flush_equals_zero_input_witness :
    ∃ (st : SpeexResamplerState Int) (r : Processed Int),
      speex_resampler_init intOps 1 48000 44100 5 = some (some st, RESAMPLER_ERR_SUCCESS) ∧
      channel_ready st 0 ∧ 3 < 2147483648 ∧ 4 < 2147483648 ∧
      speex_resampler_process_float intOps st 0 none 3 [0, 0, 0, 0] 0 4 = some r ∧
      speex_resampler_process_float intOps st 0 (some (List.replicate 3 intOps.zero)) 3
        [0, 0, 0, 0] 0 4 = some r := by
  obtain ⟨st, n, d, he, _, _, _, _, _, _, _, _, _, _, hrdy⟩ :=
    init_frac_ready intOps 1 48000 44100 48000 44100 5 (by decide) (by decide) (by decide)
      (by decide) (by decide) (by decide)
  have hr : channel_ready st 0 := hrdy 0 (by decide)
  obtain ⟨r, h1, h2⟩ := (flush_equals_zero_input intOps).2 st 0 3 [0, 0, 0, 0] 0 4 hr
    (Or.inl (by decide)) (by decide)
  exact ⟨st, r, he, hr, by decide, by decide, h1, h2⟩

/-! ## Latency -/

/-- The latency functions on an engine whose `filt_len` is a 32-bit value, whose
`num_rate` is not zero and on which `(filt_len / 2) * den_rate + num_rate / 2`
stays below `2^31`. -/
theorem latency_values {F : Type} (st : SpeexResamplerState F)
    (hfl : st.filt_len < U32) (hnum : 1 ≤ st.num_rate)
    (hb : (st.filt_len / 2) * st.den_rate + st.num_rate / 2 < 2147483648) :
    speex_resampler_get_input_latency st = ((st.filt_len / 2 : Nat) : Int) ∧
    speex_resampler_get_output_latency st
      = some ((((st.filt_len / 2) * st.den_rate + st.num_rate / 2) / st.num_rate : Nat) : Int) ∧
    RS4.latency { m_resampler := some st }
      = some (((st.filt_len / 2) * st.den_rate + st.num_rate / 2) / st.num_rate) := by
  have h1 : st.filt_len / 2 < 2147483648 := by simp only [U32] at hfl; omega
  have h2 : ((st.filt_len / 2) * st.den_rate + st.num_rate / 2) % U32
      = (st.filt_len / 2) * st.den_rate + st.num_rate / 2 :=
    Nat.mod_eq_of_lt (by simp only [U32]; omega)
  have h3 : ((st.filt_len / 2) * st.den_rate + st.num_rate / 2) / st.num_rate < 2147483648 :=
    lt_of_le_of_lt (Nat.div_le_self _ _) hb
  have h4 : speex_resampler_get_output_latency st
      = some ((((st.filt_len / 2) * st.den_rate + st.num_rate / 2) / st.num_rate : Nat)
          : Int) := by
    unfold speex_resampler_get_output_latency
    rw [if_neg (by omega), h2, to_int_small _ h3]
  refine ⟨to_int_small _ h1, h4, ?_⟩
  unfold RS4.latency
  simp only [h4]
  congr 1
  have h5 : ((((st.filt_len / 2) * st.den_rate + st.num_rate / 2) / st.num_rate : Nat) : Int)
      % 18446744073709551616
      = ((((st.filt_len / 2) * st.den_rate + st.num_rate / 2) / st.num_rate : Nat) : Int) := by
    apply Int.emod_eq_of_lt
    · exact Int.ofNat_nonneg _
    · omega
  rw [h5, Int.toNat_ofNat]

theorem reduce_ratio_44100_48000 : reduce_ratio 44100 48000 = some (147, 160) := by decide

/-- The engine built for a ratio whose reduced form is `n / d`, with `n ≤ 160`
and `d ≤ 160`: the reported latencies are the formula on its `filt_len`. -/
theorem init_latency {F D : Type} (ops : FloatOps F D) (nb_channels in_rate out_rate : Nat)
    (quality : Int) (n d : Nat)
    (hq0 : 0 ≤ quality) (hq1 : quality ≤ 10) (hn : 1 ≤ in_rate) (hd : 1 ≤ out_rate)
    (hnb : 256 * in_rate + 160 < U32) (hdb : out_rate ≤ 2147483648)
    (hred : reduce_ratio in_rate out_rate = some (n, d)) (hn160 : n ≤ 160) (hd160 : d ≤ 160) :
    ∃ st : SpeexResamplerState F,
      speex_resampler_init ops nb_channels in_rate out_rate quality
        = some (some st, RESAMPLER_ERR_SUCCESS) ∧
      st.num_rate = n ∧ st.den_rate = d ∧
      speex_resampler_get_input_latency st = ((st.filt_len / 2 : Nat) : Int) ∧
      speex_resampler_get_output_latency st
        = some ((((st.filt_len / 2) * d + n / 2) / n : Nat) : Int) ∧
      RS4.latency { m_resampler := some st } = some (((st.filt_len / 2) * d + n / 2) / n) := by
  obtain ⟨st, n', d', he, hred', hnum, hden, ha, _, _, _, _, _, _, _, _, qm, p, hqm, hp, hfl⟩ :=
    init_frac_ready_sized (F := F) ops nb_channels in_rate out_rate in_rate out_rate quality
      hq0 hq1 hn hd hnb hdb
  rw [hred] at hred'
  injection hred' with hred'
  injection hred' with h1 h2
  subst h1 h2
  obtain ⟨_, _, _, hb256, hb4, _, _⟩ := quality_entry_bounds quality qm hqm
  have hn1 : 1 ≤ n := by rw [← hnum]; exact ha.2.2.1
  obtain ⟨_, _, hpu⟩ := filter_params_len ops qm n d p hb4 hn1
    (by
      have : qm.base_length * n ≤ 256 * 160 := Nat.mul_le_mul hb256 hn160
      simp only [U32]; omega) hp
  have hflb : st.filt_len ≤ 40960 := by
    rw [hfl]
    exact le_trans hpu (Nat.mul_le_mul hb256 hn160)
  have hprod : (st.filt_len / 2) * st.den_rate ≤ 20480 * 160 := by
    rw [hden]
    exact Nat.mul_le_mul (by omega) hd160
  obtain ⟨g1, g2, g3⟩ := latency_values st (by simp only [U32]; omega)
    (by rw [hnum]; exact hn1) (by rw [hnum]; omega)
  rw [hnum, hden] at g2 g3
  exact ⟨st, he, hnum, hden, g1, g2, g3⟩

/-- C15.  `speex_resampler_get_input_latency` returns `filt_len / 2`, and
`speex_resampler_get_output_latency` and `RS4::latency` return
`((filt_len / 2) * den_rate + num_rate / 2) / num_rate` in integer arithmetic,
on every engine with a 32-bit `filt_len`, a non-zero `num_rate` and the
numerator of that quotient below `2^31`.  For 48000 to 44100 the engine holds
the reduced ratio 160/147 and for 44100 to 48000 the ratio 147/160, at every
quality and channel count, and the values reported are those of the formula on
the engine's own `filt_len`. -/
theorem output_latency_formula {F D : Type} (ops : FloatOps F D) (st : SpeexResamplerState F)
    (hfl : st.filt_len < U32) (hnum : 1 ≤ st.num_rate)
    (hb : (st.filt_len / 2) * st.den_rate + st.num_rate / 2 < 2147483648) :
    (speex_resampler_get_input_latency st = ((st.filt_len / 2 : Nat) : Int) ∧
     speex_resampler_get_output_latency st
       = some ((((st.filt_len / 2) * st.den_rate + st.num_rate / 2) / st.num_rate : Nat)
           : Int) ∧
     RS4.latency { m_resampler := some st }
       = some (((st.filt_len / 2) * st.den_rate + st.num_rate / 2) / st.num_rate)) ∧
    (∀ (nb_channels : Nat) (quality : Int), 0 ≤ quality → quality ≤ 10 →
      ∃ s : SpeexResamplerState F,
        speex_resampler_init ops nb_channels 48000 44100 quality
          = some (some s, RESAMPLER_ERR_SUCCESS) ∧
        s.num_rate = 160 ∧ s.den_rate = 147 ∧
        speex_resampler_get_input_latency s = ((s.filt_len / 2 : Nat) : Int) ∧
        speex_resampler_get_output_latency s
          = some ((((s.filt_len / 2) * 147 + 160 / 2) / 160 : Nat) : Int) ∧
        RS4.latency { m_resampler := some s }
          = some (((s.filt_len / 2) * 147 + 160 / 2) / 160)) ∧
    (∀ (nb_channels : Nat) (quality : Int), 0 ≤ quality → quality ≤ 10 →
      ∃ s : SpeexResamplerState F,
        speex_resampler_init ops nb_channels 44100 48000 quality
          = some (some s, RESAMPLER_ERR_SUCCESS) ∧
        s.num_rate = 147 ∧ s.den_rate = 160 ∧
        speex_resampler_get_input_latency s = ((s.filt_len / 2 : Nat) : Int) ∧
        speex_resampler_get_output_latency s
          = some ((((s.filt_len / 2) * 160 + 147 / 2) / 147 : Nat) : Int) ∧
        RS4.latency { m_resampler := some s }
          = some (((s.filt_len / 2) * 160 + 147 / 2) / 147)) :=
  ⟨latency_values st hfl hnum hb,
    fun nb q h0 h1 => init_latency ops nb 48000 44100 q 160 147 h0 h1 (by decide) (by decide)
      (by decide) (by decide) reduce_ratio_48000_44100 (by decide) (by decide),
    fun nb q h0 h1 => init_latency ops nb 44100 48000 q 147 160 h0 h1 (by decide) (by decide)
      (by decide) (by decide) reduce_ratio_44100_48000 (by decide) (by decide)⟩

/-- C15, witness: an engine record with `filt_len = 84` and the ratio 160/147
(the values of 48000 to 44100 at quality 5) reports an output latency of 39. -/
theorem output_latency_formula_witness :
    (({ fresh_state intOps 1 with filt_len := 84, num_rate := 160, den_rate := 147 } :
        SpeexResamplerState Int).filt_len < U32 ∧
      1 ≤ ({ fresh_state intOps 1 with filt_len := 84, num_rate := 160, den_rate := 147 } :
        SpeexResamplerState Int).num_rate) ∧
    speex_resampler_get_input_latency
      ({ fresh_state intOps 1 with filt_len := 84, num_rate := 160, den_rate := 147 } :
        SpeexResamplerState Int) = 42 ∧
    speex_resampler_get_output_latency
      ({ fresh_state intOps 1 with filt_len := 84, num_rate := 160, den_rate := 147 } :
        SpeexResamplerState Int) = some 39 ∧
    RS4.latency
      { m_resampler := some ({ fresh_state intOps 1 with
          filt_len := 84, num_rate := 160, den_rate := 147 } : SpeexResamplerState Int) }
      = some 39 :=
  have h := output_latency_formula intOps
    ({ fresh_state intOps 1 with filt_len := 84, num_rate := 160, den_rate := 147 } :
      SpeexResamplerState Int) (by decide) (by decide) (by decide)
  ⟨⟨by decide, by decide⟩, h.1.1, h.1.2.1, h.1.2.2⟩

/-! ## Filter parameters -/

/-- The filter length, oversampling factor and cutoff `update_filter` stores are
those of `filter_params`, on every engine. -/
theorem update_filter_params {F D : Type} (ops : FloatOps F D) (st : SpeexResamplerState F)
    (qm : QualityMapping) (p : Nat × Nat × F)
    (hqe : quality_entry st.quality = some qm)
    (hp : filter_params ops qm st.num_rate st.den_rate = some p) (hden : st.den_rate ≠ 0) :
    ∃ st', update_filter ops st = some st' ∧
      st'.filt_len = p.1 ∧ st'.oversample = p.2.1 ∧ st'.cutoff = p.2.2 := by
  unfold update_filter
  simp only [hqe, hp, hden, if_false]
  refine ⟨_, rfl, ?_⟩
  obtain ⟨_, h1, h2, h3, _⟩ := update_filter_mem_kept ops st.filt_len
    (update_filter_table ops qm.window_func
      { st with update_filter_calls := st.update_filter_calls + 1,
                oversample := p.2.1, filt_len := p.1, cutoff := p.2.2 })
  obtain ⟨_, g1, g2, g3, _⟩ := update_filter_table_kept ops qm.window_func
      { st with update_filter_calls := st.update_filter_calls + 1,
                oversample := p.2.1, filt_len := p.1, cutoff := p.2.2 }
  exact ⟨by rw [h1, g1], by rw [h2, g2], by rw [h3, g3]⟩

/-- The rows of `quality_map` carry the presets of the specification. -/
theorem quality_entry_preset (q : Nat) (b o : Nat)
    (h : preset_table.get? q = some (b, o)) :
    ∃ qm, quality_entry (q : Int) = some qm ∧ qm.base_length = b ∧ qm.oversample = o := by
  have hq : q ≤ 10 := by
    by_contra hlt
    have : preset_table.get? q = none := by
      rw [List.get?_eq_none]
      simp [preset_table]
      omega
    rw [this] at h
    exact absurd h (by simp)
  unfold quality_entry
  rw [if_neg (by omega), Int.toNat_ofNat]
  interval_cases q <;> simp [preset_table] at h <;> obtain ⟨rfl, rfl⟩ := h <;>
    exact ⟨_, rfl, rfl, rfl⟩

/-- The four conditional halvings of `update_filter`, when `16 * den` does not
wrap: the oversampling factor is shifted right once for every threshold passed,
and floored at 1. -/
theorem halvings_value (num den o : Nat) (h16 : 16 * den < U32) :
    (if halve_if 16 den num (halve_if 8 den num (halve_if 4 den num (halve_if 2 den num o))) < 1
      then 1
      else halve_if 16 den num (halve_if 8 den num (halve_if 4 den num (halve_if 2 den num o))))
      = max 1 (o >>> thresholds_passed num den) := by
  have e2 : (2 * den) % U32 = 2 * den := Nat.mod_eq_of_lt (by omega)
  have e4 : (4 * den) % U32 = 4 * den := Nat.mod_eq_of_lt (by omega)
  have e8 : (8 * den) % U32 = 8 * den := Nat.mod_eq_of_lt (by omega)
  have e16 : (16 * den) % U32 = 16 * den := Nat.mod_eq_of_lt (by omega)
  unfold halve_if thresholds_passed
  rw [e2, e4, e8, e16]
  by_cases h2 : 2 * den < num <;> by_cases h4 : 4 * den < num <;>
    by_cases h8 : 8 * den < num <;> by_cases h16' : 16 * den < num <;>
    simp [h2, h4, h8, h16', Nat.shiftRight_eq_div_pow, Nat.div_div_eq_div_mul] <;>
    (try split) <;> omega

/-- The values `filter_params` computes, when neither `base_length * num` nor
`16 * den` wraps. -/
theorem filter_params_value {F D : Type} (ops : FloatOps F D) (qm : QualityMapping)
    (num den : Nat) (hden : 1 ≤ den) (hov : qm.base_length * num < U32)
    (h16 : 16 * den < U32) :
    ∃ p, filter_params ops qm num den = some p ∧
      (num > den →
        p.1 = qm.base_length * num / den - (qm.base_length * num / den) % 4 ∧
        p.2.1 = max 1 (qm.oversample >>> thresholds_passed num den)) ∧
      (num ≤ den → p.1 = qm.base_length ∧ p.2.1 = qm.oversample) := by
  unfold filter_params
  by_cases h : num > den
  · rw [if_pos h, if_neg (by omega)]
    refine ⟨_, rfl, fun _ => ⟨?_, ?_⟩, fun hle => absurd h (by omega)⟩
    · simp only []
      rw [Nat.mod_eq_of_lt hov]
    · exact halvings_value num den qm.oversample h16
  · rw [if_neg h]
    exact ⟨_, rfl, fun hgt => absurd hgt h, fun _ => ⟨rfl, rfl⟩⟩

/-- C20, the claim fails where `16 * den_rate` wraps.  Quality 0 (preset
`(8, 4)`), reduced ratio `268435457 / 268435456`: `8 * num_rate` is below `2^32`
and no threshold is passed, so the claim gives an oversampling factor of 4; but
`16 * den_rate` is `2^32`, which is 0 as an `unsigned int`, the last test of
`update_filter` succeeds and the stored factor is 2. -/
theorem update_filter_oversample_wraps :
    preset_table.get? 0 = some (8, 4) ∧ 8 * 268435457 < U32 ∧
    Nat.gcd 268435457 268435456 = 1 ∧
    max 1 (4 >>> thresholds_passed 268435457 268435456) = 4 ∧
    ∃ st' : SpeexResamplerState Int,
      update_filter intOps
        { fresh_state intOps 1 with quality := 0, num_rate := 268435457,
                                    den_rate := 268435456 } = some st' ∧
      st'.filt_len = 8 ∧ st'.oversample = 2 := by
  have hp : filter_params intOps ⟨8, 4, 830, 860, FuncDef.KAISER6⟩ 268435457 268435456
      = some (8, 2, intOps.fdiv (intOps.fmul (intOps.milli 830) (intOps.ofInt 268435456))
          (intOps.ofInt 268435457)) := by
    decide
  obtain ⟨st', he, h1, h2, _⟩ := update_filter_params intOps
    ({ fresh_state intOps 1 with quality := 0, num_rate := 268435457,
                                 den_rate := 268435456 } : SpeexResamplerState Int)
    ⟨8, 4, 830, 860, FuncDef.KAISER6⟩ _ rfl hp (by decide)
  exact ⟨rfl, by decide, by decide, by decide, st', he, h1, h2⟩

/-- C20, amended.  On an engine holding quality `q` (preset `(b, o)`) and a ratio
`num_rate / den_rate` with a non-zero denominator, `b * num_rate < 2^32` and
`16 * den_rate < 2^32`, `update_filter` returns; when `num_rate > den_rate` the
new `filt_len` is `b * num_rate / den_rate` rounded down to a multiple of 4 and
the new `oversample` is `max 1 (o >> k)`, `k` the number of `t` in 2, 4, 8, 16
with `t * den_rate < num_rate`; otherwise `filt_len = b` and `oversample = o`. -/
theorem update_filter_parameters {F D : Type} (ops : FloatOps F D)
    (st : SpeexResamplerState F) (q b o : Nat)
    (hq : st.quality = (q : Int)) (hpre : preset_table.get? q = some (b, o))
    (hden : 1 ≤ st.den_rate) (hov : b * st.num_rate < U32) (h16 : 16 * st.den_rate < U32) :
    ∃ st', update_filter ops st = some st' ∧
      (st.num_rate > st.den_rate →
        st'.filt_len = b * st.num_rate / st.den_rate - (b * st.num_rate / st.den_rate) % 4 ∧
        st'.oversample = max 1 (o >>> thresholds_passed st.num_rate st.den_rate)) ∧
      (st.num_rate ≤ st.den_rate → st'.filt_len = b ∧ st'.oversample = o) := by
  obtain ⟨qm, hqm, hb, ho⟩ := quality_entry_preset q b o hpre
  rw [← hq] at hqm
  obtain ⟨p, hp, hdown, hup⟩ := filter_params_value ops qm st.num_rate st.den_rate hden
    (by rw [hb]; exact hov) h16
  obtain ⟨st', he, h1, h2, _⟩ := update_filter_params ops st qm p hqm hp (by omega)
  rw [hb, ho] at hdown hup
  refine ⟨st', he, fun hgt => ?_, fun hle => ?_⟩
  · rw [h1, h2]; exact hdown hgt
  · rw [h1, h2]; exact hup hle

/-- C20, witness: quality 5 (preset `(80, 16)`) at the ratio 160/147, where the
filter length becomes 84 and the oversampling factor stays 16. -/
theorem update_filter_parameters_witness :
    (preset_table.get? 5 = some (80, 16) ∧ 80 * 160 < U32 ∧ 16 * 147 < U32) ∧
    ∃ st' : SpeexResamplerState Int,
      update_filter intOps
        { fresh_state intOps 2 with quality := 5, num_rate := 160, den_rate := 147 }
        = some st' ∧
      st'.filt_len = 84 ∧ st'.oversample = 16 := by
  obtain ⟨st', he, hdown, _⟩ := update_filter_parameters intOps
    ({ fresh_state intOps 2 with quality := 5, num_rate := 160, den_rate := 147 } :
      SpeexResamplerState Int) 5 80 16 rfl rfl (by decide) (by decide) (by decide)
  obtain ⟨h1, h2⟩ := hdown (by decide)
  exact ⟨⟨rfl, by decide, by decide⟩, st', he, h1, h2⟩

/-! ## The cursor and the phase of the kernels -/

/-- A call of one of the four kernels, on an engine with a non-zero `den_rate`:
the outputs, the final cursor and the final phase are those of the orbit over
the memory it reads, for the lengths `(int)*in_len` and `(int)*out_len` of its
test. -/
theorem resampler_basic_orbit {F D : Type} (ops : FloatOps F D) (f : resampler_basic_func)
    (st : SpeexResamplerState F) (ch : Nat) (mem : List F) (base in_len : Nat)
    (out : List F) (opos out_len : Nat) (hden : 1 ≤ st.den_rate) :
    resampler_basic ops f st ch mem base in_len out opos out_len
      = some
        ({ st with
            last_sample := st.last_sample.set ch
              (orbit (fun L ph => kernel_sample ops f st.filt_len st.oversample st.den_rate
                  (st.sinc_table.getD []) ph (fun j => mem.getD (base + (L + j)) ops.zero))
                st.int_advance st.frac_advance st.den_rate (int_len in_len) (int_len out_len)
                (st.last_sample.getD ch 0) (st.samp_frac_num.getD ch 0)).2.1,
            samp_frac_num := st.samp_frac_num.set ch
              (orbit (fun L ph => kernel_sample ops f st.filt_len st.oversample st.den_rate
                  (st.sinc_table.getD []) ph (fun j => mem.getD (base + (L + j)) ops.zero))
                st.int_advance st.frac_advance st.den_rate (int_len in_len) (int_len out_len)
                (st.last_sample.getD ch 0) (st.samp_frac_num.getD ch 0)).2.2 },
         scatter out opos st.out_stride
           (orbit (fun L ph => kernel_sample ops f st.filt_len st.oversample st.den_rate
               (st.sinc_table.getD []) ph (fun j => mem.getD (base + (L + j)) ops.zero))
             st.int_advance st.frac_advance st.den_rate (int_len in_len) (int_len out_len)
             (st.last_sample.getD ch 0) (st.samp_frac_num.getD ch 0)).1,
         (orbit (fun L ph => kernel_sample ops f st.filt_len st.oversample st.den_rate
               (st.sinc_table.getD []) ph (fun j => mem.getD (base + (L + j)) ops.zero))
             st.int_advance st.frac_advance st.den_rate (int_len in_len) (int_len out_len)
             (st.last_sample.getD ch 0) (st.samp_frac_num.getD ch 0)).1.length) := by
  have hd0 : ¬ ((f = resampler_basic_func.resampler_basic_interpolate_single
      ∨ f = resampler_basic_func.resampler_basic_interpolate_double) ∧ st.den_rate = 0) := by
    omega
  simp only [resampler_basic, hd0, if_false]
  rw [kernel_loop_eq_orbit _ _ _ _ _ _ _ _ _ _ _ _ _ (by have := int_len_le out_len; omega)]
  simp only [Nat.mul_zero, Nat.add_zero, Nat.zero_add, Nat.sub_zero]

/-- Output number `i` of an orbit is taken at the cursor
`(L * den + f + i * num) / den` and the phase `(L * den + f + i * num) % den`. -/
theorem orbit_samples {F : Type} (smp : Nat → Nat → F) (num den n : Nat) (hden : 1 ≤ den)
    (hw : den ≤ 2147483648) :
    ∀ (c L f : Nat), f < den →
      (orbit smp (num / den) (num % den) den n c L f).1
        = (List.range (orbit smp (num / den) (num % den) den n c L f).1.length).map
            (fun i => smp ((L * den + f + i * num) / den) ((L * den + f + i * num) % den)) := by
  intro c
  induction c with
  | zero => intro L f _; simp [orbit]
  | succ c ih =>
    intro L f hf
    by_cases hL : L ≥ n
    · simp [orbit, hL]
    · simp only [orbit, hL, if_false, List.length_cons]
      obtain ⟨h1, h2⟩ := advance_position num den L f hden hw hf
      rw [List.range_succ_eq_map, List.map_cons, List.map_map]
      have e0 : (L * den + f + 0 * num) / den = L := by
        rw [Nat.zero_mul, Nat.add_zero, Nat.mul_comm, Nat.mul_add_div (by omega),
          Nat.div_eq_of_lt hf, Nat.add_zero]
      have e1 : (L * den + f + 0 * num) % den = f := by
        rw [Nat.zero_mul, Nat.add_zero, Nat.mul_comm, Nat.mul_add_mod, Nat.mod_eq_of_lt hf]
      rw [e0, e1]
      congr 1
      refine Eq.trans (ih _ _ h2) ?_
      apply List.map_congr_left
      intro i _
      have e : (advance (num / den) (num % den) den L f).1 * den
          + (advance (num / den) (num % den) den L f).2 + i * num
          = L * den + f + (i + 1) * num := by
        rw [h1]; ring
      simp only [Function.comp, Nat.succ_eq_add_one]
      rw [e]

/-- C18, the claim fails where the phase sum wraps.  With the reduced ratio
`4294967294 / 4294967295` (so `int_advance = 0`, `frac_advance = 4294967294`), a
call of any of the four kernels from cursor 0 and phase 0 over one input sample
with room for two outputs returns 2 outputs and leaves cursor 0 and phase
`4294967292`: the second sum `4294967294 + 4294967294` is `4294967292` as an
`unsigned int`, the carry is lost, and `0 * den_rate + 4294967292` is not
`0 * den_rate + 0 + 2 * num_rate`. -/
theorem kernel_phase_wraps :
    (4294967294 / 4294967295 = 0 ∧ 4294967294 % 4294967295 = 4294967294 ∧
      Nat.gcd 4294967294 4294967295 = 1) ∧
    (∀ f : resampler_basic_func,
      (resampler_basic intOps f
          { fresh_state intOps 1 with
            num_rate := 4294967294, den_rate := 4294967295, int_advance := 0,
            frac_advance := 4294967294, filt_len := 4, oversample := 4,
            sinc_table := some [] }
          0 [0, 0, 0, 0] 0 1 [0, 0] 0 2).map
        (fun r => (r.2.2, r.1.last_sample.getD 0 0, r.1.samp_frac_num.getD 0 0))
        = some (2, 0, 4294967292)) ∧
    0 * 4294967295 + 4294967292 ≠ 0 * 4294967295 + 0 + 2 * 4294967294 := by
  refine ⟨by decide, ?_, by decide⟩
  intro f
  cases f <;> decide

/-- C18, amended.  On an engine with `1 ≤ den_rate ≤ 2^31` whose advances are
`num_rate / den_rate` and `num_rate % den_rate`, a call of any of the four
kernels that starts at cursor `L` and phase `f < den_rate` returns a count `k`
of at most `out_len`, leaves a cursor `L'` and a phase `f' < den_rate` with
`L' * den_rate + f' = L * den_rate + f + k * num_rate`, and has written output
number `i` (for `i < k`) as the kernel's sample at cursor
`(L * den_rate + f + i * num_rate) / den_rate` and phase
`(L * den_rate + f + i * num_rate) % den_rate`. -/
theorem kernel_cursor_exact {F D : Type} (ops : FloatOps F D) (f : resampler_basic_func)
    (st : SpeexResamplerState F) (ch : Nat) (mem : List F) (base in_len : Nat)
    (out : List F) (opos out_len : Nat)
    (hden : 1 ≤ st.den_rate) (hw : st.den_rate ≤ 2147483648)
    (hia : st.int_advance = st.num_rate / st.den_rate)
    (hfa : st.frac_advance = st.num_rate % st.den_rate)
    (hc1 : ch < st.last_sample.length) (hc2 : ch < st.samp_frac_num.length)
    (hf : st.samp_frac_num.getD ch 0 < st.den_rate) :
    ∃ (st' : SpeexResamplerState F) (k : Nat),
      resampler_basic ops f st ch mem base in_len out opos out_len
        = some (st',
            scatter out opos st.out_stride
              ((List.range k).map (fun i =>
                kernel_sample ops f st.filt_len st.oversample st.den_rate
                  (st.sinc_table.getD [])
                  ((st.last_sample.getD ch 0 * st.den_rate + st.samp_frac_num.getD ch 0
                      + i * st.num_rate) % st.den_rate)
                  (fun j => mem.getD
                    (base + ((st.last_sample.getD ch 0 * st.den_rate
                        + st.samp_frac_num.getD ch 0 + i * st.num_rate) / st.den_rate + j))
                    ops.zero))),
            k) ∧
      k ≤ out_len ∧
      st'.last_sample.getD ch 0 * st.den_rate + st'.samp_frac_num.getD ch 0
        = st.last_sample.getD ch 0 * st.den_rate + st.samp_frac_num.getD ch 0
            + k * st.num_rate ∧
      st'.samp_frac_num.getD ch 0 < st.den_rate := by
  have hb := resampler_basic_orbit ops f st ch mem base in_len out opos out_len hden
  obtain ⟨O, hO⟩ : ∃ O, O = orbit (fun L ph => kernel_sample ops f st.filt_len st.oversample
      st.den_rate (st.sinc_table.getD []) ph (fun j => mem.getD (base + (L + j)) ops.zero))
      st.int_advance st.frac_advance st.den_rate (int_len in_len) (int_len out_len)
      (st.last_sample.getD ch 0) (st.samp_frac_num.getD ch 0) := ⟨_, rfl⟩
  have hs := orbit_samples (fun L ph => kernel_sample ops f st.filt_len st.oversample
      st.den_rate (st.sinc_table.getD []) ph (fun j => mem.getD (base + (L + j)) ops.zero))
      st.num_rate st.den_rate (int_len in_len) hden hw (int_len out_len)
      (st.last_sample.getD ch 0) (st.samp_frac_num.getD ch 0) hf
  obtain ⟨hp1, hp2⟩ := orbit_position (fun L ph => kernel_sample ops f st.filt_len
      st.oversample st.den_rate (st.sinc_table.getD []) ph
      (fun j => mem.getD (base + (L + j)) ops.zero))
      st.num_rate st.den_rate (int_len in_len) hden hw (int_len out_len)
      (st.last_sample.getD ch 0) (st.samp_frac_num.getD ch 0) hf
  have hlen := orbit_length_le (fun L ph => kernel_sample ops f st.filt_len
      st.oversample st.den_rate (st.sinc_table.getD []) ph
      (fun j => mem.getD (base + (L + j)) ops.zero))
      st.int_advance st.frac_advance st.den_rate (int_len in_len) (int_len out_len)
      (st.last_sample.getD ch 0) (st.samp_frac_num.getD ch 0)
  rw [← hia, ← hfa] at hs hp1 hp2
  rw [← hO] at hb hs hp1 hp2 hlen
  obtain ⟨s', hs'⟩ : ∃ s' : SpeexResamplerState F, s' =
      { st with last_sample := st.last_sample.set ch O.2.1,
                samp_frac_num := st.samp_frac_num.set ch O.2.2 } := ⟨_, rfl⟩
  rw [← hs'] at hb
  refine ⟨s', O.1.length, ?_, Nat.le_trans hlen (int_len_le out_len), ?_, ?_⟩
  · rw [hb]
    congr 2
    rw [← hs]
  · rw [hs']
    show (st.last_sample.set ch O.2.1).getD ch 0 * st.den_rate
      + (st.samp_frac_num.set ch O.2.2).getD ch 0 = _
    rw [getD_set_self _ _ _ _ hc1, getD_set_self _ _ _ _ hc2]
    exact hp1
  · rw [hs']
    show (st.samp_frac_num.set ch O.2.2).getD ch 0 < _
    rw [getD_set_self _ _ _ _ hc2]
    exact hp2

/-- C18, witness: the ratio 160/147, one channel at cursor 3 and phase 5, ten
input samples and room for four outputs. -/
theorem kernel_cursor_exact_witness :
    ∃ (st' : SpeexResamplerState Int) (k : Nat),
      resampler_basic intOps resampler_basic_func.resampler_basic_direct_single
          { fresh_state intOps 1 with
            num_rate := 160, den_rate := 147, int_advance := 1, frac_advance := 13,
            filt_len := 4, last_sample := [3], samp_frac_num := [5] }
          0 (List.replicate 16 1) 0 10 [0, 0, 0, 0] 0 4
        = some (st',
            scatter [0, 0, 0, 0] 0 1
              ((List.range k).map (fun i =>
                kernel_sample intOps resampler_basic_func.resampler_basic_direct_single 4 0 147
                  []
                  ((3 * 147 + 5 + i * 160) % 147)
                  (fun j => (List.replicate 16 (1 : Int)).getD
                    (0 + ((3 * 147 + 5 + i * 160) / 147 + j)) intOps.zero))),
            k) ∧
      k ≤ 4 ∧
      st'.last_sample.getD 0 0 * 147 + st'.samp_frac_num.getD 0 0 = 3 * 147 + 5 + k * 160 ∧
      st'.samp_frac_num.getD 0 0 < 147 :=
  kernel_cursor_exact intOps resampler_basic_func.resampler_basic_direct_single
    { fresh_state intOps 1 with
      num_rate := 160, den_rate := 147, int_advance := 1, frac_advance := 13,
      filt_len := 4, last_sample := [3], samp_frac_num := [5] }
    0 (List.replicate 16 1) 0 10 [0, 0, 0, 0] 0 4
    (by decide) (by decide) (by decide) (by decide) (by decide) (by decide) (by decide)

/-! ## Processing with magic samples pending -/

/-- The phase an orbit leaves is below `den`, whether the 32-bit phase sum
wraps or not. -/
theorem orbit_phase_lt {F : Type} (smp : Nat → Nat → F) (ia fa den n : Nat)
    (hfa : fa < den) :
    ∀ (c L f : Nat), f < den → (orbit smp ia fa den n c L f).2.2 < den := by
  intro c
  induction c with
  | zero => intro L f hf; exact hf
  | succ c ih =>
    intro L f hf
    by_cases hL : L ≥ n
    · simp only [orbit, hL, if_true]; exact hf
    · simp only [orbit, hL, if_false]
      apply ih
      unfold advance
      simp only [U32]
      split <;> simp only [] <;> omega

/-- One call of `speex_resampler_process_native`: the kernel runs over the
memory of the channel, the call consumes the smaller of `n` and the cursor
reached, brings the cursor back by as much and shifts the history. -/
theorem process_native_mem {F D : Type} (ops : FloatOps F D) (st : SpeexResamplerState F)
    (ch n : Nat) (out : List F) (opos c : Nat) (m : List F) (f : resampler_basic_func)
    (hmem : st.mem = some m) (hptr : st.resampler_ptr = some f)
    (hden : 1 ≤ st.den_rate) (hch1 : ch < st.last_sample.length)
    (hn31 : n < 2147483648) :
    speex_resampler_process_native ops st ch n out opos c
      = some
        { st :=
            { st with
              started := 1,
              last_sample := st.last_sample.set ch
                ((mem_orbit ops f st ch m n (int_len c)).2.1 - min n (mem_orbit ops f st ch m n (int_len c)).2.1),
              samp_frac_num := st.samp_frac_num.set ch (mem_orbit ops f st ch m n (int_len c)).2.2,
              mem := some (shift_history ops (ch * st.mem_alloc_size) st.filt_len
                (min n (mem_orbit ops f st ch m n (int_len c)).2.1) m) },
          in_len := min n (mem_orbit ops f st ch m n (int_len c)).2.1,
          out := scatter out opos st.out_stride (mem_orbit ops f st ch m n (int_len c)).1,
          out_len := (mem_orbit ops f st ch m n (int_len c)).1.length,
          status := RESAMPLER_ERR_SUCCESS } := by
  have hd0 : ¬ ((f = resampler_basic_func.resampler_basic_interpolate_single
      ∨ f = resampler_basic_func.resampler_basic_interpolate_double) ∧ st.den_rate = 0) := by
    omega
  have hguard : ∀ a b : Nat, ¬ (a < if a < b then a else b) := by
    intro a b; split <;> omega
  unfold speex_resampler_process_native mem_orbit
  rw [hmem, hptr]
  simp only [resampler_basic, hd0, if_false]
  rw [kernel_loop_eq_orbit _ _ _ _ _ _ _ _ _ _ _ _ _ (by have := int_len_le c; omega),
    int_len_small n hn31, Nat.sub_zero]
  simp only [Nat.mul_zero, Nat.add_zero, Nat.zero_add, getD_set_self _ _ _ _ hch1,
    List.set_set, to_int_small n hn31, Nat.cast_lt, hguard, if_false]
  congr 1
  have hmin : ∀ a b : Nat, (if a < b then a else b) = min b a := by
    intro a b; simp only [Nat.min_def]; split <;> split <;> omega
  simp only [hmin]

/-- The drain step `speex_resampler_magic`, for a count `M` of magic samples
below `2^31`: the kernel runs over the `M` magic samples pending with the
capacity `(int)out_len`, `k = min M cursor` of them are consumed, and the ones
left are moved down in the memory. -/
theorem magic_spec {F D : Type} (ops : FloatOps F D) (st : SpeexResamplerState F)
    (ch : Nat) (out : List F) (opos c : Nat) (m : List F) (f : resampler_basic_func)
    (hmem : st.mem = some m) (hptr : st.resampler_ptr = some f)
    (hden : 1 ≤ st.den_rate) (hch1 : ch < st.last_sample.length)
    (hM31 : st.magic_samples.getD ch 0 < 2147483648) :
    speex_resampler_magic ops st ch out opos c
      = some
        ({ st with
            started := 1,
            last_sample := st.last_sample.set ch
              ((mem_orbit ops f st ch m (st.magic_samples.getD ch 0) (int_len c)).2.1
                - min (st.magic_samples.getD ch 0)
                    (mem_orbit ops f st ch m (st.magic_samples.getD ch 0) (int_len c)).2.1),
            samp_frac_num := st.samp_frac_num.set ch
              (mem_orbit ops f st ch m (st.magic_samples.getD ch 0) (int_len c)).2.2,
            magic_samples := st.magic_samples.set ch
              (st.magic_samples.getD ch 0
                - min (st.magic_samples.getD ch 0)
                    (mem_orbit ops f st ch m (st.magic_samples.getD ch 0) (int_len c)).2.1),
            mem :=
              if st.magic_samples.getD ch 0
                  - min (st.magic_samples.getD ch 0)
                      (mem_orbit ops f st ch m (st.magic_samples.getD ch 0) (int_len c)).2.1 ≠ 0 then
                some (shift_magic ops (ch * st.mem_alloc_size) st.filt_len
                  (st.magic_samples.getD ch 0
                    - min (st.magic_samples.getD ch 0)
                        (mem_orbit ops f st ch m (st.magic_samples.getD ch 0) (int_len c)).2.1)
                  (min (st.magic_samples.getD ch 0)
                    (mem_orbit ops f st ch m (st.magic_samples.getD ch 0) (int_len c)).2.1)
                  (shift_history ops (ch * st.mem_alloc_size) st.filt_len
                    (min (st.magic_samples.getD ch 0)
                      (mem_orbit ops f st ch m (st.magic_samples.getD ch 0) (int_len c)).2.1) m))
              else
                some (shift_history ops (ch * st.mem_alloc_size) st.filt_len
                  (min (st.magic_samples.getD ch 0)
                    (mem_orbit ops f st ch m (st.magic_samples.getD ch 0) (int_len c)).2.1) m) },
         scatter out opos st.out_stride
           (mem_orbit ops f st ch m (st.magic_samples.getD ch 0) (int_len c)).1,
         opos + (mem_orbit ops f st ch m (st.magic_samples.getD ch 0) (int_len c)).1.length
           * st.out_stride,
         (mem_orbit ops f st ch m (st.magic_samples.getD ch 0) (int_len c)).1.length) := by
  unfold speex_resampler_magic
  simp only []
  rw [process_native_mem ops st ch _ out opos c m f hmem hptr hden hch1 hM31]
  simp only []
  split <;> simp only [Option.map_some']

theorem shift_magic_length {F D : Type} (ops : FloatOps F D) (base N magic k : Nat)
    (mem : List F) : (shift_magic ops base N magic k mem).length = mem.length := by
  unfold shift_magic
  generalize List.range magic = l
  induction l generalizing mem with
  | nil => rfl
  | cons i tl ih =>
    rw [List.foldl_cons, ih, List.length_set]

theorem channel_ready_of_sound {F : Type} (st : SpeexResamplerState F) (ch : Nat)
    (hs : channel_sound st ch) (hM : st.magic_samples.getD ch 0 = 0) : channel_ready st ch :=
  ⟨hs.mem_some, hs.ptr_some, hs.den_pos, hs.filt_pos, hs.filt_four, hs.room, hs.cursor,
    hs.phase, hM⟩

/-- One call of `speex_resampler_process_float` on a sound channel, magic
samples pending or not: the call returns; it consumes `k ≤ n` samples and
writes the samples `ys`, at most `c` of them, at stride `out_stride`; the only
fields of the engine it changes are `started`, the memory and the channel's
cursor, phase and magic count, which does not grow; the phase stays below
`den_rate`; and when magic samples are still pending after the call, no input
was consumed and the result does not depend on the input pointer. -/
theorem process_float_total {F D : Type} (ops : FloatOps F D) (st : SpeexResamplerState F)
    (ch : Nat) (inp : Option (List F)) (n c : Nat) (hs : channel_sound st ch)
    (hn31 : n < 2147483648 ∨ st.mem_alloc_size - (st.filt_len - 1) < 2147483648)
    (hc31 : c < 2147483648) :
    ∃ (ys : List F) (k lam phi mu s' : Nat) (m' : List F),
      (∀ (out : List F) (opos : Nat),
        speex_resampler_process_float ops st ch inp n out opos c
          = some { st := { st with started := s',
                                   last_sample := st.last_sample.set ch lam,
                                   samp_frac_num := st.samp_frac_num.set ch phi,
                                   magic_samples := st.magic_samples.set ch mu,
                                   mem := some m' },
                   in_len := k, out := scatter out opos st.out_stride ys,
                   out_len := ys.length, status := RESAMPLER_ERR_SUCCESS }) ∧
      k ≤ n ∧ ys.length ≤ c ∧ mu ≤ st.magic_samples.getD ch 0 ∧
      (∃ m, st.mem = some m ∧ m'.length = m.length) ∧
      (st.frac_advance < st.den_rate → st.samp_frac_num.getD ch 0 < st.den_rate →
        phi < st.den_rate) ∧
      (mu ≠ 0 → k = 0 ∧ ∀ (inp' : Option (List F)) (out : List F) (opos : Nat),
        speex_resampler_process_float ops st ch inp' n out opos c
          = speex_resampler_process_float ops st ch inp n out opos c) ∧
      (s' = st.started ∨ s' = 1) := by
  obtain ⟨m, hm, hlen⟩ := hs.mem_some
  obtain ⟨f, hptr⟩ := hs.ptr_some
  by_cases hM : st.magic_samples.getD ch 0 = 0
  · -- no magic samples pending
    have hr := channel_ready_of_sound st ch hs hM
    obtain ⟨n1, m', s', he, h1, h2, h3, h4, h5, h6, h7⟩ :=
      process_float_spec ops st ch f m inp n c hr hm hptr hn31 hc31
    obtain ⟨X, hX⟩ : ∃ X, X = chan_orbit ops f st ch
        (history ops st ch ++ gather ops inp st.in_stride n) n c := ⟨_, rfl⟩
    rw [← hX] at he h2 h3
    have e : st.magic_samples.set ch 0 = st.magic_samples := by
      have := set_getD_same st.magic_samples ch 0 hs.magic_len
      rw [hM] at this
      exact this
    refine ⟨X.1, n1, X.2.1 - n1, X.2.2, 0, s', m', ?_, h1, ?_, by omega, ⟨m, hm, h4⟩, ?_,
      fun h => absurd rfl h, h7⟩
    · intro out opos
      rw [he out opos, e]
    · rw [hX]; unfold chan_orbit; exact orbit_length_le _ _ _ _ _ _ _ _
    · intro hfa hf
      rw [hX]; unfold chan_orbit
      exact orbit_phase_lt _ _ _ _ _ hfa _ _ _ hf
  · -- magic samples pending: the drain step first
    obtain ⟨M, hMd⟩ : ∃ M, M = st.magic_samples.getD ch 0 := ⟨_, rfl⟩
    obtain ⟨O, hO⟩ : ∃ O, O = mem_orbit ops f st ch m M c := ⟨_, rfl⟩
    obtain ⟨k, hk⟩ : ∃ k, k = min M O.2.1 := ⟨_, rfl⟩
    have hmg := fun out opos =>
      magic_spec ops st ch out opos c m f hm hptr hs.den_pos hs.cursor hs.magic_int
    rw [int_len_small c hc31, ← hMd, ← hO, ← hk] at hmg
    rw [← hMd] at hM
    have hOlen : O.1.length ≤ c := by
      rw [hO]; unfold mem_orbit; exact orbit_length_le _ _ _ _ _ _ _ _
    have hOph : st.frac_advance < st.den_rate → st.samp_frac_num.getD ch 0 < st.den_rate →
        O.2.2 < st.den_rate := by
      intro hfa hf
      rw [hO]; unfold mem_orbit
      exact orbit_phase_lt _ _ _ _ _ hfa _ _ _ hf
    obtain ⟨hsl, _, _⟩ := shift_history_spec ops (ch * st.mem_alloc_size) st.filt_len k m
    by_cases hleft : M - k = 0
    · -- drained: the loop runs
      simp only [hleft, ne_eq, not_true_eq_false, if_false] at hmg
      obtain ⟨m1, hm1⟩ : ∃ m1, m1 = shift_history ops (ch * st.mem_alloc_size) st.filt_len
        k m := ⟨_, rfl⟩
      rw [← hm1] at hmg hsl
      have hroom := hs.room
      have hfp := hs.filt_pos
      obtain ⟨n1, m', s', hloop, hb1, _, _, hb4, _, _, hb7⟩ :=
        process_float_loop_spec ops ch f st.in_stride
          (st.mem_alloc_size - (st.filt_len - 1)) (n + (c - O.1.length) + 1)
          { st with started := 1,
                    last_sample := st.last_sample.set ch (O.2.1 - k),
                    samp_frac_num := st.samp_frac_num.set ch O.2.2,
                    magic_samples := st.magic_samples.set ch 0,
                    mem := some m1 }
          m1 inp n (c - O.1.length) rfl hptr hs.den_pos hs.filt_four hs.filt_pos
          (by simp only [List.length_set]; exact hs.cursor)
          (by simp only [List.length_set]; exact hs.phase)
          (by rw [hsl]; exact hlen) (by omega)
          (by show st.mem_alloc_size - (st.filt_len - 1) + (st.filt_len - 1)
                ≤ st.mem_alloc_size
              omega)
          hn31 (by omega) (by omega)
      obtain ⟨Y, hY⟩ : ∃ Y, Y = chan_orbit ops f
          { st with started := 1,
                    last_sample := st.last_sample.set ch (O.2.1 - k),
                    samp_frac_num := st.samp_frac_num.set ch O.2.2,
                    magic_samples := st.magic_samples.set ch 0,
                    mem := some m1 }
          ch
          (history ops
              { st with started := 1,
                        last_sample := st.last_sample.set ch (O.2.1 - k),
                        samp_frac_num := st.samp_frac_num.set ch O.2.2,
                        magic_samples := st.magic_samples.set ch 0,
                        mem := some m1 } ch
            ++ gather ops inp st.in_stride n) n (c - O.1.length) := ⟨_, rfl⟩
      rw [← hY] at hloop
      simp only [List.set_set] at hloop
      have hYlen : Y.1.length ≤ c - O.1.length := by
        rw [hY]; unfold chan_orbit; exact orbit_length_le _ _ _ _ _ _ _ _
      refine ⟨O.1 ++ Y.1, n1, Y.2.1 - n1, Y.2.2, 0, s', m', ?_, hb1, ?_, by omega,
        ⟨m, hm, by rw [hb4, hsl]⟩, ?_, fun h => absurd rfl h, ?_⟩
      · intro out opos
        unfold speex_resampler_process_float
        simp only []
        rw [← hMd, if_pos hM, hmg out opos]
        simp only []
        rw [getD_set_self _ _ _ _ hs.magic_len, if_pos rfl, hloop]
        simp only [List.length_append, scatter_append]
        have e1 : n - (n - n1) = n1 := by omega
        have e2 : c - (c - O.1.length - Y.1.length) = O.1.length + Y.1.length := by omega
        rw [e1, e2]
      · rw [List.length_append]; omega
      · intro hfa hf
        rw [hY]; unfold chan_orbit
        apply orbit_phase_lt _ _ _ _ _ hfa
        show (st.samp_frac_num.set ch O.2.2).getD ch 0 < st.den_rate
        rw [getD_set_self _ _ _ _ hs.phase]
        exact hOph hfa hf
      · rcases hb7 with h | h
        · right; exact h
        · right; exact h
    · -- magic samples left: the loop is skipped
      have hne : M - k ≠ 0 := hleft
      simp only [hne, ne_eq, not_false_eq_true, if_true] at hmg
      have hcall : ∀ (inp : Option (List F)) (out : List F) (opos : Nat),
          speex_resampler_process_float ops st ch inp n out opos c
            = some { st := { st with started := 1,
                                     last_sample := st.last_sample.set ch (O.2.1 - k),
                                     samp_frac_num := st.samp_frac_num.set ch O.2.2,
                                     magic_samples := st.magic_samples.set ch (M - k),
                                     mem := some (shift_magic ops (ch * st.mem_alloc_size)
                                       st.filt_len (M - k) k
                                       (shift_history ops (ch * st.mem_alloc_size)
                                         st.filt_len k m)) },
                     in_len := 0, out := scatter out opos st.out_stride O.1,
                     out_len := O.1.length, status := RESAMPLER_ERR_SUCCESS } := by
        intro inp out opos
        unfold speex_resampler_process_float
        simp only []
        rw [← hMd, if_pos hM, hmg out opos]
        simp only []
        rw [getD_set_self _ _ _ _ hs.magic_len, if_neg hleft]
        simp only [Nat.sub_self]
        have e2 : c - (c - O.1.length) = O.1.length := by omega
        rw [e2]
      refine ⟨O.1, 0, O.2.1 - k, O.2.2, M - k, 1, _, fun out opos => hcall inp out opos,
        by omega, hOlen, by omega, ⟨m, hm, ?_⟩, hOph, fun _ => ⟨rfl, ?_⟩, Or.inr rfl⟩
      · rw [shift_magic_length, hsl]
      · intro inp' out opos
        rw [hcall inp' out opos, hcall inp out opos]

/-- Outside the positions `opos + i * stride` the buffer is as it was. -/
theorem scatter_untouched {F : Type} (ys : List F) :
    ∀ (out : List F) (opos stride j : Nat) (z : F),
      (∀ i, i < ys.length → j ≠ opos + i * stride) →
      (scatter out opos stride ys).getD j z = out.getD j z := by
  induction ys with
  | nil => intro out opos stride j z _; rfl
  | cons y ys ih =>
    intro out opos stride j z h
    show (scatter (out.set opos y) (opos + stride) stride ys).getD j z = _
    rw [ih (out.set opos y) (opos + stride) stride j z (by
      intro i hi
      have := h (i + 1) (by simp only [List.length_cons]; omega)
      have e : opos + (i + 1) * stride = opos + stride + i * stride := by ring
      rw [e] at this
      exact this)]
    have h0 := h 0 (by simp only [List.length_cons]; omega)
    rw [getD_set_eq, if_neg (by
      intro hc
      apply h0
      rw [Nat.zero_mul, Nat.add_zero]
      exact hc.1.symm)]

/-- With a stride of at least 1, position `opos + i * stride` of the buffer
holds sample `i`. -/
theorem scatter_written {F : Type} (ys : List F) :
    ∀ (out : List F) (opos stride i : Nat) (z : F), 1 ≤ stride →
      i < ys.length → opos + i * stride < out.length →
      (scatter out opos stride ys).getD (opos + i * stride) z = ys.getD i z := by
  induction ys with
  | nil => intro out opos stride i z _ hi _; simp at hi
  | cons y ys ih =>
    intro out opos stride i z hs hi hlt
    show (scatter (out.set opos y) (opos + stride) stride ys).getD (opos + i * stride) z = _
    cases i with
    | zero =>
      rw [Nat.zero_mul, Nat.add_zero, scatter_untouched ys _ _ _ _ _ (by
        intro i _
        have : 0 ≤ i * stride := Nat.zero_le _
        omega),
        getD_set_self _ _ _ _ (by rw [Nat.zero_mul, Nat.add_zero] at hlt; exact hlt)]
      rfl
    | succ i =>
      have e : opos + (i + 1) * stride = opos + stride + i * stride := by ring
      rw [e, ih (out.set opos y) (opos + stride) stride i z hs
        (by simp only [List.length_cons] at hi; omega)
        (by rw [List.length_set, ← e]; exact hlt)]
      rfl

/-- A call of `speex_resampler_process_float` that returns, whatever the state,
the input length and the capacity, hands back counts within what was asked and
the status `RESAMPLER_ERR_SUCCESS`. -/
theorem process_float_returned {F D : Type} (ops : FloatOps F D) (st : SpeexResamplerState F)
    (ch : Nat) (inp : Option (List F)) (n : Nat) (out : List F) (opos c : Nat)
    (r : Processed F)
    (h : speex_resampler_process_float ops st ch inp n out opos c = some r) :
    r.in_len ≤ n ∧ r.out_len ≤ c ∧ r.status = RESAMPLER_ERR_SUCCESS := by
  unfold speex_resampler_process_float at h
  simp only [] at h
  split at h
  · simp at h
  · split at h
    · simp at h
    · injection h with h
      rw [← h]
      exact ⟨Nat.sub_le _ _, Nat.sub_le _ _, rfl⟩

/-- C12, amended.  For every state, input length and capacity, a call of
`speex_resampler_process_float` that returns hands back a consumed count of at
most the input length, an output count of at most the capacity and the status
`RESAMPLER_ERR_SUCCESS`.  On a sound channel, with magic samples pending or
not, every call with a capacity below `2^31`, and with any input length when
the chunk size `mem_alloc_size - (filt_len - 1)` is below `2^31` (an input
length below `2^31` otherwise), returns, with status `RESAMPLER_ERR_SUCCESS`, a
consumed count of at most the input length and an output count `out_len` of at
most the capacity (the outputs of the drain step included); the buffer it
returns is the caller's with `out_len` samples `ys` stored at the offsets `0`,
`out_stride`, ..., `(out_len - 1) * out_stride` from the output pointer: the
length is unchanged, every other cell is as it was and, for a stride of at
least 1, cell `i * out_stride` holds sample `i`. -/
theorem process_float_counts {F D : Type} (ops : FloatOps F D) (st : SpeexResamplerState F)
    (ch : Nat) (inp : Option (List F)) (n : Nat) (out : List F) (opos c : Nat) :
    (∀ r : Processed F, speex_resampler_process_float ops st ch inp n out opos c = some r →
      r.in_len ≤ n ∧ r.out_len ≤ c ∧ r.status = RESAMPLER_ERR_SUCCESS) ∧
    (channel_sound st ch →
      (n < 2147483648 ∨ st.mem_alloc_size - (st.filt_len - 1) < 2147483648) →
      c < 2147483648 →
      ∃ (r : Processed F) (ys : List F),
        speex_resampler_process_float ops st ch inp n out opos c = some r ∧
        r.in_len ≤ n ∧ r.out_len ≤ c ∧ r.status = RESAMPLER_ERR_SUCCESS ∧
        ys.length = r.out_len ∧ r.out = scatter out opos st.out_stride ys ∧
        r.out.length = out.length ∧
        (∀ (j : Nat) (z : F), (∀ i, i < r.out_len → j ≠ opos + i * st.out_stride) →
          r.out.getD j z = out.getD j z) ∧
        (1 ≤ st.out_stride → ∀ (i : Nat) (z : F), i < r.out_len →
          opos + i * st.out_stride < out.length →
          r.out.getD (opos + i * st.out_stride) z = ys.getD i z)) := by
  refine ⟨fun r hr => process_float_returned ops st ch inp n out opos c r hr, ?_⟩
  intro hs hn31 hc31
  obtain ⟨ys, k, lam, phi, mu, s', m', he, hk, hys, _⟩ :=
    process_float_total ops st ch inp n c hs hn31 hc31
  exact ⟨_, ys, he out opos, hk, hys, rfl, rfl, rfl, scatter_length ys out opos st.out_stride,
    fun j z h => scatter_untouched ys out opos st.out_stride j z h,
    fun h1 i z hi hlt => scatter_written ys out opos st.out_stride i z h1 hi hlt⟩

/-! ## What a processing call that returns leaves, for every length -/

/-- Storing a phase below `den_rate` for one channel keeps the phase invariant. -/
theorem phase_valid_set {F : Type} (st st' : SpeexResamplerState F) (ch phi : Nat)
    (hv : phase_valid st) (hphi : phi < st.den_rate)
    (h1 : st'.samp_frac_num = st.samp_frac_num.set ch phi)
    (h2 : st'.nb_channels = st.nb_channels) (h3 : st'.den_rate = st.den_rate)
    (h4 : st'.frac_advance = st.frac_advance) : phase_valid st' := by
  obtain ⟨hl, hfa, hall⟩ := hv
  refine ⟨by rw [h1, h2, List.length_set]; exact hl, by rw [h4, h3]; exact hfa, ?_⟩
  intro c hc
  rw [h1, h3, getD_set_eq]
  split
  · exact hphi
  · exact hall c (by rw [h2] at hc; exact hc)

/-- Each of the four kernels keeps the phase invariant. -/
theorem resampler_basic_phase {F D : Type} (ops : FloatOps F D) (f : resampler_basic_func)
    (st : SpeexResamplerState F) (ch : Nat) (mem : List F) (base in_len : Nat)
    (out : List F) (opos out_len : Nat) (hv : phase_valid st) (hch : ch < st.nb_channels) :
    ∃ r, resampler_basic ops f st ch mem base in_len out opos out_len = some r ∧
      phase_valid r.1 := by
  have hden : 1 ≤ st.den_rate := by have := hv.2.1; omega
  refine ⟨_, resampler_basic_orbit ops f st ch mem base in_len out opos out_len hden, ?_⟩
  exact phase_valid_set st _ ch _ hv
    (orbit_phase_lt _ _ _ _ _ hv.2.1 _ _ _ (hv.2.2 ch hch)) rfl rfl rfl rfl

/-- The phase invariant reads four fields of the engine only. -/
theorem phase_valid_frame {F : Type} (st st' : SpeexResamplerState F) (hv : phase_valid st)
    (h1 : st'.samp_frac_num = st.samp_frac_num) (h2 : st'.nb_channels = st.nb_channels)
    (h3 : st'.den_rate = st.den_rate) (h4 : st'.frac_advance = st.frac_advance) :
    phase_valid st' := by
  unfold phase_valid
  rw [h1, h2, h3, h4]
  exact hv

/-- What a kernel that returns leaves, for every input length and capacity:
the counts of magic samples and the number of channels are untouched and the
phase invariant is kept. -/
theorem resampler_basic_kept {F D : Type} (ops : FloatOps F D) (f : resampler_basic_func)
    (st : SpeexResamplerState F) (ch : Nat) (mem : List F) (base in_len : Nat)
    (out : List F) (opos out_len : Nat) (r : SpeexResamplerState F × List F × Nat)
    (h : resampler_basic ops f st ch mem base in_len out opos out_len = some r) :
    r.1.magic_samples = st.magic_samples ∧ r.1.nb_channels = st.nb_channels ∧
    (phase_valid st → ch < st.nb_channels → phase_valid r.1) := by
  refine ⟨?_, ?_, ?_⟩
  · unfold resampler_basic at h
    split_ifs at h
    injection h with h
    rw [← h]
  · unfold resampler_basic at h
    split_ifs at h
    injection h with h
    rw [← h]
  · intro hv hch
    obtain ⟨r', hr', hv'⟩ := resampler_basic_phase ops f st ch mem base in_len out opos
      out_len hv hch
    rw [h] at hr'
    injection hr' with hr'
    rw [hr']
    exact hv'

/-- What a call of `speex_resampler_process_native` that returns leaves, for
every input length and capacity: the counts of magic samples and the number of
channels are untouched and the phase invariant is kept. -/
theorem process_native_kept {F D : Type} (ops : FloatOps F D) (st : SpeexResamplerState F)
    (ch n : Nat) (out : List F) (opos c : Nat) (r : Processed F)
    (h : speex_resampler_process_native ops st ch n out opos c = some r) :
    r.st.magic_samples = st.magic_samples ∧ r.st.nb_channels = st.nb_channels ∧
    (phase_valid st → ch < st.nb_channels → phase_valid r.st) := by
  unfold speex_resampler_process_native at h
  cases hm : st.mem with
  | none => rw [hm] at h; simp at h
  | some mem =>
    cases hp : st.resampler_ptr with
    | none => rw [hm, hp] at h; simp at h
    | some f =>
      rw [hm, hp] at h
      simp only [] at h
      split at h
      · simp at h
      · rename_i rb hb
        have hk := resampler_basic_kept ops f _ ch mem _ n out opos c rb hb
        split_ifs at h
        all_goals
          injection h with h
          rw [← h]
          refine ⟨hk.1, hk.2.1, ?_⟩
          intro hv hch
          exact phase_valid_frame rb.1 _
            (hk.2.2 (phase_valid_frame st _ hv rfl rfl rfl rfl) hch) rfl rfl rfl rfl

/-- What the drain step leaves when it returns, for every capacity: the number
of channels is untouched and the phase invariant is kept. -/
theorem magic_kept {F D : Type} (ops : FloatOps F D) (st : SpeexResamplerState F)
    (ch : Nat) (out : List F) (opos c : Nat) (r : SpeexResamplerState F × List F × Nat × Nat)
    (h : speex_resampler_magic ops st ch out opos c = some r) :
    r.1.nb_channels = st.nb_channels ∧
    (phase_valid st → ch < st.nb_channels → phase_valid r.1) := by
  unfold speex_resampler_magic at h
  simp only [] at h
  split at h
  · simp at h
  · rename_i rn hn
    injection h with h
    rw [← h]
    have hk := process_native_kept ops st ch _ out opos c rn hn
    refine ⟨hk.2.1, ?_⟩
    intro hv hch
    exact phase_valid_frame rn.st _ (hk.2.2 hv hch) rfl rfl rfl rfl

/-- What the chunk loop of `speex_resampler_process_float` leaves when it
returns, for every input length, capacity and bound on the number of
iterations: the counts of magic samples and the number of channels are
untouched and the phase invariant is kept. -/
theorem process_float_loop_kept {F D : Type} (ops : FloatOps F D)
    (ch base filt_offs xlen istride : Nat) :
    ∀ (fuel : Nat) (st : SpeexResamplerState F) (inp : Option (List F)) (ilen : Nat)
      (out : List F) (opos olen : Nat) (r : SpeexResamplerState F × Nat × List F × Nat),
      process_float_loop ops ch base filt_offs xlen istride fuel st inp ilen out opos olen
        = some r →
      r.1.magic_samples = st.magic_samples ∧ r.1.nb_channels = st.nb_channels ∧
      (phase_valid st → ch < st.nb_channels → phase_valid r.1) := by
  intro fuel
  induction fuel with
  | zero =>
    intro st inp ilen out opos olen r h
    simp [process_float_loop] at h
  | succ fuel ih =>
    intro st inp ilen out opos olen r h
    unfold process_float_loop at h
    by_cases hc : ilen ≠ 0 ∧ olen ≠ 0
    · rw [if_pos hc] at h
      cases hm : st.mem with
      | none => rw [hm] at h; simp at h
      | some mem =>
        rw [hm] at h
        simp only [] at h
        split at h
        · simp at h
        · rename_i r1 hn
          obtain ⟨k1, k2, k3⟩ := process_native_kept ops _ ch _ out opos olen r1 hn
          obtain ⟨g1, g2, g3⟩ := ih _ _ _ _ _ _ _ h
          refine ⟨g1.trans k1, g2.trans k2, ?_⟩
          intro hv hch
          have hv1 : phase_valid r1.st :=
            k3 (phase_valid_frame st _ hv rfl rfl rfl rfl) hch
          exact g3 hv1 (by rw [k2]; exact hch)
    · rw [if_neg hc] at h
      injection h with h
      rw [← h]
      exact ⟨rfl, rfl, fun hv _ => hv⟩

/-- What a call of `speex_resampler_process_float` that returns leaves, for
every state, input length and capacity: the phase invariant is kept, and when
magic samples are still pending on the channel the call has consumed no input
and its result is the same for every input pointer. -/
theorem process_float_kept {F D : Type} (ops : FloatOps F D) (st : SpeexResamplerState F)
    (ch : Nat) (inp : Option (List F)) (n : Nat) (out : List F) (opos c : Nat)
    (r : Processed F)
    (h : speex_resampler_process_float ops st ch inp n out opos c = some r) :
    (phase_valid st → ch < st.nb_channels → phase_valid r.st) ∧
    (r.st.magic_samples.getD ch 0 ≠ 0 →
      r.in_len = 0 ∧
      ∀ inp' : Option (List F),
        speex_resampler_process_float ops st ch inp' n out opos c = some r) := by
  unfold speex_resampler_process_float at h
  simp only [] at h
  by_cases hm0 : st.magic_samples.getD ch 0 = 0
  · simp only [hm0, ne_eq, not_true_eq_false, if_false, if_true] at h
    split at h
    · simp at h
    · rename_i l hl
      injection h with h
      have hk := process_float_loop_kept ops ch _ _ _ _ _ st inp n out opos c l hl
      refine ⟨?_, ?_⟩
      · intro hv hch
        rw [← h]
        exact hk.2.2 hv hch
      · intro hne
        exfalso
        apply hne
        rw [← h]
        show l.1.magic_samples.getD ch 0 = 0
        rw [hk.1]
        exact hm0
  · simp only [ne_eq, hm0, not_false_eq_true, if_true] at h
    cases hmg : speex_resampler_magic ops st ch out opos c with
    | none => rw [hmg] at h; simp at h
    | some d =>
      rw [hmg] at h
      simp only [] at h
      have hmk := magic_kept ops st ch out opos c d hmg
      by_cases hd0 : d.1.magic_samples.getD ch 0 = 0
      · rw [if_pos hd0] at h
        split at h
        · simp at h
        · rename_i l hl
          injection h with h
          have hk := process_float_loop_kept ops ch _ _ _ _ _ _ inp n _ _ _ l hl
          refine ⟨?_, ?_⟩
          · intro hv hch
            rw [← h]
            exact hk.2.2 (hmk.2 hv hch) (by rw [hmk.1]; exact hch)
          · intro hne
            exfalso
            apply hne
            rw [← h]
            show l.1.magic_samples.getD ch 0 = 0
            rw [hk.1]
            exact hd0
      · rw [if_neg hd0] at h
        simp only [] at h
        injection h with h
        refine ⟨?_, ?_⟩
        · intro hv hch
          rw [← h]
          exact hmk.2 hv hch
        · intro _
          refine ⟨by rw [← h]; show n - n = 0; omega, ?_⟩
          intro inp'
          unfold speex_resampler_process_float
          simp only [ne_eq, hm0, not_false_eq_true, if_true, hmg, hd0, if_false]
          exact congrArg some h

/-! ## Magic samples are drained first -/

/-- C13.  Magic samples are drained before any input is accepted.  For every
state, input length and capacity: when a call of
`speex_resampler_process_float` returns with magic samples still pending on the
channel (the drain step ran out of capacity), it has consumed no input and its
whole result, the memory included, is the same for every input pointer: nothing
was read from the caller's buffer.  On a sound channel, with a capacity below
`2^31` and a chunk size `mem_alloc_size - (filt_len - 1)` or an input length
below `2^31`, the call returns and the magic count of the channel does not
grow. -/
theorem magic_drained_first {F D : Type} (ops : FloatOps F D) (st : SpeexResamplerState F)
    (ch : Nat) (inp : Option (List F)) (n : Nat) (out : List F) (opos c : Nat) :
    (∀ r : Processed F,
      speex_resampler_process_float ops st ch inp n out opos c = some r →
      r.st.magic_samples.getD ch 0 ≠ 0 →
      r.in_len = 0 ∧
      ∀ inp' : Option (List F),
        speex_resampler_process_float ops st ch inp' n out opos c = some r) ∧
    (channel_sound st ch →
      (n < 2147483648 ∨ st.mem_alloc_size - (st.filt_len - 1) < 2147483648) →
      c < 2147483648 →
      ∃ r : Processed F,
        speex_resampler_process_float ops st ch inp n out opos c = some r ∧
        r.st.magic_samples.getD ch 0 ≤ st.magic_samples.getD ch 0) := by
  refine ⟨fun r hr => (process_float_kept ops st ch inp n out opos c r hr).2, ?_⟩
  intro hs hn31 hc31
  obtain ⟨ys, k, lam, phi, mu, s', m', he, _, _, hmu, _⟩ :=
    process_float_total ops st ch inp n c hs hn31 hc31
  refine ⟨_, he out opos, ?_⟩
  show (st.magic_samples.set ch mu).getD ch 0 ≤ _
  rw [getD_set_self _ _ _ _ hs.magic_len]
  exact hmu

theorem pending_magic_state_sound : channel_sound pending_magic_state 0 :=
  ⟨⟨_, rfl, by decide⟩, ⟨_, rfl⟩, by decide, by decide, by decide, by decide, by decide,
    by decide, by decide, by decide⟩

/-- C12, witness: the record `pending_magic_state`, three input samples and
room for one output. -/
theorem process_float_counts_witness :
    (channel_sound pending_magic_state 0 ∧ 3 < 2147483648 ∧ 1 < 2147483648) ∧
    ∃ (r : Processed Int) (ys : List Int),
      speex_resampler_process_float intOps pending_magic_state 0 (some [7, 8, 9]) 3
        [0, 0] 0 1 = some r ∧
      r.in_len ≤ 3 ∧ r.out_len ≤ 1 ∧ r.status = RESAMPLER_ERR_SUCCESS ∧
      ys.length = r.out_len ∧ r.out = scatter [0, 0] 0 pending_magic_state.out_stride ys ∧
      r.out.length = [(0 : Int), 0].length ∧
      (∀ (j : Nat) (z : Int),
        (∀ i, i < r.out_len → j ≠ 0 + i * pending_magic_state.out_stride) →
        r.out.getD j z = [(0 : Int), 0].getD j z) ∧
      (1 ≤ pending_magic_state.out_stride → ∀ (i : Nat) (z : Int), i < r.out_len →
        0 + i * pending_magic_state.out_stride < [(0 : Int), 0].length →
        r.out.getD (0 + i * pending_magic_state.out_stride) z = ys.getD i z) :=
  ⟨⟨pending_magic_state_sound, by decide, by decide⟩,
    (process_float_counts intOps pending_magic_state 0 (some [7, 8, 9]) 3 [0, 0] 0 1).2
      pending_magic_state_sound (by decide) (by decide)⟩

/-- C13, witness: the record `pending_magic_state` with room for one output:
one of the three magic samples is drained, two stay pending, and no input is
consumed, whatever the input pointer. -/
theorem magic_drained_first_witness :
    (channel_sound pending_magic_state 0 ∧ 3 < 2147483648 ∧ 1 < 2147483648) ∧
    (speex_resampler_process_float intOps pending_magic_state 0 (some [7, 8, 9]) 3
        [0, 0] 0 1).map (fun r => (r.in_len, r.out_len, r.st.magic_samples))
      = some (0, 1, [2]) ∧
    ∃ r : Processed Int,
      speex_resampler_process_float intOps pending_magic_state 0 (some [7, 8, 9]) 3
        [0, 0] 0 1 = some r ∧
      r.st.magic_samples.getD 0 0 ≤ pending_magic_state.magic_samples.getD 0 0 ∧
      r.st.magic_samples.getD 0 0 ≠ 0 ∧
      r.in_len = 0 ∧
      ∀ inp' : Option (List Int),
        speex_resampler_process_float intOps pending_magic_state 0 inp' 3 [0, 0] 0 1
          = some r := by
  have hmap : (speex_resampler_process_float intOps pending_magic_state 0 (some [7, 8, 9]) 3
      [0, 0] 0 1).map (fun r => (r.in_len, r.out_len, r.st.magic_samples))
      = some (0, 1, [2]) := by decide
  obtain ⟨r, hr, hle⟩ :=
    (magic_drained_first intOps pending_magic_state 0 (some [7, 8, 9]) 3 [0, 0] 0 1).2
      pending_magic_state_sound (by decide) (by decide)
  have hne : r.st.magic_samples.getD 0 0 ≠ 0 := by
    have h2 := hmap
    rw [hr] at h2
    simp only [Option.map_some', Option.some.injEq, Prod.mk.injEq] at h2
    rw [h2.2.2]
    decide
  obtain ⟨h0, hall⟩ :=
    (magic_drained_first intOps pending_magic_state 0 (some [7, 8, 9]) 3 [0, 0] 0 1).1 r hr hne
  exact ⟨⟨pending_magic_state_sound, by decide, by decide⟩, hmap, r, hr, hle, hne, h0, hall⟩

/-! ## The phase invariant -/

/-- The rescaling loop of `speex_resampler_set_rate_frac` leaves every phase it
visits below the new `den_rate`, and the length of the array as it was. -/
theorem rescale_fold (den old : Nat) (hden : 1 ≤ den) (fr : List Nat) :
    ∀ n : Nat,
      ((List.range n).foldl (rescale_frac den old) fr).length = fr.length ∧
      ∀ ch, ch < n → ((List.range n).foldl (rescale_frac den old) fr).getD ch 0 < den := by
  intro n
  induction n with
  | zero => exact ⟨rfl, fun ch h => absurd h (by omega)⟩
  | succ n ih =>
    obtain ⟨h1, h2⟩ := ih
    rw [List.range_succ, List.foldl_append, List.foldl_cons, List.foldl_nil]
    obtain ⟨g, hg⟩ : ∃ g, g = (List.range n).foldl (rescale_frac den old) fr := ⟨_, rfl⟩
    rw [← hg] at h1 h2 ⊢
    unfold rescale_frac
    simp only []
    refine ⟨by rw [List.length_set]; exact h1, ?_⟩
    intro ch hch
    rw [getD_set_eq]
    split
    · split
      · have : (den + (U32 - 1)) % U32 ≤ den - 1 := by
          have e : den + (U32 - 1) = (den - 1) + U32 := by simp only [U32]; omega
          rw [e, Nat.add_mod_right]
          exact Nat.mod_le _ _
        omega
      · omega
    · rename_i hne
      by_cases hc : ch < n
      · exact h2 ch hc
      · have hcn : ch = n := by omega
        have hlen : ¬ (n < g.length) := by
          intro hl
          exact hne ⟨hcn.symm, hl⟩
        rw [List.getD_eq_getElem?_getD, List.getElem?_eq_none (by omega)]
        exact hden

/-- The advances `update_filter` stores are those of the stored ratio, on every
engine with a quality of the table and a non-zero `den_rate`. -/
theorem update_filter_advances {F D : Type} (ops : FloatOps F D) (st : SpeexResamplerState F)
    (h0 : 0 ≤ st.quality) (h1 : st.quality ≤ 10) (hden : 1 ≤ st.den_rate) :
    ∃ st', update_filter ops st = some st' ∧ config_kept st st' ∧
      st'.int_advance = st.num_rate / st.den_rate ∧
      st'.frac_advance = st.num_rate % st.den_rate ∧
      (∃ f, st'.resampler_ptr = some f) := by
  obtain ⟨st', he, hk, _⟩ := update_filter_some ops st h0 h1 hden
  refine ⟨st', he, hk, ?_⟩
  obtain ⟨qm, hqm⟩ := quality_entry_some st.quality h0 h1
  obtain ⟨r, hr⟩ := filter_params_some ops qm st.num_rate st.den_rate hden
  have hd0 : st.den_rate ≠ 0 := by omega
  unfold update_filter at he
  simp only [hqm, hr, hd0, if_false, Option.some.injEq] at he
  obtain ⟨_, _, _, _, _, hp, hia, hfa, _⟩ :=
    update_filter_mem_kept ops st.filt_len
      (update_filter_table ops qm.window_func
        { st with update_filter_calls := st.update_filter_calls + 1,
                  oversample := r.2.1, filt_len := r.1, cutoff := r.2.2 })
  obtain ⟨gp, gia, gfa⟩ := update_filter_table_fields ops qm.window_func
      { st with update_filter_calls := st.update_filter_calls + 1,
                oversample := r.2.1, filt_len := r.1, cutoff := r.2.2 }
  rw [← he]
  exact ⟨by rw [hia, gia], by rw [hfa, gfa], by rw [hp]; exact gp⟩

/-- The constructor establishes the phase invariant. -/
theorem init_frac_phase_valid {F D : Type} (ops : FloatOps F D)
    (nb_channels ratio_num ratio_den in_rate out_rate : Nat) (quality : Int)
    (hq0 : 0 ≤ quality) (hq1 : quality ≤ 10) (hd : 1 ≤ ratio_den)
    (hnb : ratio_num < U32) (hdb : ratio_den < U32) :
    ∃ st : SpeexResamplerState F,
      speex_resampler_init_frac ops nb_channels ratio_num ratio_den in_rate out_rate quality
        = some (some st, RESAMPLER_ERR_SUCCESS) ∧ phase_valid st := by
  obtain ⟨n, d, hred, hd1, _⟩ := reduce_ratio_total ratio_num ratio_den hnb hdb
  have hd1' : 1 ≤ d := hd1 hd
  have hq : ¬ (quality > 10 ∨ quality < 0) := by omega
  have hqne : ¬ ((-1 : Int) = quality) := by omega
  have hrd : ¬ (0 = ratio_den) := by omega
  obtain ⟨st', he, hk, _, hfa, _⟩ := update_filter_advances ops
    ({ fresh_state ops nb_channels with
        quality := quality, in_rate := in_rate, out_rate := out_rate,
        num_rate := n, den_rate := d } : SpeexResamplerState F) hq0 hq1 hd1'
  refine ⟨{ st' with initialised := 1 }, ?_, ?_, ?_, ?_⟩
  · simp only [speex_resampler_init_frac, hq, if_false, speex_resampler_set_quality,
      fresh_state, hqne, speex_resampler_set_rate_frac, hrd, and_false, hred, ne_eq,
      not_true_eq_false, gt_iff_lt, lt_self_iff_false]
    simp only [fresh_state] at he
    rw [he]
  · show st'.samp_frac_num.length = st'.nb_channels
    rw [hk.samp_frac_num, hk.nb_channels]
    simp [fresh_state]
  · show st'.frac_advance < st'.den_rate
    rw [hfa, hk.den_rate]
    exact Nat.mod_lt _ (by show 0 < d; omega)
  · intro ch _
    show st'.samp_frac_num.getD ch 0 < st'.den_rate
    rw [hk.samp_frac_num, hk.den_rate]
    show (List.replicate nb_channels 0).getD ch 0 < d
    rw [List.getD_eq_getElem?_getD, List.getElem?_replicate]
    split <;> exact hd1'

/-- The drain step keeps the phase invariant. -/
theorem magic_phase {F D : Type} (ops : FloatOps F D) (st : SpeexResamplerState F)
    (ch : Nat) (out : List F) (opos c : Nat) (hv : phase_valid st)
    (hch : ch < st.nb_channels) (hs : channel_sound st ch) :
    ∃ r, speex_resampler_magic ops st ch out opos c = some r ∧ phase_valid r.1 := by
  obtain ⟨m, hm, _⟩ := hs.mem_some
  obtain ⟨f, hptr⟩ := hs.ptr_some
  refine ⟨_, magic_spec ops st ch out opos c m f hm hptr hs.den_pos hs.cursor hs.magic_int, ?_⟩
  refine phase_valid_set st _ ch _ hv ?_ rfl rfl rfl rfl
  unfold mem_orbit
  exact orbit_phase_lt _ _ _ _ _ hv.2.1 _ _ _ (hv.2.2 ch hch)

/-- A processing call keeps the phase invariant. -/
theorem process_float_phase {F D : Type} (ops : FloatOps F D) (st : SpeexResamplerState F)
    (ch : Nat) (inp : Option (List F)) (n : Nat) (out : List F) (opos c : Nat)
    (hv : phase_valid st) (hch : ch < st.nb_channels) (hs : channel_sound st ch)
    (hn31 : n < 2147483648 ∨ st.mem_alloc_size - (st.filt_len - 1) < 2147483648)
    (hc31 : c < 2147483648) :
    ∃ r, speex_resampler_process_float ops st ch inp n out opos c = some r ∧
      phase_valid r.st := by
  obtain ⟨ys, k, lam, phi, mu, s', m', he, _, _, _, _, hphi, _⟩ :=
    process_float_total ops st ch inp n c hs hn31 hc31
  exact ⟨_, he out opos,
    phase_valid_set st _ ch phi hv (hphi hv.2.1 (hv.2.2 ch hch)) rfl rfl rfl rfl⟩

/-- `speex_resampler_set_quality` keeps the phase invariant. -/
theorem set_quality_phase {F D : Type} (ops : FloatOps F D) (st : SpeexResamplerState F)
    (quality : Int) (hv : phase_valid st) :
    ∃ st' e, speex_resampler_set_quality ops st quality = some (st', e) ∧
      phase_valid st' := by
  have hden : 1 ≤ st.den_rate := by have := hv.2.1; omega
  unfold speex_resampler_set_quality
  by_cases hq : quality > 10 ∨ quality < 0
  · rw [if_pos hq]; exact ⟨_, _, rfl, hv⟩
  · rw [if_neg hq]
    by_cases hsame : st.quality = quality
    · rw [if_pos hsame]; exact ⟨_, _, rfl, hv⟩
    · rw [if_neg hsame]
      simp only []
      by_cases hini : st.initialised ≠ 0
      · rw [if_pos hini]
        obtain ⟨st', he, hk, _, hfa, _⟩ := update_filter_advances ops
          ({ st with quality := quality } : SpeexResamplerState F)
          (by show 0 ≤ quality; omega) (by show quality ≤ 10; omega) hden
        rw [he]
        refine ⟨_, _, rfl, ?_, ?_, ?_⟩
        · rw [hk.samp_frac_num, hk.nb_channels]; exact hv.1
        · rw [hfa, hk.den_rate]; exact Nat.mod_lt _ (by show 0 < st.den_rate; omega)
        · intro ch hc
          rw [hk.samp_frac_num, hk.den_rate]
          rw [hk.nb_channels] at hc
          exact hv.2.2 ch hc
      · rw [if_neg hini]; exact ⟨_, _, rfl, hv⟩

/-- `speex_resampler_set_rate_frac` establishes the phase invariant on an
initialised engine: the phases are rescaled and clamped below the new
`den_rate`. -/
theorem set_rate_frac_phase {F D : Type} (ops : FloatOps F D) (st : SpeexResamplerState F)
    (ratio_num ratio_den in_rate out_rate : Nat)
    (hv : phase_valid st) (hini : st.initialised ≠ 0) (hqv : quality_valid st)
    (hd : 1 ≤ ratio_den) (hnb : ratio_num < U32) (hdb : ratio_den < U32) :
    ∃ st', speex_resampler_set_rate_frac ops st ratio_num ratio_den in_rate out_rate
        = some (st', RESAMPLER_ERR_SUCCESS) ∧ phase_valid st' := by
  have hden : 1 ≤ st.den_rate := by have := hv.2.1; omega
  obtain ⟨n, d, hred, hd1, _⟩ := reduce_ratio_total ratio_num ratio_den hnb hdb
  have hd1' : 1 ≤ d := hd1 hd
  obtain ⟨hqa, hqb⟩ := hqv hini
  unfold speex_resampler_set_rate_frac
  by_cases hsame : st.in_rate = in_rate ∧ st.out_rate = out_rate ∧ st.num_rate = ratio_num
      ∧ st.den_rate = ratio_den
  · rw [if_pos hsame]; exact ⟨_, rfl, hv⟩
  · rw [if_neg hsame]
    simp only [hred, hini, ne_eq, not_false_eq_true, if_true]
    have hold : st.den_rate > 0 := by omega
    rw [if_pos hold]
    obtain ⟨hrl, hrv⟩ := rescale_fold d st.den_rate hd1' st.samp_frac_num
      st.nb_channels
    obtain ⟨st', he, hk, _, hfa, _⟩ := update_filter_advances ops
      ({ st with in_rate := in_rate, out_rate := out_rate, num_rate := n, den_rate := d,
                 samp_frac_num := (List.range st.nb_channels).foldl
                   (rescale_frac d st.den_rate) st.samp_frac_num } : SpeexResamplerState F)
      hqa hqb hd1'
    rw [he]
    refine ⟨_, rfl, ?_, ?_, ?_⟩
    · rw [hk.samp_frac_num, hk.nb_channels]
      show ((List.range st.nb_channels).foldl (rescale_frac d st.den_rate)
        st.samp_frac_num).length = st.nb_channels
      rw [hrl]; exact hv.1
    · rw [hfa, hk.den_rate]; exact Nat.mod_lt _ (by show 0 < d; omega)
    · intro ch hc
      rw [hk.samp_frac_num, hk.den_rate]
      rw [hk.nb_channels] at hc
      exact hrv ch hc

/-- C17.  The phase invariant (`samp_frac_num < den_rate` for every channel,
with `frac_advance < den_rate`) holds for the engine `speex_resampler_init_frac`
returns on a quality of 0..10 and a 32-bit ratio with a non-zero denominator,
and every operation keeps it: each of the four kernels returns and keeps it
(for every input length and capacity), and so does the drain step on a sound
channel (for every capacity); a call of `speex_resampler_process_float` that
returns keeps it (for every state, input length and capacity), and the call
returns on a sound channel for a capacity below `2^31` and a chunk size
`mem_alloc_size - (filt_len - 1)` or an input length below `2^31`;
`speex_resampler_set_rate_frac` (whose rescaled phases are clamped below the new
`den_rate`) on an initialised engine and `speex_resampler_set_quality` return
and keep it. -/
theorem phase_invariant {F D : Type} (ops : FloatOps F D) :
    (∀ (nb_channels ratio_num ratio_den in_rate out_rate : Nat) (quality : Int),
      0 ≤ quality → quality ≤ 10 → 1 ≤ ratio_den → ratio_num < U32 → ratio_den < U32 →
      ∃ st : SpeexResamplerState F,
        speex_resampler_init_frac ops nb_channels ratio_num ratio_den in_rate out_rate
          quality = some (some st, RESAMPLER_ERR_SUCCESS) ∧ phase_valid st) ∧
    (∀ st : SpeexResamplerState F, phase_valid st →
      (∀ (f : resampler_basic_func) (ch : Nat) (mem : List F) (base in_len : Nat)
          (out : List F) (opos out_len : Nat), ch < st.nb_channels →
        ∃ r, resampler_basic ops f st ch mem base in_len out opos out_len = some r ∧
          phase_valid r.1) ∧
      (∀ (ch : Nat) (out : List F) (opos c : Nat), ch < st.nb_channels →
        channel_sound st ch →
        ∃ r, speex_resampler_magic ops st ch out opos c = some r ∧ phase_valid r.1) ∧
      (∀ (ch : Nat) (inp : Option (List F)) (n : Nat) (out : List F) (opos c : Nat),
        ch < st.nb_channels →
        (∀ r, speex_resampler_process_float ops st ch inp n out opos c = some r →
          phase_valid r.st) ∧
        (channel_sound st ch →
          (n < 2147483648 ∨ st.mem_alloc_size - (st.filt_len - 1) < 2147483648) →
          c < 2147483648 →
          ∃ r, speex_resampler_process_float ops st ch inp n out opos c = some r ∧
            phase_valid r.st)) ∧
      (∀ (ratio_num ratio_den in_rate out_rate : Nat),
        st.initialised ≠ 0 → quality_valid st →
        1 ≤ ratio_den → ratio_num < U32 → ratio_den < U32 →
        ∃ st', speex_resampler_set_rate_frac ops st ratio_num ratio_den in_rate out_rate
            = some (st', RESAMPLER_ERR_SUCCESS) ∧ phase_valid st') ∧
      (∀ quality : Int,
        ∃ st' e, speex_resampler_set_quality ops st quality = some (st', e) ∧
          phase_valid st')) :=
  ⟨fun nb rn rd ir orr q h0 h1 hd hnb hdb =>
      init_frac_phase_valid ops nb rn rd ir orr q h0 h1 hd hnb hdb,
    fun st hv =>
      ⟨fun f ch mem base in_len out opos out_len hch =>
          resampler_basic_phase ops f st ch mem base in_len out opos out_len hv hch,
        fun ch out opos c hch hs => magic_phase ops st ch out opos c hv hch hs,
        fun ch inp n out opos c hch =>
          ⟨fun r hr => (process_float_kept ops st ch inp n out opos c r hr).1 hv hch,
            fun hs hn31 hc31 =>
              process_float_phase ops st ch inp n out opos c hv hch hs hn31 hc31⟩,
        fun rn rd ir orr hini hqv hd hnb hdb =>
          set_rate_frac_phase ops st rn rd ir orr hv hini hqv hd hnb hdb,
        fun q => set_quality_phase ops st q hv⟩⟩

/-- C17, witness: two channels, 48000 to 44100 at quality 5, then
`speex_resampler_set_rate_frac` to 44100/48000. -/
theorem phase_invariant_witness :
    ∃ st st' : SpeexResamplerState Int,
      speex_resampler_init_frac intOps 2 48000 44100 48000 44100 5
        = some (some st, RESAMPLER_ERR_SUCCESS) ∧ phase_valid st ∧
      speex_resampler_set_rate_frac intOps st 44100 48000 44100 48000
        = some (st', RESAMPLER_ERR_SUCCESS) ∧ phase_valid st' := by
  obtain ⟨st, he, hq, hi, _⟩ := init_frac_some intOps 2 48000 44100 48000 44100 5
    (by decide) (by decide) (by decide) (by decide) (by decide)
  obtain ⟨st1, he1, hv⟩ := (phase_invariant intOps).1 2 48000 44100 48000 44100 5
    (by decide) (by decide) (by decide) (by decide) (by decide)
  rw [he] at he1
  injection he1 with he1
  injection he1 with he1 _
  injection he1 with he1
  subst he1
  obtain ⟨st', he', hv'⟩ := ((phase_invariant intOps).2 st hv).2.2.2.1 44100 48000 44100 48000
    (by rw [hi]; decide) (fun _ => by rw [hq]; decide) (by decide) (by decide) (by decide)
  exact ⟨st, st', he, hv, he', hv'⟩

/-! ## Capacity of the channel regions under reconfiguration -/

theorem foldl_set_length {F : Type} (idx : Nat → Nat) (val : List F → Nat → F) (l : List Nat)
    (mem : List F) :
    (l.foldl (fun m j => m.set (idx j) (val m j)) mem).length = mem.length := by
  induction l generalizing mem with
  | nil => rfl
  | cons i tl ih => rw [List.foldl_cons, ih, List.length_set]

/-- What one step of the growth loop does to the three arrays: the lengths stay,
and only the channel's own count of magic samples is assigned. -/
theorem grow_channel_spec {F D : Type} (ops : FloatOps F D)
    (N L0 sz old : Nat) (s : List F × List Nat × List Nat) (i : Nat) :
    (grow_channel ops N L0 sz old s i).1.length = s.1.length ∧
    (grow_channel ops N L0 sz old s i).2.1.length = s.2.1.length ∧
    (grow_channel ops N L0 sz old s i).2.2 =
      s.2.2.set i (if N > L0 + 2 * s.2.2.getD i 0 then 0
        else (L0 + 2 * s.2.2.getD i 0 - N) / 2) := by
  unfold grow_channel
  simp only []
  by_cases h : N > L0 + 2 * s.2.2.getD i 0
  · rw [if_pos h, if_pos h]
    exact ⟨by rw [foldl_set_length, foldl_set_length, foldl_set_length, foldl_set_length],
      by rw [List.length_set], rfl⟩
  · rw [if_neg h, if_neg h]
    exact ⟨by rw [foldl_set_length, foldl_set_length, foldl_set_length], rfl,
      by rw [List.set_set]⟩

theorem shrink_channel_spec {F D : Type} (ops : FloatOps F D)
    (N L0 sz : Nat) (s : List F × List Nat) (i : Nat) :
    (shrink_channel ops N L0 sz s i).1.length = s.1.length ∧
    (shrink_channel ops N L0 sz s i).2 = s.2.set i ((L0 - N) / 2 + s.2.getD i 0) := by
  unfold shrink_channel
  exact ⟨foldl_set_length _ _ _ _, rfl⟩

/-- The growth loop over the channels `n - 1, ..., 0`: lengths stay, and each
channel below `n` gets its new count of magic samples from its old one. -/
theorem grow_fold_spec {F D : Type} (ops : FloatOps F D) (N L0 sz old : Nat) :
    ∀ (n : Nat) (s : List F × List Nat × List Nat),
      (((List.range n).reverse).foldl (grow_channel ops N L0 sz old) s).1.length
          = s.1.length ∧
      (((List.range n).reverse).foldl (grow_channel ops N L0 sz old) s).2.1.length
          = s.2.1.length ∧
      (((List.range n).reverse).foldl (grow_channel ops N L0 sz old) s).2.2.length
          = s.2.2.length ∧
      ∀ i, (((List.range n).reverse).foldl (grow_channel ops N L0 sz old) s).2.2.getD i 0 =
        if i < n ∧ i < s.2.2.length then
          (if N > L0 + 2 * s.2.2.getD i 0 then 0 else (L0 + 2 * s.2.2.getD i 0 - N) / 2)
        else s.2.2.getD i 0 := by
  intro n
  induction n with
  | zero =>
    intro s
    refine ⟨rfl, rfl, rfl, ?_⟩
    intro i
    rw [if_neg (by omega)]; rfl
  | succ n ih =>
    intro s
    rw [List.range_succ, List.reverse_append, List.reverse_singleton, List.singleton_append,
      List.foldl_cons]
    obtain ⟨h1, h2, h3⟩ := grow_channel_spec ops N L0 sz old s n
    obtain ⟨k1, k2, k3, k4⟩ := ih (grow_channel ops N L0 sz old s n)
    refine ⟨by rw [k1, h1], by rw [k2, h2], by rw [k3, h3, List.length_set], ?_⟩
    intro i
    rw [k4 i, h3, List.length_set, getD_set_eq]
    by_cases he : n = i
    · subst he
      have e0 : ¬ (n < n ∧ n < s.2.2.length) := by omega
      rw [if_neg e0]
      by_cases hi : n < s.2.2.length
      · have e1 : n = n ∧ n < s.2.2.length := ⟨rfl, hi⟩
        have e2 : n < n + 1 ∧ n < s.2.2.length := ⟨by omega, hi⟩
        rw [if_pos e1, if_pos e2]
      · have e1 : ¬ (n = n ∧ n < s.2.2.length) := fun h => hi h.2
        have e2 : ¬ (n < n + 1 ∧ n < s.2.2.length) := fun h => hi h.2
        rw [if_neg e1, if_neg e2]
    · have e1 : ¬ (n = i ∧ n < s.2.2.length) := fun h => he h.1
      rw [if_neg e1]
      by_cases hc : i < n ∧ i < s.2.2.length
      · have e2 : i < n + 1 ∧ i < s.2.2.length := ⟨by omega, hc.2⟩
        rw [if_pos hc, if_pos e2]
      · have e2 : ¬ (i < n + 1 ∧ i < s.2.2.length) := by omega
        rw [if_neg hc, if_neg e2]

theorem shrink_fold_spec {F D : Type} (ops : FloatOps F D) (N L0 sz : Nat) :
    ∀ (n : Nat) (s : List F × List Nat),
      ((List.range n).foldl (shrink_channel ops N L0 sz) s).1.length = s.1.length ∧
      ((List.range n).foldl (shrink_channel ops N L0 sz) s).2.length = s.2.length ∧
      ∀ i, ((List.range n).foldl (shrink_channel ops N L0 sz) s).2.getD i 0 =
        if i < n ∧ i < s.2.length then (L0 - N) / 2 + s.2.getD i 0 else s.2.getD i 0 := by
  intro n
  induction n with
  | zero =>
    intro s
    refine ⟨rfl, rfl, ?_⟩
    intro i
    rw [if_neg (by omega)]; rfl
  | succ n ih =>
    intro s
    rw [List.range_succ, List.foldl_append, List.foldl_cons, List.foldl_nil]
    obtain ⟨k1, k2, k4⟩ := ih s
    obtain ⟨h1, h3⟩ := shrink_channel_spec ops N L0 sz
      ((List.range n).foldl (shrink_channel ops N L0 sz) s) n
    refine ⟨by rw [h1, k1], by rw [h3, List.length_set, k2], ?_⟩
    intro i
    rw [h3, getD_set_eq, k2, k4 n, k4 i]
    have e0 : ¬ (n < n ∧ n < s.2.length) := by omega
    rw [if_neg e0]
    by_cases he : n = i
    · subst he
      by_cases hi : n < s.2.length
      · have e1 : n = n ∧ n < s.2.length := ⟨rfl, hi⟩
        have e2 : n < n + 1 ∧ n < s.2.length := ⟨by omega, hi⟩
        rw [if_pos e1, if_pos e2]
      · have e1 : ¬ (n = n ∧ n < s.2.length) := fun h => hi h.2
        have e2 : ¬ (n < n + 1 ∧ n < s.2.length) := fun h => hi h.2
        rw [if_neg e1, if_neg e2, if_neg e0]
    · have e1 : ¬ (n = i ∧ n < s.2.length) := fun h => he h.1
      rw [if_neg e1]
      by_cases hc : i < n ∧ i < s.2.length
      · have e2 : i < n + 1 ∧ i < s.2.length := ⟨by omega, hc.2⟩
        rw [if_pos hc, if_pos e2]
      · have e2 : ¬ (i < n + 1 ∧ i < s.2.length) := by omega
        rw [if_neg hc, if_neg e2]

theorem filter_params_oversample {F D : Type} (ops : FloatOps F D) (qm : QualityMapping)
    (num den : Nat) (p : Nat × Nat × F) (ho : 1 ≤ qm.oversample)
    (hp : filter_params ops qm num den = some p) : 1 ≤ p.2.1 := by
  unfold filter_params at hp
  by_cases h : num > den
  · rw [if_pos h] at hp
    by_cases hd : den = 0
    · rw [if_pos hd] at hp; exact absurd hp (by simp)
    · rw [if_neg hd] at hp
      simp only [Option.some.injEq] at hp
      rw [← hp]
      simp only []
      split_ifs <;> omega
  · rw [if_neg h] at hp
    simp only [Option.some.injEq] at hp
    rw [← hp]
    exact ho

/-- C28.  On an engine holding a quality `q` of 0..10 (preset `(b, o)`) and a
ratio with `num_rate ≥ 1`, `den_rate ≥ 1` and `b * num_rate < 2^32`,
`update_filter` returns, and the `filt_len` it stores is a positive multiple of
4 that is at least the preset base length `b`, and the `oversample` it stores is
at least 1. -/
theorem update_filter_filt_len {F D : Type} (ops : FloatOps F D)
    (st : SpeexResamplerState F) (q b o : Nat)
    (hq : st.quality = (q : Int)) (hpre : preset_table.get? q = some (b, o))
    (hnum : 1 ≤ st.num_rate) (hden : 1 ≤ st.den_rate) (hov : b * st.num_rate < U32) :
    ∃ st', update_filter ops st = some st' ∧
      1 ≤ st'.filt_len ∧ st'.filt_len % 4 = 0 ∧ b ≤ st'.filt_len ∧ 1 ≤ st'.oversample := by
  obtain ⟨qm, hqm, hb, _⟩ := quality_entry_preset q b o hpre
  rw [← hq] at hqm
  obtain ⟨_, _, hb8, _, hb4, ho1, _⟩ := quality_entry_bounds st.quality qm hqm
  obtain ⟨p, hp⟩ := filter_params_some ops qm st.num_rate st.den_rate hden
  obtain ⟨hp4, hpb, _⟩ := filter_params_len ops qm st.num_rate st.den_rate p hb4 hnum
    (by rw [hb]; exact hov) hp
  have hpo := filter_params_oversample ops qm st.num_rate st.den_rate p ho1 hp
  obtain ⟨st', he, h1, h2, _⟩ := update_filter_params ops st qm p hqm hp (by omega)
  refine ⟨st', he, ?_, ?_, ?_, ?_⟩
  · rw [h1]; omega
  · rw [h1]; exact hp4
  · rw [h1, ← hb]; exact hpb
  · rw [h2]; exact hpo

/-- C28, witness: quality 5 (preset `(80, 16)`) at the ratio 160/147: the new
filter length is a positive multiple of 4 of at least 80. -/
theorem update_filter_filt_len_witness :
    (preset_table.get? 5 = some (80, 16) ∧ 1 ≤ 160 ∧ 1 ≤ 147 ∧ 80 * 160 < U32) ∧
    ∃ st' : SpeexResamplerState Int,
      update_filter intOps
        { fresh_state intOps 2 with quality := 5, num_rate := 160, den_rate := 147 }
        = some st' ∧
      1 ≤ st'.filt_len ∧ st'.filt_len % 4 = 0 ∧ 80 ≤ st'.filt_len ∧ 1 ≤ st'.oversample :=
  ⟨⟨rfl, by decide, by decide, by decide⟩,
    update_filter_filt_len intOps
      ({ fresh_state intOps 2 with quality := 5, num_rate := 160, den_rate := 147 } :
        SpeexResamplerState Int) 5 80 16 rfl rfl (by decide) (by decide) (by decide)⟩

theorem foldl_add_sum {R : Type} [CommSemiring R] (g : Nat → R) (l : List Nat) (a : R) :
    l.foldl (fun s j => s + g j) a = a + (l.map g).sum := by
  induction l generalizing a with
  | nil => simp
  | cons i tl ih =>
    rw [List.foldl_cons, ih, List.map_cons, List.sum_cons, add_assoc]

theorem foldl_add4_sum {R : Type} [CommSemiring R] (g0 g1 g2 g3 : Nat → R) (l : List Nat)
    (a : R × R × R × R) :
    (l.foldl (fun (a : R × R × R × R) k =>
        (a.1 + g0 k, a.2.1 + g1 k, a.2.2.1 + g2 k, a.2.2.2 + g3 k)) a).1
      + (l.foldl (fun (a : R × R × R × R) k =>
        (a.1 + g0 k, a.2.1 + g1 k, a.2.2.1 + g2 k, a.2.2.2 + g3 k)) a).2.1
      + (l.foldl (fun (a : R × R × R × R) k =>
        (a.1 + g0 k, a.2.1 + g1 k, a.2.2.1 + g2 k, a.2.2.2 + g3 k)) a).2.2.1
      + (l.foldl (fun (a : R × R × R × R) k =>
        (a.1 + g0 k, a.2.1 + g1 k, a.2.2.1 + g2 k, a.2.2.2 + g3 k)) a).2.2.2
      = a.1 + a.2.1 + a.2.2.1 + a.2.2.2 + (l.map (fun k => g0 k + g1 k + g2 k + g3 k)).sum := by
  induction l generalizing a with
  | nil => simp
  | cons i tl ih =>
    rw [List.foldl_cons, ih, List.map_cons, List.sum_cons]
    ring

theorem sum_range_four {R : Type} [CommSemiring R] (g : Nat → R) (m : Nat) :
    ((List.range m).map (fun k => g (4 * k) + g (4 * k + 1) + g (4 * k + 2) + g (4 * k + 3))).sum
      = ((List.range (4 * m)).map g).sum := by
  induction m with
  | zero => rfl
  | succ m ih =>
    have e : 4 * (m + 1) = 4 * m + 1 + 1 + 1 + 1 := by ring
    rw [List.range_succ, List.map_append, List.sum_append, ih, e, List.range_succ,
      List.range_succ, List.range_succ, List.range_succ]
    simp only [List.map_append, List.sum_append, List.map_cons, List.map_nil, List.sum_cons,
      List.sum_nil, add_zero]
    ring

/-- In exact arithmetic the sample of `resampler_basic_direct_single` is the dot
product. -/
theorem direct_single_exact {R : Type} [CommSemiring R] (ops : FloatOps R R)
    (hx : exact_arithmetic ops) (N : Nat) (tbl : List R) (ph : Nat) (iptr : Nat → R) :
    direct_single_sample ops N tbl ph iptr = direct_dot N tbl ph iptr := by
  unfold direct_single_sample direct_dot FloatOps.zero
  simp only [hx.fadd_eq, hx.fmul_eq, hx.zero_eq]
  rw [foldl_add_sum (fun j => tbl.getD (ph * N + j) 0 * iptr j), zero_add]

/-- In exact arithmetic the sample of `resampler_basic_direct_double` is the same
dot product, when `filt_len` is a multiple of 4. -/
theorem direct_double_exact {R : Type} [CommSemiring R] (ops : FloatOps R R)
    (hx : exact_arithmetic ops) (N : Nat) (h4 : N % 4 = 0) (tbl : List R) (ph : Nat)
    (iptr : Nat → R) :
    direct_double_sample ops N tbl ph iptr = direct_dot N tbl ph iptr := by
  obtain ⟨m, hm⟩ : ∃ m, N = 4 * m := ⟨N / 4, by omega⟩
  have hr : (N + 3) / 4 = m := by omega
  unfold direct_double_sample direct_double_accum direct_dot FloatOps.zero
  simp only [hx.fadd_eq, hx.fmul_eq, hx.zero_eq, hx.dadd_eq, hx.toD_eq, hx.toF_eq]
  rw [hr]
  rw [foldl_add4_sum (fun k => tbl.getD (ph * N + 4 * k) 0 * iptr (4 * k))
    (fun k => tbl.getD (ph * N + (4 * k + 1)) 0 * iptr (4 * k + 1))
    (fun k => tbl.getD (ph * N + (4 * k + 2)) 0 * iptr (4 * k + 2))
    (fun k => tbl.getD (ph * N + (4 * k + 3)) 0 * iptr (4 * k + 3))]
  simp only [add_zero, zero_add]
  have := sum_range_four (fun j => tbl.getD (ph * N + j) 0 * iptr j) m
  simp only [] at this
  rw [hm] at this ⊢
  exact this

/-- The unrolled loop of `resampler_basic_direct_double` reads the taps
`0 .. N - 1`, each once and in order, when `N` is a multiple of 4. -/
theorem kernel_taps_double (N : Nat) (h4 : N % 4 = 0) :
    kernel_taps resampler_basic_func.resampler_basic_direct_double N = List.range N := by
  obtain ⟨m, hm⟩ : ∃ m, N = 4 * m := ⟨N / 4, by omega⟩
  have hr : (N + 3) / 4 = m := by omega
  show (List.range ((N + 3) / 4)).flatMap
    (fun k => [4 * k, 4 * k + 1, 4 * k + 2, 4 * k + 3]) = List.range N
  rw [hr, hm]
  clear hr hm h4
  induction m with
  | zero => rfl
  | succ m ih =>
    have e : 4 * (m + 1) = 4 * m + 1 + 1 + 1 + 1 := by ring
    rw [List.range_succ, List.flatMap_append, ih, e, List.range_succ, List.range_succ,
      List.range_succ, List.range_succ]
    simp only [List.flatMap_cons, List.flatMap_nil, List.append_nil, List.append_assoc,
      List.singleton_append, List.cons_append, List.nil_append]

/-- C24.  In exact arithmetic, for `resampler_basic_direct_single` and, on a
`filt_len` that is a multiple of 4, for `resampler_basic_direct_double`: the
sample the kernel computes at a cursor and a phase is the dot product
`sum over j < filt_len of sinc_table[phase * filt_len + j] * iptr[j]`; a call
returns, and the outputs it stores are these dot products at the cursor and
phase the loop has reached for each of them, read from `mem` at `base + cursor`
(the loop runs over the lengths its test reads, `(int)*in_len` and
`(int)*out_len`, and stores nothing where one of them is negative);
the taps the double variant reads are `0 .. filt_len - 1`, none past the row. -/
theorem direct_kernel_value {R : Type} [CommSemiring R] (ops : FloatOps R R)
    (hx : exact_arithmetic ops) (f : resampler_basic_func)
    (hf : f = resampler_basic_func.resampler_basic_direct_single ∨
      f = resampler_basic_func.resampler_basic_direct_double)
    (st : SpeexResamplerState R) (ch : Nat) (mem : List R) (base in_len : Nat)
    (out : List R) (opos out_len : Nat) (hden : 1 ≤ st.den_rate)
    (h4 : st.filt_len % 4 = 0) :
    (∀ (tbl : List R) (ph : Nat) (iptr : Nat → R),
      kernel_sample ops f st.filt_len st.oversample st.den_rate tbl ph iptr
        = direct_dot st.filt_len tbl ph iptr) ∧
    (∃ st' : SpeexResamplerState R,
      resampler_basic ops f st ch mem base in_len out opos out_len
        = some (st',
            scatter out opos st.out_stride
              (orbit (fun L ph => direct_dot st.filt_len (st.sinc_table.getD []) ph
                  (fun j => mem.getD (base + (L + j)) 0))
                st.int_advance st.frac_advance st.den_rate (int_len in_len) (int_len out_len)
                (st.last_sample.getD ch 0) (st.samp_frac_num.getD ch 0)).1,
            (orbit (fun L ph => direct_dot st.filt_len (st.sinc_table.getD []) ph
                  (fun j => mem.getD (base + (L + j)) 0))
                st.int_advance st.frac_advance st.den_rate (int_len in_len) (int_len out_len)
                (st.last_sample.getD ch 0) (st.samp_frac_num.getD ch 0)).1.length)) ∧
    kernel_taps f st.filt_len = List.range st.filt_len := by
  have hs : ∀ (tbl : List R) (ph : Nat) (iptr : Nat → R),
      kernel_sample ops f st.filt_len st.oversample st.den_rate tbl ph iptr
        = direct_dot st.filt_len tbl ph iptr := by
    intro tbl ph iptr
    rcases hf with rfl | rfl
    · exact direct_single_exact ops hx _ tbl ph iptr
    · exact direct_double_exact ops hx _ h4 tbl ph iptr
  have hz : ops.zero = 0 := hx.zero_eq
  have hc : ∀ c L ph,
      orbit (fun L ph => kernel_sample ops f st.filt_len st.oversample st.den_rate
          (st.sinc_table.getD []) ph (fun j => mem.getD (base + (L + j)) ops.zero))
        st.int_advance st.frac_advance st.den_rate (int_len in_len) c L ph
      = orbit (fun L ph => direct_dot st.filt_len (st.sinc_table.getD []) ph
          (fun j => mem.getD (base + (L + j)) 0))
        st.int_advance st.frac_advance st.den_rate (int_len in_len) c L ph :=
    orbit_congr _ _ _ _ _ _ (fun L ph _ => by rw [hs, hz])
  have hu := resampler_basic_orbit ops f st ch mem base in_len out opos out_len hden
  rw [hc] at hu
  refine ⟨hs, ⟨_, hu⟩, ?_⟩
  · rcases hf with rfl | rfl
    · rfl
    · exact kernel_taps_double _ h4

theorem intOps_exact : exact_arithmetic intOps :=
  ⟨rfl, fun _ _ => rfl, fun _ _ => rfl, fun _ _ => rfl, fun _ => rfl, fun _ => rfl⟩

/-- C24, witness: `resampler_basic_direct_double` in exact integer arithmetic on
a filter of 4 taps, ratio 1/1, taps `1, 2, 3, 4` and memory `1, 2, 3, 4, 5, 6`:
two input samples give the dot products 30 and 40. -/
theorem direct_kernel_value_witness :
    (exact_arithmetic intOps ∧ 1 ≤ 1 ∧ 4 % 4 = 0) ∧
    (resampler_basic intOps resampler_basic_func.resampler_basic_direct_double
        { fresh_state intOps 1 with
          num_rate := 1, den_rate := 1, int_advance := 1, frac_advance := 0,
          filt_len := 4, sinc_table := some [1, 2, 3, 4] }
        0 [1, 2, 3, 4, 5, 6] 0 2 [0, 0] 0 2).map (fun r => r.2)
      = some ([30, 40], 2) := by
  refine ⟨⟨intOps_exact, by decide, by decide⟩, ?_⟩
  obtain ⟨_, ⟨st', h⟩, _⟩ := direct_kernel_value intOps intOps_exact
    resampler_basic_func.resampler_basic_direct_double (Or.inr rfl)
    ({ fresh_state intOps 1 with
        num_rate := 1, den_rate := 1, int_advance := 1, frac_advance := 0,
        filt_len := 4, sinc_table := some [1, 2, 3, 4] } : SpeexResamplerState Int)
    0 [1, 2, 3, 4, 5, 6] 0 2 [0, 0] 0 2 (by decide) (by decide)
  rw [h]
  show some (_, _) = some ([30, 40], 2)
  decide

/-! ## Termination of the processing loops -/

/-- More fuel does not change the result of the chunk loop: once it returns, it
returns the same with any larger bound on the number of iterations. -/
theorem process_float_loop_fuel {F D : Type} (ops : FloatOps F D)
    (ch base filt_offs xlen istride : Nat) :
    ∀ (fuel : Nat) (st : SpeexResamplerState F) (inp : Option (List F)) (ilen : Nat)
      (out : List F) (opos olen : Nat) (r : SpeexResamplerState F × Nat × List F × Nat),
      process_float_loop ops ch base filt_offs xlen istride fuel st inp ilen out opos olen
        = some r →
      process_float_loop ops ch base filt_offs xlen istride (fuel + 1) st inp ilen out opos olen
        = some r := by
  intro fuel
  induction fuel with
  | zero =>
    intro st inp ilen out opos olen r h
    simp [process_float_loop] at h
  | succ fuel ih =>
    intro st inp ilen out opos olen r h
    unfold process_float_loop at h ⊢
    by_cases hc : ilen ≠ 0 ∧ olen ≠ 0
    · rw [if_pos hc] at h ⊢
      cases hm : st.mem with
      | none => rw [hm] at h; simp at h
      | some mem =>
        rw [hm] at h
        simp only [] at h ⊢
        cases hn : speex_resampler_process_native ops
            { st with mem := some (copy_input ops base filt_offs istride
                (if ilen > xlen then xlen else ilen) inp mem) }
            ch (if ilen > xlen then xlen else ilen) out opos olen with
        | none => rw [hn] at h; simp at h
        | some r1 =>
          rw [hn] at h
          simp only [] at h ⊢
          exact ih _ _ _ _ _ _ _ h
    · rw [if_neg hc] at h ⊢
      exact h

/-- One call of `speex_resampler_process_native` with at least one input sample
and room for at least one output, both counts below `2^31`, makes progress: it
consumes a sample or writes one. -/
theorem process_native_progress {F D : Type} (ops : FloatOps F D) (st : SpeexResamplerState F)
    (ch n : Nat) (out : List F) (opos c : Nat) (hs : channel_sound st ch)
    (hn : 1 ≤ n) (hc : 1 ≤ c) (hn31 : n < 2147483648) (hc31 : c < 2147483648) :
    ∃ r, speex_resampler_process_native ops st ch n out opos c = some r ∧
      (1 ≤ r.in_len ∨ 1 ≤ r.out_len) ∧ r.in_len ≤ n ∧ r.out_len ≤ c := by
  obtain ⟨m, hm, _⟩ := hs.mem_some
  obtain ⟨f, hptr⟩ := hs.ptr_some
  have hnat := process_native_mem ops st ch n out opos c m f hm hptr hs.den_pos hs.cursor hn31
  rw [int_len_small c hc31] at hnat
  refine ⟨_, hnat, ?_, Nat.min_le_left _ _, ?_⟩
  · show 1 ≤ min n (mem_orbit ops f st ch m n c).2.1 ∨ 1 ≤ (mem_orbit ops f st ch m n c).1.length
    by_cases h0 : (mem_orbit ops f st ch m n c).1.length = 0
    · left
      have hstop : n ≤ (mem_orbit ops f st ch m n c).2.1 := by
        unfold mem_orbit at h0 ⊢
        exact orbit_stops _ _ _ _ _ _ _ _ (by omega)
      rw [Nat.min_eq_left hstop]
      exact hn
    · right; omega
  · show (mem_orbit ops f st ch m n c).1.length ≤ c
    unfold mem_orbit
    exact orbit_length_le _ _ _ _ _ _ _ _

/-- C25, amended.  On a sound channel the chunk size
`mem_alloc_size - (filt_len - 1)` is at least 1 and every call of
`speex_resampler_process_float` with a capacity below `2^31`, and with any input
length when the chunk size is below `2^31` (an input length below `2^31`
otherwise), returns, for every input pointer and output buffer, with counts
within what was asked; a larger bound on the number of iterations of the chunk loop never
changes its result; each call of `speex_resampler_process_native` on at least
one input sample with room for at least one output, both counts below `2^31`,
consumes a sample or writes one; and each kernel loop, for every input length
and capacity, returns after at most `out_len` iterations, in a state in which
its test `last_sample >= (int)*in_len || out_sample >= (int)*out_len` holds. -/
theorem process_float_terminates {F D : Type} (ops : FloatOps F D)
    (st : SpeexResamplerState F) (ch : Nat) (hs : channel_sound st ch) :
    1 ≤ st.mem_alloc_size - (st.filt_len - 1) ∧
    (∀ (inp : Option (List F)) (n : Nat) (out : List F) (opos c : Nat),
      (n < 2147483648 ∨ st.mem_alloc_size - (st.filt_len - 1) < 2147483648) →
      c < 2147483648 →
      ∃ r, speex_resampler_process_float ops st ch inp n out opos c = some r ∧
        r.in_len ≤ n ∧ r.out_len ≤ c) ∧
    (∀ (base filt_offs xlen istride fuel : Nat) (s : SpeexResamplerState F)
        (inp : Option (List F)) (ilen : Nat) (out : List F) (opos olen : Nat)
        (r : SpeexResamplerState F × Nat × List F × Nat),
      process_float_loop ops ch base filt_offs xlen istride fuel s inp ilen out opos olen
        = some r →
      process_float_loop ops ch base filt_offs xlen istride (fuel + 1) s inp ilen out opos olen
        = some r) ∧
    (∀ (n : Nat) (out : List F) (opos c : Nat), 1 ≤ n → 1 ≤ c →
      n < 2147483648 → c < 2147483648 →
      ∃ r, speex_resampler_process_native ops st ch n out opos c = some r ∧
        (1 ≤ r.in_len ∨ 1 ≤ r.out_len)) ∧
    (∀ (f : resampler_basic_func) (mem : List F) (base in_len : Nat) (out : List F)
        (opos out_len : Nat),
      ∃ r, resampler_basic ops f st ch mem base in_len out opos out_len = some r ∧
        r.2.2 ≤ out_len ∧
        ((r.1.last_sample.getD ch 0 : Int) ≥ to_int in_len ∨
          (r.2.2 : Int) ≥ to_int out_len)) := by
  have hroom := hs.room
  have hpos := hs.filt_pos
  refine ⟨by omega, ?_, ?_, ?_, ?_⟩
  · intro inp n out opos c hn31 hc31
    obtain ⟨ys, k, lam, phi, mu, s', m', he, hk, hy, _⟩ :=
      process_float_total ops st ch inp n c hs hn31 hc31
    exact ⟨_, he out opos, hk, hy⟩
  · intro base filt_offs xlen istride fuel s inp ilen out opos olen r h
    exact process_float_loop_fuel ops ch base filt_offs xlen istride fuel s inp ilen out opos
      olen r h
  · intro n out opos c hn hc hn31 hc31
    obtain ⟨r, hr, hp, _⟩ := process_native_progress ops st ch n out opos c hs hn hc hn31 hc31
    exact ⟨r, hr, hp⟩
  · intro f mem base in_len out opos out_len
    refine ⟨_, resampler_basic_orbit ops f st ch mem base in_len out opos out_len hs.den_pos,
      Nat.le_trans (orbit_length_le _ _ _ _ _ _ _ _) (int_len_le out_len), ?_⟩
    simp only []
    rw [getD_set_self _ _ _ _ hs.cursor]
    by_cases h : (orbit (fun L ph => kernel_sample ops f st.filt_len st.oversample st.den_rate
        (st.sinc_table.getD []) ph (fun j => mem.getD (base + (L + j)) ops.zero))
        st.int_advance st.frac_advance st.den_rate (int_len in_len) (int_len out_len)
        (st.last_sample.getD ch 0) (st.samp_frac_num.getD ch 0)).1.length < int_len out_len
    · exact Or.inl ((int_ge_iff _ _).mpr (orbit_stops _ _ _ _ _ _ _ _ h))
    · exact Or.inr ((int_ge_iff _ _).mpr (by omega))

/-- C25, witness: the record `pending_magic_state`, whose channel 0 is sound
with three magic samples pending: a call with three input samples and room for
six outputs returns. -/
theorem process_float_terminates_witness :
    channel_sound pending_magic_state 0 ∧
    1 ≤ pending_magic_state.mem_alloc_size - (pending_magic_state.filt_len - 1) ∧
    3 < 2147483648 ∧ 6 < 2147483648 ∧
    ∃ r, speex_resampler_process_float intOps pending_magic_state 0 (some [7, 8, 9]) 3
        [0, 0, 0, 0, 0, 0] 0 6 = some r ∧ r.in_len ≤ 3 ∧ r.out_len ≤ 6 :=
  ⟨pending_magic_state_sound,
    (process_float_terminates intOps pending_magic_state 0 pending_magic_state_sound).1,
    by decide, by decide,
    (process_float_terminates intOps pending_magic_state 0 pending_magic_state_sound).2.1
      (some [7, 8, 9]) 3 [0, 0, 0, 0, 0, 0] 0 6 (by decide) (by decide)⟩

/-! ## The parallel entry point on channels in the same state -/

/-- C26.  The claim fails on the engine `speex_resampler_init (2, 48000, 16000, 0)`,
whose two channels start in the same state (cursor 0, phase 0, no magic
samples), given 161 frames of the same input `x` for both channels and room for
100 output frames: `speex_resampler_process_parallel_float` calls
`speex_resampler_process_float` for channel 0 with 161 frames and capacity 100,
which consumes 161 and writes 54, and then for channel 1 with the counts the
first call left in `*in_len` and `*out_len`, 161 and 54, which writes 54 and
consumes 160 only.  The call (and `RS4::process`) reports 160 consumed and 54
written, and leaves the cursors of the two channels at 1 and 2. -/
theorem parallel_channels_diverge {F D : Type} (ops : FloatOps F D)
    (x : Option (List F)) (o : List F) :
    ∃ (st : SpeexResamplerState F) (p0 p1 : Processed F) (rp : ProcessedParallel F),
      speex_resampler_init ops 2 48000 16000 0 = some (some st, RESAMPLER_ERR_SUCCESS) ∧
      st.last_sample = [0, 0] ∧ st.samp_frac_num = [0, 0] ∧ st.magic_samples = [0, 0] ∧
      speex_resampler_process_float ops st 0 x 161 o 0 100 = some p0 ∧
      p0.in_len = 161 ∧ p0.out_len = 54 ∧
      speex_resampler_process_float ops p0.st 1 x p0.in_len o 0 p0.out_len = some p1 ∧
      p1.in_len = 160 ∧ p1.out_len = 54 ∧
      speex_resampler_process_parallel_float ops st [x, x] 161 [o, o] 100 = some rp ∧
      rp.st = p1.st ∧ rp.in_len = 160 ∧ rp.out_len = 54 ∧
      rp.st.last_sample = [1, 2] ∧
      (RS4.process ops { m_resampler := some st } [x, x] 161 [o, o] 100).map
        (fun r => (r.1.m_resampler, r.2.2)) = some (some p1.st, 54) := by
  obtain ⟨st, n, d, he, hred, hn, hd, ha, _, _, hnb, hl, hf, hmg, hready, hsz, _⟩ :=
    init_frac_ready_sized (F := F) ops 2 48000 16000 48000 16000 0 (by decide) (by decide)
      (by decide) (by decide) (by decide) (by decide)
  rw [reduce_ratio_48000_16000] at hred
  injection hred with hred
  injection hred with h1 h2
  subst h1 h2
  obtain ⟨hia0, hfa0, _⟩ := ha
  rw [hn, hd] at hia0 hfa0
  have hia : st.int_advance = 3 := hia0
  have hfa : st.frac_advance = 0 := hfa0
  have hL0 : st.last_sample.getD 0 0 = 0 := by rw [hl]; rfl
  have hP0 : st.samp_frac_num.getD 0 0 = 0 := by rw [hf]; rfl
  obtain ⟨p0, hp0, hpin0, hpout0, hpls0, hpsf0, hpmem0, hpfr0⟩ :=
    third_rate_call ops st 0 x o 0 (hready 0 (by decide)) hia hfa hd hL0 hP0
  have hpls0' : p0.st.last_sample = [1, 0] := by
    rw [hpls0, hl]
    rfl
  have hpsf0' : p0.st.samp_frac_num = [0, 0] := by
    rw [hpsf0, hf]
    rfl
  have hprdy1 : channel_ready p0.st 1 :=
    channel_ready_after st p0.st 1 hpfr0 hpmem0 (by rw [hpls0, List.length_set])
      (by rw [hpsf0, List.length_set]) (hready 1 (by decide))
  obtain ⟨q1, q2, _, q4, _, _, q7, q8, _, _, q11, _, _⟩ := frame_fields st p0.st hpfr0
  obtain ⟨p1, hp1, hpin1, hpout1, hpls1⟩ :=
    third_rate_call_capped ops p0.st 1 x o 0 hprdy1
      (by rw [q7]; exact hia) (by rw [q8]; exact hfa) (by rw [q2]; exact hd)
      (by rw [hpls0']; rfl) (by rw [hpsf0']; rfl) (by rw [q4, q1]; exact hsz)
  have hresp : speex_resampler_process_parallel_float ops st [x, x] 161 [o, o] 100
      = some { st := p1.st, in_len := p1.in_len,
               out := ([o, o].set 0 p0.out).set 1 p1.out,
               out_len := p1.out_len, status := p1.status } := by
    unfold speex_resampler_process_parallel_float
    simp only [hnb]
    rw [show List.range 2 = [0, 1] from rfl]
    simp only [List.foldl_cons, List.foldl_nil]
    have e0 : ([x, x] : List (Option (List F))).getD 0 none = x := rfl
    have e1 : ([x, x] : List (Option (List F))).getD 1 none = x := rfl
    have e2 : ([o, o] : List (List F)).getD 0 [] = o := rfl
    rw [e0, e2, hp0]
    simp only []
    have e3 : (([o, o] : List (List F)).set 0 p0.out).getD 1 [] = o := rfl
    rw [e1, e3, hpin0, hpout0, hp1]
  have hlast : p1.st.last_sample = [1, 2] := by
    rw [hpls1, hpls0']
    rfl
  refine ⟨st, p0, p1, _, he, by rw [hl]; rfl, by rw [hf]; rfl, by rw [hmg]; rfl, hp0, hpin0,
    hpout0, by rw [hpin0, hpout0]; exact hp1, hpin1, hpout1, hresp, rfl, hpin1, hpout1,
    hlast, ?_⟩
  unfold RS4.process
  simp only []
  rw [show 161 % U32 = 161 from rfl, show 100 % U32 = 100 from rfl, hresp]
  simp only [Option.map_some', hpout1]

/-! ## What `speex_resampler_reset_mem` clears -/

theorem foldl_set_const_getD {F : Type} (z : F) (cnt : Nat) (mem : List F) (k : Nat) (d : F) :
    ((List.range cnt).foldl (fun m i => m.set i z) mem).getD k d
      = if k < cnt ∧ k < mem.length then z else mem.getD k d := by
  induction cnt with
  | zero =>
    have e : ¬ (k < 0 ∧ k < mem.length) := by omega
    rw [if_neg e]; rfl
  | succ n ih =>
    rw [List.range_succ, List.foldl_append, List.foldl_cons, List.foldl_nil, getD_set_eq,
      foldl_set_length (fun i => i) (fun _ _ => z), ih]
    by_cases h1 : n = k ∧ n < mem.length
    · have e : k < n + 1 ∧ k < mem.length := by omega
      rw [if_pos h1, if_pos e]
    · rw [if_neg h1]
      by_cases h2 : k < n ∧ k < mem.length
      · have e : k < n + 1 ∧ k < mem.length := by omega
        rw [if_pos h2, if_pos e]
      · have e : ¬ (k < n + 1 ∧ k < mem.length) := by omega
        rw [if_neg h2, if_neg e]

/-- The cells `speex_resampler_reset_mem` changes: the first `reset_mem_count`
cells of `mem` become zero, every other cell stays. -/
theorem reset_mem_cells {F D : Type} (ops : FloatOps F D) (st : SpeexResamplerState F)
    (m : List F) (hm : st.mem = some m) :
    ∃ m', speex_resampler_reset_mem ops st
        = some ({ st with mem := some m' }, RESAMPLER_ERR_SUCCESS) ∧
      m'.length = m.length ∧
      ∀ k, m'.getD k ops.zero
        = if k < reset_mem_count st ∧ k < m.length then ops.zero else m.getD k ops.zero := by
  refine ⟨(List.range (reset_mem_count st)).foldl (fun m i => m.set i ops.zero) m, ?_,
    foldl_set_length (fun i => i) (fun _ _ => ops.zero) _ _,
    fun k => foldl_set_const_getD ops.zero _ m k ops.zero⟩
  unfold speex_resampler_reset_mem
  rw [hm]

theorem reduce_ratio_44100_44100 : reduce_ratio 44100 44100 = some (1, 1) := by decide

/-- A two-channel engine at the ratio 1/1 and quality 0 (`filt_len = 8`,
`mem_alloc_size = 167`): after eight samples `x` went through channel 1,
`speex_resampler_reset_mem` leaves the seven history cells of channel 1 holding
`x[1] .. x[7]`. -/
theorem reset_mem_second_channel {F D : Type} (ops : FloatOps F D) (x out : List F) :
    ∃ (st : SpeexResamplerState F) (r : Processed F) (st'' : SpeexResamplerState F)
        (m'' : List F),
      speex_resampler_init ops 2 44100 44100 0 = some (some st, RESAMPLER_ERR_SUCCESS) ∧
      speex_resampler_process_float ops st 1 (some x) 8 out 0 9 = some r ∧
      r.in_len = 8 ∧ r.out_len = 8 ∧
      speex_resampler_reset_mem ops r.st = some (st'', RESAMPLER_ERR_SUCCESS) ∧
      st''.nb_channels = 2 ∧ st''.filt_len = 8 ∧ st''.mem_alloc_size = 167 ∧
      reset_mem_count r.st = 14 ∧ st''.mem = some m'' ∧
      (∀ i, i < 7 → m''.getD (1 * 167 + i) ops.zero = x.getD (1 + i) ops.zero) ∧
      (∀ i, i < 7 → m''.getD (0 * 167 + i) ops.zero = ops.zero) := by
  obtain ⟨st, n, d, he, hred, hn, hd, ha, his, hos, hnb, hl, hf, hmg, hready, hsz, hfp⟩ :=
    init_frac_ready_sized (F := F) ops 2 44100 44100 44100 44100 0 (by decide) (by decide)
      (by decide) (by decide) (by decide) (by decide)
  rw [reduce_ratio_44100_44100] at hred
  injection hred with hred
  injection hred with h1 h2
  subst h1 h2
  obtain ⟨hia0, hfa0, _⟩ := ha
  rw [hn, hd] at hia0 hfa0
  have hia : st.int_advance = 1 := hia0
  have hfa : st.frac_advance = 0 := hfa0
  obtain ⟨qm, p, hqm, hp, hfl⟩ := hfp
  have hq : qm = ⟨8, 4, 830, 860, FuncDef.KAISER6⟩ := by
    have e : quality_entry 0 = some ⟨8, 4, 830, 860, FuncDef.KAISER6⟩ := rfl
    rw [e] at hqm
    exact (Option.some.inj hqm).symm
  subst hq
  have hfl8 : st.filt_len = 8 := by
    rw [hfl]
    unfold filter_params at hp
    rw [if_neg (by decide)] at hp
    rw [← Option.some.inj hp]
  have hmas : st.mem_alloc_size = 167 := by rw [hsz, hfl8]
  have hr1 := hready 1 (by decide)
  obtain ⟨m, hm, hmlen⟩ := hr1.mem_some
  obtain ⟨f, hptr⟩ := hr1.ptr_some
  obtain ⟨n1, st', m', hcall, _, _, hka, _, hfr, _, _, hm', hml, hout, hhist⟩ :=
    process_float_ready ops st 1 f m (some x) 8 9 hr1 hm hptr (Or.inl (by decide)) (by decide)
  obtain ⟨g1, _⟩ := chan_orbit_shape ops f st 1
    (history ops st 1 ++ gather ops (some x) st.in_stride 8) 8 9 1 0 1 0 0 hia hfa hd
    (by rw [hl]; rfl) (by rw [hf]; rfl)
  have e1 : (orbit (fun _ _ => ()) 1 0 1 8 9 0 0).1.length = 8 := by decide
  rw [e1] at g1
  have hn1 : n1 = 8 := hka (by rw [g1]; decide)
  obtain ⟨q1, _, _, q4, _, _, _, _, _, _, q11, _, _⟩ := frame_fields st st' hfr
  have hfl' : st'.filt_len = 8 := by rw [q1, hfl8]
  have hmas' : st'.mem_alloc_size = 167 := by rw [q4, hmas]
  have hnb' : st'.nb_channels = 2 := by rw [q11, hnb]
  obtain ⟨m'', hreset, hl'', hcells⟩ := reset_mem_cells ops st' m' hm'
  have hcount : reset_mem_count st' = 14 := by
    unfold reset_mem_count
    rw [hnb', hfl']
    decide
  have hmlen' : 334 ≤ m'.length := by
    rw [hml]
    rw [hmas] at hmlen
    omega
  refine ⟨st, _, _, m'', he, hcall out 0, hn1, g1, hreset, hnb', hfl', hmas', hcount, rfl,
    ?_, ?_⟩
  · intro i hi
    rw [hcells, hcount, if_neg (by omega)]
    have h7 : i < st.filt_len - 1 := by rw [hfl8]; omega
    have hh := hhist i h7
    rw [history_getD ops st' 1 m' hm' i (by rw [hfl']; omega), hmas'] at hh
    rw [hh, stream_getD ops st 1 m hm, hn1, hfl8, if_neg (by omega), if_pos (by omega), his]
    have e : (8 + i - (8 - 1)) * 1 = 1 + i := by omega
    rw [e]
    rfl
  · intro i hi
    rw [hcells, hcount, if_pos ⟨by omega, by omega⟩]

/-- C29.  The claim fails for channel 1 of a two-channel engine: after
`speex_resampler_init (2, 44100, 44100, 0)` (`filt_len = 8`,
`mem_alloc_size = 167`) and one call that puts the samples `1 .. 8` through
channel 1, `speex_resampler_reset_mem` returns `RESAMPLER_ERR_SUCCESS` and the
seven history cells `mem[1 * 167 + j]`, `j < 7`, of channel 1 still hold
`2 .. 8`: the loop zeroes the first `nb_channels * (filt_len - 1) = 14` cells of
`mem`, which all lie in the region of channel 0. -/
theorem reset_mem_leaves_channel :
    ∃ (st : SpeexResamplerState Int) (r : Processed Int) (st'' : SpeexResamplerState Int)
        (m'' : List Int),
      speex_resampler_init intOps 2 44100 44100 0 = some (some st, RESAMPLER_ERR_SUCCESS) ∧
      speex_resampler_process_float intOps st 1 (some [1, 2, 3, 4, 5, 6, 7, 8]) 8
        (List.replicate 9 0) 0 9 = some r ∧
      speex_resampler_reset_mem intOps r.st = some (st'', RESAMPLER_ERR_SUCCESS) ∧
      st''.nb_channels = 2 ∧ st''.filt_len = 8 ∧ st''.mem_alloc_size = 167 ∧
      reset_mem_count r.st = 14 ∧
      st''.mem = some m'' ∧
      (List.range 7).map (fun j => m''.getD (1 * 167 + j) 0) = [2, 3, 4, 5, 6, 7, 8] ∧
      (List.range 7).map (fun j => m''.getD (0 * 167 + j) 0) = [0, 0, 0, 0, 0, 0, 0] := by
  obtain ⟨st, r, st'', m'', h1, h2, _, _, h5, h6, h7, h8, hc, h9, h10, h11⟩ :=
    reset_mem_second_channel intOps [1, 2, 3, 4, 5, 6, 7, 8] (List.replicate 9 0)
  have hz : intOps.zero = 0 := rfl
  rw [hz] at h10 h11
  refine ⟨st, r, st'', m'', h1, h2, h5, h6, h7, h8, hc, h9, ?_, ?_⟩
  · show [m''.getD (1 * 167 + 0) 0, m''.getD (1 * 167 + 1) 0, m''.getD (1 * 167 + 2) 0,
      m''.getD (1 * 167 + 3) 0, m''.getD (1 * 167 + 4) 0, m''.getD (1 * 167 + 5) 0,
      m''.getD (1 * 167 + 6) 0] = _
    rw [h10 0 (by decide), h10 1 (by decide), h10 2 (by decide), h10 3 (by decide),
      h10 4 (by decide), h10 5 (by decide), h10 6 (by decide)]
    rfl
  · show [m''.getD (0 * 167 + 0) 0, m''.getD (0 * 167 + 1) 0, m''.getD (0 * 167 + 2) 0,
      m''.getD (0 * 167 + 3) 0, m''.getD (0 * 167 + 4) 0, m''.getD (0 * 167 + 5) 0,
      m''.getD (0 * 167 + 6) 0] = _
    rw [h11 0 (by decide), h11 1 (by decide), h11 2 (by decide), h11 3 (by decide),
      h11 4 (by decide), h11 5 (by decide), h11 6 (by decide)]

/-! ## Re-interleaving a sample block -/

theorem get?_eq_some_getD {F : Type} (l : List F) (i : Nat) (z : F) (h : i < l.length) :
    l.get? i = some (l.getD i z) := by
  rw [List.get?_eq_getElem?, List.getD_eq_getElem?_getD, List.getElem?_eq_getElem h]
  rfl

/-- A block that does not have exactly two channels: `interleave` runs its
nested loops over `available()` frames, which is 0 for every block the
constructor builds, and appends nothing. -/
theorem interleave_not_stereo {F : Type} (blockSize channels : Nat) (contents : List F)
    (opData : SampleData F) (samples : Nat) (hc : channels ≠ 2) :
    interleave (SampleBlock.create blockSize channels contents) opData samples
      = some opData := by
  unfold interleave
  have e : (SampleBlock.create blockSize channels contents).channels = channels := by
    simp [SampleBlock.channels, SampleBlock.create]
  rw [e, if_neg hc]
  rfl

/-- The stereo path of `interleave`: `n ≤ blocksize` frames of a block of two
channels are appended frame by frame, left sample first, and `samples` grows by
`2 * n`. -/
theorem interleave_stereo {F : Type} (blockSize : Nat) (contents : List F)
    (hlen : contents.length = 2 * blockSize) (z : F) (opData : SampleData F)
    (hs : opData.samples < U32) :
    ∀ (n : Nat), n ≤ blockSize →
      interleave (SampleBlock.create blockSize 2 contents) opData n
        = some { opData with
            buffer := opData.buffer ++ (List.range n).flatMap
              (fun s => [contents.getD s z, contents.getD (blockSize + s) z]),
            samples := (opData.samples + 2 * n) % U32 } := by
  have e : (SampleBlock.create blockSize 2 contents).channels = 2 := rfl
  unfold interleave
  simp only [if_pos e]
  intro n
  induction n with
  | zero =>
    intro _
    simp only [List.range_zero, List.foldl_nil, List.flatMap_nil, List.append_nil,
      Nat.mul_zero, Nat.add_zero, Nat.mod_eq_of_lt hs]
  | succ n ih =>
    intro hn
    rw [List.range_succ, List.foldl_append, ih (by omega), List.foldl_cons, List.foldl_nil]
    have s0 : (SampleBlock.create blockSize 2 contents).sample 0 n
        = some (contents.getD n z) := by
      show contents.get? (0 * blockSize + n) = _
      rw [Nat.zero_mul, Nat.zero_add]
      exact get?_eq_some_getD contents n z (by omega)
    have s1 : (SampleBlock.create blockSize 2 contents).sample 1 n
        = some (contents.getD (blockSize + n) z) := by
      show contents.get? (1 * blockSize + n) = _
      rw [Nat.one_mul]
      exact get?_eq_some_getD contents _ z (by omega)
    simp only [s0, s1, SampleData.push]
    rw [List.flatMap_append]
    simp only [List.flatMap_cons, List.flatMap_nil, List.append_nil, List.append_assoc,
      List.singleton_append]
    congr 2
    simp only [U32]
    omega

/-- C30.  The claim fails for every block that does not have exactly two
channels.  `interleave` uses its argument `samples` only in the two-channel
branch; the other branch loops over `sb.available()`, which is `m_available`, a
private member that keeps its initialiser 0.  So for a mono block and for a
block of three or more channels, whatever the block holds and whatever frame
count is asked for, nothing is appended and `opData.samples` stays: a mono block
of block size 4 holding `1, 2, 3, 4`, asked for 4 frames, leaves an empty
`opData` empty, where the claim has the four values appended.  The stereo block
of the same size is re-interleaved as claimed. -/
theorem interleave_ignores_other_blocks :
    (∀ (F : Type) (blockSize : Nat) (contents : List F) (opData : SampleData F)
        (samples : Nat),
      interleave (SampleBlock.create blockSize 1 contents) opData samples = some opData) ∧
    (∀ (F : Type) (c blockSize : Nat) (contents : List F) (opData : SampleData F)
        (samples : Nat),
      interleave (SampleBlock.create blockSize (c + 3) contents) opData samples
        = some opData) ∧
    ((SampleBlock.create 4 1 [1, 2, 3, 4] : SampleBlock Int).channels = 1 ∧
      (SampleBlock.create 4 1 [1, 2, 3, 4] : SampleBlock Int).blocksize = 4 ∧
      interleave (SampleBlock.create 4 1 [1, 2, 3, 4] : SampleBlock Int)
          { blockSize := 4, samples := 0, channels := 1, sampleRate := 44100, buffer := [] } 4
        = some { blockSize := 4, samples := 0, channels := 1, sampleRate := 44100,
                 buffer := [] }) ∧
    interleave (SampleBlock.create 4 2 [1, 2, 3, 4, 5, 6, 7, 8] : SampleBlock Int)
        { blockSize := 4, samples := 0, channels := 2, sampleRate := 44100, buffer := [] } 4
      = some { blockSize := 4, samples := 8, channels := 2, sampleRate := 44100,
               buffer := [1, 5, 2, 6, 3, 7, 4, 8] } := by
  refine ⟨fun F bs contents opData samples =>
      interleave_not_stereo bs 1 contents opData samples (by decide),
    fun F c bs contents opData samples =>
      interleave_not_stereo bs (c + 3) contents opData samples (by omega),
    ⟨rfl, rfl, by decide⟩, by decide⟩

/-! ## Bridging a change of filter length -/

/-- A loop `for (j = 0; j < cnt; j++) mem[b + j] = mem[b + j + d];`: the `cnt`
cells from `b` on receive the cells `d` places further, the other cells stay. -/
theorem shift_left_spec {F : Type} (z : F) (b d : Nat) (mem : List F) :
    ∀ cnt : Nat, b + cnt ≤ mem.length →
      ((List.range cnt).foldl (fun m j => m.set (b + j) (m.getD (b + j + d) z)) mem).length
        = mem.length ∧
      (∀ k, (k < b ∨ b + cnt ≤ k) →
        ((List.range cnt).foldl (fun m j => m.set (b + j) (m.getD (b + j + d) z)) mem).getD k z
          = mem.getD k z) ∧
      (∀ j, j < cnt →
        ((List.range cnt).foldl (fun m j => m.set (b + j) (m.getD (b + j + d) z)) mem).getD
            (b + j) z
          = mem.getD (b + j + d) z) := by
  intro cnt
  induction cnt with
  | zero =>
    intro _
    exact ⟨rfl, fun k _ => rfl, fun j hj => absurd hj (by omega)⟩
  | succ n ih =>
    intro hlen
    obtain ⟨h1, h2, h3⟩ := ih (by omega)
    rw [List.range_succ, List.foldl_append]
    simp only [List.foldl_cons, List.foldl_nil]
    refine ⟨by rw [List.length_set]; exact h1, ?_, ?_⟩
    · intro k hk
      rw [getD_set_eq, if_neg (by omega)]
      exact h2 k (by omega)
    · intro j hj
      rw [getD_set_eq]
      by_cases hjn : j = n
      · subst hjn
        rw [if_pos ⟨rfl, by rw [h1]; omega⟩]
        exact h2 _ (by omega)
      · rw [if_neg (by omega)]
        exact h3 j (by omega)

/-- The memory after the shrinking loop has run over the channels `0 .. n - 1`:
in each of these regions the window is shifted left by `(L0 - N) / 2`, and
every cell outside the windows stays. -/
theorem shrink_fold_mem {F D : Type} (ops : FloatOps F D) (N L0 sz : Nat) :
    ∀ (n : Nat) (s : List F × List Nat),
      n * sz ≤ s.1.length →
      (∀ ch, ch < n → N - 1 + (L0 - N) / 2 + s.2.getD ch 0 ≤ sz) →
      (∀ ch j, ch < n → j < sz →
        ((List.range n).foldl (shrink_channel ops N L0 sz) s).1.getD (ch * sz + j) ops.zero
          = if j < N - 1 + (L0 - N) / 2 + s.2.getD ch 0 then
              s.1.getD (ch * sz + j + (L0 - N) / 2) ops.zero
            else s.1.getD (ch * sz + j) ops.zero) ∧
      (∀ k, n * sz ≤ k →
        ((List.range n).foldl (shrink_channel ops N L0 sz) s).1.getD k ops.zero
          = s.1.getD k ops.zero) := by
  intro n
  induction n with
  | zero =>
    intro s _ _
    exact ⟨fun ch j hch _ => absurd hch (by omega), fun k _ => rfl⟩
  | succ n ih =>
    intro s hlen hfit
    have hmul : (n + 1) * sz = n * sz + sz := by ring
    obtain ⟨ihA, ihB⟩ := ih s (by omega) (fun ch hch => hfit ch (by omega))
    obtain ⟨k1, k2, k4⟩ := shrink_fold_spec ops N L0 sz n s
    rw [List.range_succ, List.foldl_append, List.foldl_cons, List.foldl_nil]
    obtain ⟨R, hR⟩ : ∃ R, R = (List.range n).foldl (shrink_channel ops N L0 sz) s := ⟨_, rfl⟩
    rw [← hR] at ihA ihB k1 k2 k4 ⊢
    have hmag : R.2.getD n 0 = s.2.getD n 0 := by
      rw [k4 n, if_neg (by omega)]
    have hfn := hfit n (by omega)
    obtain ⟨g1, g2, g3⟩ := shift_left_spec ops.zero (n * sz) ((L0 - N) / 2) R.1
      (N - 1 + (L0 - N) / 2 + R.2.getD n 0) (by rw [k1, hmag]; omega)
    have hstep : (shrink_channel ops N L0 sz R n).1
        = (List.range (N - 1 + (L0 - N) / 2 + R.2.getD n 0)).foldl
            (fun m j => m.set (n * sz + j) (m.getD (n * sz + j + (L0 - N) / 2) ops.zero))
            R.1 := rfl
    rw [hstep]
    refine ⟨?_, ?_⟩
    · intro ch j hch hj
      by_cases hc : ch < n
      · have hle : (ch + 1) * sz ≤ n * sz := Nat.mul_le_mul_right _ hc
        have hmul' : (ch + 1) * sz = ch * sz + sz := by ring
        rw [g2 _ (Or.inl (by omega))]
        exact ihA ch j hc hj
      · have hcn : ch = n := by omega
        subst hcn
        by_cases hw : j < N - 1 + (L0 - N) / 2 + s.2.getD ch 0
        · rw [if_pos hw, g3 j (by rw [hmag]; exact hw)]
          exact ihB _ (by omega)
        · rw [if_neg hw, g2 _ (Or.inr (by rw [hmag]; omega))]
          exact ihB _ (by omega)
    · intro k hk
      rw [g2 k (Or.inr (by rw [hmag]; omega))]
      exact ihB k (by omega)

/-- The shrinking branch of the memory part of `update_filter`. -/
theorem update_filter_mem_shrink {F D : Type} (ops : FloatOps F D) (L0 : Nat)
    (s : SpeexResamplerState F) (m : List F) (hm : s.mem = some m) (hst : s.started ≠ 0)
    (hlt : s.filt_len < L0) :
    update_filter_mem ops L0 s =
      { s with
        mem := some ((List.range s.nb_channels).foldl
          (shrink_channel ops s.filt_len L0 s.mem_alloc_size) (m, s.magic_samples)).1,
        magic_samples := ((List.range s.nb_channels).foldl
          (shrink_channel ops s.filt_len L0 s.mem_alloc_size) (m, s.magic_samples)).2 } := by
  have hg : ¬ s.filt_len > L0 := by omega
  unfold update_filter_mem
  simp only [hm, hst, if_false, hg, hlt, if_true]

/-- C22.  On a started engine whose channels satisfy
`filt_len - 1 + magic_samples ≤ mem_alloc_size` inside a memory of `nb_channels`
regions, a call of `update_filter` that lowers `filt_len` from `L` to `L' ≥ 1`
returns; `mem_alloc_size`, every cursor and every phase are unchanged; and for
each channel, with `d = (L - L') / 2` and `m` the magic samples it held, the
channel now holds `m + d` magic samples and cell `j` of its region is the old
cell `j + d`, for every `j < L' - 1 + m + d`. -/
theorem shrink_bridging {F D : Type} (ops : FloatOps F D) (st : SpeexResamplerState F)
    (qm : QualityMapping) (p : Nat × Nat × F) (m : List F)
    (hqe : quality_entry st.quality = some qm)
    (hp : filter_params ops qm st.num_rate st.den_rate = some p) (hden : st.den_rate ≠ 0)
    (hst : st.started ≠ 0) (hm : st.mem = some m)
    (hpos : 1 ≤ p.1) (hlt : p.1 < st.filt_len)
    (hmag : st.magic_samples.length = st.nb_channels)
    (hlen : st.nb_channels * st.mem_alloc_size ≤ m.length)
    (hfit : ∀ ch, ch < st.nb_channels →
      st.filt_len - 1 + st.magic_samples.getD ch 0 ≤ st.mem_alloc_size) :
    ∃ (st' : SpeexResamplerState F) (m' : List F),
      update_filter ops st = some st' ∧ st'.filt_len = p.1 ∧
      st'.mem_alloc_size = st.mem_alloc_size ∧ st'.mem = some m' ∧
      st'.last_sample = st.last_sample ∧ st'.samp_frac_num = st.samp_frac_num ∧
      ∀ ch, ch < st.nb_channels →
        st'.magic_samples.getD ch 0
          = st.magic_samples.getD ch 0 + (st.filt_len - p.1) / 2 ∧
        ∀ j, j < p.1 - 1 + st.magic_samples.getD ch 0 + (st.filt_len - p.1) / 2 →
          m'.getD (ch * st.mem_alloc_size + j) ops.zero
            = m.getD (ch * st.mem_alloc_size + j + (st.filt_len - p.1) / 2) ops.zero := by
  obtain ⟨X, hX⟩ : ∃ X : SpeexResamplerState F, X =
      { st with update_filter_calls := st.update_filter_calls + 1,
                oversample := p.2.1, filt_len := p.1, cutoff := p.2.2 } := ⟨_, rfl⟩
  obtain ⟨gk, gfl, _, _, gmem, gmas, gls, gms, _⟩ :=
    update_filter_table_kept ops qm.window_func X
  obtain ⟨T, hT⟩ : ∃ T, T = update_filter_table ops qm.window_func X := ⟨_, rfl⟩
  rw [← hT] at gk gfl gmem gmas gls gms
  have tfl : T.filt_len = p.1 := by rw [gfl, hX]
  have tmem : T.mem = some m := by rw [gmem, hX]; exact hm
  have tmas : T.mem_alloc_size = st.mem_alloc_size := by rw [gmas, hX]
  have tls : T.last_sample = st.last_sample := by rw [gls, hX]
  have tms : T.magic_samples = st.magic_samples := by rw [gms, hX]
  have tnb : T.nb_channels = st.nb_channels := by rw [gk.nb_channels, hX]
  have tst : T.started ≠ 0 := by rw [gk.started, hX]; exact hst
  have tsf : T.samp_frac_num = st.samp_frac_num := by rw [gk.samp_frac_num, hX]
  have hu : update_filter ops st = some (update_filter_mem ops st.filt_len T) := by
    unfold update_filter
    simp only [hqe, hp, hden, if_false]
    rw [hT, hX]
  have hs := update_filter_mem_shrink ops st.filt_len T m tmem tst (by rw [tfl]; exact hlt)
  rw [tfl, tnb, tmas, tms] at hs
  obtain ⟨k1, k2, k4⟩ := shrink_fold_spec ops p.1 st.filt_len st.mem_alloc_size
    st.nb_channels (m, st.magic_samples)
  have hd2 : 2 * ((st.filt_len - p.1) / 2) ≤ st.filt_len - p.1 := by omega
  obtain ⟨fA, _⟩ := shrink_fold_mem ops p.1 st.filt_len st.mem_alloc_size st.nb_channels
    (m, st.magic_samples) hlen (by
      intro ch hch
      have := hfit ch hch
      show p.1 - 1 + (st.filt_len - p.1) / 2 + st.magic_samples.getD ch 0 ≤ _
      omega)
  refine ⟨_, ((List.range st.nb_channels).foldl
    (shrink_channel ops p.1 st.filt_len st.mem_alloc_size) (m, st.magic_samples)).1,
    hu, ?_, ?_, ?_, ?_, ?_, ?_⟩
  · rw [hs]
  · rw [hs]
  · rw [hs]
  · rw [hs]; exact tls
  · rw [hs]; exact tsf
  · rw [hs]
    intro ch hch
    have hf := hfit ch hch
    refine ⟨?_, ?_⟩
    · show (((List.range st.nb_channels).foldl
        (shrink_channel ops p.1 st.filt_len st.mem_alloc_size) (m, st.magic_samples)).2).getD
          ch 0 = _
      rw [k4 ch, if_pos ⟨hch, by show ch < st.magic_samples.length; rw [hmag]; exact hch⟩]
      show (st.filt_len - p.1) / 2 + st.magic_samples.getD ch 0 = _
      omega
    · intro j hj
      have := fA ch j hch (by omega)
      simp only [] at this
      rw [this, if_pos (by omega)]

/-- C22, witness: the record `long_filter_state` (16 taps, one magic sample,
region `1 .. 20`) shrunk to the 8 taps of quality 0: five magic samples, and
the first twelve cells hold the old cells `4 .. 15`. -/
theorem shrink_bridging_witness :
    (quality_entry long_filter_state.quality = some ⟨8, 4, 830, 860, FuncDef.KAISER6⟩ ∧
      filter_params intOps ⟨8, 4, 830, 860, FuncDef.KAISER6⟩ long_filter_state.num_rate
        long_filter_state.den_rate = some (8, 4, 860) ∧
      long_filter_state.den_rate ≠ 0 ∧ long_filter_state.started ≠ 0 ∧
      8 < long_filter_state.filt_len ∧
      long_filter_state.nb_channels * long_filter_state.mem_alloc_size ≤ 20) ∧
    ∃ (st' : SpeexResamplerState Int) (m' : List Int),
      update_filter intOps long_filter_state = some st' ∧ st'.filt_len = 8 ∧
      st'.mem_alloc_size = 20 ∧ st'.mem = some m' ∧
      st'.last_sample = [0] ∧ st'.samp_frac_num = [0] ∧
      st'.magic_samples.getD 0 0 = 5 ∧
      ∀ j, j < 12 → m'.getD (0 * 20 + j) 0
        = ([1, 2, 3, 4, 5, 6, 7, 8, 9, 10, 11, 12, 13, 14, 15, 16, 17, 18, 19, 20] :
            List Int).getD (0 * 20 + j + 4) 0 := by
  refine ⟨⟨rfl, rfl, by decide, by decide, by decide, by decide⟩, ?_⟩
  obtain ⟨st', m', h1, h2, h3, h4, h5, h6, h7⟩ := shrink_bridging intOps long_filter_state
    ⟨8, 4, 830, 860, FuncDef.KAISER6⟩ (8, 4, 860)
    [1, 2, 3, 4, 5, 6, 7, 8, 9, 10, 11, 12, 13, 14, 15, 16, 17, 18, 19, 20]
    rfl rfl (by decide) (by decide) rfl (by decide) (by decide) rfl (by decide) (by decide)
  obtain ⟨g1, g2⟩ := h7 0 (by decide)
  exact ⟨st', m', h1, h2, h3, h4, h5, h6, g1, g2⟩

/-- A loop `for (j = cnt - 1; j >= 0; j--) mem[a + j + g] = mem[c + j];` that
moves `cnt` cells upwards (`c ≤ a + g`): the cells from `a + g` on receive the
cells from `c` on, the other cells stay. -/
theorem move_up_spec {F : Type} (z : F) (a g c : Nat) (hca : c ≤ a + g) :
    ∀ (cnt : Nat) (mem : List F), a + g + cnt ≤ mem.length →
      (((List.range cnt).reverse).foldl
        (fun m j => m.set (a + j + g) (m.getD (c + j) z)) mem).length = mem.length ∧
      (∀ k, (k < a + g ∨ a + g + cnt ≤ k) →
        (((List.range cnt).reverse).foldl
          (fun m j => m.set (a + j + g) (m.getD (c + j) z)) mem).getD k z = mem.getD k z) ∧
      (∀ j, j < cnt →
        (((List.range cnt).reverse).foldl
          (fun m j => m.set (a + j + g) (m.getD (c + j) z)) mem).getD (a + j + g) z
          = mem.getD (c + j) z) := by
  intro cnt
  induction cnt with
  | zero =>
    intro mem _
    exact ⟨rfl, fun k _ => rfl, fun j hj => absurd hj (by omega)⟩
  | succ n ih =>
    intro mem hlen
    rw [List.range_succ, List.reverse_append, List.reverse_singleton, List.singleton_append,
      List.foldl_cons]
    obtain ⟨h1, h2, h3⟩ := ih (mem.set (a + n + g) (mem.getD (c + n) z))
      (by rw [List.length_set]; omega)
    refine ⟨by rw [h1, List.length_set], ?_, ?_⟩
    · intro k hk
      rw [h2 k (by omega), getD_set_eq, if_neg (by omega)]
    · intro j hj
      by_cases hjn : j = n
      · subst hjn
        rw [h2 _ (by omega), getD_set_self _ _ _ _ (by omega)]
      · rw [h3 j (by omega), getD_set_eq, if_neg (by omega)]

/-- A loop `for (j = 0; j < cnt; j++) mem[b + (A - j)] = mem[b + (B - j)];` that
copies going backward (`B ≤ A`, `cnt ≤ B + 1`): cell `b + (A - j)` receives the
cell `b + (B - j)`, the other cells stay. -/
theorem move_top_spec {F : Type} (z : F) (b A B : Nat) (hAB : B ≤ A) (mem : List F)
    (hlen : b + A < mem.length) :
    ∀ (cnt : Nat), cnt ≤ B + 1 →
      ((List.range cnt).foldl
        (fun m j => m.set (b + (A - j)) (m.getD (b + (B - j)) z)) mem).length = mem.length ∧
      (∀ k, (k + cnt < b + A + 1 ∨ b + A < k) →
        ((List.range cnt).foldl
          (fun m j => m.set (b + (A - j)) (m.getD (b + (B - j)) z)) mem).getD k z
          = mem.getD k z) ∧
      (∀ j, j < cnt →
        ((List.range cnt).foldl
          (fun m j => m.set (b + (A - j)) (m.getD (b + (B - j)) z)) mem).getD (b + (A - j)) z
          = mem.getD (b + (B - j)) z) := by
  intro cnt
  induction cnt with
  | zero =>
    intro _
    exact ⟨rfl, fun k _ => rfl, fun j hj => absurd hj (by omega)⟩
  | succ n ih =>
    intro hc
    obtain ⟨h1, h2, h3⟩ := ih (by omega)
    rw [List.range_succ, List.foldl_append]
    simp only [List.foldl_cons, List.foldl_nil]
    refine ⟨by rw [List.length_set]; exact h1, ?_, ?_⟩
    · intro k hk
      rw [getD_set_eq, if_neg (by omega)]
      exact h2 k (by omega)
    · intro j hj
      rw [getD_set_eq]
      by_cases hjn : j = n
      · subst hjn
        rw [if_pos ⟨rfl, by rw [h1]; omega⟩]
        exact h2 _ (by omega)
      · rw [if_neg (by omega)]
        exact h3 j (by omega)

/-- A loop that stores the same value `z` at the cells `idx j`, `j` in `l`. -/
theorem foldl_set_const_spec {F : Type} (z : F) (idx : Nat → Nat) :
    ∀ (l : List Nat) (mem : List F),
      (l.foldl (fun m j => m.set (idx j) z) mem).length = mem.length ∧
      (∀ k, (∃ j, j ∈ l ∧ idx j = k) →
        (l.foldl (fun m j => m.set (idx j) z) mem).getD k z = z) ∧
      (∀ k, (∀ j, j ∈ l → idx j ≠ k) →
        (l.foldl (fun m j => m.set (idx j) z) mem).getD k z = mem.getD k z) := by
  intro l
  induction l with
  | nil =>
    intro mem
    exact ⟨rfl, fun k ⟨j, hj, _⟩ => absurd hj (List.not_mem_nil j), fun k _ => rfl⟩
  | cons i tl ih =>
    intro mem
    rw [List.foldl_cons]
    obtain ⟨h1, h2, h3⟩ := ih (mem.set (idx i) z)
    refine ⟨by rw [h1, List.length_set], ?_, ?_⟩
    · intro k ⟨j, hj, hk⟩
      by_cases hin : ∃ j, j ∈ tl ∧ idx j = k
      · exact h2 k hin
      · have hne : ∀ j, j ∈ tl → idx j ≠ k := fun j hj' he => hin ⟨j, hj', he⟩
        rw [h3 k hne]
        rcases List.mem_cons.mp hj with rfl | hj'
        · rw [hk, getD_set_eq]
          split_ifs with hh
          · rfl
          · have : ¬ k < mem.length := fun hl => hh ⟨rfl, hl⟩
            rw [List.getD_eq_default _ _ (by omega)]
        · exact absurd hk (hne j hj')
    · intro k hk
      rw [h3 k (fun j hj => hk j (List.mem_cons_of_mem _ hj)), getD_set_eq,
        if_neg (fun h => hk i (List.mem_cons_self _ _) h.1)]

theorem mem_drop_range (n m j : Nat) : j ∈ (List.range n).drop m ↔ m ≤ j ∧ j < n := by
  rw [List.mem_iff_getElem?]
  constructor
  · rintro ⟨i, hi⟩
    rw [List.getElem?_drop] at hi
    by_cases hc : m + i < n
    · rw [List.getElem?_range hc] at hi
      injection hi with hi
      omega
    · rw [List.getElem?_eq_none (by rw [List.length_range]; omega)] at hi
      exact absurd hi (by simp)
  · rintro ⟨h1, h2⟩
    refine ⟨j - m, ?_⟩
    rw [List.getElem?_drop, List.getElem?_range (by omega)]
    congr 1
    omega

/-- One step of the growth loop on a channel without magic samples, when the
filter grows from `L0` to `N` taps: the step writes only the cells
`[i * sz, i * sz + N - 1)`, which receive `N - L0` zeros followed by the
`L0 - 1` cells read at the old stride; the cursor moves by `(N - L0) / 2`. -/
theorem grow_channel_mem {F D : Type} (ops : FloatOps F D)
    (N L0 sz old : Nat) (s : List F × List Nat × List Nat) (i : Nat)
    (hmag : s.2.2.getD i 0 = 0) (hN : L0 < N) (hL : 1 ≤ L0)
    (hso : i * old ≤ i * sz) (hlen : i * sz + (N - 1) ≤ s.1.length) :
    (∀ j, j < N - L0 →
      (grow_channel ops N L0 sz old s i).1.getD (i * sz + j) ops.zero = ops.zero) ∧
    (∀ j, j < L0 - 1 →
      (grow_channel ops N L0 sz old s i).1.getD (i * sz + (N - L0) + j) ops.zero
        = s.1.getD (i * old + j) ops.zero) ∧
    (∀ k, (k < i * sz ∨ i * sz + (N - 1) ≤ k) →
      (grow_channel ops N L0 sz old s i).1.getD k ops.zero = s.1.getD k ops.zero) ∧
    (grow_channel ops N L0 sz old s i).2.1
      = s.2.1.set i (s.2.1.getD i 0 + (N - L0) / 2) := by
  have e : grow_channel ops N L0 sz old s i =
      (((List.range (N - 1)).drop (L0 - 1)).foldl
        (fun m j => m.set (i * sz + (N - 2 - j)) ops.zero)
        ((List.range (L0 - 1)).foldl
          (fun m j => m.set (i * sz + (N - 2 - j)) (m.getD (i * sz + (L0 - 2 - j)) ops.zero))
          (((List.range (L0 - 1)).reverse).foldl
            (fun m j => m.set (i * sz + j) (m.getD (i * old + j) ops.zero)) s.1)),
       s.2.1.set i (s.2.1.getD i 0 + (N - L0) / 2), s.2.2.set i 0) := by
    unfold grow_channel
    simp only []
    rw [hmag]
    simp only [Nat.mul_zero, Nat.add_zero, List.range_zero, List.foldl_nil]
    rw [if_pos hN]
  obtain ⟨a1, a2, a3⟩ := move_up_spec ops.zero (i * sz) 0 (i * old) (by omega) (L0 - 1) s.1
    (by omega)
  simp only [Nat.add_zero] at a1 a2 a3
  obtain ⟨m1, hm1⟩ : ∃ m1 : List F, m1 = ((List.range (L0 - 1)).reverse).foldl
    (fun m j => m.set (i * sz + j) (m.getD (i * old + j) ops.zero)) s.1 := ⟨_, rfl⟩
  rw [← hm1] at a1 a2 a3
  obtain ⟨b1, b2, b3⟩ := move_top_spec ops.zero (i * sz) (N - 2) (L0 - 2) (by omega) m1
    (by omega) (L0 - 1) (by omega)
  obtain ⟨m3, hm3⟩ : ∃ m3 : List F, m3 = (List.range (L0 - 1)).foldl
    (fun m j => m.set (i * sz + (N - 2 - j)) (m.getD (i * sz + (L0 - 2 - j)) ops.zero)) m1 :=
    ⟨_, rfl⟩
  rw [← hm3] at b1 b2 b3
  obtain ⟨c1, c2, c3⟩ := foldl_set_const_spec ops.zero (fun j => i * sz + (N - 2 - j))
    ((List.range (N - 1)).drop (L0 - 1)) m3
  rw [e, ← hm1, ← hm3]
  refine ⟨?_, ?_, ?_, rfl⟩
  · intro j hj
    refine c2 (i * sz + j) ⟨N - 2 - j, (mem_drop_range _ _ _).mpr ⟨by omega, by omega⟩, ?_⟩
    show i * sz + (N - 2 - (N - 2 - j)) = i * sz + j
    omega
  · intro j hj
    have q : ∀ j', j' ∈ (List.range (N - 1)).drop (L0 - 1) →
        (fun j => i * sz + (N - 2 - j)) j' ≠ i * sz + (N - L0) + j := by
      intro j' hj'
      have hb := (mem_drop_range _ _ _).mp hj'
      show i * sz + (N - 2 - j') ≠ i * sz + (N - L0) + j
      omega
    refine Eq.trans (c3 _ q) ?_
    have e1 : i * sz + (N - L0) + j = i * sz + (N - 2 - (L0 - 2 - j)) := by omega
    have e2 : i * sz + (L0 - 2 - (L0 - 2 - j)) = i * sz + j := by omega
    rw [e1, b3 _ (by omega), e2, a3 j hj]
  · intro k hk
    have q : ∀ j', j' ∈ (List.range (N - 1)).drop (L0 - 1) →
        (fun j => i * sz + (N - 2 - j)) j' ≠ k := by
      intro j' hj'
      have hb := (mem_drop_range _ _ _).mp hj'
      show i * sz + (N - 2 - j') ≠ k
      omega
    refine Eq.trans (c3 _ q) ?_
    rw [b2 k (by omega), a2 k (by omega)]

theorem stride_step (c n sz : Nat) (h : c < n) : c * sz + sz ≤ n * sz := by
  rw [← Nat.succ_mul]
  exact Nat.mul_le_mul_right sz h

/-- The growth loop over the channels `n - 1, ..., 0`, none of which has magic
samples, from the stride `old` to the stride `sz`: each region starts with
`N - L0` zeros followed by the channel's old `L0 - 1` cells, the cursors move by
`(N - L0) / 2`, and the cells outside the windows `[ch * sz, ch * sz + N - 1)`
stay. -/
theorem grow_fold_mem {F D : Type} (ops : FloatOps F D) (N L0 sz old : Nat)
    (hN : L0 < N) (hL : 1 ≤ L0) (hso : old ≤ sz) (hfo : L0 - 1 ≤ old) (hfn : N - 1 ≤ sz) :
    ∀ (n : Nat) (s r : List F × List Nat × List Nat),
      r = ((List.range n).reverse).foldl (grow_channel ops N L0 sz old) s →
      (∀ ch, ch < n → s.2.2.getD ch 0 = 0) → n * sz ≤ s.1.length → n ≤ s.2.1.length →
      (∀ ch, ch < n →
        (∀ j, j < N - L0 → r.1.getD (ch * sz + j) ops.zero = ops.zero) ∧
        (∀ j, j < L0 - 1 →
          r.1.getD (ch * sz + (N - L0) + j) ops.zero = s.1.getD (ch * old + j) ops.zero) ∧
        r.2.1.getD ch 0 = s.2.1.getD ch 0 + (N - L0) / 2) ∧
      (∀ k, (∀ ch, ch < n → k < ch * sz ∨ ch * sz + (N - 1) ≤ k) →
        r.1.getD k ops.zero = s.1.getD k ops.zero) ∧
      (∀ k, n ≤ k → r.2.1.getD k 0 = s.2.1.getD k 0) := by
  intro n
  induction n with
  | zero =>
    intro s r hr _ _ _
    rw [hr]
    exact ⟨fun ch hch => absurd hch (by omega), fun k _ => rfl, fun k _ => rfl⟩
  | succ n ih =>
    intro s r hr hmag hlen hls
    rw [List.range_succ, List.reverse_append, List.reverse_singleton, List.singleton_append,
      List.foldl_cons] at hr
    rw [Nat.succ_mul] at hlen
    obtain ⟨g1, g2, g3, g4⟩ := grow_channel_mem ops N L0 sz old s n (hmag n (by omega)) hN hL
      (Nat.mul_le_mul_left n hso) (by omega)
    obtain ⟨h1, h2, h3⟩ := grow_channel_spec ops N L0 sz old s n
    obtain ⟨k1, k2, k3⟩ := ih (grow_channel ops N L0 sz old s n) r hr
      (by
        intro ch hch
        rw [h3, getD_set_eq, if_neg (by omega)]
        exact hmag ch (by omega))
      (by rw [h1]; omega) (by rw [h2]; omega)
    refine ⟨?_, ?_, ?_⟩
    · intro ch hch
      by_cases hcn : ch = n
      · subst hcn
        have out : ∀ x, x < N - 1 → ∀ c, c < ch →
            ch * sz + x < c * sz ∨ c * sz + (N - 1) ≤ ch * sz + x := by
          intro x _ c hc
          have := stride_step c ch sz hc
          omega
        refine ⟨?_, ?_, ?_⟩
        · intro j hj
          rw [k2 _ (out j (by omega))]
          exact g1 j hj
        · intro j hj
          have ex : ch * sz + (N - L0) + j = ch * sz + (N - L0 + j) := by omega
          rw [ex, k2 _ (out (N - L0 + j) (by omega)), ← ex]
          exact g2 j hj
        · rw [k3 ch (by omega), g4, getD_set_self _ _ _ _ (by omega)]
      · have hlt : ch < n := by omega
        obtain ⟨t1, t2, t3⟩ := k1 ch hlt
        refine ⟨t1, ?_, ?_⟩
        · intro j hj
          rw [t2 j hj]
          have := stride_step ch n old hlt
          have := Nat.mul_le_mul_left n hso
          exact g3 _ (by omega)
        · rw [t3, g4, getD_set_eq, if_neg (by omega)]
    · intro k hk
      rw [k2 k (fun ch hch => hk ch (by omega))]
      exact g3 k (hk n (by omega))
    · intro k hk
      rw [k3 k (by omega), g4, getD_set_eq, if_neg (by omega)]

theorem mem_size_for_fits (N buf : Nat) (h1 : 1 ≤ N) (hb : N - 1 + buf < U32) :
    mem_size_for N buf = N - 1 + buf := by
  unfold mem_size_for
  simp only [U32] at hb ⊢
  omega

/-- The memory part of `update_filter` on a started engine whose filter has
grown: the regions are re-spaced and the channels are bridged from the last one
down. -/
theorem update_filter_mem_grow {F D : Type} (ops : FloatOps F D) (L0 : Nat)
    (s : SpeexResamplerState F) (m : List F) (hm : s.mem = some m) (hst : s.started ≠ 0)
    (hgt : s.filt_len > L0) (sz : Nat) (m0 : List F)
    (r : List F × List Nat × List Nat)
    (hsz : sz = if mem_size_for s.filt_len s.buffer_size > s.mem_alloc_size then
      mem_size_for s.filt_len s.buffer_size else s.mem_alloc_size)
    (hm0 : m0 = if mem_size_for s.filt_len s.buffer_size > s.mem_alloc_size then
      m.take (s.nb_channels * sz) ++ List.replicate (s.nb_channels * sz - m.length) ops.zero
      else m)
    (hr : r = ((List.range s.nb_channels).reverse).foldl
      (grow_channel ops s.filt_len L0 sz s.mem_alloc_size)
      (m0, s.last_sample, s.magic_samples)) :
    update_filter_mem ops L0 s =
      { s with mem_alloc_size := sz, mem := some r.1,
               last_sample := r.2.1, magic_samples := r.2.2 } := by
  subst hr
  subst hm0
  subst hsz
  unfold update_filter_mem
  simp only [hm, hst, if_false, hgt, if_true]

/-- The block handed back by the reallocation of the growth branch holds the old
cells at the old indices. -/
theorem realloc_getD {F : Type} (z : F) (m : List F) (n k : Nat) (hk : k < n)
    (hkm : k < m.length) :
    (m.take n ++ List.replicate (n - m.length) z).getD k z = m.getD k z := by
  rw [List.getD_eq_getElem?_getD, List.getD_eq_getElem?_getD,
    List.getElem?_append_left (by rw [List.length_take]; omega), List.getElem?_take, if_pos hk]

/-- C23.  On a started engine whose channels hold no magic samples and have
their `filt_len - 1` history cells inside regions of `mem_alloc_size` cells, a
call of `update_filter` that raises `filt_len` from `L` to `L'` (with
`L' - 1 + buffer_size` below 2^32) returns; the stride `mem_alloc_size` becomes
the larger of its old value and `L' - 1 + buffer_size`; and for each channel, at
the new stride, the region starts with `L' - L` zeros followed by the `L - 1`
cells the channel held at the old stride, the cursor has moved by
`(L' - L) / 2`, and the count of magic samples is still 0. -/
theorem growth_bridging {F D : Type} (ops : FloatOps F D) (st : SpeexResamplerState F)
    (qm : QualityMapping) (p : Nat × Nat × F) (m : List F)
    (hqe : quality_entry st.quality = some qm)
    (hp : filter_params ops qm st.num_rate st.den_rate = some p) (hden : st.den_rate ≠ 0)
    (hst : st.started ≠ 0) (hm : st.mem = some m)
    (hL : 1 ≤ st.filt_len) (hgt : st.filt_len < p.1)
    (hnw : p.1 - 1 + st.buffer_size < U32)
    (hls : st.last_sample.length = st.nb_channels)
    (hmag : ∀ ch, ch < st.nb_channels → st.magic_samples.getD ch 0 = 0)
    (hlen : st.nb_channels * st.mem_alloc_size ≤ m.length)
    (hfit : st.filt_len - 1 ≤ st.mem_alloc_size) :
    ∃ (st' : SpeexResamplerState F) (m' : List F),
      update_filter ops st = some st' ∧ st'.filt_len = p.1 ∧ st'.mem = some m' ∧
      st'.mem_alloc_size = (if p.1 - 1 + st.buffer_size > st.mem_alloc_size then
        p.1 - 1 + st.buffer_size else st.mem_alloc_size) ∧
      st'.samp_frac_num = st.samp_frac_num ∧
      ∀ ch, ch < st.nb_channels →
        (∀ j, j < p.1 - st.filt_len →
          m'.getD (ch * st'.mem_alloc_size + j) ops.zero = ops.zero) ∧
        (∀ j, j < st.filt_len - 1 →
          m'.getD (ch * st'.mem_alloc_size + (p.1 - st.filt_len) + j) ops.zero
            = m.getD (ch * st.mem_alloc_size + j) ops.zero) ∧
        st'.last_sample.getD ch 0 = st.last_sample.getD ch 0 + (p.1 - st.filt_len) / 2 ∧
        st'.magic_samples.getD ch 0 = 0 := by
  obtain ⟨X, hX⟩ : ∃ X : SpeexResamplerState F, X =
      { st with update_filter_calls := st.update_filter_calls + 1,
                oversample := p.2.1, filt_len := p.1, cutoff := p.2.2 } := ⟨_, rfl⟩
  obtain ⟨gk, gfl, _, _, gmem, gmas, gls, gms, _⟩ :=
    update_filter_table_kept ops qm.window_func X
  obtain ⟨T, hT⟩ : ∃ T, T = update_filter_table ops qm.window_func X := ⟨_, rfl⟩
  rw [← hT] at gk gfl gmem gmas gls gms
  have tfl : T.filt_len = p.1 := by rw [gfl, hX]
  have tmem : T.mem = some m := by rw [gmem, hX]; exact hm
  have tmas : T.mem_alloc_size = st.mem_alloc_size := by rw [gmas, hX]
  have tls : T.last_sample = st.last_sample := by rw [gls, hX]
  have tms : T.magic_samples = st.magic_samples := by rw [gms, hX]
  have tnb : T.nb_channels = st.nb_channels := by rw [gk.nb_channels, hX]
  have tbuf : T.buffer_size = st.buffer_size := by rw [gk.buffer_size, hX]
  have tst : T.started ≠ 0 := by rw [gk.started, hX]; exact hst
  have tsf : T.samp_frac_num = st.samp_frac_num := by rw [gk.samp_frac_num, hX]
  have hu : update_filter ops st = some (update_filter_mem ops st.filt_len T) := by
    unfold update_filter
    simp only [hqe, hp, hden, if_false]
    rw [hT, hX]
  have hms : mem_size_for p.1 st.buffer_size = p.1 - 1 + st.buffer_size :=
    mem_size_for_fits _ _ (by omega) hnw
  obtain ⟨sz, hsz⟩ : ∃ sz : Nat, sz = if p.1 - 1 + st.buffer_size > st.mem_alloc_size then
    p.1 - 1 + st.buffer_size else st.mem_alloc_size := ⟨_, rfl⟩
  obtain ⟨m0, hm0⟩ : ∃ m0 : List F, m0 =
    if p.1 - 1 + st.buffer_size > st.mem_alloc_size then
      m.take (st.nb_channels * sz) ++ List.replicate (st.nb_channels * sz - m.length) ops.zero
    else m := ⟨_, rfl⟩
  obtain ⟨r, hr⟩ : ∃ r : List F × List Nat × List Nat, r =
    ((List.range st.nb_channels).reverse).foldl
      (grow_channel ops p.1 st.filt_len sz st.mem_alloc_size)
      (m0, st.last_sample, st.magic_samples) := ⟨_, rfl⟩
  have hs := update_filter_mem_grow ops st.filt_len T m tmem tst (by rw [tfl]; exact hgt)
    sz m0 r (by rw [tfl, tbuf, tmas, hms]; exact hsz)
    (by rw [tfl, tbuf, tmas, tnb, hms]; exact hm0)
    (by rw [tfl, tnb, tmas, tls, tms]; exact hr)
  have hso : st.mem_alloc_size ≤ sz := by
    rw [hsz]; split_ifs with hc
    · omega
    · exact Nat.le_refl _
  have hfn : p.1 - 1 ≤ sz := by
    rw [hsz]; split_ifs with hc
    · omega
    · omega
  have hstr : st.nb_channels * st.mem_alloc_size ≤ st.nb_channels * sz :=
    Nat.mul_le_mul_left _ hso
  have hl0 : st.nb_channels * sz ≤ m0.length := by
    rw [hm0]; split_ifs with hc
    · rw [List.length_append, List.length_take, List.length_replicate]
      omega
    · have : sz = st.mem_alloc_size := by rw [hsz, if_neg hc]
      rw [this]; exact hlen
  have hg0 : ∀ k, k < st.nb_channels * st.mem_alloc_size →
      m0.getD k ops.zero = m.getD k ops.zero := by
    intro k hk
    rw [hm0]; split_ifs with hc
    · exact realloc_getD ops.zero m _ k (by omega) (by omega)
    · rfl
  obtain ⟨fA, _, _⟩ := grow_fold_mem ops p.1 st.filt_len sz st.mem_alloc_size hgt hL hso hfit
    hfn st.nb_channels (m0, st.last_sample, st.magic_samples) r hr hmag hl0
    (by show st.nb_channels ≤ st.last_sample.length; omega)
  obtain ⟨_, _, _, k4⟩ := grow_fold_spec ops p.1 st.filt_len sz st.mem_alloc_size
    st.nb_channels (m0, st.last_sample, st.magic_samples)
  rw [← hr] at k4
  refine ⟨_, r.1, hu, ?_, ?_, ?_, ?_, ?_⟩
  · rw [hs]; exact tfl
  · rw [hs]
  · rw [hs]; exact hsz
  · rw [hs]; exact tsf
  · rw [hs]
    intro ch hch
    obtain ⟨a1, a2, a3⟩ := fA ch hch
    refine ⟨a1, ?_, a3, ?_⟩
    · intro j hj
      have := stride_step ch st.nb_channels st.mem_alloc_size hch
      exact Eq.trans (a2 j hj) (hg0 _ (by omega))
    · have hz := hmag ch hch
      have := k4 ch
      simp only [] at this
      show r.2.2.getD ch 0 = 0
      rw [this, hz]
      split_ifs <;> first | rfl | omega

/-- C23, witness: the record `short_filter_state` (two channels at the stride
6, 4 taps) grown to the 8 taps of quality 0: the stride becomes 167, each region
starts with four zeros followed by the channel's three history samples, and the
cursors 2 and 5 move by 2. -/
theorem growth_bridging_witness :
    (quality_entry short_filter_state.quality = some ⟨8, 4, 830, 860, FuncDef.KAISER6⟩ ∧
      filter_params intOps ⟨8, 4, 830, 860, FuncDef.KAISER6⟩ short_filter_state.num_rate
        short_filter_state.den_rate = some (8, 4, 860) ∧
      short_filter_state.den_rate ≠ 0 ∧ short_filter_state.started ≠ 0 ∧
      short_filter_state.filt_len = 4 ∧ short_filter_state.buffer_size = 160 ∧
      short_filter_state.magic_samples = [0, 0] ∧
      short_filter_state.nb_channels * short_filter_state.mem_alloc_size ≤ 12) ∧
    ∃ (st' : SpeexResamplerState Int) (m' : List Int),
      update_filter intOps short_filter_state = some st' ∧ st'.filt_len = 8 ∧
      st'.mem = some m' ∧ st'.mem_alloc_size = 167 ∧
      ∀ ch, ch < 2 →
        (∀ j, j < 4 → m'.getD (ch * 167 + j) 0 = 0) ∧
        (∀ j, j < 3 → m'.getD (ch * 167 + 4 + j) 0
          = ([1, 2, 3, 0, 0, 0, 4, 5, 6, 0, 0, 0] : List Int).getD (ch * 6 + j) 0) ∧
        st'.last_sample.getD ch 0 = ([2, 5] : List Nat).getD ch 0 + 2 ∧
        st'.magic_samples.getD ch 0 = 0 := by
  refine ⟨⟨rfl, rfl, by decide, by decide, rfl, rfl, rfl, by decide⟩, ?_⟩
  obtain ⟨st', m', h1, h2, h3, h4, _, h6⟩ := growth_bridging intOps short_filter_state
    ⟨8, 4, 830, 860, FuncDef.KAISER6⟩ (8, 4, 860)
    [1, 2, 3, 0, 0, 0, 4, 5, 6, 0, 0, 0]
    rfl rfl (by decide) (by decide) rfl (by decide) (by decide) (by decide) rfl
    (by decide) (by decide) (by decide)
  have e : st'.mem_alloc_size = 167 := h4
  rw [e] at h6
  exact ⟨st', m', h1, h2, h3, e, h6⟩

/-! ## Calls with a capacity outside the range of `int` -/

/-- One call of `speex_resampler_process_native` with a capacity that is not
positive as an `int` (`2^31` or more as an `unsigned int`): the kernel stores
nothing, the call hands back 0 as `*out_len` and consumes the smaller of `n`
and the cursor. -/
theorem process_native_no_room {F D : Type} (ops : FloatOps F D) (st : SpeexResamplerState F)
    (ch n : Nat) (out : List F) (opos c : Nat) (m : List F) (f : resampler_basic_func)
    (hmem : st.mem = some m) (hptr : st.resampler_ptr = some f)
    (hden : 1 ≤ st.den_rate) (hch1 : ch < st.last_sample.length)
    (hn31 : n < 2147483648) (hc0 : int_len c = 0) :
    speex_resampler_process_native ops st ch n out opos c
      = some
        { st :=
            { st with
              started := 1,
              last_sample := st.last_sample.set ch
                (st.last_sample.getD ch 0 - min n (st.last_sample.getD ch 0)),
              samp_frac_num := st.samp_frac_num.set ch (st.samp_frac_num.getD ch 0),
              mem := some (shift_history ops (ch * st.mem_alloc_size) st.filt_len
                (min n (st.last_sample.getD ch 0)) m) },
          in_len := min n (st.last_sample.getD ch 0),
          out := out,
          out_len := 0,
          status := RESAMPLER_ERR_SUCCESS } := by
  rw [process_native_mem ops st ch n out opos c m f hmem hptr hden hch1 hn31, hc0]
  rfl

/-- One call of `speex_resampler_process_native` on a cursor at or past the
input length: the kernel stores nothing, whatever the capacity, and the `n`
samples are consumed. -/
theorem process_native_exhausted {F D : Type} (ops : FloatOps F D) (st : SpeexResamplerState F)
    (ch n : Nat) (out : List F) (opos c : Nat) (m : List F) (f : resampler_basic_func)
    (hmem : st.mem = some m) (hptr : st.resampler_ptr = some f)
    (hden : 1 ≤ st.den_rate) (hch1 : ch < st.last_sample.length)
    (hn31 : n < 2147483648) (hL : n ≤ st.last_sample.getD ch 0) :
    speex_resampler_process_native ops st ch n out opos c
      = some
        { st :=
            { st with
              started := 1,
              last_sample := st.last_sample.set ch (st.last_sample.getD ch 0 - n),
              samp_frac_num := st.samp_frac_num.set ch (st.samp_frac_num.getD ch 0),
              mem := some (shift_history ops (ch * st.mem_alloc_size) st.filt_len n m) },
          in_len := n,
          out := out,
          out_len := 0,
          status := RESAMPLER_ERR_SUCCESS } := by
  have e : mem_orbit ops f st ch m n (int_len c)
      = ([], st.last_sample.getD ch 0, st.samp_frac_num.getD ch 0) := by
    unfold mem_orbit
    exact orbit_nil_of_ge _ _ _ _ _ _ _ _ hL
  rw [process_native_mem ops st ch n out opos c m f hmem hptr hden hch1 hn31, e]
  simp only [Nat.min_eq_left hL]
  rfl

/-- The chunk loop of `speex_resampler_process_float` entered with a cursor at
or past the input length: every iteration consumes its chunk and writes
nothing, whatever the capacity, and the loop returns with the input consumed,
in a state that does not depend on the output buffer or the capacity. -/
theorem process_float_loop_exhausted {F D : Type} (ops : FloatOps F D)
    (ch base filt_offs xlen istride : Nat) (hx : 1 ≤ xlen) :
    ∀ (k ilen : Nat), ilen ≤ k → ∀ (st : SpeexResamplerState F) (inp : Option (List F)),
      (ilen < 2147483648 ∨ xlen < 2147483648) → (∃ m, st.mem = some m) →
      (∃ f, st.resampler_ptr = some f) →
      1 ≤ st.den_rate → ch < st.last_sample.length → ilen ≤ st.last_sample.getD ch 0 →
      ∃ st' : SpeexResamplerState F, st'.magic_samples = st.magic_samples ∧
        ∀ (fuel : Nat) (out : List F) (opos olen : Nat), ilen < fuel → olen ≠ 0 →
          process_float_loop ops ch base filt_offs xlen istride fuel st inp ilen out opos olen
            = some (st', 0, out, olen) := by
  intro k
  induction k with
  | zero =>
    intro ilen hk st inp _ _ _ _ _ _
    have h0 : ilen = 0 := by omega
    subst h0
    refine ⟨st, rfl, ?_⟩
    intro fuel out opos olen hf _
    obtain ⟨fuel, rfl⟩ : ∃ g, fuel = g + 1 := ⟨fuel - 1, by omega⟩
    exact process_float_loop_stop ops ch base filt_offs xlen istride fuel st inp 0 out opos olen
      (Or.inl rfl)
  | succ k ih =>
    intro ilen hk st inp hi31 hmem hptr hden hlen hL
    by_cases h0 : ilen = 0
    · subst h0
      refine ⟨st, rfl, ?_⟩
      intro fuel out opos olen hf _
      obtain ⟨fuel, rfl⟩ : ∃ g, fuel = g + 1 := ⟨fuel - 1, by omega⟩
      exact process_float_loop_stop ops ch base filt_offs xlen istride fuel st inp 0 out opos
        olen (Or.inl rfl)
    · obtain ⟨mem, hm⟩ := hmem
      obtain ⟨f, hf⟩ := hptr
      have hk1 : 1 ≤ (if ilen > xlen then xlen else ilen) := by split_ifs <;> omega
      have hk2 : (if ilen > xlen then xlen else ilen) ≤ ilen := by split_ifs <;> omega
      have hk3 : (if ilen > xlen then xlen else ilen) ≤ xlen := by split_ifs <;> omega
      have hnat := fun (out : List F) (opos olen : Nat) => process_native_exhausted ops
        { st with mem := some (copy_input ops base filt_offs istride
            (if ilen > xlen then xlen else ilen) inp mem) }
        ch (if ilen > xlen then xlen else ilen) out opos olen _ f rfl hf hden hlen
        (by omega) (Nat.le_trans hk2 hL)
      obtain ⟨st', hmag, hst'⟩ := ih (ilen - (if ilen > xlen then xlen else ilen)) (by omega)
        { st with
          started := 1,
          last_sample := st.last_sample.set ch
            (st.last_sample.getD ch 0 - (if ilen > xlen then xlen else ilen)),
          samp_frac_num := st.samp_frac_num.set ch (st.samp_frac_num.getD ch 0),
          mem := some (shift_history ops (ch * st.mem_alloc_size) st.filt_len
            (if ilen > xlen then xlen else ilen)
            (copy_input ops base filt_offs istride
              (if ilen > xlen then xlen else ilen) inp mem)) }
        (inp.map (List.drop ((if ilen > xlen then xlen else ilen) * istride)))
        (by omega) ⟨_, rfl⟩ ⟨f, hf⟩ hden (by simp only [List.length_set]; exact hlen)
        (by
          show _ ≤ (st.last_sample.set ch _).getD ch 0
          rw [getD_set_self _ _ _ _ hlen]
          omega)
      refine ⟨st', hmag, ?_⟩
      intro fuel out opos olen hfu ho
      obtain ⟨fuel, rfl⟩ : ∃ g, fuel = g + 1 := ⟨fuel - 1, by omega⟩
      rw [process_float_loop_step ops ch base filt_offs xlen istride fuel st inp ilen out opos
        olen mem _ h0 ho hm (hnat out opos olen)]
      have e := hst' fuel out (opos + 0 * st.out_stride) (olen - 0) (by omega) (by omega)
      rw [Nat.sub_zero] at e
      exact e

/-- A call of `speex_resampler_process_float` on a ready channel whose cursor
is at or past the input length: the input is consumed and nothing is written,
whatever the capacity (not zero), and the engine left does not depend on the
output buffer or the capacity. -/
theorem process_float_exhausted {F D : Type} (ops : FloatOps F D) (st : SpeexResamplerState F)
    (ch : Nat) (inp : Option (List F)) (n : Nat)
    (hr : channel_ready st ch)
    (hn31 : n < 2147483648 ∨ st.mem_alloc_size - (st.filt_len - 1) < 2147483648)
    (hL : n ≤ st.last_sample.getD ch 0) :
    ∃ st' : SpeexResamplerState F, st'.magic_samples = st.magic_samples ∧
      ∀ (out : List F) (opos c : Nat), c ≠ 0 →
        speex_resampler_process_float ops st ch inp n out opos c
          = some { st := st', in_len := n, out := out, out_len := 0,
                   status := RESAMPLER_ERR_SUCCESS } := by
  have hroom := hr.room
  have hfp := hr.filt_pos
  obtain ⟨m, hm, _⟩ := hr.mem_some
  obtain ⟨st', hmag, hst'⟩ := process_float_loop_exhausted ops ch (ch * st.mem_alloc_size)
    (st.filt_len - 1) (st.mem_alloc_size - (st.filt_len - 1)) st.in_stride (by omega) n n
    (Nat.le_refl _) st inp hn31 ⟨m, hm⟩ hr.ptr_some hr.den_pos hr.cursor hL
  refine ⟨st', hmag, ?_⟩
  intro out opos c hc
  unfold speex_resampler_process_float
  simp only [hr.magic, ne_eq, not_true_eq_false, if_false, if_true,
    hst' (n + c + 1) out opos c (by omega) hc, Nat.sub_zero, Nat.sub_self]

/-- The chunk loop of `speex_resampler_process_float` entered with more input
than the cursor covers and a capacity that is not positive as an `int`: every
iteration consumes what the cursor covers and writes nothing, and once the
cursor is 0 the iterations leave `ilen` and `olen` as they were; the loop
returns for no bound on the number of its iterations. -/
theorem process_float_loop_starved {F D : Type} (ops : FloatOps F D)
    (ch base filt_offs xlen istride olen : Nat) (ho : int_len olen = 0) (ho0 : olen ≠ 0) :
    ∀ (fuel : Nat) (st : SpeexResamplerState F) (inp : Option (List F)) (ilen : Nat)
      (out : List F) (opos : Nat),
      (ilen < 2147483648 ∨ xlen < 2147483648) → (∃ f, st.resampler_ptr = some f) →
      1 ≤ st.den_rate → ch < st.last_sample.length → st.last_sample.getD ch 0 < ilen →
      process_float_loop ops ch base filt_offs xlen istride fuel st inp ilen out opos olen
        = none := by
  intro fuel
  induction fuel with
  | zero => intro st inp ilen out opos _ _ _ _ _; rfl
  | succ fuel ih =>
    intro st inp ilen out opos hi31 hptr hden hlen hL
    have hi : ilen ≠ 0 := by omega
    obtain ⟨f, hf⟩ := hptr
    cases hm : st.mem with
    | none =>
      rw [process_float_loop, if_pos ⟨hi, ho0⟩]
      simp only [hm]
    | some mem =>
      have hk31 : (if ilen > xlen then xlen else ilen) < 2147483648 := by
        split_ifs <;> omega
      have hnat := process_native_no_room ops
        { st with mem := some (copy_input ops base filt_offs istride
            (if ilen > xlen then xlen else ilen) inp mem) }
        ch (if ilen > xlen then xlen else ilen) out opos olen _ f rfl hf hden hlen hk31 ho
      rw [process_float_loop_step ops ch base filt_offs xlen istride fuel st inp ilen out opos
        olen mem _ hi ho0 hm hnat]
      simp only []
      have hmin : min (if ilen > xlen then xlen else ilen) (st.last_sample.getD ch 0)
          ≤ st.last_sample.getD ch 0 := Nat.min_le_right _ _
      exact ih _ _ _ _ _ (by omega) ⟨f, hf⟩ hden (by simp only [List.length_set]; exact hlen)
        (by
          show (st.last_sample.set ch (st.last_sample.getD ch 0
            - min (if ilen > xlen then xlen else ilen) (st.last_sample.getD ch 0))).getD ch 0
            < ilen - min (if ilen > xlen then xlen else ilen) (st.last_sample.getD ch 0)
          rw [getD_set_self _ _ _ _ hlen]
          omega)

/-- A call of `speex_resampler_process_float` on a ready channel, with more
input than the cursor covers and a capacity of `2^31` or more (not positive as
an `int`), does not return: its chunk loop never ends. -/
theorem process_float_starved {F D : Type} (ops : FloatOps F D) (st : SpeexResamplerState F)
    (ch : Nat) (inp : Option (List F)) (n : Nat) (out : List F) (opos c : Nat)
    (hr : channel_ready st ch) (hL : st.last_sample.getD ch 0 < n)
    (hn31 : n < 2147483648 ∨ st.mem_alloc_size - (st.filt_len - 1) < 2147483648)
    (hc : int_len c = 0) (hc0 : c ≠ 0) :
    (∀ fuel, process_float_loop ops ch (ch * st.mem_alloc_size) (st.filt_len - 1)
      (st.mem_alloc_size - (st.filt_len - 1)) st.in_stride fuel st inp n out opos c = none) ∧
    speex_resampler_process_float ops st ch inp n out opos c = none := by
  have key := fun fuel => process_float_loop_starved ops ch (ch * st.mem_alloc_size)
    (st.filt_len - 1) (st.mem_alloc_size - (st.filt_len - 1)) st.in_stride c hc hc0 fuel st inp
    n out opos hn31 hr.ptr_some hr.den_pos hr.cursor hL
  refine ⟨key, ?_⟩
  unfold speex_resampler_process_float
  simp only [hr.magic, ne_eq, not_true_eq_false, if_false, if_true, key]

/-! ## Resubmitting after a short write -/

/-- C4.  Short write and resubmission, for a ready channel (no magic samples
pending) of an engine whose advances are those of its ratio and whose phase is
below `den_rate`, an input of `n` samples, of any length when the chunk size
`mem_alloc_size - (filt_len - 1)` is below `2^31` and below `2^31` otherwise,
and any capacity `c` (a 32-bit value).  With `c` below `2^31` the first call
returns.  Whenever
the first call returns, also with a capacity of `2^31` or more, it consumes
`k1 ≤ n` samples and writes `ys1`; a second call on the unconsumed remainder
(the input pointer advanced by `k1` strides, length `n - k1`) with a capacity
above `ceil ((n - k1) * den_rate / num_rate)` and below `2^31` consumes the
whole remainder and writes `ys2`; a single call on the `n` samples with a
capacity above `ceil (n * den_rate / num_rate)` and below `2^31` consumes them
all and writes `ys1 ++ ys2`, and ends with the same cursor, phase and
history. -/
theorem short_write_resubmit {F D : Type} (ops : FloatOps F D) (st : SpeexResamplerState F)
    (ch : Nat) (inp : Option (List F)) (n c : Nat)
    (hr : channel_ready st ch) (ha : advances_valid st)
    (hph : st.samp_frac_num.getD ch 0 < st.den_rate)
    (hn31 : n < 2147483648 ∨ st.mem_alloc_size - (st.filt_len - 1) < 2147483648)
    (hc32 : c < U32) :
    (c < 2147483648 → ∀ (out : List F) (opos : Nat),
      ∃ r, speex_resampler_process_float ops st ch inp n out opos c = some r) ∧
    ((∃ (out : List F) (opos : Nat) (r : Processed F),
        speex_resampler_process_float ops st ch inp n out opos c = some r) →
      ∃ (k1 : Nat) (ys1 : List F) (st1 : SpeexResamplerState F),
        (∀ (out : List F) (opos : Nat),
          speex_resampler_process_float ops st ch inp n out opos c
            = some { st := st1, in_len := k1, out := scatter out opos st.out_stride ys1,
                     out_len := ys1.length, status := RESAMPLER_ERR_SUCCESS }) ∧
        k1 ≤ n ∧ ys1.length ≤ c ∧
        ∀ (c2 c' : Nat),
          ((n - k1) * st.den_rate + st.num_rate - 1) / st.num_rate < c2 →
          (n * st.den_rate + st.num_rate - 1) / st.num_rate < c' →
          c2 < 2147483648 → c' < 2147483648 →
          ∃ (ys2 : List F) (st2 st' : SpeexResamplerState F),
            (∀ (out : List F) (opos : Nat),
              speex_resampler_process_float ops st1 ch
                  (inp.map (List.drop (k1 * st.in_stride))) (n - k1) out opos c2
                = some { st := st2, in_len := n - k1,
                         out := scatter out opos st.out_stride ys2,
                         out_len := ys2.length, status := RESAMPLER_ERR_SUCCESS }) ∧
            (∀ (out : List F) (opos : Nat),
              speex_resampler_process_float ops st ch inp n out opos c'
                = some { st := st', in_len := n,
                         out := scatter out opos st.out_stride (ys1 ++ ys2),
                         out_len := (ys1 ++ ys2).length, status := RESAMPLER_ERR_SUCCESS }) ∧
            st2.last_sample.getD ch 0 = st'.last_sample.getD ch 0 ∧
            st2.samp_frac_num.getD ch 0 = st'.samp_frac_num.getD ch 0 ∧
            history ops st2 ch = history ops st' ch) := by
  refine ⟨?_, ?_⟩
  · intro hc31 out opos
    obtain ⟨k1, ys1, st1, he1, _⟩ := resubmit_in_range ops st ch inp n c hr ha hph hn31 hc31
    exact ⟨_, he1 out opos⟩
  · intro hret
    by_cases hc31 : c < 2147483648
    · exact resubmit_in_range ops st ch inp n c hr ha hph hn31 hc31
    · have hc0 : int_len c = 0 := int_len_negative c (by omega) hc32
      have hcne : c ≠ 0 := by omega
      obtain ⟨out0, opos0, r0, hr0⟩ := hret
      have hL : n ≤ st.last_sample.getD ch 0 := by
        by_contra hlt
        rw [(process_float_starved ops st ch inp n out0 opos0 c hr (by omega) hn31 hc0 hcne).2]
          at hr0
        exact Option.noConfusion hr0
      obtain ⟨st1, hmag, hst1⟩ := process_float_exhausted ops st ch inp n hr hn31 hL
      refine ⟨n, [], st1, fun out opos => hst1 out opos c hcne, Nat.le_refl _, Nat.zero_le _, ?_⟩
      intro c2 c' _ hc' _ _
      refine ⟨[], st1, st1, ?_, fun out opos => hst1 out opos c' (Nat.not_eq_zero_of_lt hc'), rfl, rfl, rfl⟩
      intro out opos
      rw [Nat.sub_self]
      exact process_float_idle ops st1 ch _ 0 out opos c2 (by rw [hmag]; exact hr.magic)
        (Or.inl rfl)

/-- C4, witness: the mono engine for 48000 to 44100 at quality 5, fed the samples
`0, 1, ..., 99` with room for 10 outputs, then resubmitted. -/
theorem short_write_resubmit_witness :
    ∃ st : SpeexResamplerState Int,
      speex_resampler_init intOps 1 48000 44100 5 = some (some st, RESAMPLER_ERR_SUCCESS) ∧
      channel_ready st 0 ∧ advances_valid st ∧ st.samp_frac_num.getD 0 0 < st.den_rate ∧
      100 < 2147483648 ∧ 10 < U32 ∧ 10 < 2147483648 ∧
      ∃ (k1 : Nat) (ys1 : List Int) (st1 : SpeexResamplerState Int),
        (∀ (out : List Int) (opos : Nat),
          speex_resampler_process_float intOps st 0
              (some ((List.range 100).map Int.ofNat)) 100 out opos 10
            = some { st := st1, in_len := k1, out := scatter out opos st.out_stride ys1,
                     out_len := ys1.length, status := RESAMPLER_ERR_SUCCESS }) ∧
        k1 ≤ 100 ∧ ys1.length ≤ 10 ∧
        ∀ (c2 c' : Nat),
          ((100 - k1) * st.den_rate + st.num_rate - 1) / st.num_rate < c2 →
          (100 * st.den_rate + st.num_rate - 1) / st.num_rate < c' →
          c2 < 2147483648 → c' < 2147483648 →
          ∃ (ys2 : List Int) (st2 st' : SpeexResamplerState Int),
            (∀ (out : List Int) (opos : Nat),
              speex_resampler_process_float intOps st1 0
                  ((some ((List.range 100).map Int.ofNat)).map
                    (List.drop (k1 * st.in_stride))) (100 - k1) out opos c2
                = some { st := st2, in_len := 100 - k1,
                         out := scatter out opos st.out_stride ys2,
                         out_len := ys2.length, status := RESAMPLER_ERR_SUCCESS }) ∧
            (∀ (out : List Int) (opos : Nat),
              speex_resampler_process_float intOps st 0
                  (some ((List.range 100).map Int.ofNat)) 100 out opos c'
                = some { st := st', in_len := 100,
                         out := scatter out opos st.out_stride (ys1 ++ ys2),
                         out_len := (ys1 ++ ys2).length, status := RESAMPLER_ERR_SUCCESS }) ∧
            st2.last_sample.getD 0 0 = st'.last_sample.getD 0 0 ∧
            st2.samp_frac_num.getD 0 0 = st'.samp_frac_num.getD 0 0 ∧
            history intOps st2 0 = history intOps st' 0 := by
  obtain ⟨st, n, d, he, _, _, _, hadv, _, _, _, _, hsf, _, hrdy⟩ :=
    init_frac_ready intOps 1 48000 44100 48000 44100 5 (by decide) (by decide) (by decide)
      (by decide) (by decide) (by decide)
  have hr : channel_ready st 0 := hrdy 0 (by decide)
  have hph : st.samp_frac_num.getD 0 0 < st.den_rate := by
    rw [hsf]
    exact hr.den_pos
  have h := short_write_resubmit intOps st 0 (some ((List.range 100).map Int.ofNat)) 100 10
    hr hadv hph (Or.inl (by decide)) (by decide)
  obtain ⟨r, hret⟩ := h.1 (by decide) [] 0
  exact ⟨st, he, hr, hadv, hph, by decide, by decide, by decide, h.2 ⟨[], 0, r, hret⟩⟩

/-! ## The claims that fail for a capacity outside the range of `int` -/

/-- C12, the claim fails for a capacity of `2^31` or more.  On channel 1 of the
engine `speex_resampler_init (2, 48000, 44100, 5)`, a call with the 3 input
samples `7, 8, 9` and the capacity `4294967295` (the largest `unsigned int`)
hands back no counts and no status: it does not return, for every bound on the
number of iterations of its chunk loop. -/
theorem process_float_large_capacity :
    ∃ st : SpeexResamplerState Int,
      speex_resampler_init intOps 2 48000 44100 5 = some (some st, RESAMPLER_ERR_SUCCESS) ∧
      channel_ready st 1 ∧
      (∀ fuel, process_float_loop intOps 1 (1 * st.mem_alloc_size) (st.filt_len - 1)
        (st.mem_alloc_size - (st.filt_len - 1)) st.in_stride fuel st (some [7, 8, 9]) 3
        (List.replicate 4294967295 0) 0 4294967295 = none) ∧
      speex_resampler_process_float intOps st 1 (some [7, 8, 9]) 3
        (List.replicate 4294967295 0) 0 4294967295 = none := by
  obtain ⟨st, n, d, he, _, _, _, _, _, _, _, hl, _, _, hready⟩ :=
    init_frac_ready intOps 2 48000 44100 48000 44100 5 (by decide) (by decide)
      (by decide) (by decide) (by decide) (by decide)
  obtain ⟨k1, k2⟩ := process_float_starved intOps st 1 (some [7, 8, 9]) 3
    (List.replicate 4294967295 0) 0 4294967295
    (hready 1 (by decide)) (by rw [hl]; decide) (Or.inl (by decide))
    (int_len_negative _ (by decide) (by decide)) (by decide)
  exact ⟨st, he, hready 1 (by decide), k1, k2⟩

/-- C25, the claim fails for a capacity of `2^31` or more.  On the engine
`speex_resampler_init (1, 44100, 44100, 0)`, with the one input sample `7` and
the capacity `2^31 = 2147483648`: a call of `speex_resampler_process_native`
hands back 0 samples consumed and 0 written, so an iteration of the chunk loop
makes no progress, the loop returns for no bound on the number of its
iterations, and `speex_resampler_process_float` does not return. -/
theorem chunk_loop_no_progress :
    ∃ (st : SpeexResamplerState Int) (r : Processed Int),
      speex_resampler_init intOps 1 44100 44100 0 = some (some st, RESAMPLER_ERR_SUCCESS) ∧
      channel_ready st 0 ∧
      speex_resampler_process_native intOps st 0 1 (List.replicate 2147483648 0) 0 2147483648
        = some r ∧
      r.in_len = 0 ∧ r.out_len = 0 ∧ r.st.last_sample.getD 0 0 = 0 ∧
      (∀ fuel, process_float_loop intOps 0 (0 * st.mem_alloc_size) (st.filt_len - 1)
        (st.mem_alloc_size - (st.filt_len - 1)) st.in_stride fuel st (some [7]) 1
        (List.replicate 2147483648 0) 0 2147483648 = none) ∧
      speex_resampler_process_float intOps st 0 (some [7]) 1
        (List.replicate 2147483648 0) 0 2147483648 = none := by
  obtain ⟨st, n, d, he, _, _, _, _, _, _, _, hl, _, _, hready⟩ :=
    init_frac_ready intOps 1 44100 44100 44100 44100 0 (by decide) (by decide)
      (by decide) (by decide) (by decide) (by decide)
  have hr := hready 0 (by decide)
  have hL : st.last_sample.getD 0 0 = 0 := by rw [hl]; rfl
  obtain ⟨m, hm, _⟩ := hr.mem_some
  obtain ⟨f, hf⟩ := hr.ptr_some
  have hnat := process_native_no_room intOps st 0 1 (List.replicate 2147483648 0) 0
    2147483648 m f hm hf hr.den_pos hr.cursor (by decide)
    (int_len_negative _ (by decide) (by decide))
  obtain ⟨k1, k2⟩ := process_float_starved intOps st 0 (some [7]) 1
    (List.replicate 2147483648 0) 0 2147483648 hr (by rw [hL]; decide)
    (Or.inl (by decide)) (int_len_negative _ (by decide) (by decide)) (by decide)
  refine ⟨st, _, he, hr, hnat, ?_, rfl, ?_, k1, k2⟩
  · show min 1 (st.last_sample.getD 0 0) = 0
    rw [hL]; rfl
  · show (st.last_sample.set 0 (st.last_sample.getD 0 0 - min 1 (st.last_sample.getD 0 0))).getD
      0 0 = 0
    rw [getD_set_self _ _ _ _ hr.cursor, hL]
    rfl

end Speex
